import Mathlib

/-!
# AWS X-Ray exporter: translating a span into a segment

A shallow embedding of `exporter/awsxrayexporter/internal/translator`
(`segment.go`, `http.go`) together with the properties of the translation.

Conventions of the embedding:

* a Go `string` is its sequence of bytes (`GoString`); `len` is the number of
  bytes and `s[i:j]` slices bytes, exactly as in Go;
* a rune is a natural number (a Unicode code point);
* `int64` values are integers, with an explicit wrap-around where the source
  subtracts;
* `time.Now().Unix()` is an explicit argument `epochNow`;
* a Go `map` is an association list with pairwise distinct keys; ranging over
  the map follows the order of the list;
* a pointer that may be `nil` is an `Option`.
-/

namespace XRay

/-! ## Bytes and strings -/

/-- A byte. -/
abbrev Byte := Fin 256

/-- A Go string: an immutable sequence of bytes. -/
abbrev GoString := List Byte

/-- Go `utf8.EncodeRune`: the UTF-8 encoding of a code point, as the compiler
applies it to the characters of a string literal. -/
def utf8EncodeRune (r : Nat) : List Byte :=
  if r < 0x80 then [Fin.ofNat r]
  else if r < 0x800 then [Fin.ofNat (0xC0 + r / 64), Fin.ofNat (0x80 + r % 64)]
  else if r < 0x10000 then
    [Fin.ofNat (0xE0 + r / 4096), Fin.ofNat (0x80 + r / 64 % 64), Fin.ofNat (0x80 + r % 64)]
  else
    [Fin.ofNat (0xF0 + r / 262144), Fin.ofNat (0x80 + r / 4096 % 64),
     Fin.ofNat (0x80 + r / 64 % 64), Fin.ofNat (0x80 + r % 64)]

/-- A Go string literal: the UTF-8 bytes of its characters. -/
def str (s : String) : GoString :=
  s.data.flatMap (fun c => utf8EncodeRune c.toNat)

/-- Go `utf8.RuneError`, the replacement character U+FFFD. -/
def RuneError : Nat := 0xFFFD

/-- A UTF-8 continuation byte lies between `locb` = 0x80 and `hicb` = 0xBF. -/
def isCont (b : Byte) : Bool := decide (0x80 ≤ b.val) && decide (b.val ≤ 0xBF)

/-- The two-byte case of `utf8.DecodeRuneInString`: `rest` follows the first
byte `s0`; the second byte must be a continuation byte. -/
def decodeTwo (s0 : Byte) : List Byte → Nat × Nat
  | s1 :: _ => if isCont s1 then ((s0.val % 32) * 64 + s1.val % 64, 2) else (RuneError, 1)
  | [] => (RuneError, 1)

/-- The lower end of the accept range (`acceptRanges`) for the byte after the
first byte `s0`: 0xA0 after 0xE0, 0x90 after 0xF0, else 0x80. -/
def acceptLo (s0 : Byte) : Nat :=
  if s0.val = 0xE0 then 0xA0 else if s0.val = 0xF0 then 0x90 else 0x80

/-- The upper end of the accept range (`acceptRanges`) for the byte after the
first byte `s0`: 0x9F after 0xED, 0x8F after 0xF4, else 0xBF. -/
def acceptHi (s0 : Byte) : Nat :=
  if s0.val = 0xED then 0x9F else if s0.val = 0xF4 then 0x8F else 0xBF

/-- The three-byte case of `utf8.DecodeRuneInString`: the second byte must lie
in the accept range of the first byte, the third is a continuation byte. -/
def decodeThree (s0 : Byte) : List Byte → Nat × Nat
  | s1 :: s2 :: _ =>
    if s1.val < acceptLo s0 ∨ acceptHi s0 < s1.val then (RuneError, 1)
    else if !isCont s2 then (RuneError, 1)
    else ((s0.val % 16) * 4096 + (s1.val % 64) * 64 + s2.val % 64, 3)
  | _ => (RuneError, 1)

/-- The four-byte case of `utf8.DecodeRuneInString`: the second byte must lie
in the accept range of the first byte, the third and fourth are continuation
bytes. -/
def decodeFour (s0 : Byte) : List Byte → Nat × Nat
  | s1 :: s2 :: s3 :: _ =>
    if s1.val < acceptLo s0 ∨ acceptHi s0 < s1.val then (RuneError, 1)
    else if !isCont s2 then (RuneError, 1)
    else if !isCont s3 then (RuneError, 1)
    else ((s0.val % 8) * 262144 + (s1.val % 64) * 4096 + (s2.val % 64) * 64 + s3.val % 64, 4)
  | _ => (RuneError, 1)

/-- Go `utf8.DecodeRuneInString`: the first rune of `s` and its width in bytes.
The empty string gives `(RuneError, 0)`; a byte that starts no valid encoding
gives `(RuneError, 1)`. The cases follow the table `first` and the
`acceptRanges` of package `unicode/utf8`: 0x00-0x7F is ASCII, 0xC2-0xDF starts
two bytes, 0xE0-0xEF three (second byte from 0xA0 after 0xE0, up to 0x9F after
0xED), 0xF0-0xF4 four (second byte from 0x90 after 0xF0, up to 0x8F after
0xF4), every other first byte is invalid. -/
def DecodeRuneInString (s : List Byte) : Nat × Nat :=
  match s with
  | [] => (RuneError, 0)
  | s0 :: rest =>
    if s0.val < 0x80 then (s0.val, 1)
    else if s0.val < 0xC2 then (RuneError, 1)
    else if s0.val < 0xE0 then decodeTwo s0 rest
    else if s0.val < 0xF0 then decodeThree s0 rest
    else if s0.val < 0xF5 then decodeFour s0 rest
    else (RuneError, 1)

/-- The runes of a string in order, each with the bytes it was decoded from,
as a `for range` loop or the regexp engine steps through the string. The first
argument counts the bytes still to skip of the rune decoded last. -/
def runesFrom : Nat → List Byte → List (Nat × List Byte)
  | _, [] => []
  | skip + 1, _ :: rest => runesFrom skip rest
  | 0, b :: rest =>
    let d := DecodeRuneInString (b :: rest)
    (d.1, (b :: rest).take d.2) :: runesFrom (d.2 - 1) rest

/-- The runes of a string with their source bytes. -/
def runes (s : GoString) : List (Nat × List Byte) := runesFrom 0 s

/-! ## Unicode letters -/

/-- The range table of the Unicode general category L (Lu, Ll, Lt, Lm, Lo),
Go's `unicode.L`, which the regexp class `\p{L}` stands for: inclusive ranges
of code points, ascending (Unicode 13.0.0). -/
def unicodeL : List (Nat × Nat) :=
  [(0x41, 0x5A), (0x61, 0x7A), (0xAA, 0xAA), (0xB5, 0xB5), (0xBA, 0xBA), (0xC0, 0xD6),
   (0xD8, 0xF6), (0xF8, 0x2C1), (0x2C6, 0x2D1), (0x2E0, 0x2E4), (0x2EC, 0x2EC), (0x2EE, 0x2EE),
   (0x370, 0x374), (0x376, 0x377), (0x37A, 0x37D), (0x37F, 0x37F), (0x386, 0x386),
   (0x388, 0x38A), (0x38C, 0x38C), (0x38E, 0x3A1), (0x3A3, 0x3F5), (0x3F7, 0x481),
   (0x48A, 0x52F), (0x531, 0x556), (0x559, 0x559), (0x560, 0x588), (0x5D0, 0x5EA),
   (0x5EF, 0x5F2), (0x620, 0x64A), (0x66E, 0x66F), (0x671, 0x6D3), (0x6D5, 0x6D5),
   (0x6E5, 0x6E6), (0x6EE, 0x6EF), (0x6FA, 0x6FC), (0x6FF, 0x6FF), (0x710, 0x710),
   (0x712, 0x72F), (0x74D, 0x7A5), (0x7B1, 0x7B1), (0x7CA, 0x7EA), (0x7F4, 0x7F5),
   (0x7FA, 0x7FA), (0x800, 0x815), (0x81A, 0x81A), (0x824, 0x824), (0x828, 0x828),
   (0x840, 0x858), (0x860, 0x86A), (0x8A0, 0x8B4), (0x8B6, 0x8C7), (0x904, 0x939),
   (0x93D, 0x93D), (0x950, 0x950), (0x958, 0x961), (0x971, 0x980), (0x985, 0x98C),
   (0x98F, 0x990), (0x993, 0x9A8), (0x9AA, 0x9B0), (0x9B2, 0x9B2), (0x9B6, 0x9B9),
   (0x9BD, 0x9BD), (0x9CE, 0x9CE), (0x9DC, 0x9DD), (0x9DF, 0x9E1), (0x9F0, 0x9F1),
   (0x9FC, 0x9FC), (0xA05, 0xA0A), (0xA0F, 0xA10), (0xA13, 0xA28), (0xA2A, 0xA30),
   (0xA32, 0xA33), (0xA35, 0xA36), (0xA38, 0xA39), (0xA59, 0xA5C), (0xA5E, 0xA5E),
   (0xA72, 0xA74), (0xA85, 0xA8D), (0xA8F, 0xA91), (0xA93, 0xAA8), (0xAAA, 0xAB0),
   (0xAB2, 0xAB3), (0xAB5, 0xAB9), (0xABD, 0xABD), (0xAD0, 0xAD0), (0xAE0, 0xAE1),
   (0xAF9, 0xAF9), (0xB05, 0xB0C), (0xB0F, 0xB10), (0xB13, 0xB28), (0xB2A, 0xB30),
   (0xB32, 0xB33), (0xB35, 0xB39), (0xB3D, 0xB3D), (0xB5C, 0xB5D), (0xB5F, 0xB61),
   (0xB71, 0xB71), (0xB83, 0xB83), (0xB85, 0xB8A), (0xB8E, 0xB90), (0xB92, 0xB95),
   (0xB99, 0xB9A), (0xB9C, 0xB9C), (0xB9E, 0xB9F), (0xBA3, 0xBA4), (0xBA8, 0xBAA),
   (0xBAE, 0xBB9), (0xBD0, 0xBD0), (0xC05, 0xC0C), (0xC0E, 0xC10), (0xC12, 0xC28),
   (0xC2A, 0xC39), (0xC3D, 0xC3D), (0xC58, 0xC5A), (0xC60, 0xC61), (0xC80, 0xC80),
   (0xC85, 0xC8C), (0xC8E, 0xC90), (0xC92, 0xCA8), (0xCAA, 0xCB3), (0xCB5, 0xCB9),
   (0xCBD, 0xCBD), (0xCDE, 0xCDE), (0xCE0, 0xCE1), (0xCF1, 0xCF2), (0xD04, 0xD0C),
   (0xD0E, 0xD10), (0xD12, 0xD3A), (0xD3D, 0xD3D), (0xD4E, 0xD4E), (0xD54, 0xD56),
   (0xD5F, 0xD61), (0xD7A, 0xD7F), (0xD85, 0xD96), (0xD9A, 0xDB1), (0xDB3, 0xDBB),
   (0xDBD, 0xDBD), (0xDC0, 0xDC6), (0xE01, 0xE30), (0xE32, 0xE33), (0xE40, 0xE46),
   (0xE81, 0xE82), (0xE84, 0xE84), (0xE86, 0xE8A), (0xE8C, 0xEA3), (0xEA5, 0xEA5),
   (0xEA7, 0xEB0), (0xEB2, 0xEB3), (0xEBD, 0xEBD), (0xEC0, 0xEC4), (0xEC6, 0xEC6),
   (0xEDC, 0xEDF), (0xF00, 0xF00), (0xF40, 0xF47), (0xF49, 0xF6C), (0xF88, 0xF8C),
   (0x1000, 0x102A), (0x103F, 0x103F), (0x1050, 0x1055), (0x105A, 0x105D), (0x1061, 0x1061),
   (0x1065, 0x1066), (0x106E, 0x1070), (0x1075, 0x1081), (0x108E, 0x108E), (0x10A0, 0x10C5),
   (0x10C7, 0x10C7), (0x10CD, 0x10CD), (0x10D0, 0x10FA), (0x10FC, 0x1248), (0x124A, 0x124D),
   (0x1250, 0x1256), (0x1258, 0x1258), (0x125A, 0x125D), (0x1260, 0x1288), (0x128A, 0x128D),
   (0x1290, 0x12B0), (0x12B2, 0x12B5), (0x12B8, 0x12BE), (0x12C0, 0x12C0), (0x12C2, 0x12C5),
   (0x12C8, 0x12D6), (0x12D8, 0x1310), (0x1312, 0x1315), (0x1318, 0x135A), (0x1380, 0x138F),
   (0x13A0, 0x13F5), (0x13F8, 0x13FD), (0x1401, 0x166C), (0x166F, 0x167F), (0x1681, 0x169A),
   (0x16A0, 0x16EA), (0x16F1, 0x16F8), (0x1700, 0x170C), (0x170E, 0x1711), (0x1720, 0x1731),
   (0x1740, 0x1751), (0x1760, 0x176C), (0x176E, 0x1770), (0x1780, 0x17B3), (0x17D7, 0x17D7),
   (0x17DC, 0x17DC), (0x1820, 0x1878), (0x1880, 0x1884), (0x1887, 0x18A8), (0x18AA, 0x18AA),
   (0x18B0, 0x18F5), (0x1900, 0x191E), (0x1950, 0x196D), (0x1970, 0x1974), (0x1980, 0x19AB),
   (0x19B0, 0x19C9), (0x1A00, 0x1A16), (0x1A20, 0x1A54), (0x1AA7, 0x1AA7), (0x1B05, 0x1B33),
   (0x1B45, 0x1B4B), (0x1B83, 0x1BA0), (0x1BAE, 0x1BAF), (0x1BBA, 0x1BE5), (0x1C00, 0x1C23),
   (0x1C4D, 0x1C4F), (0x1C5A, 0x1C7D), (0x1C80, 0x1C88), (0x1C90, 0x1CBA), (0x1CBD, 0x1CBF),
   (0x1CE9, 0x1CEC), (0x1CEE, 0x1CF3), (0x1CF5, 0x1CF6), (0x1CFA, 0x1CFA), (0x1D00, 0x1DBF),
   (0x1E00, 0x1F15), (0x1F18, 0x1F1D), (0x1F20, 0x1F45), (0x1F48, 0x1F4D), (0x1F50, 0x1F57),
   (0x1F59, 0x1F59), (0x1F5B, 0x1F5B), (0x1F5D, 0x1F5D), (0x1F5F, 0x1F7D), (0x1F80, 0x1FB4),
   (0x1FB6, 0x1FBC), (0x1FBE, 0x1FBE), (0x1FC2, 0x1FC4), (0x1FC6, 0x1FCC), (0x1FD0, 0x1FD3),
   (0x1FD6, 0x1FDB), (0x1FE0, 0x1FEC), (0x1FF2, 0x1FF4), (0x1FF6, 0x1FFC), (0x2071, 0x2071),
   (0x207F, 0x207F), (0x2090, 0x209C), (0x2102, 0x2102), (0x2107, 0x2107), (0x210A, 0x2113),
   (0x2115, 0x2115), (0x2119, 0x211D), (0x2124, 0x2124), (0x2126, 0x2126), (0x2128, 0x2128),
   (0x212A, 0x212D), (0x212F, 0x2139), (0x213C, 0x213F), (0x2145, 0x2149), (0x214E, 0x214E),
   (0x2183, 0x2184), (0x2C00, 0x2C2E), (0x2C30, 0x2C5E), (0x2C60, 0x2CE4), (0x2CEB, 0x2CEE),
   (0x2CF2, 0x2CF3), (0x2D00, 0x2D25), (0x2D27, 0x2D27), (0x2D2D, 0x2D2D), (0x2D30, 0x2D67),
   (0x2D6F, 0x2D6F), (0x2D80, 0x2D96), (0x2DA0, 0x2DA6), (0x2DA8, 0x2DAE), (0x2DB0, 0x2DB6),
   (0x2DB8, 0x2DBE), (0x2DC0, 0x2DC6), (0x2DC8, 0x2DCE), (0x2DD0, 0x2DD6), (0x2DD8, 0x2DDE),
   (0x2E2F, 0x2E2F), (0x3005, 0x3006), (0x3031, 0x3035), (0x303B, 0x303C), (0x3041, 0x3096),
   (0x309D, 0x309F), (0x30A1, 0x30FA), (0x30FC, 0x30FF), (0x3105, 0x312F), (0x3131, 0x318E),
   (0x31A0, 0x31BF), (0x31F0, 0x31FF), (0x3400, 0x4DBF), (0x4E00, 0x9FFC), (0xA000, 0xA48C),
   (0xA4D0, 0xA4FD), (0xA500, 0xA60C), (0xA610, 0xA61F), (0xA62A, 0xA62B), (0xA640, 0xA66E),
   (0xA67F, 0xA69D), (0xA6A0, 0xA6E5), (0xA717, 0xA71F), (0xA722, 0xA788), (0xA78B, 0xA7BF),
   (0xA7C2, 0xA7CA), (0xA7F5, 0xA801), (0xA803, 0xA805), (0xA807, 0xA80A), (0xA80C, 0xA822),
   (0xA840, 0xA873), (0xA882, 0xA8B3), (0xA8F2, 0xA8F7), (0xA8FB, 0xA8FB), (0xA8FD, 0xA8FE),
   (0xA90A, 0xA925), (0xA930, 0xA946), (0xA960, 0xA97C), (0xA984, 0xA9B2), (0xA9CF, 0xA9CF),
   (0xA9E0, 0xA9E4), (0xA9E6, 0xA9EF), (0xA9FA, 0xA9FE), (0xAA00, 0xAA28), (0xAA40, 0xAA42),
   (0xAA44, 0xAA4B), (0xAA60, 0xAA76), (0xAA7A, 0xAA7A), (0xAA7E, 0xAAAF), (0xAAB1, 0xAAB1),
   (0xAAB5, 0xAAB6), (0xAAB9, 0xAABD), (0xAAC0, 0xAAC0), (0xAAC2, 0xAAC2), (0xAADB, 0xAADD),
   (0xAAE0, 0xAAEA), (0xAAF2, 0xAAF4), (0xAB01, 0xAB06), (0xAB09, 0xAB0E), (0xAB11, 0xAB16),
   (0xAB20, 0xAB26), (0xAB28, 0xAB2E), (0xAB30, 0xAB5A), (0xAB5C, 0xAB69), (0xAB70, 0xABE2),
   (0xAC00, 0xD7A3), (0xD7B0, 0xD7C6), (0xD7CB, 0xD7FB), (0xF900, 0xFA6D), (0xFA70, 0xFAD9),
   (0xFB00, 0xFB06), (0xFB13, 0xFB17), (0xFB1D, 0xFB1D), (0xFB1F, 0xFB28), (0xFB2A, 0xFB36),
   (0xFB38, 0xFB3C), (0xFB3E, 0xFB3E), (0xFB40, 0xFB41), (0xFB43, 0xFB44), (0xFB46, 0xFBB1),
   (0xFBD3, 0xFD3D), (0xFD50, 0xFD8F), (0xFD92, 0xFDC7), (0xFDF0, 0xFDFB), (0xFE70, 0xFE74),
   (0xFE76, 0xFEFC), (0xFF21, 0xFF3A), (0xFF41, 0xFF5A), (0xFF66, 0xFFBE), (0xFFC2, 0xFFC7),
   (0xFFCA, 0xFFCF), (0xFFD2, 0xFFD7), (0xFFDA, 0xFFDC), (0x10000, 0x1000B), (0x1000D, 0x10026),
   (0x10028, 0x1003A), (0x1003C, 0x1003D), (0x1003F, 0x1004D), (0x10050, 0x1005D),
   (0x10080, 0x100FA), (0x10280, 0x1029C), (0x102A0, 0x102D0), (0x10300, 0x1031F),
   (0x1032D, 0x10340), (0x10342, 0x10349), (0x10350, 0x10375), (0x10380, 0x1039D),
   (0x103A0, 0x103C3), (0x103C8, 0x103CF), (0x10400, 0x1049D), (0x104B0, 0x104D3),
   (0x104D8, 0x104FB), (0x10500, 0x10527), (0x10530, 0x10563), (0x10600, 0x10736),
   (0x10740, 0x10755), (0x10760, 0x10767), (0x10800, 0x10805), (0x10808, 0x10808),
   (0x1080A, 0x10835), (0x10837, 0x10838), (0x1083C, 0x1083C), (0x1083F, 0x10855),
   (0x10860, 0x10876), (0x10880, 0x1089E), (0x108E0, 0x108F2), (0x108F4, 0x108F5),
   (0x10900, 0x10915), (0x10920, 0x10939), (0x10980, 0x109B7), (0x109BE, 0x109BF),
   (0x10A00, 0x10A00), (0x10A10, 0x10A13), (0x10A15, 0x10A17), (0x10A19, 0x10A35),
   (0x10A60, 0x10A7C), (0x10A80, 0x10A9C), (0x10AC0, 0x10AC7), (0x10AC9, 0x10AE4),
   (0x10B00, 0x10B35), (0x10B40, 0x10B55), (0x10B60, 0x10B72), (0x10B80, 0x10B91),
   (0x10C00, 0x10C48), (0x10C80, 0x10CB2), (0x10CC0, 0x10CF2), (0x10D00, 0x10D23),
   (0x10E80, 0x10EA9), (0x10EB0, 0x10EB1), (0x10F00, 0x10F1C), (0x10F27, 0x10F27),
   (0x10F30, 0x10F45), (0x10FB0, 0x10FC4), (0x10FE0, 0x10FF6), (0x11003, 0x11037),
   (0x11083, 0x110AF), (0x110D0, 0x110E8), (0x11103, 0x11126), (0x11144, 0x11144),
   (0x11147, 0x11147), (0x11150, 0x11172), (0x11176, 0x11176), (0x11183, 0x111B2),
   (0x111C1, 0x111C4), (0x111DA, 0x111DA), (0x111DC, 0x111DC), (0x11200, 0x11211),
   (0x11213, 0x1122B), (0x11280, 0x11286), (0x11288, 0x11288), (0x1128A, 0x1128D),
   (0x1128F, 0x1129D), (0x1129F, 0x112A8), (0x112B0, 0x112DE), (0x11305, 0x1130C),
   (0x1130F, 0x11310), (0x11313, 0x11328), (0x1132A, 0x11330), (0x11332, 0x11333),
   (0x11335, 0x11339), (0x1133D, 0x1133D), (0x11350, 0x11350), (0x1135D, 0x11361),
   (0x11400, 0x11434), (0x11447, 0x1144A), (0x1145F, 0x11461), (0x11480, 0x114AF),
   (0x114C4, 0x114C5), (0x114C7, 0x114C7), (0x11580, 0x115AE), (0x115D8, 0x115DB),
   (0x11600, 0x1162F), (0x11644, 0x11644), (0x11680, 0x116AA), (0x116B8, 0x116B8),
   (0x11700, 0x1171A), (0x11800, 0x1182B), (0x118A0, 0x118DF), (0x118FF, 0x11906),
   (0x11909, 0x11909), (0x1190C, 0x11913), (0x11915, 0x11916), (0x11918, 0x1192F),
   (0x1193F, 0x1193F), (0x11941, 0x11941), (0x119A0, 0x119A7), (0x119AA, 0x119D0),
   (0x119E1, 0x119E1), (0x119E3, 0x119E3), (0x11A00, 0x11A00), (0x11A0B, 0x11A32),
   (0x11A3A, 0x11A3A), (0x11A50, 0x11A50), (0x11A5C, 0x11A89), (0x11A9D, 0x11A9D),
   (0x11AC0, 0x11AF8), (0x11C00, 0x11C08), (0x11C0A, 0x11C2E), (0x11C40, 0x11C40),
   (0x11C72, 0x11C8F), (0x11D00, 0x11D06), (0x11D08, 0x11D09), (0x11D0B, 0x11D30),
   (0x11D46, 0x11D46), (0x11D60, 0x11D65), (0x11D67, 0x11D68), (0x11D6A, 0x11D89),
   (0x11D98, 0x11D98), (0x11EE0, 0x11EF2), (0x11FB0, 0x11FB0), (0x12000, 0x12399),
   (0x12480, 0x12543), (0x13000, 0x1342E), (0x14400, 0x14646), (0x16800, 0x16A38),
   (0x16A40, 0x16A5E), (0x16AD0, 0x16AED), (0x16B00, 0x16B2F), (0x16B40, 0x16B43),
   (0x16B63, 0x16B77), (0x16B7D, 0x16B8F), (0x16E40, 0x16E7F), (0x16F00, 0x16F4A),
   (0x16F50, 0x16F50), (0x16F93, 0x16F9F), (0x16FE0, 0x16FE1), (0x16FE3, 0x16FE3),
   (0x17000, 0x187F7), (0x18800, 0x18CD5), (0x18D00, 0x18D08), (0x1B000, 0x1B11E),
   (0x1B150, 0x1B152), (0x1B164, 0x1B167), (0x1B170, 0x1B2FB), (0x1BC00, 0x1BC6A),
   (0x1BC70, 0x1BC7C), (0x1BC80, 0x1BC88), (0x1BC90, 0x1BC99), (0x1D400, 0x1D454),
   (0x1D456, 0x1D49C), (0x1D49E, 0x1D49F), (0x1D4A2, 0x1D4A2), (0x1D4A5, 0x1D4A6),
   (0x1D4A9, 0x1D4AC), (0x1D4AE, 0x1D4B9), (0x1D4BB, 0x1D4BB), (0x1D4BD, 0x1D4C3),
   (0x1D4C5, 0x1D505), (0x1D507, 0x1D50A), (0x1D50D, 0x1D514), (0x1D516, 0x1D51C),
   (0x1D51E, 0x1D539), (0x1D53B, 0x1D53E), (0x1D540, 0x1D544), (0x1D546, 0x1D546),
   (0x1D54A, 0x1D550), (0x1D552, 0x1D6A5), (0x1D6A8, 0x1D6C0), (0x1D6C2, 0x1D6DA),
   (0x1D6DC, 0x1D6FA), (0x1D6FC, 0x1D714), (0x1D716, 0x1D734), (0x1D736, 0x1D74E),
   (0x1D750, 0x1D76E), (0x1D770, 0x1D788), (0x1D78A, 0x1D7A8), (0x1D7AA, 0x1D7C2),
   (0x1D7C4, 0x1D7CB), (0x1E100, 0x1E12C), (0x1E137, 0x1E13D), (0x1E14E, 0x1E14E),
   (0x1E2C0, 0x1E2EB), (0x1E800, 0x1E8C4), (0x1E900, 0x1E943), (0x1E94B, 0x1E94B),
   (0x1EE00, 0x1EE03), (0x1EE05, 0x1EE1F), (0x1EE21, 0x1EE22), (0x1EE24, 0x1EE24),
   (0x1EE27, 0x1EE27), (0x1EE29, 0x1EE32), (0x1EE34, 0x1EE37), (0x1EE39, 0x1EE39),
   (0x1EE3B, 0x1EE3B), (0x1EE42, 0x1EE42), (0x1EE47, 0x1EE47), (0x1EE49, 0x1EE49),
   (0x1EE4B, 0x1EE4B), (0x1EE4D, 0x1EE4F), (0x1EE51, 0x1EE52), (0x1EE54, 0x1EE54),
   (0x1EE57, 0x1EE57), (0x1EE59, 0x1EE59), (0x1EE5B, 0x1EE5B), (0x1EE5D, 0x1EE5D),
   (0x1EE5F, 0x1EE5F), (0x1EE61, 0x1EE62), (0x1EE64, 0x1EE64), (0x1EE67, 0x1EE6A),
   (0x1EE6C, 0x1EE72), (0x1EE74, 0x1EE77), (0x1EE79, 0x1EE7C), (0x1EE7E, 0x1EE7E),
   (0x1EE80, 0x1EE89), (0x1EE8B, 0x1EE9B), (0x1EEA1, 0x1EEA3), (0x1EEA5, 0x1EEA9),
   (0x1EEAB, 0x1EEBB), (0x20000, 0x2A6DD), (0x2A700, 0x2B734), (0x2B740, 0x2B81D),
   (0x2B820, 0x2CEA1), (0x2CEB0, 0x2EBE0), (0x2F800, 0x2FA1D), (0x30000, 0x3134A)]

/-- Whether a rune is a Unicode letter: membership in `unicodeL`. -/
def isLetter (r : Nat) : Bool := unicodeL.any (fun p => decide (p.1 ≤ r) && decide (r ≤ p.2))

/-! ## Regular expressions made of one character class -/

/-- A compiled regular expression consisting of a single character class: the
predicate tells which runes the class matches. Every match is exactly one rune
long. -/
structure Regexp where
  /-- The runes of the class. -/
  cls : Nat → Bool

/-- Go `(*Regexp).MatchString`: some rune of the string is in the class. -/
def Regexp.MatchString (re : Regexp) (s : GoString) : Bool :=
  (runes s).any (fun p => re.cls p.1)

/-- Go `(*Regexp).ReplaceAllString`: every match, one rune each, is replaced by
`repl`; the bytes between the matches are copied. -/
def Regexp.ReplaceAllString (re : Regexp) (s repl : GoString) : GoString :=
  (runes s).flatMap (fun p => if re.cls p.1 then repl else p.2)

/-- The characters listed inside the class of `reInvalidSpanCharacters`,
`[^ 0-9\p{L}N_.:/%&#=+,\-@]`: the space, the digits 0-9, the Unicode
letters, `N`, and the punctuation `_ . : / % & # = + , - @`. -/
def listedSpanCharacter (r : Nat) : Bool :=
  r == 0x20 || (decide (0x30 ≤ r) && decide (r ≤ 0x39)) || isLetter r || r == 0x4E ||
  r == 0x5F || r == 0x2E || r == 0x3A || r == 0x2F || r == 0x25 || r == 0x26 ||
  r == 0x23 || r == 0x3D || r == 0x2B || r == 0x2C || r == 0x2D || r == 0x40

/-- The regexp `reInvalidSpanCharacters`: the negated class matches one rune
that is not listed (an invalid byte is seen as `RuneError`). -/
def reInvalidSpanCharacters : Regexp := ⟨fun r => !listedSpanCharacter r⟩

/-- The constant `defaultSegmentName`. -/
def defaultSegmentName : GoString := str "span"

/-- The constant `maxSegmentNameLength`. -/
def maxSegmentNameLength : Nat := 200

/-- The function `fixSegmentName` of `segment.go`. -/
def fixSegmentName (name : GoString) : GoString :=
  let name :=
    if reInvalidSpanCharacters.MatchString name then
      reInvalidSpanCharacters.ReplaceAllString name []
    else name
  if name.length > maxSegmentNameLength then name.take maxSegmentNameLength
  else if name.length = 0 then defaultSegmentName
  else name

/-! ## Trace identifiers -/

/-- The type `pdata.TraceID`: 16 bytes. -/
structure TraceID where
  /-- The bytes of the identifier. -/
  bytes : List Byte
  /-- There are 16 of them. -/
  len : bytes.length = 16

/-- The type `pdata.SpanID`: 8 bytes. -/
structure SpanID where
  /-- The bytes of the identifier. -/
  bytes : List Byte
  /-- There are 8 of them. -/
  len : bytes.length = 8

/-- The table `hextable` of package `encoding/hex`. -/
def hextable : List Byte := str "0123456789abcdef"

/-- Go `hex.Encode(dst[off:], src)`: two digits per source byte are written into
`dst`, the high nibble first. -/
def hexEncode (dst : List Byte) (off : Nat) : List Byte → List Byte
  | [] => dst
  | v :: src =>
    hexEncode ((dst.set off (hextable.getD (v.val / 16) 0)).set (off + 1)
      (hextable.getD (v.val % 16) 0)) (off + 2) src

/-- Go `hex.EncodeToString`. -/
def hexEncodeToString (src : List Byte) : GoString :=
  hexEncode (List.replicate (src.length * 2) 0) 0 src

/-- The method `TraceID.IsEmpty`: all bytes are zero. -/
def TraceID.IsEmpty (t : TraceID) : Bool := t.bytes.all (fun b => b == 0)

/-- The method `TraceID.HexString`: empty for the empty identifier. -/
def TraceID.HexString (t : TraceID) : GoString :=
  if t.IsEmpty then [] else hexEncodeToString t.bytes

/-- The method `SpanID.IsEmpty`: all bytes are zero. -/
def SpanID.IsEmpty (t : SpanID) : Bool := t.bytes.all (fun b => b == 0)

/-- The method `SpanID.HexString`: empty for the empty identifier. -/
def SpanID.HexString (t : SpanID) : GoString :=
  if t.IsEmpty then [] else hexEncodeToString t.bytes

/-- Go `binary.BigEndian.Uint32` on a slice of four bytes. -/
def bigEndianUint32 (b : List Byte) : Nat :=
  (b.getD 3 0).val + (b.getD 2 0).val * 2 ^ 8 + (b.getD 1 0).val * 2 ^ 16
    + (b.getD 0 0).val * 2 ^ 24

/-- Go `binary.BigEndian.PutUint32`: the four bytes of `v`, highest first. -/
def bigEndianPutUint32 (v : Nat) : List Byte :=
  [Fin.ofNat (v / 2 ^ 24), Fin.ofNat (v / 2 ^ 16), Fin.ofNat (v / 2 ^ 8), Fin.ofNat v]

/-- The value of an `int64` computation: the integer `x` wrapped into
`[-2^63, 2^63)`. -/
def wrapInt64 (x : Int) : Int := (x + 2 ^ 63) % 2 ^ 64 - 2 ^ 63

/-- The constant `maxAge` of `convertToAmazonTraceID`: 28 days in seconds. -/
def maxAge : Int := 60 * 60 * 24 * 28

/-- The constant `maxSkew` of `convertToAmazonTraceID`: 5 minutes in seconds. -/
def maxSkew : Int := 60 * 5

/-- The constant `traceIDLength`. -/
def traceIDLength : Nat := 35

/-- The constant `identifierOffset`. -/
def identifierOffset : Nat := 11

/-- The function `convertToAmazonTraceID` of `segment.go`; `epochNow` is the
value of `time.Now().Unix()`. The error carries the message of `fmt.Errorf`. -/
def convertToAmazonTraceID (epochNow : Int) (traceID : TraceID) : Except GoString GoString :=
  let content : List Byte := List.replicate traceIDLength 0
  let traceIDBytes := traceID.bytes
  let epoch : Int := (bigEndianUint32 (traceIDBytes.take 4) : Nat)
  let delta := wrapInt64 (epochNow - epoch)
  if delta > maxAge ∨ delta < -maxSkew then
    .error (str "invalid xray traceid: " ++ traceID.HexString)
  else
    let b := bigEndianPutUint32 (epoch.toNat % 2 ^ 32)
    let content := content.set 0 0x31
    let content := content.set 1 0x2D
    let content := hexEncode content 2 b
    let content := content.set 10 0x2D
    let content := hexEncode content identifierOffset ((traceIDBytes.drop 4).take 12)
    .ok (content.take traceIDLength)

/-! ## The span data model (package `pdata`) -/

/-- The type `pdata.SpanKind`. -/
inductive SpanKind where
  | Unspecified
  | Internal
  | Server
  | Client
  | Producer
  | Consumer
  deriving DecidableEq, Repr

/-- The type `pdata.Value`: a value with one of the eight value types
(`ValueTypeEmpty`, `String`, `Int`, `Double`, `Bool`, `Map`, `Slice`, `Bytes`).
A map value is the sequence of its key-value entries. -/
inductive Value where
  | empty
  | string (s : GoString)
  | int (i : Int)
  | double (d : Float)
  | bool (b : Bool)
  | map (kvs : List (GoString × Value))
  | slice (vs : List Value)
  | bytes (bs : List Byte)

/-- The method `Value.StringVal`: the string of a string value, else `""`. -/
def Value.StringVal : Value → GoString
  | .string s => s
  | _ => []

/-- The method `Value.IntVal`: the integer of an int value, else 0. -/
def Value.IntVal : Value → Int
  | .int i => i
  | _ => 0

/-- The type `pdata.Map` (`pdata.AttributeMap`): the entries in their order. -/
abbrev AttributeMap := List (GoString × Value)

/-- The method `Map.Get`: the value of the first entry with the key. -/
def AttributeMap.Get (m : AttributeMap) (key : GoString) : Option Value :=
  match m with
  | [] => none
  | kv :: rest => if kv.1 = key then some kv.2 else AttributeMap.Get rest key

/-- The value of the last entry with the key: what is left under the key when
the entries are written one after the other into a Go map, as a `Range` whose
body assigns `m[k] = v` does. -/
def AttributeMap.GetLast (m : AttributeMap) (key : GoString) : Option Value :=
  AttributeMap.Get m.reverse key

/-- The method `Map.Len`. -/
def AttributeMap.Len (m : AttributeMap) : Nat := m.length

/-- The type `pdata.SpanEvent`. -/
structure SpanEvent where
  /-- The name of the event. -/
  Name : GoString
  /-- The time of the event, in nanoseconds since the epoch. -/
  Timestamp : Nat
  /-- The attributes of the event. -/
  Attributes : AttributeMap

/-- The type `pdata.StatusCode`. -/
inductive StatusCode where
  | Unset
  | Ok
  | Error
  deriving DecidableEq, Repr

/-- The type `pdata.SpanStatus`. -/
structure SpanStatus where
  /-- The status code. -/
  Code : StatusCode
  /-- The status message. -/
  Message : GoString

/-- The type `pdata.Span`, read through its accessor methods. -/
structure Span where
  /-- The trace identifier. -/
  TraceID : XRay.TraceID
  /-- The span identifier. -/
  SpanID : XRay.SpanID
  /-- The identifier of the parent span; empty (all zero) when there is none. -/
  ParentSpanID : XRay.SpanID
  /-- The name of the span. -/
  Name : GoString
  /-- The kind of the span. -/
  Kind : SpanKind
  /-- The start time, a `pdata.Timestamp`: nanoseconds since the epoch. -/
  StartTimestamp : Nat
  /-- The end time, a `pdata.Timestamp`: nanoseconds since the epoch. -/
  EndTimestamp : Nat
  /-- The status of the span. -/
  Status : SpanStatus
  /-- The attributes of the span. -/
  Attributes : AttributeMap
  /-- The events of the span. -/
  Events : List SpanEvent

/-- The type `pdata.Resource`. -/
structure Resource where
  /-- The attributes of the resource. -/
  Attributes : AttributeMap

/-! ## Go maps and interface values -/

/-- A Go `map[string]α`: an association list with pairwise distinct keys, in
the order ranging over the map visits them. -/
abbrev GoMap (α : Type) := List (GoString × α)

/-- The map read `m[k]` with its presence flag. -/
def mapGet {α : Type} (m : GoMap α) (k : GoString) : Option α :=
  match m with
  | [] => none
  | kv :: rest => if kv.1 = k then some kv.2 else mapGet rest k

/-- The map write `m[k] = v`: the value of an existing key is replaced, a new
key is added. -/
def mapSet {α : Type} (m : GoMap α) (k : GoString) (v : α) : GoMap α :=
  match m with
  | [] => [(k, v)]
  | kv :: rest => if kv.1 = k then (k, v) :: rest else kv :: mapSet rest k v

/-- The built-in `delete(m, k)`. -/
def mapDelete {α : Type} (m : GoMap α) (k : GoString) : GoMap α :=
  m.filter (fun kv => decide (kv.1 ≠ k))

/-- A Go `interface{}` as `annotationValue` and `metadataValue` produce it:
`nil`, a string, an `int64`, a `float64`, a bool, a `map[string]interface{}`
or a `[]interface{}`. -/
inductive Iface where
  | nil
  | string (s : GoString)
  | int (i : Int)
  | double (d : Float)
  | bool (b : Bool)
  | map (m : List (GoString × Iface))
  | slice (l : List Iface)

/-- Whether an interface value is `nil`. -/
def Iface.isNil : Iface → Bool
  | .nil => true
  | _ => false

/-! ## Attribute names (packages `conventions` and `awsxray`) -/

/-- The constant `conventions.AttributePeerService`. -/
def AttributePeerService : GoString := str "peer.service"
/-- The constant `conventions.AttributeRPCSystem`. -/
def AttributeRPCSystem : GoString := str "rpc.system"
/-- The constant `conventions.AttributeRPCService`. -/
def AttributeRPCService : GoString := str "rpc.service"
/-- The constant `conventions.AttributeCloudProviderAWS`. -/
def AttributeCloudProviderAWS : GoString := str "aws"
/-- Modelled from the spec: the key of the AWS-service span attribute, the
constant `awsxray.AWSServiceAttribute`, whose declaration is not among the
sources. -/
def AWSServiceAttribute : GoString := str "aws.service"
/-- The constant `conventions.AttributeDBName`. -/
def AttributeDBName : GoString := str "db.name"
/-- The constant `conventions.AttributeDBConnectionString`. -/
def AttributeDBConnectionString : GoString := str "db.connection_string"
/-- The constant `conventions.AttributeServiceName`. -/
def AttributeServiceName : GoString := str "service.name"
/-- The constant `conventions.AttributeEnduserID`. -/
def AttributeEnduserID : GoString := str "enduser.id"
/-- The constant `conventions.AttributeHTTPMethod`. -/
def AttributeHTTPMethod : GoString := str "http.method"
/-- The constant `conventions.AttributeHTTPClientIP`. -/
def AttributeHTTPClientIP : GoString := str "http.client_ip"
/-- The constant `conventions.AttributeHTTPUserAgent`. -/
def AttributeHTTPUserAgent : GoString := str "http.user_agent"
/-- The constant `conventions.AttributeHTTPStatusCode`. -/
def AttributeHTTPStatusCode : GoString := str "http.status_code"
/-- The constant `conventions.AttributeHTTPURL`. -/
def AttributeHTTPURL : GoString := str "http.url"
/-- The constant `conventions.AttributeHTTPScheme`. -/
def AttributeHTTPScheme : GoString := str "http.scheme"
/-- The constant `conventions.AttributeHTTPHost`. -/
def AttributeHTTPHost : GoString := str "http.host"
/-- The constant `conventions.AttributeHTTPTarget`. -/
def AttributeHTTPTarget : GoString := str "http.target"
/-- The constant `conventions.AttributeHTTPServerName`. -/
def AttributeHTTPServerName : GoString := str "http.server_name"
/-- The constant `conventions.AttributeNetHostPort`. -/
def AttributeNetHostPort : GoString := str "net.host.port"
/-- The constant `conventions.AttributeHostName`. -/
def AttributeHostName : GoString := str "host.name"
/-- The constant `conventions.AttributeNetHostName`. -/
def AttributeNetHostName : GoString := str "net.host.name"
/-- The constant `conventions.AttributeNetPeerName`. -/
def AttributeNetPeerName : GoString := str "net.peer.name"
/-- The constant `conventions.AttributeNetPeerPort`. -/
def AttributeNetPeerPort : GoString := str "net.peer.port"
/-- The constant `conventions.AttributeNetPeerIP`. -/
def AttributeNetPeerIP : GoString := str "net.peer.ip"
/-- The constant `conventions.AttributeMessagingMessagePayloadSizeBytes`. -/
def AttributeMessagingMessagePayloadSizeBytes : GoString :=
  str "messaging.message_payload_size_bytes"
/-- The constant `conventions.AttributeCloudProvider`. -/
def AttributeCloudProvider : GoString := str "cloud.provider"
/-- The constant `conventions.AttributeCloudPlatform`. -/
def AttributeCloudPlatform : GoString := str "cloud.platform"
/-- The constant `conventions.AttributeCloudPlatformAWSAppRunner`. -/
def AttributeCloudPlatformAWSAppRunner : GoString := str "aws_app_runner"
/-- The constant `conventions.AttributeCloudPlatformAWSEKS`. -/
def AttributeCloudPlatformAWSEKS : GoString := str "aws_eks"
/-- The constant `conventions.AttributeCloudPlatformAWSElasticBeanstalk`. -/
def AttributeCloudPlatformAWSElasticBeanstalk : GoString := str "aws_elastic_beanstalk"
/-- The constant `conventions.AttributeCloudPlatformAWSECS`. -/
def AttributeCloudPlatformAWSECS : GoString := str "aws_ecs"
/-- The constant `conventions.AttributeCloudPlatformAWSEC2`. -/
def AttributeCloudPlatformAWSEC2 : GoString := str "aws_ec2"
/-- The constant `conventions.AttributeAWSECSLaunchtype`. -/
def AttributeAWSECSLaunchtype : GoString := str "aws.ecs.launchtype"
/-- The constant `conventions.AttributeAWSECSLaunchtypeEC2`. -/
def AttributeAWSECSLaunchtypeEC2 : GoString := str "ec2"
/-- The constant `conventions.AttributeAWSECSLaunchtypeFargate`. -/
def AttributeAWSECSLaunchtypeFargate : GoString := str "fargate"

/-- The constant `OriginEC2`. -/
def OriginEC2 : GoString := str "AWS::EC2::Instance"
/-- The constant `OriginECS`. -/
def OriginECS : GoString := str "AWS::ECS::Container"
/-- The constant `OriginECSEC2`. -/
def OriginECSEC2 : GoString := str "AWS::ECS::EC2"
/-- The constant `OriginECSFargate`. -/
def OriginECSFargate : GoString := str "AWS::ECS::Fargate"
/-- The constant `OriginEB`. -/
def OriginEB : GoString := str "AWS::ElasticBeanstalk::Environment"
/-- The constant `OriginEKS`. -/
def OriginEKS : GoString := str "AWS::EKS::Container"
/-- The constant `OriginAppRunner`. -/
def OriginAppRunner : GoString := str "AWS::AppRunner::Service"

/-! ## The parts of the program outside the translated sources -/

/-- The collaborators of the translator whose sources are not part of the
translated files: the segment helper `awsxray.String`, the extractors
`makeCause`, `makeAws`, `makeService`, `makeSQL` with the types of the blocks
they return, and the URL parser of the standard library. All that is assumed
of `awsxray.String` is that the string it points to, read with `nil` as `""`,
is its argument. -/
structure Env where
  /-- The type `awsxray.CauseData`. -/
  CauseData : Type
  /-- The type `awsxray.AWSData`. -/
  AWSData : Type
  /-- The type `awsxray.ServiceData`. -/
  ServiceData : Type
  /-- The type `awsxray.SQLData`. -/
  SQLData : Type
  /-- The type `url.URL`. -/
  URL : Type
  /-- The helper `awsxray.String`: a pointer to the string, possibly `nil`. -/
  xrayString : GoString → Option GoString
  /-- Reading the pointer gives the string back, `nil` standing for `""`. -/
  xrayString_val : ∀ s, (xrayString s).getD [] = s
  /-- The extractor `makeCause(span, attributes, resource)`, returning
  `(isError, isFault, isThrottle, filtered, cause)`. -/
  makeCause : Span → GoMap Value → Resource →
    Bool × Bool × Bool × GoMap Value × Option CauseData
  /-- The extractor `makeAws(attributes, resource)`. -/
  makeAws : GoMap Value → Resource → GoMap Value × Option AWSData
  /-- The extractor `makeService(resource)`. -/
  makeService : Resource → Option ServiceData
  /-- The extractor `makeSQL(attributes)`. -/
  makeSQL : GoMap Value → GoMap Value × Option SQLData
  /-- Go `url.Parse`, with `none` for a `nil` result. -/
  urlParse : GoString → Option URL
  /-- The method `(*url.URL).Hostname`. -/
  Hostname : URL → GoString

/-- The string a `*string` field of a segment holds, `nil` read as `""`. -/
def stringValue (p : Option GoString) : GoString := p.getD []

/-! ## HTTP data (`http.go`) -/

/-- Modelled from the spec: the type `awsxray.RequestData`, whose declaration is
not among the sources; its fields are those `makeHTTP` fills. -/
structure RequestData where
  /-- The request method. -/
  Method : Option GoString
  /-- The client address. -/
  ClientIP : Option GoString
  /-- Whether the client address comes from forwarding information. -/
  XForwardedFor : Option Bool
  /-- The user agent. -/
  UserAgent : Option GoString
  /-- The request URL. -/
  URL : Option GoString

/-- Modelled from the spec: the type `awsxray.ResponseData`, whose declaration is
not among the sources; its fields are those `makeHTTP` fills. -/
structure ResponseData where
  /-- The response status code. -/
  Status : Option Int
  /-- The response size. -/
  ContentLength : Option Int

/-- Modelled from the spec: the type `awsxray.HTTPData`, whose declaration is not
among the sources; `makeHTTP` allocates both parts. -/
structure HTTPData where
  /-- The request part. -/
  Request : RequestData
  /-- The response part. -/
  Response : ResponseData

/-- Go `strconv.FormatInt(i, 10)`. -/
def FormatInt (i : Int) : GoString :=
  if i < 0 then str "-" ++ str (Nat.repr i.natAbs) else str (Nat.repr i.toNat)

/-- The function `constructClientURL` of `http.go`. -/
def constructClientURL (urlParts : GoMap GoString) : GoString :=
  match mapGet urlParts AttributeHTTPURL with
  | some url => url
  | none =>
    let scheme := (mapGet urlParts AttributeHTTPScheme).getD (str "http")
    let host :=
      match mapGet urlParts AttributeHTTPHost with
      | some host => host
      | none =>
        match mapGet urlParts AttributeNetPeerName with
        | some host => host
        | none => (mapGet urlParts AttributeNetPeerIP).getD []
    let port :=
      match mapGet urlParts AttributeHTTPHost with
      | some _ => []
      | none => (mapGet urlParts AttributeNetPeerPort).getD []
    let url := scheme ++ str "://" ++ host
    let url :=
      if port.length > 0 ∧ ¬ (scheme = str "http" ∧ port = str "80") ∧
          ¬ (scheme = str "https" ∧ port = str "443") then
        url ++ str ":" ++ port
      else url
    match mapGet urlParts AttributeHTTPTarget with
    | some target => url ++ target
    | none => url ++ str "/"

/-- The function `constructServerURL` of `http.go`. -/
def constructServerURL (urlParts : GoMap GoString) : GoString :=
  match mapGet urlParts AttributeHTTPURL with
  | some url => url
  | none =>
    let scheme := (mapGet urlParts AttributeHTTPScheme).getD (str "http")
    let host :=
      match mapGet urlParts AttributeHTTPHost with
      | some host => host
      | none =>
        match mapGet urlParts AttributeHTTPServerName with
        | some host => host
        | none =>
          match mapGet urlParts AttributeNetHostName with
          | some host => host
          | none => (mapGet urlParts AttributeHostName).getD []
    let port :=
      match mapGet urlParts AttributeHTTPHost with
      | some _ => []
      | none => (mapGet urlParts AttributeNetHostPort).getD []
    let url := scheme ++ str "://" ++ host
    let url :=
      if port.length > 0 ∧ ¬ (scheme = str "http" ∧ port = str "80") ∧
          ¬ (scheme = str "https" ∧ port = str "443") then
        url ++ str ":" ++ port
      else url
    match mapGet urlParts AttributeHTTPTarget with
    | some target => url ++ target
    | none => url ++ str "/"

/-- The function `extractResponseSizeFromAttributes` of `http.go`. -/
def extractResponseSizeFromAttributes (attributes : AttributeMap) : Int :=
  match attributes.Get (str "message.type") with
  | some typeVal =>
    if typeVal.StringVal = str "RECEIVED" then
      match attributes.Get AttributeMessagingMessagePayloadSizeBytes with
      | some sizeVal => sizeVal.IntVal
      | none => 0
    else 0
  | none => 0

/-- The loop over the events in `extractResponseSizeFromEvents`; `size` is the
value computed last. -/
def extractResponseSizeFromEventsLoop : List SpanEvent → Int → Int
  | [], size => size
  | event :: rest, _ =>
    let size := extractResponseSizeFromAttributes event.Attributes
    if size ≠ 0 then size else extractResponseSizeFromEventsLoop rest size

/-- The function `extractResponseSizeFromEvents` of `http.go`. -/
def extractResponseSizeFromEvents (span : Span) : Int :=
  let size := extractResponseSizeFromAttributes span.Attributes
  if size ≠ 0 then size else extractResponseSizeFromEventsLoop span.Events size

/-- The variables of `makeHTTP` that the loop over the attributes updates. -/
structure HTTPLoop where
  /-- The variable `info`. -/
  info : HTTPData
  /-- The variable `filtered`. -/
  filtered : GoMap Value
  /-- The variable `urlParts`. -/
  urlParts : GoMap GoString
  /-- The variable `hasHTTP`. -/
  hasHTTP : Bool
  /-- The variable `hasHTTPRequestURLAttributes`. -/
  hasHTTPRequestURLAttributes : Bool

/-- The value stored for a port attribute: its string, or its integer in
decimal when the string is empty. -/
def portString (value : Value) : GoString :=
  if value.StringVal.length = 0 then FormatInt value.IntVal else value.StringVal

/-- The body of the loop of `makeHTTP`: the `switch` on the attribute key. -/
def makeHTTPRange (env : Env) (st : HTTPLoop) (kv : GoString × Value) : HTTPLoop :=
  let key := kv.1
  let value := kv.2
  if key = AttributeHTTPMethod then
    { st with
      info := { st.info with
        Request := { st.info.Request with Method := env.xrayString value.StringVal } }
      hasHTTP := true }
  else if key = AttributeHTTPClientIP then
    { st with
      info := { st.info with
        Request := { st.info.Request with
          ClientIP := env.xrayString value.StringVal
          XForwardedFor := some true } }
      hasHTTP := true }
  else if key = AttributeHTTPUserAgent then
    { st with
      info := { st.info with
        Request := { st.info.Request with UserAgent := env.xrayString value.StringVal } }
      hasHTTP := true }
  else if key = AttributeHTTPStatusCode then
    { st with
      info := { st.info with Response := { st.info.Response with Status := some value.IntVal } }
      hasHTTP := true }
  else if key = AttributeHTTPURL then
    { st with
      urlParts := mapSet st.urlParts key value.StringVal
      hasHTTP := true
      hasHTTPRequestURLAttributes := true }
  else if key = AttributeHTTPScheme then
    { st with
      urlParts := mapSet st.urlParts key value.StringVal
      hasHTTP := true }
  else if key = AttributeHTTPHost then
    { st with
      urlParts := mapSet st.urlParts key value.StringVal
      hasHTTP := true
      hasHTTPRequestURLAttributes := true }
  else if key = AttributeHTTPTarget then
    { st with
      urlParts := mapSet st.urlParts key value.StringVal
      hasHTTP := true }
  else if key = AttributeHTTPServerName then
    { st with
      urlParts := mapSet st.urlParts key value.StringVal
      hasHTTP := true
      hasHTTPRequestURLAttributes := true }
  else if key = AttributeNetHostPort then
    { st with
      urlParts := mapSet st.urlParts key (portString value)
      hasHTTP := true }
  else if key = AttributeHostName then
    { st with
      urlParts := mapSet st.urlParts key value.StringVal
      hasHTTPRequestURLAttributes := true }
  else if key = AttributeNetHostName then
    { st with
      urlParts := mapSet st.urlParts key value.StringVal
      hasHTTPRequestURLAttributes := true }
  else if key = AttributeNetPeerName then
    { st with urlParts := mapSet st.urlParts key value.StringVal }
  else if key = AttributeNetPeerPort then
    { st with urlParts := mapSet st.urlParts key (portString value) }
  else if key = AttributeNetPeerIP then
    { st with
      info :=
        if st.info.Request.ClientIP.isNone then
          { st.info with
            Request := { st.info.Request with ClientIP := env.xrayString value.StringVal } }
        else st.info
      urlParts := mapSet st.urlParts key value.StringVal
      hasHTTPRequestURLAttributes := true }
  else
    { st with filtered := mapSet st.filtered key value }

/-- The function `makeHTTP` of `http.go`. -/
def makeHTTP (env : Env) (span : Span) : GoMap Value × Option HTTPData :=
  let start : HTTPLoop :=
    { info :=
        { Request :=
            { Method := none, ClientIP := none, XForwardedFor := none, UserAgent := none,
              URL := none }
          Response := { Status := none, ContentLength := none } }
      filtered := []
      urlParts := []
      hasHTTP := false
      hasHTTPRequestURLAttributes := false }
  if span.Attributes.Len = 0 then (start.filtered, none)
  else
    let st := span.Attributes.foldl (makeHTTPRange env) start
    if !st.hasHTTP then (st.filtered, none)
    else
      let info :=
        if st.hasHTTPRequestURLAttributes then
          if span.Kind = SpanKind.Server then
            { st.info with
              Request := { st.info.Request with
                URL := env.xrayString (constructServerURL st.urlParts) } }
          else
            { st.info with
              Request := { st.info.Request with
                URL := env.xrayString (constructClientURL st.urlParts) } }
        else st.info
      let info :=
        { info with
          Response := { info.Response with
            ContentLength := some (extractResponseSizeFromEvents span) } }
      (st.filtered, some info)

/-! ## Annotations and metadata (`segment.go`) -/

/-- The function `annotationValue` of `segment.go`. -/
def annotationValue : Value → Iface
  | .string s => .string s
  | .int i => .int i
  | .double d => .double d
  | .bool b => .bool b
  | _ => .nil

mutual
/-- The function `metadataValue` of `segment.go`. -/
def metadataValue : Value → Iface
  | .string s => .string s
  | .int i => .int i
  | .double d => .double d
  | .bool b => .bool b
  | .map kvs => .map (metadataValueMap kvs [])
  | .slice vs => .slice (metadataValueSlice vs)
  | _ => .nil
/-- The `Range` over a map value in `metadataValue`, filling `converted`. -/
def metadataValueMap : List (GoString × Value) → GoMap Iface → GoMap Iface
  | [], converted => converted
  | (key, value) :: rest, converted =>
    metadataValueMap rest (mapSet converted key (metadataValue value))
/-- The loop over a slice value in `metadataValue`. -/
def metadataValueSlice : List Value → List Iface
  | [] => []
  | value :: rest => metadataValue value :: metadataValueSlice rest
end

/-- Go `strings.Map`: the mapping is applied to every rune of the string (an
invalid byte counts as `RuneError`) and the results are encoded again. -/
def stringsMap (mapping : Nat → Nat) (s : GoString) : GoString :=
  (runes s).flatMap (fun p => utf8EncodeRune (mapping p.1))

/-- The function `fixAnnotationKey` of `segment.go`. -/
def fixAnnotationKey (key : GoString) : GoString :=
  stringsMap (fun r =>
    if (0x30 ≤ r ∧ r ≤ 0x39) ∨ (0x41 ≤ r ∧ r ≤ 0x5A) ∨ (0x61 ≤ r ∧ r ≤ 0x7A) then r
    else 0x5F) key

/-- The variables `annotations` and `defaultMetadata` of `makeXRayAttributes`,
which its loops update. -/
structure AttributesLoop where
  /-- The variable `annotations`. -/
  annotations : GoMap Iface
  /-- The variable `defaultMetadata`. -/
  defaultMetadata : GoMap Iface

/-- The body of the `Range` over the resource attributes in
`makeXRayAttributes`. -/
def resourceRange (indexAllAttrs : Bool) (indexedKeys : GoMap Bool) (st : AttributesLoop)
    (kv : GoString × Value) : AttributesLoop :=
  let key := str "otel.resource." ++ kv.1
  let value := kv.2
  let annoVal := annotationValue value
  let indexed := indexAllAttrs || (mapGet indexedKeys key).getD false
  if !annoVal.isNil && indexed then
    { st with annotations := mapSet st.annotations (fixAnnotationKey key) annoVal }
  else
    let metaVal := metadataValue value
    if !metaVal.isNil then
      { st with defaultMetadata := mapSet st.defaultMetadata key metaVal }
    else st

/-- The body of the loop over the attributes in `makeXRayAttributes` when
`indexAllAttrs` is set. -/
def indexAllRange (st : AttributesLoop) (kv : GoString × Value) : AttributesLoop :=
  let key := fixAnnotationKey kv.1
  let annoVal := annotationValue kv.2
  if !annoVal.isNil then { st with annotations := mapSet st.annotations key annoVal }
  else st

/-- The body of the loop over the attributes in `makeXRayAttributes` when
`indexAllAttrs` is not set. -/
def indexedRange (indexedKeys : GoMap Bool) (st : AttributesLoop) (kv : GoString × Value) :
    AttributesLoop :=
  let key := kv.1
  let value := kv.2
  if (mapGet indexedKeys key).getD false then
    let key := fixAnnotationKey key
    let annoVal := annotationValue value
    if !annoVal.isNil then { st with annotations := mapSet st.annotations key annoVal }
    else st
  else
    let metaVal := metadataValue value
    if !metaVal.isNil then { st with defaultMetadata := mapSet st.defaultMetadata key metaVal }
    else st

/-- The function `makeXRayAttributes` of `segment.go`; a `nil` map is `none`.
The loops over `attributes` visit the entries in the order of the list. -/
def makeXRayAttributes (attributes : GoMap Value) (resource : Resource) (storeResource : Bool)
    (indexedAttrs : List GoString) (indexAllAttrs : Bool) :
    GoString × Option (GoMap Iface) × Option (GoMap (GoMap Iface)) :=
  let metadata : GoMap (GoMap Iface) := []
  let userid := mapGet attributes AttributeEnduserID
  let user : GoString :=
    match userid with
    | some userid => userid.StringVal
    | none => []
  let attributes :=
    match userid with
    | some _ => mapDelete attributes AttributeEnduserID
    | none => attributes
  if attributes.length = 0 ∧ (!storeResource ∨ resource.Attributes.Len = 0) then
    (user, none, none)
  else
    let st : AttributesLoop := { annotations := [], defaultMetadata := [] }
    let indexedKeys : GoMap Bool :=
      if !indexAllAttrs then indexedAttrs.foldl (fun m name => mapSet m name true) [] else []
    let st :=
      if storeResource then resource.Attributes.foldl (resourceRange indexAllAttrs indexedKeys) st
      else st
    let st :=
      if indexAllAttrs then attributes.foldl indexAllRange st
      else attributes.foldl (indexedRange indexedKeys) st
    let metadata :=
      if st.defaultMetadata.length > 0 then mapSet metadata (str "default") st.defaultMetadata
      else metadata
    (user, some st.annotations, some metadata)

/-! ## Origin (`segment.go`) -/

/-- The function `determineAwsOrigin` of `segment.go`. -/
def determineAwsOrigin (resource : Resource) : GoString :=
  if resource.Attributes.Len = 0 then []
  else
    let foreign :=
      match resource.Attributes.Get AttributeCloudProvider with
      | some provider => decide (provider.StringVal ≠ AttributeCloudProviderAWS)
      | none => false
    if foreign then []
    else
      match resource.Attributes.Get AttributeCloudPlatform with
      | some is =>
        if is.StringVal = AttributeCloudPlatformAWSAppRunner then OriginAppRunner
        else if is.StringVal = AttributeCloudPlatformAWSEKS then OriginEKS
        else if is.StringVal = AttributeCloudPlatformAWSElasticBeanstalk then OriginEB
        else if is.StringVal = AttributeCloudPlatformAWSECS then
          match resource.Attributes.Get AttributeAWSECSLaunchtype with
          | none => OriginECS
          | some lt =>
            if lt.StringVal = AttributeAWSECSLaunchtypeEC2 then OriginECSEC2
            else if lt.StringVal = AttributeAWSECSLaunchtypeFargate then OriginECSFargate
            else OriginECS
        else if is.StringVal = AttributeCloudPlatformAWSEC2 then OriginEC2
        else []
      | none => []

/-! ## Segments (`segment.go`) -/

/-- The function `timestampToFloatSeconds` of `segment.go`: the timestamp in
nanoseconds divided by `time.Second`, in floating point. -/
def timestampToFloatSeconds (ts : Nat) : Float :=
  Float.ofNat ts / Float.ofNat 1000000000

/-- Modelled from the spec: the type `awsxray.Segment`, whose declaration is not
among the sources; its fields are those `MakeSegment` fills, the segment
document of the specification. The field `Type` is `Type_` here. -/
structure Segment (env : Env) where
  /-- The span identifier in hexadecimal. -/
  ID : Option GoString
  /-- The trace identifier in the X-Ray format. -/
  TraceID : Option GoString
  /-- The name of the segment. -/
  Name : Option GoString
  /-- The start time in seconds. -/
  StartTime : Option Float
  /-- The end time in seconds. -/
  EndTime : Option Float
  /-- The identifier of the parent in hexadecimal. -/
  ParentID : Option GoString
  /-- The fault flag. -/
  Fault : Option Bool
  /-- The error flag. -/
  Error : Option Bool
  /-- The throttle flag. -/
  Throttle : Option Bool
  /-- The cause block. -/
  Cause : Option env.CauseData
  /-- The origin. -/
  Origin : Option GoString
  /-- The namespace. -/
  Namespace : Option GoString
  /-- The user. -/
  User : Option GoString
  /-- The HTTP block. -/
  HTTP : Option HTTPData
  /-- The AWS block. -/
  AWS : Option env.AWSData
  /-- The service block. -/
  Service : Option env.ServiceData
  /-- The SQL block. -/
  SQL : Option env.SQLData
  /-- The annotations. -/
  Annotations : Option (GoMap Iface)
  /-- The metadata. -/
  Metadata : Option (GoMap (GoMap Iface))
  /-- The type of the segment: `"subsegment"` or nothing. -/
  Type_ : Option GoString

/-- The function `MakeSegment` of `segment.go`; `epochNow` is the value of
`time.Now().Unix()` that `convertToAmazonTraceID` reads, and the variable
`namespace` of the source is `namespace_` here. -/
def MakeSegment (env : Env) (epochNow : Int) (span : Span) (resource : Resource)
    (indexedAttrs : List GoString) (indexAllAttrs : Bool) : Except GoString (Segment env) :=
  let subsegment := decide (span.Kind ≠ SpanKind.Server) && !span.ParentSpanID.IsEmpty
  let segmentType : GoString := if subsegment then str "subsegment" else []
  -- We only store the resource information for segments, the local root.
  let storeResource : Bool := if subsegment then false else true
  -- convert trace id
  match convertToAmazonTraceID epochNow span.TraceID with
  | .error err => .error err
  | .ok traceID =>
    let startTime := timestampToFloatSeconds span.StartTimestamp
    let endTime := timestampToFloatSeconds span.EndTimestamp
    let httpResult := makeHTTP env span
    let causeResult := env.makeCause span httpResult.1 resource
    let origin := determineAwsOrigin resource
    let awsResult := env.makeAws causeResult.2.2.2.1 resource
    let service := env.makeService resource
    let sqlResult := env.makeSQL awsResult.1
    let attrResult :=
      makeXRayAttributes sqlResult.1 resource storeResource indexedAttrs indexAllAttrs
    let name : GoString := []
    let namespace_ : GoString := []
    let attributes := span.Attributes
    -- peer.service should always be prioritized for segment names when set
    let name :=
      match attributes.Get AttributePeerService with
      | some peerService => peerService.StringVal
      | none => name
    let namespace_ :=
      if namespace_ = [] then
        match attributes.Get AttributeRPCSystem with
        | some rpcSystem =>
          if rpcSystem.StringVal = str "aws-api" then AttributeCloudProviderAWS else namespace_
        | none => namespace_
      else namespace_
    -- the block `if name == ""` for the AWS service sets both variables
    let namespace_ :=
      if name = [] then
        match attributes.Get AWSServiceAttribute with
        | some _ => if namespace_ = [] then AttributeCloudProviderAWS else namespace_
        | none => namespace_
      else namespace_
    let name :=
      if name = [] then
        match attributes.Get AWSServiceAttribute with
        | some awsService => awsService.StringVal
        | none => name
      else name
    let name :=
      if name = [] then
        match attributes.Get AttributeDBName with
        | some dbInstance =>
          -- For database queries, the segment name convention is <db name>@<db host>
          let name := dbInstance.StringVal
          match attributes.Get AttributeDBConnectionString with
          | some dbURL =>
            match env.urlParse dbURL.StringVal with
            | some parsed =>
              if env.Hostname parsed ≠ [] then name ++ (str "@" ++ env.Hostname parsed) else name
            | none => name
          | none => name
        | none => name
      else name
    let name :=
      if name = [] ∧ span.Kind = SpanKind.Server then
        -- Only for a server span, we can use the resource.
        match resource.Attributes.Get AttributeServiceName with
        | some service => service.StringVal
        | none => name
      else name
    let name :=
      if name = [] then
        match attributes.Get AttributeRPCService with
        | some rpcservice => rpcservice.StringVal
        | none => name
      else name
    let name :=
      if name = [] then
        match attributes.Get AttributeHTTPHost with
        | some host => host.StringVal
        | none => name
      else name
    let name :=
      if name = [] then
        match attributes.Get AttributeNetPeerName with
        | some peer => peer.StringVal
        | none => name
      else name
    let name := if name = [] then fixSegmentName span.Name else name
    let namespace_ :=
      if namespace_ = [] ∧ span.Kind = SpanKind.Client then str "remote" else namespace_
    .ok
      { ID := env.xrayString span.SpanID.HexString
        TraceID := env.xrayString traceID
        Name := env.xrayString name
        StartTime := some startTime
        EndTime := some endTime
        ParentID := env.xrayString span.ParentSpanID.HexString
        Fault := some causeResult.2.1
        Error := some causeResult.1
        Throttle := some causeResult.2.2.1
        Cause := causeResult.2.2.2.2
        Origin := env.xrayString origin
        Namespace := env.xrayString namespace_
        User := env.xrayString attrResult.1
        HTTP := httpResult.2
        AWS := awsResult.2
        Service := service
        SQL := sqlResult.2
        Annotations := attrResult.2.1
        Metadata := attrResult.2.2
        Type_ := env.xrayString segmentType }

/-- A collaborator set for evaluating the translator on examples:
`awsxray.String` gives `nil` for the empty string, the extractors pass the
attributes on and return no block, and no URL parses. -/
def exampleEnv : Env where
  CauseData := Unit
  AWSData := Unit
  ServiceData := Unit
  SQLData := Unit
  URL := Unit
  xrayString := fun s => if s = [] then none else some s
  xrayString_val := by
    intro s
    by_cases h : s = [] <;> simp [h]
  makeCause := fun _ attributes _ => (false, false, false, attributes, none)
  makeAws := fun attributes _ => (attributes, none)
  makeService := fun _ => none
  makeSQL := fun attributes => (attributes, none)
  urlParse := fun _ => none
  Hostname := fun _ => []

/-! ## Specification-side notions for trace identifiers -/

/-- The embedded time of a trace identifier, as the specification words it: the
big-endian unsigned 32-bit value of its first four bytes. -/
def embeddedTime (t : TraceID) : Nat :=
  (t.bytes.getD 0 0).val * 16777216 + (t.bytes.getD 1 0).val * 65536
    + (t.bytes.getD 2 0).val * 256 + (t.bytes.getD 3 0).val

/-- A lowercase hexadecimal digit for a value below 16: `0`-`9`, then `a`-`f`. -/
def lowerHexDigit (n : Nat) : Byte :=
  if n < 10 then Fin.ofNat (0x30 + n) else Fin.ofNat (0x61 + (n - 10))

/-- The hexadecimal writing of a byte sequence, two lowercase digits a byte. -/
def lowerHex (bs : List Byte) : GoString :=
  bs.flatMap (fun b => [lowerHexDigit (b.val / 16), lowerHexDigit (b.val % 16)])

/-- A character of `[0-9a-f]`. -/
def isLowerHexChar (c : Byte) : Bool :=
  (decide (0x30 ≤ c.val) && decide (c.val ≤ 0x39)) || (decide (0x61 ≤ c.val) && decide (c.val ≤ 0x66))

/-! ## Specification-side notions for the sanitization -/

/-- Specification of the sanitization, as the specification words it: strip
the characters outside the allow-list, truncate to 200 characters, and
substitute `"span"` for an empty result. -/
def sanitizeSpec (x : GoString) : GoString :=
  let kept := (runes x).filter (fun p => listedSpanCharacter p.1)
  let cut := (kept.take 200).flatMap (fun p => p.2)
  if cut = [] then str "span" else cut

/-! ## The closed form of `fixSegmentName` -/

/-- Closed form of `fixSegmentName`, read off its code: the bytes of the
characters the regular expression leaves, sliced with `name[0:200]`, a slice
of bytes, when more than 200 bytes remain, and `"span"` when none remains. -/
def slicedName (x : GoString) : GoString :=
  let kept := ((runes x).filter (fun p => listedSpanCharacter p.1)).flatMap (fun p => p.2)
  let cut := if kept.length > 200 then kept.take 200 else kept
  if cut = [] then str "span" else cut

/-- A decoded rune that stands alone: its bytes are not empty and decode to it
whatever follows. -/
def SelfContained (p : Nat × List Byte) : Prop :=
  p.2 ≠ [] ∧ ∀ tail, DecodeRuneInString (p.2 ++ tail) = (p.1, p.2.length)

/-! ## Specification-side notions for the segment name -/

/-- The string of an attribute, an absent attribute counting as empty. -/
def attributeString (m : AttributeMap) (key : GoString) : GoString :=
  match m.Get key with
  | some v => v.StringVal
  | none => []

/-- The database candidate of the name cascade: the `db.name` attribute, with
`"@" ++ hostname` appended when `db.connection_string` is present and parses to
a non-empty hostname; empty when `db.name` is absent. -/
def databaseName (env : Env) (attributes : AttributeMap) : GoString :=
  match attributes.Get AttributeDBName with
  | none => []
  | some dbInstance =>
    dbInstance.StringVal ++
      (match attributes.Get AttributeDBConnectionString with
       | none => []
       | some dbURL =>
         match env.urlParse dbURL.StringVal with
         | none => []
         | some parsed => if env.Hostname parsed = [] then [] else str "@" ++ env.Hostname parsed)

/-- The candidates of the name cascade in their fixed order, as the
specification lists them. -/
def nameCandidates (env : Env) (span : Span) (resource : Resource) : List GoString :=
  [ attributeString span.Attributes AttributePeerService,
    attributeString span.Attributes AWSServiceAttribute,
    databaseName env span.Attributes,
    if span.Kind = SpanKind.Server then attributeString resource.Attributes AttributeServiceName
    else [],
    attributeString span.Attributes AttributeRPCService,
    attributeString span.Attributes AttributeHTTPHost,
    attributeString span.Attributes AttributeNetPeerName ]

/-- The name the specification resolves: the first non-empty candidate, and the
sanitized span name when there is none. -/
def resolveName (env : Env) (span : Span) (resource : Resource) : GoString :=
  match (nameCandidates env span resource).find? (fun c => decide (c ≠ [])) with
  | some name => name
  | none => fixSegmentName span.Name

/-- The type the specification gives a segment: `"subsegment"` when the span
is not of kind Server and has a parent, the empty string otherwise. -/
def segmentTypeSpec (span : Span) : GoString :=
  if span.Kind ≠ SpanKind.Server ∧ span.ParentSpanID.IsEmpty = false then str "subsegment"
  else []

/-- The first of two strings that is not empty. -/
def orElse (a b : GoString) : GoString := if a = [] then b else a

/-! ## Example data -/

/-- The trace identifier of the documentation example,
`1-58406520-a006649127e371903a2de979`; its embedded time is 1480615200. -/
def exampleTraceID : TraceID :=
  ⟨[0x58, 0x40, 0x65, 0x20, 0xa0, 0x06, 0x64, 0x91, 0x27, 0xe3, 0x71, 0x90, 0x3a, 0x2d, 0xe9,
    0x79], rfl⟩

/-- The empty span identifier: eight zero bytes. -/
def emptySpanID : SpanID := ⟨[0, 0, 0, 0, 0, 0, 0, 0], rfl⟩

/-- A span identifier that is not empty. -/
def exampleSpanID : SpanID := ⟨[0, 0, 0, 0, 0, 0, 0, 1], rfl⟩

/-- A span with the example trace identifier and the given parent, name, kind
and attributes; no events. -/
def exampleSpan (parent : SpanID) (name : GoString) (kind : SpanKind)
    (attributes : AttributeMap) : Span :=
  { TraceID := exampleTraceID
    SpanID := exampleSpanID
    ParentSpanID := parent
    Name := name
    Kind := kind
    StartTimestamp := 1480615200000000000
    EndTimestamp := 1480615201000000000
    Status := { Code := StatusCode.Unset, Message := [] }
    Attributes := attributes
    Events := [] }

/-- A name of 201 bytes: 199 times `a`, then `é` (two bytes, a letter). -/
def longName : GoString := List.replicate 199 0x61 ++ str "é"

/-- A name of 150 times `é` (U+00E9, the bytes C3 A9): 300 bytes, 150
characters, all of them letters. -/
def accentedName : GoString := (List.replicate 150 (str "é")).flatten

/-! ## Specification-side notions for the namespace -/

/-- The condition under which the specification sets the namespace to `aws`:
the `rpc.system` attribute equals `aws-api`, or `peer.service` is absent or
empty and the AWS-service attribute is present. -/
def awsNamespace (span : Span) : Prop :=
  attributeString span.Attributes AttributeRPCSystem = str "aws-api" ∨
    (attributeString span.Attributes AttributePeerService = [] ∧
      (span.Attributes.Get AWSServiceAttribute).isSome = true)

instance (span : Span) : Decidable (awsNamespace span) := by
  unfold awsNamespace
  infer_instance

/-- The namespace the specification resolves: `aws` under `awsNamespace`,
otherwise `remote` for a Client span, otherwise the empty string. -/
def namespaceSpec (span : Span) : GoString :=
  if awsNamespace span then str "aws"
  else if span.Kind = SpanKind.Client then str "remote"
  else []

/-! ## Specification-side notions for annotations and metadata -/

/-- An annotation value the specification admits: a string, a signed integer,
a double or a bool. -/
def Iface.isScalar : Iface → Bool
  | .string _ => true
  | .int _ => true
  | .double _ => true
  | .bool _ => true
  | _ => false

/-- A scalar attribute value: a string, an int, a double or a bool. -/
def Value.isScalar : Value → Bool
  | .string _ => true
  | .int _ => true
  | .double _ => true
  | .bool _ => true
  | _ => false

/-- An attribute value of one of the six types the translator stores: a
string, an int, a double, a bool, a map or a slice. -/
def Value.isSupported : Value → Bool
  | .string _ => true
  | .int _ => true
  | .double _ => true
  | .bool _ => true
  | .map _ => true
  | .slice _ => true
  | _ => false

/-- A character of `[0-9A-Za-z_]`. -/
def isAnnotationChar (b : Byte) : Bool :=
  (decide (0x30 ≤ b.val) && decide (b.val ≤ 0x39)) ||
  (decide (0x41 ≤ b.val) && decide (b.val ≤ 0x5A)) ||
  (decide (0x61 ≤ b.val) && decide (b.val ≤ 0x7A)) || decide (b.val = 0x5F)

/-- A rune of `[0-9A-Za-z]`. -/
def isAlphanumeric (r : Nat) : Bool :=
  (decide (0x30 ≤ r) && decide (r ≤ 0x39)) || (decide (0x41 ≤ r) && decide (r ≤ 0x5A)) ||
  (decide (0x61 ≤ r) && decide (r ≤ 0x7A))

/-- The sanitization of an annotation key as the specification words it: every
character outside `[0-9A-Za-z]` becomes `_`, the others stay. -/
def fixAnnotationKeySpec (key : GoString) : GoString :=
  (runes key).map (fun p => if isAlphanumeric p.1 then Fin.ofNat p.1 else 0x5F)

/-- The key under which a resource attribute is stored. -/
def resourceKey (k : GoString) : GoString := str "otel.resource." ++ k

/-- Whether a key is selected for indexing by the index configuration. -/
def selectedForIndexing (indexedAttrs : List GoString) (indexAllAttrs : Bool)
    (key : GoString) : Bool :=
  indexAllAttrs || decide (key ∈ indexedAttrs)

/-- The user `makeXRayAttributes` returns: the string of the end-user
identifier attribute, empty when it is absent. -/
def attributeUser (attributes : GoMap Value) : GoString :=
  match mapGet attributes AttributeEnduserID with
  | some userid => userid.StringVal
  | none => []

/-- The map `indexedKeys` of `makeXRayAttributes`. -/
def indexedKeysOf (indexedAttrs : List GoString) (indexAllAttrs : Bool) : GoMap Bool :=
  if !indexAllAttrs then indexedAttrs.foldl (fun m name => mapSet m name true) [] else []

/-- The state of `annotations` and `defaultMetadata` after the loops of
`makeXRayAttributes` over the resource attributes and the residual attributes
`rest`. -/
def attributesLoops (rest : GoMap Value) (resource : Resource) (storeResource : Bool)
    (indexedAttrs : List GoString) (indexAllAttrs : Bool) : AttributesLoop :=
  let st : AttributesLoop := { annotations := [], defaultMetadata := [] }
  let indexedKeys := indexedKeysOf indexedAttrs indexAllAttrs
  let st :=
    if storeResource then resource.Attributes.foldl (resourceRange indexAllAttrs indexedKeys) st
    else st
  if indexAllAttrs then rest.foldl indexAllRange st
  else rest.foldl (indexedRange indexedKeys) st

/-- Where an entry of `annotations` comes from: the sanitized key and the
scalar value of an attribute selected for indexing, either a residual
attribute or, for a root segment, a resource attribute under its prefixed
key. -/
def AnnotationFrom (rest : GoMap Value) (resource : Resource) (storeResource : Bool)
    (indexedAttrs : List GoString) (indexAllAttrs : Bool) (kv : GoString × Iface) : Prop :=
  ∃ k v, kv = (fixAnnotationKey k, annotationValue v) ∧ (annotationValue v).isNil = false ∧
    selectedForIndexing indexedAttrs indexAllAttrs k = true ∧
    ((k, v) ∈ rest ∨
      (storeResource = true ∧ ∃ k0, k = resourceKey k0 ∧ (k0, v) ∈ resource.Attributes))

/-- Where an entry of `defaultMetadata` comes from: the key and the converted
value of a residual attribute not selected for indexing or, for a root
segment, of a resource attribute under its prefixed key that is not both
scalar and selected. -/
def MetadataFrom (rest : GoMap Value) (resource : Resource) (storeResource : Bool)
    (indexedAttrs : List GoString) (indexAllAttrs : Bool) (kv : GoString × Iface) : Prop :=
  ∃ k v, kv = (k, metadataValue v) ∧ (metadataValue v).isNil = false ∧
    (((k, v) ∈ rest ∧ selectedForIndexing indexedAttrs indexAllAttrs k = false) ∨
      (storeResource = true ∧ ∃ k0, k = resourceKey k0 ∧ (k0, v) ∈ resource.Attributes ∧
        ¬ (v.isScalar = true ∧ selectedForIndexing indexedAttrs indexAllAttrs k = true)))

/-- The residual attributes `MakeSegment` passes to `makeXRayAttributes`: the
attributes of the span after the extractors for HTTP, cause, AWS and SQL. -/
def residualAttributes (env : Env) (span : Span) (resource : Resource) : GoMap Value :=
  (env.makeSQL (env.makeAws (env.makeCause span (makeHTTP env span).1 resource).2.2.2.1
    resource).1).1

/-! ## Example attributes -/

/-- A residual attribute map with an end-user identifier, two scalars, a
slice holding an empty value, a map and a bytes value. -/
def exampleAttributes : GoMap Value :=
  [(AttributeEnduserID, Value.string (str "alice")),
   (str "http.route", Value.string (str "/users")),
   (str "retries", Value.int 3),
   (str "tags", Value.slice [Value.string (str "a"), Value.empty]),
   (str "labels", Value.map [(str "team", Value.string (str "x")), (str "raw", Value.empty)]),
   (str "blob", Value.bytes [1, 2])]

/-- A resource with a service name, a map and a bytes value. -/
def exampleResource : Resource :=
  ⟨[(AttributeServiceName, Value.string (str "signup_aggregator")),
    (str "labels", Value.map [(str "team", Value.string (str "x"))]),
    (str "blob", Value.bytes [1, 2])]⟩

/-! ## Specification-side notions for the HTTP extraction -/

/-- The cases of the `switch` on the attribute key in `makeHTTP`: the fifteen
recognized keys in the order of the source, and `other` for the default
case. -/
inductive HTTPKey where
  | method
  | clientIP
  | userAgent
  | statusCode
  | url
  | scheme
  | host
  | target
  | serverName
  | netHostPort
  | hostName
  | netHostName
  | netPeerName
  | netPeerPort
  | netPeerIP
  | other
  deriving DecidableEq, Repr

/-- The case of the `switch` of `makeHTTP` an attribute key falls in. -/
def httpKey (key : GoString) : HTTPKey :=
  if key = AttributeHTTPMethod then .method
  else if key = AttributeHTTPClientIP then .clientIP
  else if key = AttributeHTTPUserAgent then .userAgent
  else if key = AttributeHTTPStatusCode then .statusCode
  else if key = AttributeHTTPURL then .url
  else if key = AttributeHTTPScheme then .scheme
  else if key = AttributeHTTPHost then .host
  else if key = AttributeHTTPTarget then .target
  else if key = AttributeHTTPServerName then .serverName
  else if key = AttributeNetHostPort then .netHostPort
  else if key = AttributeHostName then .hostName
  else if key = AttributeNetHostName then .netHostName
  else if key = AttributeNetPeerName then .netPeerName
  else if key = AttributeNetPeerPort then .netPeerPort
  else if key = AttributeNetPeerIP then .netPeerIP
  else .other

/-- The recognized keys of `makeHTTP`, as the specification lists them. -/
def recognizedKeys : List GoString :=
  [AttributeHTTPMethod, AttributeHTTPClientIP, AttributeHTTPUserAgent, AttributeHTTPStatusCode,
   AttributeHTTPURL, AttributeHTTPScheme, AttributeHTTPHost, AttributeHTTPTarget,
   AttributeHTTPServerName, AttributeNetHostPort, AttributeHostName, AttributeNetHostName,
   AttributeNetPeerName, AttributeNetPeerPort, AttributeNetPeerIP]

/-- The host-indicating keys, as the specification lists them: the keys the
URL builders read as the full URL or as the host. -/
def hostIndicatingKeys : List GoString :=
  [AttributeHTTPURL, AttributeHTTPHost, AttributeHTTPServerName, AttributeNetHostName,
   AttributeHostName, AttributeNetPeerName, AttributeNetPeerIP]

/-- The cases of the `switch` that set `hasHTTP`. -/
def HTTPKey.setsHasHTTP : HTTPKey → Bool
  | .method | .clientIP | .userAgent | .statusCode | .url | .scheme | .host | .target
  | .serverName | .netHostPort => true
  | _ => false

/-- The cases of the `switch` that set `hasHTTPRequestURLAttributes`. -/
def HTTPKey.setsURLAttributes : HTTPKey → Bool
  | .url | .host | .serverName | .hostName | .netHostName | .netPeerIP => true
  | _ => false

/-- The string the `switch` stores in `urlParts` under the key of the
attribute, if it stores one. -/
def HTTPKey.urlPart : HTTPKey → Value → Option GoString
  | .url, v | .scheme, v | .host, v | .target, v | .serverName, v | .hostName, v
  | .netHostName, v | .netPeerName, v | .netPeerIP, v => some v.StringVal
  | .netHostPort, v | .netPeerPort, v => some (portString v)
  | _, _ => none

/-- The effect of one attribute on the variable `info` of `makeHTTP`. -/
def infoStep (env : Env) (info : HTTPData) (kv : GoString × Value) : HTTPData :=
  match httpKey kv.1 with
  | .method =>
    { info with Request := { info.Request with Method := env.xrayString kv.2.StringVal } }
  | .clientIP =>
    { info with
      Request := { info.Request with
        ClientIP := env.xrayString kv.2.StringVal
        XForwardedFor := some true } }
  | .userAgent =>
    { info with Request := { info.Request with UserAgent := env.xrayString kv.2.StringVal } }
  | .statusCode =>
    { info with Response := { info.Response with Status := some kv.2.IntVal } }
  | .netPeerIP =>
    if info.Request.ClientIP.isNone then
      { info with Request := { info.Request with ClientIP := env.xrayString kv.2.StringVal } }
    else info
  | _ => info

/-- The effect of one attribute on the variable `filtered` of `makeHTTP`. -/
def filteredStep (filtered : GoMap Value) (kv : GoString × Value) : GoMap Value :=
  if httpKey kv.1 = .other then mapSet filtered kv.1 kv.2 else filtered

/-- The effect of one attribute on the variable `urlParts` of `makeHTTP`. -/
def urlPartsStep (urlParts : GoMap GoString) (kv : GoString × Value) : GoMap GoString :=
  match (httpKey kv.1).urlPart kv.2 with
  | some part => mapSet urlParts kv.1 part
  | none => urlParts

/-- The variable `info` of `makeHTTP` before the loop. -/
def emptyHTTPData : HTTPData :=
  { Request :=
      { Method := none, ClientIP := none, XForwardedFor := none, UserAgent := none, URL := none }
    Response := { Status := none, ContentLength := none } }

/-- The table `urlParts` that `makeHTTP` builds from the attributes. -/
def urlPartsOf (attributes : AttributeMap) : GoMap GoString :=
  attributes.foldl urlPartsStep []

/-- The residual map that `makeHTTP` builds from the attributes. -/
def filteredOf (attributes : AttributeMap) : GoMap Value :=
  attributes.foldl filteredStep []

/-- The value of the first present key among `keys` in a URL-parts table,
empty if none is present. -/
def firstPresent (urlParts : GoMap GoString) (keys : List GoString) : GoString :=
  match keys.findSome? (fun k => mapGet urlParts k) with
  | some v => v
  | none => []

/-- Whether a port is the default port of the scheme: 80 for http, 443 for
https. -/
def isDefaultPort (scheme port : GoString) : Prop :=
  (scheme = str "http" ∧ port = str "80") ∨ (scheme = str "https" ∧ port = str "443")

instance (scheme port : GoString) : Decidable (isDefaultPort scheme port) := by
  unfold isDefaultPort
  infer_instance

/-- The port part of a reconstructed URL as the specification words it:
`":" ++ p` when `http.host` is absent and the port `p` under `portKey` is not
empty and not the default port of the scheme, else empty. -/
def portPart (urlParts : GoMap GoString) (portKey scheme : GoString) : GoString :=
  match mapGet urlParts AttributeHTTPHost with
  | some _ => []
  | none =>
    if (mapGet urlParts portKey).getD [] ≠ [] ∧
        ¬ isDefaultPort scheme ((mapGet urlParts portKey).getD []) then
      str ":" ++ (mapGet urlParts portKey).getD []
    else []

/-- The scheme of a reconstructed URL: `http.scheme`, or `http` if absent. -/
def schemeOf (urlParts : GoMap GoString) : GoString :=
  (mapGet urlParts AttributeHTTPScheme).getD (str "http")

/-- The target of a reconstructed URL: `http.target`, or `/` if absent. -/
def targetOf (urlParts : GoMap GoString) : GoString :=
  (mapGet urlParts AttributeHTTPTarget).getD (str "/")

/-- The URL of a Server span as the specification assembles it. -/
def serverURLSpec (urlParts : GoMap GoString) : GoString :=
  schemeOf urlParts ++ str "://" ++
    firstPresent urlParts
      [AttributeHTTPHost, AttributeHTTPServerName, AttributeNetHostName, AttributeHostName] ++
    portPart urlParts AttributeNetHostPort (schemeOf urlParts) ++ targetOf urlParts

/-- The URL of a span of any other kind as the specification assembles it. -/
def clientURLSpec (urlParts : GoMap GoString) : GoString :=
  schemeOf urlParts ++ str "://" ++
    firstPresent urlParts [AttributeHTTPHost, AttributeNetPeerName, AttributeNetPeerIP] ++
    portPart urlParts AttributeNetPeerPort (schemeOf urlParts) ++ targetOf urlParts

/-- Whether some attribute falls in a case of the `switch` that sets
`hasHTTP`. -/
def hasHTTPOf (attributes : AttributeMap) : Bool :=
  attributes.any (fun kv => (httpKey kv.1).setsHasHTTP)

/-- Whether some attribute falls in a case of the `switch` that sets
`hasHTTPRequestURLAttributes`. -/
def hasURLAttributesOf (attributes : AttributeMap) : Bool :=
  attributes.any (fun kv => (httpKey kv.1).setsURLAttributes)

/-- The variable `info` of `makeHTTP` after the loop over the attributes. -/
def infoOf (env : Env) (attributes : AttributeMap) : HTTPData :=
  attributes.foldl (infoStep env) emptyHTTPData

/-- The URL `makeHTTP` reconstructs for a span: the Server builder for a
Server span, the client builder for every other kind. -/
def reconstructedURL (span : Span) : GoString :=
  if span.Kind = SpanKind.Server then constructServerURL (urlPartsOf span.Attributes)
  else constructClientURL (urlPartsOf span.Attributes)

/-- The steps of `makeHTTP` after the loop: the URL, when a case set
`hasHTTPRequestURLAttributes`, and the content length. -/
def finishHTTP (env : Env) (span : Span) (info : HTTPData) : HTTPData :=
  { Request :=
      { info.Request with
        URL :=
          if hasURLAttributesOf span.Attributes then env.xrayString (reconstructedURL span)
          else info.Request.URL }
    Response :=
      { info.Response with ContentLength := some (extractResponseSizeFromEvents span) } }

/-- The key of a case of the `switch` of `makeHTTP`; the default case has
none. -/
def HTTPKey.key : HTTPKey → Option GoString
  | .method => some AttributeHTTPMethod
  | .clientIP => some AttributeHTTPClientIP
  | .userAgent => some AttributeHTTPUserAgent
  | .statusCode => some AttributeHTTPStatusCode
  | .url => some AttributeHTTPURL
  | .scheme => some AttributeHTTPScheme
  | .host => some AttributeHTTPHost
  | .target => some AttributeHTTPTarget
  | .serverName => some AttributeHTTPServerName
  | .netHostPort => some AttributeNetHostPort
  | .hostName => some AttributeHostName
  | .netHostName => some AttributeNetHostName
  | .netPeerName => some AttributeNetPeerName
  | .netPeerPort => some AttributeNetPeerPort
  | .netPeerIP => some AttributeNetPeerIP
  | .other => none

/-- The port attribute of a span kind: `net.host.port` for a Server span,
`net.peer.port` for every other kind. -/
def portKeyOf (kind : SpanKind) : GoString :=
  if kind = SpanKind.Server then AttributeNetHostPort else AttributeNetPeerPort

/-- The host keys of a span kind in the order the URL builder of the kind
reads them. -/
def hostKeysOf (kind : SpanKind) : List GoString :=
  if kind = SpanKind.Server then
    [AttributeHTTPHost, AttributeHTTPServerName, AttributeNetHostName, AttributeHostName]
  else [AttributeHTTPHost, AttributeNetPeerName, AttributeNetPeerIP]

/-- The port of a span as `makeHTTP` records it: the string of the last port
attribute of the kind (a later attribute with the key overwrites the entry of
an earlier one), or its integer in decimal when the string is empty; empty
when the span has no such attribute. -/
def recordedPort (span : Span) : GoString :=
  ((span.Attributes.GetLast (portKeyOf span.Kind)).map portString).getD []

/-- The reconstructed URL up to the host: scheme, `://` and host. -/
def urlFront (span : Span) : GoString :=
  schemeOf (urlPartsOf span.Attributes) ++ str "://" ++
    firstPresent (urlPartsOf span.Attributes) (hostKeysOf span.Kind)

/-! ## Example data for the HTTP extraction -/

/-- A URL-parts table with a full URL next to parts that would assemble to
another one. -/
def fullURLParts : GoMap GoString :=
  [(AttributeHTTPScheme, str "http"), (AttributeHTTPHost, str "other.example.com"),
   (AttributeHTTPURL, str "https://api.example.com/users/x"),
   (AttributeNetPeerPort, str "8080"), (AttributeNetHostPort, str "9090"),
   (AttributeHTTPTarget, str "/ignored")]

/-- The URL-parts table of the example of the specification for a Server
span. -/
def serverURLParts : GoMap GoString :=
  [(AttributeHTTPScheme, str "https"), (AttributeHTTPHost, str "h:80"),
   (AttributeHTTPTarget, str "/foo")]

/-- A URL-parts table of a Server span without `http.host`: a host name and a
port that is not the default of the scheme. -/
def serverNameParts : GoMap GoString :=
  [(AttributeNetHostName, str "h"), (AttributeNetHostPort, str "8080")]

/-- A URL-parts table of a client span without `http.host`: both peer
attributes, the default port of the scheme and a target. -/
def clientPeerParts : GoMap GoString :=
  [(AttributeHTTPScheme, str "https"), (AttributeNetPeerIP, str "10.8.17.36"),
   (AttributeNetPeerName, str "kb234.example.com"), (AttributeNetPeerPort, str "443"),
   (AttributeHTTPTarget, str "/users/junit")]

/-- Attributes outside the recognized keys of `makeHTTP`. -/
def plainAttributes : AttributeMap :=
  [(str "rpc.system", .string (str "grpc")), (str "retries", .int 3)]

/-- Attributes of which two are recognized keys of `makeHTTP` and two are
not. -/
def mixedAttributes : AttributeMap :=
  [(str "rpc.system", .string (str "grpc")), (AttributeHTTPMethod, .string (str "GET")),
   (str "retries", .int 3), (AttributeNetPeerPort, .int 8080)]

/-- The attributes of a client span to a named peer: a method and
`net.peer.name`. -/
def peerNameAttributes : AttributeMap :=
  [(AttributeHTTPMethod, .string (str "GET")), (AttributeNetPeerName, .string (str "example.com"))]

/-- The attributes of a client span to a peer address: a method and
`net.peer.ip`. -/
def peerIPAttributes : AttributeMap :=
  [(AttributeHTTPMethod, .string (str "GET")), (AttributeNetPeerIP, .string (str "10.0.0.1"))]

/-- Attributes with an empty `http.client_ip` before `net.peer.ip`. -/
def emptyClientIPAttributes : AttributeMap :=
  [(AttributeHTTPMethod, .string (str "GET")), (AttributeHTTPClientIP, .string []),
   (AttributeNetPeerIP, .string (str "10.0.0.1"))]

/-- Attributes with `net.peer.ip` before a non-empty `http.client_ip`. -/
def forwardedAttributes : AttributeMap :=
  [(AttributeNetPeerIP, .string (str "10.0.0.1")), (AttributeHTTPMethod, .string (str "GET")),
   (AttributeHTTPClientIP, .string (str "192.168.15.32"))]

/-- The attributes of a Server span with `http.host` and a port that is not
the default of the scheme. -/
def hostPortAttributes : AttributeMap :=
  [(AttributeHTTPMethod, .string (str "GET")), (AttributeHTTPHost, .string (str "h")),
   (AttributeNetHostPort, .int 8080)]

/-- The attributes of a Server span without `http.host`: a host name and a
port that is not the default of the scheme. -/
def namePortAttributes : AttributeMap :=
  [(AttributeHTTPMethod, .string (str "GET")), (AttributeNetHostName, .string (str "h")),
   (AttributeNetHostPort, .int 8080)]

/-- The attributes of the client span of the example of the specification. -/
def clientExampleAttributes : AttributeMap :=
  [(AttributeHTTPMethod, .string (str "GET")),
   (AttributeHTTPURL, .string (str "https://api.example.com/users/x")),
   (AttributeHTTPStatusCode, .int 200)]

/-- Attributes outside the recognized keys of `makeHTTP` with a repeated
key. -/
def repeatedAttributes : AttributeMap :=
  [(str "retries", .int 1), (str "retries", .int 2)]

/-- Attributes with a recognized key of `makeHTTP` and a repeated key outside
the recognized ones. -/
def repeatedMixedAttributes : AttributeMap :=
  [(AttributeHTTPMethod, .string (str "GET")), (str "retries", .int 1),
   (str "retries", .int 2)]

/-- The entries of a map value with a repeated key. -/
def repeatedKeyEntries : List (GoString × Value) :=
  [(str "a", .int 1), (str "a", .int 2)]

/-- The attributes of a Server span without `http.host` whose port attribute
is repeated: 8080, and then the default port of `http`. -/
def repeatedPortAttributes : AttributeMap :=
  [(AttributeHTTPMethod, .string (str "GET")), (AttributeNetHostName, .string (str "h")),
   (AttributeNetHostPort, .int 8080), (AttributeNetHostPort, .int 80)]

/-! ## Specification-side notions for the content length and the origin -/

/-- The payload size of an attribute map as the specification words it: the
value of the payload-size attribute when the map has `message.type` equal to
`RECEIVED` and carries a payload-size attribute. -/
def payloadSize (attributes : AttributeMap) : Option Int :=
  match attributes.Get (str "message.type"),
      attributes.Get AttributeMessagingMessagePayloadSizeBytes with
  | some typeVal, some sizeVal =>
    if typeVal.StringVal = str "RECEIVED" then some sizeVal.IntVal else none
  | _, _ => none

/-- The content length as the specification words it: the payload size of the
attributes of the span, otherwise that of the first event that has one, and 0
if neither exists. -/
def contentLengthSpec (span : Span) : Int :=
  match payloadSize span.Attributes with
  | some size => size
  | none => (span.Events.findSome? (fun event => payloadSize event.Attributes)).getD 0

/-- The payload size of an attribute map when it is not 0. -/
def nonZeroPayloadSize (attributes : AttributeMap) : Option Int :=
  (payloadSize attributes).filter (fun size => decide (size ≠ 0))

/-- The content length with payload sizes of 0 passed over: the non-zero
payload size of the attributes of the span, otherwise that of the first event
that has one, and 0 if neither exists. -/
def contentLengthNonZero (span : Span) : Int :=
  match nonZeroPayloadSize span.Attributes with
  | some size => size
  | none => (span.Events.findSome? (fun event => nonZeroPayloadSize event.Attributes)).getD 0

/-- The five AWS platforms `determineAwsOrigin` knows. -/
def awsPlatforms : List GoString :=
  [AttributeCloudPlatformAWSAppRunner, AttributeCloudPlatformAWSEKS,
   AttributeCloudPlatformAWSElasticBeanstalk, AttributeCloudPlatformAWSECS,
   AttributeCloudPlatformAWSEC2]

/-- The seven `Origin` constants of `segment.go`. -/
def originConstants : List GoString :=
  [OriginEC2, OriginECS, OriginECSEC2, OriginECSFargate, OriginEB, OriginEKS, OriginAppRunner]

/-- The origin of a resource on the ECS platform as the specification words
it, from the launch type. -/
def ecsOrigin (resource : Resource) : GoString :=
  match resource.Attributes.Get AttributeAWSECSLaunchtype with
  | some lt =>
    if lt.StringVal = AttributeAWSECSLaunchtypeEC2 then OriginECSEC2
    else if lt.StringVal = AttributeAWSECSLaunchtypeFargate then OriginECSFargate
    else OriginECS
  | none => OriginECS

/-! ## The segment document (`segment.go`) -/

/-- Modelled from the spec: the pool `writers` of `writer_pool.go`, which is
not among the sources, as far as borrowing and releasing go: the number of
writers borrowed and the number released so far. -/
structure WriterPool where
  /-- The number of calls of `borrow`. -/
  borrows : Nat
  /-- The number of calls of `release`. -/
  releases : Nat
  deriving DecidableEq, Repr

/-- The method `borrow` of the pool. -/
def WriterPool.borrow (writers : WriterPool) : WriterPool :=
  { writers with borrows := writers.borrows + 1 }

/-- The method `release` of the pool. -/
def WriterPool.release (writers : WriterPool) : WriterPool :=
  { writers with releases := writers.releases + 1 }

/-- The function `MakeSegmentDocumentString` of `segment.go`, with the pool
`writers` passed through; `encode` is `w.Encode` followed by `w.String`, which
fails when the segment has no JSON encoding. -/
def MakeSegmentDocumentString (env : Env) (encode : Segment env → Except GoString GoString)
    (epochNow : Int) (span : Span) (resource : Resource) (indexedAttrs : List GoString)
    (indexAllAttrs : Bool) (writers : WriterPool) : Except GoString GoString × WriterPool :=
  match MakeSegment env epochNow span resource indexedAttrs indexAllAttrs with
  | .error err => (.error err, writers)
  | .ok segment =>
    let writers := writers.borrow
    match encode segment with
    | .error err => (.error err, writers)
    | .ok jsonStr => (.ok jsonStr, writers.release)

/-! ## Example data for the content length and the lost attributes -/

/-- A span with a block, whose own payload size is 0 and whose event has the
payload size 5. -/
def zeroSizeSpan : Span :=
  { exampleSpan exampleSpanID (str "GET") SpanKind.Client
      [(AttributeHTTPMethod, .string (str "GET")),
       (str "message.type", .string (str "RECEIVED")),
       (AttributeMessagingMessagePayloadSizeBytes, .int 0)] with
    Events :=
      [{ Name := str "message", Timestamp := 1480615200500000000, Attributes :=
          [(str "message.type", .string (str "RECEIVED")),
           (AttributeMessagingMessagePayloadSizeBytes, .int 5)] }] }

/-- A span with a block and two events with payload sizes 7 and 9. -/
def twoEventsSpan : Span :=
  { exampleSpan exampleSpanID (str "GET") SpanKind.Client
      [(AttributeHTTPMethod, .string (str "GET"))] with
    Events :=
      [{ Name := str "sent", Timestamp := 1480615200400000000, Attributes :=
          [(str "message.type", .string (str "SENT")),
           (AttributeMessagingMessagePayloadSizeBytes, .int 3)] },
       { Name := str "first", Timestamp := 1480615200500000000, Attributes :=
          [(str "message.type", .string (str "RECEIVED")),
           (AttributeMessagingMessagePayloadSizeBytes, .int 7)] },
       { Name := str "second", Timestamp := 1480615200600000000, Attributes :=
          [(str "message.type", .string (str "RECEIVED")),
           (AttributeMessagingMessagePayloadSizeBytes, .int 9)] }] }

/-- A resource on ECS with the Fargate launch type. -/
def fargateResource : Resource :=
  ⟨[(AttributeCloudProvider, .string (str "aws")),
    (AttributeCloudPlatform, .string (str "aws_ecs")),
    (AttributeAWSECSLaunchtype, .string (str "fargate"))]⟩

/-- The attributes that `makeHTTP` stores in `urlParts` without setting
`hasHTTP`, each alone in an attribute map. -/
def lostAttributes : List AttributeMap :=
  [[(AttributeNetPeerName, .string (str "x"))], [(AttributeNetPeerPort, .int 8080)],
   [(AttributeNetPeerIP, .string (str "10.0.0.1"))], [(AttributeHostName, .string (str "x"))],
   [(AttributeNetHostName, .string (str "x"))]]

/-- An encoder that fails on every segment. -/
def failingEncode (env : Env) : Segment env → Except GoString GoString :=
  fun _ => .error (str "json: unsupported value: NaN")

/-! ## Watermarks (`watermark.go`, package `googlecloudpubsubexporter`) -/

/-- A `time.Time` as an instant: the nanoseconds since the epoch. -/
abbrev Time := Int

/-- The method `Timestamp.AsTime` of `pdata`: a `pdata.Timestamp` holds the
nanoseconds since the epoch in a `uint64`, which `time.Unix(0, int64(ts))`
reads as an `int64`. -/
def AsTime (timestamp : Nat) : Time := wrapInt64 timestamp

/-- The type `collector` of `watermark.go`; the duration `allowedDrift` is in
nanoseconds. -/
structure collector where
  /-- The system clock time at the start of the traversal. -/
  processingTime : Time
  /-- The maximum allowed difference to `processingTime`. -/
  allowedDrift : Int
  /-- The calculated time. -/
  calculatedTime : Time
  deriving DecidableEq, Repr

/-- The method `collector.earliest` of `watermark.go`: the collector after the
call and the result of the call. -/
def collector.earliest (c : collector) (timestamp : Nat) : collector × Bool :=
  let t := AsTime timestamp
  if t < c.calculatedTime then
    let min := c.processingTime + -c.allowedDrift
    if t < min then ({ c with calculatedTime := min }, true)
    else ({ c with calculatedTime := t }, false)
  else (c, false)

/-- A loop `for i := 0; i < xs.Len(); i++` whose body may make the enclosing
function return: the state after the loop and whether the function has
returned. -/
def rangeReturn {α σ : Type} (body : α → σ → σ × Bool) : List α → σ → σ × Bool
  | [], s => (s, false)
  | x :: rest, s =>
    let r := body x s
    if r.2 then (r.1, true) else rangeReturn body rest r.1

/-- The type `pdata.LogRecord`, as far as `watermark.go` reads it. -/
structure LogRecord where
  /-- The time of the record, a `pdata.Timestamp`. -/
  Timestamp : Nat

/-- The type `pdata.ScopeLogs`. -/
structure ScopeLogs where
  /-- The log records. -/
  LogRecords : List LogRecord

/-- The type `pdata.ResourceLogs`. -/
structure ResourceLogs where
  /-- The logs by scope. -/
  ScopeLogs : List XRay.ScopeLogs

/-- The type `pdata.Logs`. -/
structure Logs where
  /-- The logs by resource. -/
  ResourceLogs : List XRay.ResourceLogs

/-- A data point of a metric, as far as `watermark.go` reads it. -/
structure DataPoint where
  /-- The time of the data point, a `pdata.Timestamp`. -/
  Timestamp : Nat

/-- The type `pdata.Metric` by its data type, with the data points of that
type. -/
inductive Metric where
  | None
  | Gauge (dataPoints : List DataPoint)
  | Sum (dataPoints : List DataPoint)
  | Histogram (dataPoints : List DataPoint)
  | ExponentialHistogram (dataPoints : List DataPoint)
  | Summary (dataPoints : List DataPoint)

/-- The type `pdata.ScopeMetrics`. -/
structure ScopeMetrics where
  /-- The metrics. -/
  Metrics : List Metric

/-- The type `pdata.ResourceMetrics`. -/
structure ResourceMetrics where
  /-- The metrics by scope. -/
  ScopeMetrics : List XRay.ScopeMetrics

/-- The type `pdata.Metrics`. -/
structure Metrics where
  /-- The metrics by resource. -/
  ResourceMetrics : List XRay.ResourceMetrics

/-- The type `pdata.ScopeSpans`. -/
structure ScopeSpans where
  /-- The spans. -/
  Spans : List Span

/-- The type `pdata.ResourceSpans`. -/
structure ResourceSpans where
  /-- The resource. -/
  Resource : XRay.Resource
  /-- The spans by scope. -/
  ScopeSpans : List XRay.ScopeSpans

/-- The type `pdata.Traces`. -/
structure Traces where
  /-- The spans by resource. -/
  ResourceSpans : List XRay.ResourceSpans

/-- The function `traverseMetrics` of `watermark.go`, with the state of the
collector passed through `collect`. -/
def traverseMetrics {σ : Type} (metrics : Metrics) (collect : Nat → σ → σ × Bool) (s : σ) : σ :=
  (rangeReturn (fun (r : ResourceMetrics) =>
    rangeReturn (fun (l : ScopeMetrics) =>
      rangeReturn (fun (d : Metric) =>
        match d with
        | .Histogram dataPoints =>
          rangeReturn (fun (p : DataPoint) => collect p.Timestamp) dataPoints
        | .ExponentialHistogram dataPoints =>
          rangeReturn (fun (p : DataPoint) => collect p.Timestamp) dataPoints
        | .Sum dataPoints =>
          rangeReturn (fun (p : DataPoint) => collect p.Timestamp) dataPoints
        | .Gauge dataPoints =>
          rangeReturn (fun (p : DataPoint) => collect p.Timestamp) dataPoints
        | .Summary dataPoints =>
          rangeReturn (fun (p : DataPoint) => collect p.Timestamp) dataPoints
        | .None => fun s => (s, false))
        l.Metrics)
      r.ScopeMetrics)
    metrics.ResourceMetrics s).1

/-- The function `earliestMetricsWatermark` of `watermark.go`. -/
def earliestMetricsWatermark (metrics : Metrics) (processingTime : Time) (allowedDrift : Int) :
    Time :=
  let c : collector :=
    { processingTime := processingTime
      allowedDrift := allowedDrift
      calculatedTime := processingTime }
  (traverseMetrics metrics (fun timestamp c => c.earliest timestamp) c).calculatedTime

/-- The function `traverseLogs` of `watermark.go`. -/
def traverseLogs {σ : Type} (logs : Logs) (collect : Nat → σ → σ × Bool) (s : σ) : σ :=
  (rangeReturn (fun (r : ResourceLogs) =>
    rangeReturn (fun (l : ScopeLogs) =>
      rangeReturn (fun (d : LogRecord) => collect d.Timestamp) l.LogRecords)
      r.ScopeLogs)
    logs.ResourceLogs s).1

/-- The function `earliestLogsWatermark` of `watermark.go`. -/
def earliestLogsWatermark (logs : Logs) (processingTime : Time) (allowedDrift : Int) : Time :=
  let c : collector :=
    { processingTime := processingTime
      allowedDrift := allowedDrift
      calculatedTime := processingTime }
  (traverseLogs logs (fun timestamp c => c.earliest timestamp) c).calculatedTime

/-- The function `traverseTraces` of `watermark.go`. -/
def traverseTraces {σ : Type} (traces : Traces) (collect : Nat → σ → σ × Bool) (s : σ) : σ :=
  (rangeReturn (fun (r : ResourceSpans) =>
    rangeReturn (fun (l : ScopeSpans) =>
      rangeReturn (fun (d : Span) => collect d.StartTimestamp) l.Spans)
      r.ScopeSpans)
    traces.ResourceSpans s).1

/-- The function `earliestTracesWatermark` of `watermark.go`. -/
def earliestTracesWatermark (traces : Traces) (processingTime : Time) (allowedDrift : Int) :
    Time :=
  let c : collector :=
    { processingTime := processingTime
      allowedDrift := allowedDrift
      calculatedTime := processingTime }
  (traverseTraces traces (fun timestamp c => c.earliest timestamp) c).calculatedTime

/-! ## Specification-side notions for the watermarks -/

/-- The timestamps of the log records in the order of the traversal. -/
def Logs.timestamps (logs : Logs) : List Nat :=
  logs.ResourceLogs.flatMap (fun r =>
    r.ScopeLogs.flatMap (fun l => l.LogRecords.map (fun d => d.Timestamp)))

/-- The data points of a metric. -/
def Metric.dataPoints : Metric → List DataPoint
  | .None => []
  | .Gauge dataPoints => dataPoints
  | .Sum dataPoints => dataPoints
  | .Histogram dataPoints => dataPoints
  | .ExponentialHistogram dataPoints => dataPoints
  | .Summary dataPoints => dataPoints

/-- The timestamps of the data points in the order of the traversal. -/
def Metrics.timestamps (metrics : Metrics) : List Nat :=
  metrics.ResourceMetrics.flatMap (fun r =>
    r.ScopeMetrics.flatMap (fun l =>
      l.Metrics.flatMap (fun d => d.dataPoints.map (fun p => p.Timestamp))))

/-- The start timestamps of the spans in the order of the traversal. -/
def Traces.timestamps (traces : Traces) : List Nat :=
  traces.ResourceSpans.flatMap (fun r =>
    r.ScopeSpans.flatMap (fun l => l.Spans.map (fun d => d.StartTimestamp)))

/-- The earlier of a time and the earliest of the timestamps. -/
def earliestOf (time : Time) (timestamps : List Nat) : Time :=
  timestamps.foldl (fun t timestamp => min t (AsTime timestamp)) time

/-- The watermark as the specification words it: the earlier of the
processing time and the earliest timestamp, but not before the processing time
less the allowed drift. -/
def watermarkSpec (timestamps : List Nat) (processingTime : Time) (allowedDrift : Int) : Time :=
  max (earliestOf processingTime timestamps) (processingTime - allowedDrift)

/-- The calculated time after every timestamp has been given to
`collector.earliest`, whatever the calls return. -/
def traverseAll (timestamps : List Nat) (processingTime : Time) (allowedDrift : Int) : Time :=
  (timestamps.foldl (fun c timestamp => (collector.earliest c timestamp).1)
    ({ processingTime := processingTime
       allowedDrift := allowedDrift
       calculatedTime := processingTime } : collector)).calculatedTime

/-- Example logs: two resources, the second with a record older than the
allowed drift before later records. -/
def exampleLogs : Logs :=
  ⟨[⟨[⟨[⟨1000⟩, ⟨990⟩]⟩, ⟨[]⟩]⟩, ⟨[⟨[⟨700⟩, ⟨995⟩]⟩, ⟨[⟨600⟩]⟩]⟩]⟩

/-! ## The equality of attribute values (package `pdata`) -/

mutual
/-- The method `Value.Equal` of `pdata`, `v.Equal(av)`, for two values held in
different places (for one and the same place it answers true at once). The
method belongs to the library and is not among the sources; this is its
documented behaviour: values of different types differ, two empty values are
equal, scalars and bytes are compared by value (doubles as `float64`, so that
a NaN differs from itself), two slices are compared element by element, and
two maps with the same number of entries entry by entry. -/
def Value.Equal : Value → Value → Bool
  | .empty, av => match av with
    | .empty => true
    | _ => false
  | .string s, av => match av with
    | .string t => decide (s = t)
    | _ => false
  | .bool b, av => match av with
    | .bool c => decide (b = c)
    | _ => false
  | .int i, av => match av with
    | .int j => decide (i = j)
    | _ => false
  | .double d, av => match av with
    | .double e => d == e
    | _ => false
  | .slice vv, av => match av with
    | .slice avv => if vv.length ≠ avv.length then false else Value.equalSlice vv avv
    | _ => false
  | .map cc, av => match av with
    | .map avv => if cc.length ≠ avv.length then false else Value.equalMap cc avv
    | _ => false
  | .bytes b, av => match av with
    | .bytes c => decide (b = c)
    | _ => false
termination_by structural v => v
/-- The loop of the slice case of `Value.Equal` over the elements `vv` of the
receiver and `avv` of the argument, which have the same length: an element of
the receiver that is a slice or a map ends it with false (array values are
taken to be scalars), and so does the first pair of elements that differ. -/
def Value.equalSlice : List Value → List Value → Bool
  | [], _ => true
  | _ :: _, [] => true
  | newAv :: vv, val :: avv =>
    match newAv with
    | .slice _ => false
    | .map _ => false
    | _ => if !Value.Equal newAv val then false else Value.equalSlice vv avv
termination_by structural vv => vv
/-- The loop of the map case of `Value.Equal` over the entries `cc` of the
receiver: the key is looked up in the map `am` of the argument, and the value
found there is compared with the value of the entry, the entry being the
argument of that comparison. -/
def Value.equalMap : List (GoString × Value) → AttributeMap → Bool
  | [], _ => true
  | (key, value) :: cc, am =>
    match AttributeMap.Get am key with
    | some newAv => if !Value.EqualTo value newAv then false else Value.equalMap cc am
    | none => false
termination_by structural cc => cc
/-- The method `Value.Equal` with the argument first: `Value.EqualTo av v` is
`v.Equal(av)`. The map case of `Value.Equal` compares a value of the argument,
as receiver, with a value of the receiver, as argument; with the two orders of
the arguments the recursion descends into one and the same value. -/
def Value.EqualTo : Value → Value → Bool
  | .empty, v => match v with
    | .empty => true
    | _ => false
  | .string t, v => match v with
    | .string s => decide (s = t)
    | _ => false
  | .bool c, v => match v with
    | .bool b => decide (b = c)
    | _ => false
  | .int j, v => match v with
    | .int i => decide (i = j)
    | _ => false
  | .double e, v => match v with
    | .double d => d == e
    | _ => false
  | .slice avv, v => match v with
    | .slice vv => if vv.length ≠ avv.length then false else Value.equalSliceTo avv vv
    | _ => false
  | .map avv, v => match v with
    | .map cc =>
      if cc.length ≠ avv.length then false
      else cc.all (fun val => Value.lookupEqual avv val.1 val.2)
    | _ => false
  | .bytes c, v => match v with
    | .bytes b => decide (b = c)
    | _ => false
termination_by structural av => av
/-- The loop of the slice case of `Value.Equal`, the elements `avv` of the
argument first. -/
def Value.equalSliceTo : List Value → List Value → Bool
  | [], _ => true
  | _ :: _, [] => true
  | val :: avv, newAv :: vv =>
    match newAv with
    | .slice _ => false
    | .map _ => false
    | _ => if !Value.EqualTo val newAv then false else Value.equalSliceTo avv vv
termination_by structural avv => avv
/-- One step of the loop of the map case of `Value.Equal`, the map `am` of the
argument first: `am.Get(key)`, and the comparison of the value found with
`value`; false when the key is not found. -/
def Value.lookupEqual : List (GoString × Value) → GoString → Value → Bool
  | [], _, _ => false
  | (k, newAv) :: am, key, value =>
    if k = key then Value.Equal newAv value else Value.lookupEqual am key value
termination_by structural am => am
end

/-! ## Grouping by attributes (`attribute_groups.go`, package `groupbyattrsprocessor`) -/

/-- The method `Map.Upsert` of `pdata`: the value of an existing key is
replaced, a new key is added at the end. -/
def AttributeMap.Upsert (m : AttributeMap) (k : GoString) (v : Value) : AttributeMap :=
  mapSet m k v

/-- The function `buildReferenceAttributes` of `attribute_groups.go`. -/
def buildReferenceAttributes (originResource : Resource) (requiredAttributes : AttributeMap) :
    AttributeMap :=
  let referenceAttributes : AttributeMap := originResource.Attributes
  requiredAttributes.foldl (fun referenceAttributes kv => referenceAttributes.Upsert kv.1 kv.2)
    referenceAttributes

/-- The `Range` over the reference attributes in `resourceMatches`, which
stops at the first difference; `equal` is the method `Value.Equal` of `pdata`,
which is not among the sources: a parameter, of which `Value.Equal` above is
the instance for the library as it is. -/
def resourceMatchesRange (equal : Value → Value → Bool) (resource : Resource) :
    AttributeMap → Bool → Bool
  | [], matching => matching
  | (referenceKey, referenceValue) :: rest, matching =>
    match resource.Attributes.Get referenceKey with
    | some testedValue =>
      if !equal referenceValue testedValue then false
      else resourceMatchesRange equal resource rest matching
    | none => false

/-- The function `resourceMatches` of `attribute_groups.go`. -/
def resourceMatches (equal : Value → Value → Bool) (resource : Resource)
    (referenceAttributes : AttributeMap) : Bool :=
  -- If not the same number of attributes, it doesn't match
  if referenceAttributes.Len ≠ resource.Attributes.Len then false
  else resourceMatchesRange equal resource referenceAttributes true

/-- The type `spansGroupedByAttrs` of `attribute_groups.go`: a slice of
`pdata.ResourceSpans`. -/
abbrev spansGroupedByAttrs := List ResourceSpans

/-- The loop of `findResource` from the index `i` on. -/
def findResourceFrom (equal : Value → Value → Bool) (referenceAttributes : AttributeMap) :
    List ResourceSpans → Nat → Option Nat
  | [], _ => none
  | r :: rest, i =>
    if resourceMatches equal r.Resource referenceAttributes then some i
    else findResourceFrom equal referenceAttributes rest (i + 1)

/-- The method `spansGroupedByAttrs.findResource` of `attribute_groups.go`:
the index of the entry it returns, if it finds one. -/
def spansGroupedByAttrs.findResource (equal : Value → Value → Bool) (sgba : spansGroupedByAttrs)
    (referenceAttributes : AttributeMap) : Option Nat :=
  findResourceFrom equal referenceAttributes sgba 0

/-- The function `updateResourceToMatch` of `attribute_groups.go`: the new
resource after the call. -/
def updateResourceToMatch (_newResource originResource : Resource)
    (requiredAttributes : AttributeMap) : Resource :=
  let newResource : Resource := originResource
  -- This prioritizes required attributes over the original resource attributes
  ⟨requiredAttributes.foldl (fun attrs kv => attrs.Upsert kv.1 kv.2) newResource.Attributes⟩

/-- The method `spansGroupedByAttrs.findOrCreateResource` of
`attribute_groups.go`: the index of the entry it returns and the slice after
the call. -/
def spansGroupedByAttrs.findOrCreateResource (equal : Value → Value → Bool)
    (sgba : spansGroupedByAttrs) (originResource : Resource) (requiredAttributes : AttributeMap) :
    Nat × spansGroupedByAttrs :=
  let referenceAttributes := buildReferenceAttributes originResource requiredAttributes
  match sgba.findResource equal referenceAttributes with
  | some i => (i, sgba)
  | none =>
    let resource : ResourceSpans := { Resource := ⟨[]⟩, ScopeSpans := [] }
    (sgba.length,
      sgba ++
        [{ resource with
            Resource := updateResourceToMatch resource.Resource originResource
              requiredAttributes }])

/-! ## Specification-side notions for the grouping -/

/-- Two attribute maps are equal as the specification words it: the same key
set and, under `equal`, an equal value for every key. -/
def sameAttributes (equal : Value → Value → Bool) (a b : AttributeMap) : Prop :=
  (∀ k, (a.Get k).isSome = (b.Get k).isSome) ∧
    ∀ k v w, a.Get k = some v → b.Get k = some w → equal v w = true

/-- No entry of the group matches the attributes of a later entry. -/
def distinctResources (equal : Value → Value → Bool) (sgba : spansGroupedByAttrs) : Prop :=
  sgba.Pairwise (fun a b => resourceMatches equal a.Resource b.Resource.Attributes = false)

/-- The resource of an origin for the examples. -/
def originResource : Resource :=
  ⟨[(str "host", .string (str "a")), (str "zone", .string (str "eu"))]⟩

/-- A resource with an attribute whose value is a slice that holds a slice. -/
def nestedResource : Resource :=
  ⟨[(str "tags", .slice [.slice [.string (str "a")]])]⟩

/-- Reference attributes with a repeated key. -/
def repeatedReference : AttributeMap :=
  [(str "a", .int 1), (str "a", .int 1)]

/-- A resource with two attributes. -/
def twoKeyResource : Resource :=
  ⟨[(str "a", .int 1), (str "b", .int 2)]⟩

/-! ## Documents (`objmodel.go`, package `objmodel`) -/

/-- The type `Value` of `objmodel.go` by its kind, with the field the kind
uses: `primitive` for a bool or an integer, `dbl`, `str`, `arr`, the fields of
`doc`, `ts`. -/
inductive objmodel.Value where
  | KindNil
  | KindBool (primitive : Nat)
  | KindInt (primitive : Nat)
  | KindDouble (dbl : Float)
  | KindString (string : GoString)
  | KindArr (arr : List objmodel.Value)
  | KindObject (doc : List (GoString × objmodel.Value))
  | KindTimestamp (ts : Time)
  | KindIgnore

/-- The type `field` of `objmodel.go`: the key and the value. -/
abbrev objmodel.field := GoString × objmodel.Value

/-- The type `Document` of `objmodel.go`: its fields. -/
abbrev objmodel.Document := List objmodel.field

/-- The variable `nilValue`. -/
def objmodel.nilValue : objmodel.Value := .KindNil

/-- The variable `ignoreValue`. -/
def objmodel.ignoreValue : objmodel.Value := .KindIgnore

/-- The function `flattenKey` of `objmodel.go`. -/
def objmodel.flattenKey (path key : GoString) : GoString :=
  if path = [] then key else path ++ str "." ++ key

/-- The function `IntValue`: the conversion `uint64(i)`. -/
def objmodel.IntValue (i : Int) : objmodel.Value := .KindInt (i % 2 ^ 64).toNat

/-- The function `BoolValue`. -/
def objmodel.BoolValue (b : Bool) : objmodel.Value := .KindBool (if b then 1 else 0)

mutual
/-- The function `ValueFromAttribute` of `objmodel.go`; the document of a map
is `DocumentFromAttributes` of it. -/
def objmodel.ValueFromAttribute : XRay.Value → objmodel.Value
  | .int i => objmodel.IntValue i
  | .double d => .KindDouble d
  | .string s => .KindString s
  | .bool b => objmodel.BoolValue b
  | .slice aa => .KindArr (objmodel.arrFromAttributes aa)
  | .map am =>
    .KindObject (if am.length = 0 then [] else objmodel.appendAttributeFields [] [] am)
  | _ => objmodel.nilValue
/-- The function `arrFromAttributes` of `objmodel.go`. -/
def objmodel.arrFromAttributes : List XRay.Value → List objmodel.Value
  | [] => []
  | attr :: rest => objmodel.ValueFromAttribute attr :: objmodel.arrFromAttributes rest
/-- The function `appendAttributeFields` of `objmodel.go`. -/
def objmodel.appendAttributeFields (fields : List objmodel.field) (path : GoString) :
    List (GoString × XRay.Value) → List objmodel.field
  | [] => fields
  | (k, val) :: rest =>
    objmodel.appendAttributeFields (objmodel.appendAttributeValue fields path k val) path rest
/-- The function `appendAttributeValue` of `objmodel.go`; the value of the
appended field is `ValueFromAttribute attr`, written out for each type so that
the recursion goes to the parts of the attribute. -/
def objmodel.appendAttributeValue (fields : List objmodel.field) (path key : GoString) :
    XRay.Value → List objmodel.field
  | .empty => fields
  | .map am => objmodel.appendAttributeFields fields (objmodel.flattenKey path key) am
  | .int i => fields ++ [(objmodel.flattenKey path key, objmodel.IntValue i)]
  | .double d => fields ++ [(objmodel.flattenKey path key, .KindDouble d)]
  | .string s => fields ++ [(objmodel.flattenKey path key, .KindString s)]
  | .bool b => fields ++ [(objmodel.flattenKey path key, objmodel.BoolValue b)]
  | .slice aa =>
    fields ++ [(objmodel.flattenKey path key, .KindArr (objmodel.arrFromAttributes aa))]
  | .bytes _ => fields ++ [(objmodel.flattenKey path key, objmodel.nilValue)]
end

/-- The function `DocumentFromAttributesWithPath` of `objmodel.go`. -/
def objmodel.DocumentFromAttributesWithPath (path : GoString) (am : AttributeMap) :
    objmodel.Document :=
  if am.Len = 0 then []
  else
    let fields : List objmodel.field := []
    objmodel.appendAttributeFields fields path am

/-- The function `DocumentFromAttributes` of `objmodel.go`. -/
def objmodel.DocumentFromAttributes (am : AttributeMap) : objmodel.Document :=
  objmodel.DocumentFromAttributesWithPath [] am

/-- The call of `sort.SliceStable` in `Document.Sort`: the fields in the order
of their keys, fields with the same key in their original order. -/
def objmodel.sortFields (fields : List objmodel.field) : List objmodel.field :=
  fields.insertionSort (fun a b => a.1 ≤ b.1)

/-- The method `Value.Sort` of `objmodel.go`; `fuel` bounds how deep the
recursion goes into nested documents and arrays. -/
def objmodel.Value.Sort : Nat → objmodel.Value → objmodel.Value
  | fuel + 1, .KindObject doc =>
    .KindObject ((objmodel.sortFields doc).map
      (fun fld => (fld.1, objmodel.Value.Sort fuel fld.2)))
  | fuel + 1, .KindArr arr => .KindArr (arr.map (objmodel.Value.Sort fuel))
  | _, v => v

/-- The method `Document.Sort` of `objmodel.go`, with the method `Sort` of the
values as a parameter. -/
def objmodel.sortWith (valueSort : objmodel.Value → objmodel.Value)
    (doc : objmodel.Document) : objmodel.Document :=
  (objmodel.sortFields doc).map (fun fld => (fld.1, valueSort fld.2))

/-- The method `Document.Sort` of `objmodel.go`. -/
def objmodel.Document.Sort (fuel : Nat) (doc : objmodel.Document) : objmodel.Document :=
  objmodel.sortWith (objmodel.Value.Sort fuel) doc

/-- The condition of the renaming in `Document.Dedup`: the next key continues
the key with a dot. -/
def objmodel.continuesWithDot (key nextKey : GoString) : Bool :=
  decide (key.length < nextKey.length) && key.isPrefixOf nextKey &&
    decide (nextKey.getD key.length 0 = 0x2E)

/-- The second step of `Document.Dedup`: the loop that renames a field whose
key the next key continues with a dot, and the variable `renamed`. -/
def objmodel.renameFields : List objmodel.field → List objmodel.field × Bool
  | fld :: next :: rest =>
    let r := objmodel.renameFields (next :: rest)
    if objmodel.continuesWithDot fld.1 next.1 then ((fld.1 ++ str ".value", fld.2) :: r.1, true)
    else (fld :: r.1, r.2)
  | fields => (fields, false)

/-- The third step of `Document.Dedup`: the loop that marks a field as ignored
when the next field has the same key. -/
def objmodel.markDuplicates : List objmodel.field → List objmodel.field
  | fld :: next :: rest =>
    (if fld.1 = next.1 then (fld.1, objmodel.ignoreValue) else fld) ::
      objmodel.markDuplicates (next :: rest)
  | fields => fields

/-- The method `Document.Dedup` of `objmodel.go`, with the methods `Sort` and
`Dedup` of the values as parameters. -/
def objmodel.dedupWith (valueSort valueDedup : objmodel.Value → objmodel.Value)
    (doc : objmodel.Document) : objmodel.Document :=
  -- 1. Always ensure the fields are sorted
  let doc := objmodel.sortWith valueSort doc
  -- 2. rename fields if a primitive value is overwritten by an object
  let r := objmodel.renameFields doc
  let doc := if r.2 then objmodel.sortWith valueSort r.1 else r.1
  -- 3. mark duplicates as 'ignore'
  let doc := objmodel.markDuplicates doc
  -- 4. fix objects that might be stored in arrays
  doc.map (fun fld => (fld.1, valueDedup fld.2))

/-- The method `Value.Dedup` of `objmodel.go`; `fuel` bounds how deep the
recursion goes into nested documents and arrays. -/
def objmodel.Value.Dedup : Nat → objmodel.Value → objmodel.Value
  | fuel + 1, .KindObject doc =>
    .KindObject (objmodel.dedupWith (objmodel.Value.Sort fuel) (objmodel.Value.Dedup fuel) doc)
  | fuel + 1, .KindArr arr => .KindArr (arr.map (objmodel.Value.Dedup fuel))
  | _, v => v

/-- The method `Document.Dedup` of `objmodel.go`. -/
def objmodel.Document.Dedup (fuel : Nat) (doc : objmodel.Document) : objmodel.Document :=
  objmodel.dedupWith (objmodel.Value.Sort fuel) (objmodel.Value.Dedup fuel) doc

/-! ## Specification-side notions for documents -/

/-- The order of the fields by key is total. -/
instance objmodel.fieldOrderTotal :
    IsTotal objmodel.field (fun a b => a.1 ≤ b.1) :=
  ⟨fun a b => le_total a.1 b.1⟩

/-- The order of the fields by key is transitive. -/
instance objmodel.fieldOrderTrans :
    IsTrans objmodel.field (fun a b => a.1 ≤ b.1) :=
  ⟨fun _ _ _ h1 h2 => le_trans h1 h2⟩

/-- Whether a value is the ignored value. -/
def objmodel.Value.isIgnore : objmodel.Value → Bool
  | .KindIgnore => true
  | _ => false

/-- The keys of a document in the order of its fields. -/
def objmodel.keys (doc : objmodel.Document) : List GoString := doc.map Prod.fst

/-- The fields of a document with the key `k`, in the order of the document. -/
def objmodel.fieldsAt (doc : objmodel.Document) (k : GoString) : List objmodel.field :=
  doc.filter (fun fld => decide (fld.1 = k))

/-- A conflict between a primitive and an object on the same path: two fields
with values that are not ignored, the key of the second being the key of the
first followed by a dot and more. -/
def objmodel.hasConflict (doc : objmodel.Document) : Bool :=
  doc.any (fun fld => doc.any (fun other =>
    !fld.2.isIgnore && !other.2.isIgnore && (fld.1 ++ str ".").isPrefixOf other.1))

/-- No key of the document is continued with a dot by another key. -/
def objmodel.noKeyContinued (doc : objmodel.Document) : Prop :=
  ∀ fld ∈ doc, ∀ other ∈ doc, objmodel.continuesWithDot fld.1 other.1 = false

mutual
/-- The leaves of an attribute map that are neither a map nor an empty value,
in the order of the traversal, each with the chain of map keys that leads to
it. -/
def objmodel.leaves : List (GoString × XRay.Value) → List (List GoString × XRay.Value)
  | [] => []
  | (k, attr) :: rest => objmodel.leavesUnder k attr ++ objmodel.leaves rest
/-- The leaves of an attribute under the key `k`: none for an empty value,
those of a map with `k` before their chains, and else the attribute itself. -/
def objmodel.leavesUnder (k : GoString) : XRay.Value → List (List GoString × XRay.Value)
  | .empty => []
  | .map am => (objmodel.leaves am).map (fun leaf => (k :: leaf.1, leaf.2))
  | attr => [([k], attr)]
end

/-- Strings joined by dots. -/
def objmodel.joinWithDots : List GoString → GoString
  | [] => []
  | [k] => k
  | k :: rest => k ++ str "." ++ objmodel.joinWithDots rest

/-- The key of a leaf as the specification words it: the path and the chain of
map keys joined by dots, with no leading dot when the path is empty. -/
def objmodel.joinedKey (path : GoString) (chain : List GoString) : GoString :=
  if path = [] then objmodel.joinWithDots chain else objmodel.joinWithDots (path :: chain)

/-- The key of a leaf as `flattenKey` builds it along the chain. -/
def objmodel.flattenedKey (path : GoString) (chain : List GoString) : GoString :=
  chain.foldl objmodel.flattenKey path

/-- An attribute map with nested maps, an empty value and an empty map. -/
def nestedAttributes : AttributeMap :=
  [(str "a", .map [(str "b", .int 1), (str "c", .map [(str "d", .string (str "x"))]),
      (str "e", .empty)]),
   (str "f", .map []), (str "g", .bool true)]

/-- An attribute map with a map under the empty key. -/
def emptyKeyAttributes : AttributeMap := [([], .map [(str "k", .int 1)])]

/-- A document with a key, the key followed by `-b` and the key followed by a
dot and more. -/
def objmodel.hyphenDocument : objmodel.Document :=
  [(str "a", .KindInt 1), (str "a-b", .KindInt 2), (str "a.x", .KindInt 3)]

/-- A document with a duplicate key and the key followed by a dot and more. -/
def objmodel.duplicateDocument : objmodel.Document :=
  [(str "a", .KindInt 1), (str "a", .KindInt 2), (str "a.x", .KindInt 3)]

/-- The document of the example in `Document.Dedup`. -/
def objmodel.pathDocument : objmodel.Document :=
  [(str "path.x", .KindInt 1), (str "path.x.a", .KindString (str "test"))]

/-- A document with duplicate keys and no key continued by another. -/
def objmodel.repeatedDocument : objmodel.Document :=
  [(str "b", .KindInt 1), (str "a", .KindInt 2), (str "b", .KindInt 3), (str "a", .KindInt 4),
   (str "b", .KindInt 5)]

/-! ## Specification-side notions for the order of iteration -/

/-- Two Go maps are equal: they hold the same value, or none, at every key. -/
def sameMap {α : Type} (a b : GoMap α) : Prop := ∀ k, mapGet a k = mapGet b k

/-- Two optional values are both absent, or both present and related. -/
def sameOption {α : Type} (R : α → α → Prop) : Option α → Option α → Prop
  | none, none => True
  | some a, some b => R a b
  | _, _ => False

/-- Two results of `makeXRayAttributes` are equal: the same user, and
annotations and metadata that are both `nil` or equal as maps. -/
def sameAttributeResult
    (r r' : GoString × Option (GoMap Iface) × Option (GoMap (GoMap Iface))) : Prop :=
  r.1 = r'.1 ∧ sameOption sameMap r.2.1 r'.2.1 ∧
    sameOption (fun m m' => ∀ k, sameOption sameMap (mapGet m k) (mapGet m' k)) r.2.2 r'.2.2

/-- The states of the loops of `makeXRayAttributes` hold equal maps. -/
def sameLoop (st st' : AttributesLoop) : Prop :=
  sameMap st.annotations st'.annotations ∧ sameMap st.defaultMetadata st'.defaultMetadata

/-- Two attributes whose keys the sanitization of annotation keys sends to one
key. -/
def collidingAttributes : GoMap Value := [(str "a.b", .int 1), (str "a_b", .int 2)]

/-- Three attributes with pairwise distinct sanitized keys. -/
def orderedAttributes : GoMap Value :=
  [(str "a.b", .int 1), (str "c", .string (str "x")), (str "d", .bool true)]

/-! # Theorems -/

/-! ## Lemmas on trace identifiers -/

theorem list_length_sixteen {α : Type} (l : List α) (h : l.length = 16) :
    ∃ a0 a1 a2 a3 a4 a5 a6 a7 a8 a9 a10 a11 a12 a13 a14 a15,
      l = [a0, a1, a2, a3, a4, a5, a6, a7, a8, a9, a10, a11, a12, a13, a14, a15] := by
  rcases l with _ | ⟨a0, _ | ⟨a1, _ | ⟨a2, _ | ⟨a3, _ | ⟨a4, _ | ⟨a5, _ | ⟨a6, _ | ⟨a7,
    _ | ⟨a8, _ | ⟨a9, _ | ⟨a10, _ | ⟨a11, _ | ⟨a12, _ | ⟨a13, _ | ⟨a14, _ | ⟨a15, _ | ⟨a16, l⟩⟩⟩⟩⟩⟩⟩⟩⟩⟩⟩⟩⟩⟩⟩⟩⟩
    <;> simp at h
  exact ⟨a0, a1, a2, a3, a4, a5, a6, a7, a8, a9, a10, a11, a12, a13, a14, a15, rfl⟩

theorem hextable_getD (n : Nat) (h : n < 16) : hextable.getD n 0 = lowerHexDigit n := by
  interval_cases n <;> decide

theorem hextable_hi (b : Byte) : hextable.getD (b.val / 16) 0 = lowerHexDigit (b.val / 16) :=
  hextable_getD _ (by omega)

theorem hextable_lo (b : Byte) : hextable.getD (b.val % 16) 0 = lowerHexDigit (b.val % 16) :=
  hextable_getD _ (by omega)

theorem lowerHexDigit_inj (m n : Nat) (hm : m < 16) (hn : n < 16)
    (h : lowerHexDigit m = lowerHexDigit n) : m = n := by
  interval_cases m <;> interval_cases n <;> first | rfl | (exact absurd h (by decide))

theorem lowerHexDigit_isLowerHexChar (n : Nat) (h : n < 16) :
    isLowerHexChar (lowerHexDigit n) = true := by
  interval_cases n <;> decide

theorem byte_eq_of_digits (a b : Byte)
    (hhi : lowerHexDigit (a.val / 16) = lowerHexDigit (b.val / 16))
    (hlo : lowerHexDigit (a.val % 16) = lowerHexDigit (b.val % 16)) : a = b := by
  have h1 := lowerHexDigit_inj _ _ (by omega) (by omega) hhi
  have h2 := lowerHexDigit_inj _ _ (by omega) (by omega) hlo
  apply Fin.ext
  omega

theorem wrapInt64_sub (epochNow : Int) (epoch : Nat)
    (hlo : -2 ^ 63 ≤ epochNow) (hhi : epochNow < 2 ^ 63) (he : epoch < 2 ^ 32) :
    (wrapInt64 (epochNow - epoch) > maxAge ∨ wrapInt64 (epochNow - epoch) < -maxSkew) ↔
      (epochNow - epoch > 2419200 ∨ epochNow - epoch < -300) := by
  unfold wrapInt64 maxAge maxSkew
  omega

theorem bigEndianUint32_lt (b : List Byte) : bigEndianUint32 b < 2 ^ 32 := by
  unfold bigEndianUint32
  have h0 := (b.getD 0 0).isLt
  have h1 := (b.getD 1 0).isLt
  have h2 := (b.getD 2 0).isLt
  have h3 := (b.getD 3 0).isLt
  omega

theorem bigEndianUint32_take (t : TraceID) :
    bigEndianUint32 (t.bytes.take 4) = embeddedTime t := by
  obtain ⟨bs, hlen⟩ := t
  obtain ⟨a0, a1, a2, a3, a4, a5, a6, a7, a8, a9, a10, a11, a12, a13, a14, a15, rfl⟩ :=
    list_length_sixteen bs hlen
  simp [bigEndianUint32, embeddedTime]
  omega

theorem bigEndianPutUint32_four (a0 a1 a2 a3 : Byte) :
    bigEndianPutUint32 ((Int.toNat (bigEndianUint32 [a0, a1, a2, a3] : Nat)) % 2 ^ 32)
      = [a0, a1, a2, a3] := by
  have h0 := a0.isLt
  have h1 := a1.isLt
  have h2 := a2.isLt
  have h3 := a3.isLt
  simp only [bigEndianPutUint32, bigEndianUint32, Int.toNat_ofNat, List.getD_cons_zero,
    List.getD_cons_succ, List.cons.injEq, and_true]
  refine ⟨?_, ?_, ?_, ?_⟩ <;> apply Fin.ext <;> simp [Fin.ofNat] <;> omega

theorem convertToAmazonTraceID_ok_eq (epochNow : Int) (t : TraceID) (s : GoString)
    (h : convertToAmazonTraceID epochNow t = .ok s) :
    s = str "1-" ++ lowerHex (t.bytes.take 4) ++ str "-" ++ lowerHex (t.bytes.drop 4) := by
  obtain ⟨bs, hlen⟩ := t
  obtain ⟨a0, a1, a2, a3, a4, a5, a6, a7, a8, a9, a10, a11, a12, a13, a14, a15, rfl⟩ :=
    list_length_sixteen bs hlen
  unfold convertToAmazonTraceID at h
  simp only [List.take_succ_cons, List.take_zero, List.drop_succ_cons, List.drop_zero] at h
  split at h
  · exact absurd h (by simp)
  · rw [bigEndianPutUint32_four] at h
    simp only [Except.ok.injEq] at h
    rw [← h]
    simp only [hexEncode, hextable_hi, hextable_lo, traceIDLength, identifierOffset]
    simp [lowerHex, List.replicate, str, utf8EncodeRune]
    decide

theorem mem_lowerHex (bs : List Byte) (c : Byte) (h : c ∈ lowerHex bs) :
    isLowerHexChar c = true := by
  simp only [lowerHex, List.mem_flatMap, List.mem_cons, List.mem_singleton, List.not_mem_nil,
    or_false] at h
  obtain ⟨b, -, hc | hc⟩ := h <;> subst hc <;> exact lowerHexDigit_isLowerHexChar _ (by omega)

theorem lowerHex_sixteen_inj (t t' : TraceID)
    (h : str "1-" ++ lowerHex (t.bytes.take 4) ++ str "-" ++ lowerHex (t.bytes.drop 4)
       = str "1-" ++ lowerHex (t'.bytes.take 4) ++ str "-" ++ lowerHex (t'.bytes.drop 4)) :
    t' = t := by
  obtain ⟨bs, hlen⟩ := t
  obtain ⟨bs', hlen'⟩ := t'
  obtain ⟨a0, a1, a2, a3, a4, a5, a6, a7, a8, a9, a10, a11, a12, a13, a14, a15, rfl⟩ :=
    list_length_sixteen bs hlen
  obtain ⟨c0, c1, c2, c3, c4, c5, c6, c7, c8, c9, c10, c11, c12, c13, c14, c15, rfl⟩ :=
    list_length_sixteen bs' hlen'
  simp only [lowerHex, List.take_succ_cons, List.take_zero, List.drop_succ_cons, List.drop_zero,
    List.flatMap_cons, List.flatMap_nil, List.append_assoc, List.cons_append, List.nil_append,
    List.append_cancel_left_eq, List.cons.injEq, List.append_nil, and_true, true_and] at h
  obtain ⟨h0, h0', h1, h1', h2, h2', h3, h3', h4, h4', h5, h5', h6, h6', h7, h7', h8, h8',
    h9, h9', h10, h10', h11, h11', h12, h12', h13, h13', h14, h14', h15, h15'⟩ := h
  have e0 := byte_eq_of_digits _ _ h0 h0'
  have e1 := byte_eq_of_digits _ _ h1 h1'
  have e2 := byte_eq_of_digits _ _ h2 h2'
  have e3 := byte_eq_of_digits _ _ h3 h3'
  have e4 := byte_eq_of_digits _ _ h4 h4'
  have e5 := byte_eq_of_digits _ _ h5 h5'
  have e6 := byte_eq_of_digits _ _ h6 h6'
  have e7 := byte_eq_of_digits _ _ h7 h7'
  have e8 := byte_eq_of_digits _ _ h8 h8'
  have e9 := byte_eq_of_digits _ _ h9 h9'
  have e10 := byte_eq_of_digits _ _ h10 h10'
  have e11 := byte_eq_of_digits _ _ h11 h11'
  have e12 := byte_eq_of_digits _ _ h12 h12'
  have e13 := byte_eq_of_digits _ _ h13 h13'
  have e14 := byte_eq_of_digits _ _ h14 h14'
  have e15 := byte_eq_of_digits _ _ h15 h15'
  subst e0 e1 e2 e3 e4 e5 e6 e7 e8 e9 e10 e11 e12 e13 e14 e15
  rfl

theorem traceID_shape (t : TraceID) (s : GoString)
    (hs : s = str "1-" ++ lowerHex (t.bytes.take 4) ++ str "-" ++ lowerHex (t.bytes.drop 4)) :
    s.length = 35 ∧ s.take 2 = str "1-" ∧ s[10]? = some 0x2D ∧
      (s.drop 2).take 8 = lowerHex (t.bytes.take 4) ∧ s.drop 11 = lowerHex (t.bytes.drop 4) := by
  obtain ⟨bs, hlen⟩ := t
  obtain ⟨a0, a1, a2, a3, a4, a5, a6, a7, a8, a9, a10, a11, a12, a13, a14, a15, rfl⟩ :=
    list_length_sixteen bs hlen
  subst hs
  have e1 : str "1-" = [0x31, 0x2D] := by decide
  have e2 : str "-" = [0x2D] := by decide
  rw [e1, e2]
  simp [lowerHex]

/-- C1: for a 16-byte trace identifier and a current Unix time `epochNow` (an
`int64`), with `delta = epochNow - embeddedTime`, `convertToAmazonTraceID` returns
an error exactly when `delta > 2419200` (28 days) or `delta < -300` (5 minutes)
and a string otherwise; an identifier whose first four bytes encode `epochNow`
is accepted. -/
theorem convertToAmazonTraceID_error_iff (epochNow : Int) (traceID : TraceID)
    (hlo : -2 ^ 63 ≤ epochNow) (hhi : epochNow < 2 ^ 63) :
    ((∃ e, convertToAmazonTraceID epochNow traceID = .error e) ↔
      (epochNow - embeddedTime traceID > 2419200 ∨ epochNow - embeddedTime traceID < -300)) ∧
    ((∃ s, convertToAmazonTraceID epochNow traceID = .ok s) ↔
      ¬ (epochNow - embeddedTime traceID > 2419200 ∨ epochNow - embeddedTime traceID < -300)) ∧
    (epochNow = embeddedTime traceID → ∃ s, convertToAmazonTraceID epochNow traceID = .ok s) := by
  have hw := wrapInt64_sub epochNow (bigEndianUint32 (traceID.bytes.take 4)) hlo hhi
    (bigEndianUint32_lt _)
  rw [bigEndianUint32_take] at hw
  have hE : (∃ e, convertToAmazonTraceID epochNow traceID = .error e) ↔
      (epochNow - embeddedTime traceID > 2419200 ∨ epochNow - embeddedTime traceID < -300) := by
    unfold convertToAmazonTraceID
    simp only [bigEndianUint32_take]
    split
    · rename_i hc
      exact ⟨fun _ => hw.mp hc, fun _ => ⟨_, rfl⟩⟩
    · rename_i hc
      exact ⟨fun ⟨e, he⟩ => (by cases he), fun hp => absurd (hw.mpr hp) hc⟩
  have hO : (∃ s, convertToAmazonTraceID epochNow traceID = .ok s) ↔
      ¬ (epochNow - embeddedTime traceID > 2419200 ∨ epochNow - embeddedTime traceID < -300) := by
    unfold convertToAmazonTraceID
    simp only [bigEndianUint32_take]
    split
    · rename_i hc
      exact ⟨fun ⟨e, he⟩ => (by cases he), fun hp => absurd (hw.mp hc) hp⟩
    · rename_i hc
      exact ⟨fun _ hp => hc (hw.mpr hp), fun _ => ⟨_, rfl⟩⟩
  refine ⟨hE, hO, fun h => hO.mpr ?_⟩
  omega

/-- Witness of C1: the identifier of the documentation example,
`1-58406520-a006649127e371903a2de979`, at the time 1480615200 it embeds. -/
theorem convertToAmazonTraceID_error_iff_witness :
    (-2 ^ 63 ≤ (1480615200 : Int) ∧ (1480615200 : Int) < 2 ^ 63) ∧
    ∃ s, convertToAmazonTraceID 1480615200
      ⟨[0x58, 0x40, 0x65, 0x20, 0xa0, 0x06, 0x64, 0x91, 0x27, 0xe3, 0x71, 0x90, 0x3a, 0x2d,
        0xe9, 0x79], rfl⟩ = .ok s :=
  ⟨by decide, (convertToAmazonTraceID_error_iff 1480615200
      ⟨[0x58, 0x40, 0x65, 0x20, 0xa0, 0x06, 0x64, 0x91, 0x27, 0xe3, 0x71, 0x90, 0x3a, 0x2d,
        0xe9, 0x79], rfl⟩ (by decide) (by decide)).2.2 (by decide)⟩

/-- C2: whenever `convertToAmazonTraceID` succeeds on a trace identifier with
bytes b0..b15, the result is the string `"1-" ++ hex(b0..b3) ++ "-" ++
hex(b4..b15)` with two lowercase hexadecimal digits a byte; it has 35 bytes,
starts with `1-`, has `-` at index 10, its other 32 characters are in `[0-9a-f]`,
and any identifier accepted with the same result is the same identifier. -/
theorem convertToAmazonTraceID_format (epochNow : Int) (traceID : TraceID) (s : GoString)
    (h : convertToAmazonTraceID epochNow traceID = .ok s) :
    s = str "1-" ++ lowerHex (traceID.bytes.take 4) ++ str "-" ++ lowerHex (traceID.bytes.drop 4) ∧
    s.length = 35 ∧ s.take 2 = str "1-" ∧ s[10]? = some 0x2D ∧
    (∀ c ∈ (s.drop 2).take 8 ++ s.drop 11, isLowerHexChar c = true) ∧
    (∀ (epochNow' : Int) (traceID' : TraceID),
      convertToAmazonTraceID epochNow' traceID' = .ok s → traceID' = traceID) := by
  have hs := convertToAmazonTraceID_ok_eq epochNow traceID s h
  obtain ⟨hlen, htake, hdash, hepoch, hident⟩ := traceID_shape traceID s hs
  refine ⟨hs, hlen, htake, hdash, ?_, ?_⟩
  · intro c hc
    rw [hepoch, hident, List.mem_append] at hc
    rcases hc with hc | hc <;> exact mem_lowerHex _ c hc
  · intro epochNow' traceID' h'
    have hs' := convertToAmazonTraceID_ok_eq epochNow' traceID' s h'
    exact lowerHex_sixteen_inj traceID traceID' (hs.symm.trans hs')

/-- Witness of C2: the documentation example
`1-58406520-a006649127e371903a2de979`. -/
theorem convertToAmazonTraceID_format_witness :
    convertToAmazonTraceID 1480615200
      ⟨[0x58, 0x40, 0x65, 0x20, 0xa0, 0x06, 0x64, 0x91, 0x27, 0xe3, 0x71, 0x90, 0x3a, 0x2d,
        0xe9, 0x79], rfl⟩ = .ok (str "1-58406520-a006649127e371903a2de979") ∧
    (str "1-58406520-a006649127e371903a2de979").length = 35 :=
  ⟨rfl, (convertToAmazonTraceID_format 1480615200
      ⟨[0x58, 0x40, 0x65, 0x20, 0xa0, 0x06, 0x64, 0x91, 0x27, 0xe3, 0x71, 0x90, 0x3a, 0x2d,
        0xe9, 0x79], rfl⟩ (str "1-58406520-a006649127e371903a2de979") rfl).2.1⟩

/-! ## Lemmas on decoding -/

theorem DecodeRuneInString_width_pos (b : Byte) (rest : List Byte) :
    1 ≤ (DecodeRuneInString (b :: rest)).2 := by
  have h2 : ∀ l, 1 ≤ (decodeTwo b l).2 := by
    intro l; unfold decodeTwo; repeat' split
    all_goals simp
  have h3 : ∀ l, 1 ≤ (decodeThree b l).2 := by
    intro l; unfold decodeThree; repeat' split
    all_goals simp
  have h4 : ∀ l, 1 ≤ (decodeFour b l).2 := by
    intro l; unfold decodeFour; repeat' split
    all_goals simp
  simp only [DecodeRuneInString]
  split_ifs
  · simp
  · simp
  · exact h2 _
  · exact h3 _
  · exact h4 _
  · simp

theorem runesFrom_bytes (s : List Byte) :
    ∀ k, (runesFrom k s).flatMap (fun p => p.2) = s.drop k := by
  induction s with
  | nil => intro k; cases k <;> simp [runesFrom]
  | cons b rest ih =>
    intro k
    cases k with
    | succ k => simp [runesFrom, ih]
    | zero =>
      have hw := DecodeRuneInString_width_pos b rest
      obtain ⟨w, hw'⟩ : ∃ w, (DecodeRuneInString (b :: rest)).2 = w + 1 :=
        ⟨(DecodeRuneInString (b :: rest)).2 - 1, by omega⟩
      simp only [runesFrom, List.flatMap_cons, ih, hw', List.drop_zero, List.take_succ_cons,
        Nat.add_sub_cancel, List.cons_append, List.take_append_drop]

theorem runes_bytes (s : GoString) : (runes s).flatMap (fun p => p.2) = s :=
  runesFrom_bytes s 0

theorem runesFrom_length_le (s : List Byte) : ∀ k, (runesFrom k s).length ≤ s.length := by
  induction s with
  | nil => intro k; cases k <;> simp [runesFrom]
  | cons b rest ih =>
    intro k
    cases k with
    | succ k =>
      have := ih k
      simp only [runesFrom, List.length_cons]
      omega
    | zero =>
      have := ih ((DecodeRuneInString (b :: rest)).2 - 1)
      simp only [runesFrom, List.length_cons]
      omega

theorem runes_length_le (s : GoString) : (runes s).length ≤ s.length :=
  runesFrom_length_le s 0

theorem flatMap_filter_eq {α β : Type} (l : List α) (p : α → Bool) (f : α → List β) :
    (l.filter p).flatMap f = l.flatMap (fun x => if p x then f x else []) := by
  induction l with
  | nil => rfl
  | cons a l ih =>
    by_cases h : p a = true <;> simp [List.filter_cons, h, ih]

theorem ReplaceAllString_eq_filter (s : GoString) :
    reInvalidSpanCharacters.ReplaceAllString s [] =
      ((runes s).filter (fun p => listedSpanCharacter p.1)).flatMap (fun p => p.2) := by
  rw [flatMap_filter_eq]
  unfold Regexp.ReplaceAllString reInvalidSpanCharacters
  congr 1
  funext p
  cases h : listedSpanCharacter p.1 <;> simp [h]

theorem filter_eq_of_not_match (s : GoString)
    (h : reInvalidSpanCharacters.MatchString s = false) :
    ((runes s).filter (fun p => listedSpanCharacter p.1)).flatMap (fun p => p.2) = s := by
  have hall : ∀ p ∈ runes s, listedSpanCharacter p.1 = true := by
    intro p hp
    unfold Regexp.MatchString reInvalidSpanCharacters at h
    rw [List.any_eq_false] at h
    have := h p hp
    simpa using this
  rw [List.filter_eq_self.mpr hall]
  exact runes_bytes s

/-- The characters of `x` that survive: what `fixSegmentName` holds after its
first statement. -/
theorem fixSegmentName_strip (x : GoString) :
    (if reInvalidSpanCharacters.MatchString x then
        reInvalidSpanCharacters.ReplaceAllString x [] else x)
      = ((runes x).filter (fun p => listedSpanCharacter p.1)).flatMap (fun p => p.2) := by
  split
  · exact ReplaceAllString_eq_filter x
  · rename_i h
    exact (filter_eq_of_not_match x (by simpa using h)).symm

theorem defaultSegmentName_eq : defaultSegmentName = str "span" := rfl

theorem str_span_ne_nil : str "span" ≠ [] := by decide

theorem str_span_length : (str "span").length = 4 := by decide

theorem fixSegmentName_eq_slicedName (x : GoString) : fixSegmentName x = slicedName x := by
  unfold fixSegmentName slicedName
  simp only [fixSegmentName_strip, maxSegmentNameLength, defaultSegmentName_eq]
  generalize ((runes x).filter (fun p => listedSpanCharacter p.1)).flatMap (fun p => p.2) = kept
  by_cases h1 : kept.length > 200
  · have : List.take 200 kept ≠ [] := by
      intro h
      have := congrArg List.length h
      rw [List.length_take, List.length_nil] at this
      omega
    simp [h1, this]
  · by_cases h2 : kept.length = 0
    · have : kept = [] := List.length_eq_zero.mp h2
      simp [this]
    · have : kept ≠ [] := fun h => h2 (by simp [h])
      simp [h1, h2, this]

theorem slicedName_ne_nil (x : GoString) : slicedName x ≠ [] := by
  unfold slicedName
  simp only
  generalize ((runes x).filter (fun p => listedSpanCharacter p.1)).flatMap (fun p => p.2) = kept
  generalize (if kept.length > 200 then kept.take 200 else kept) = cut
  by_cases h : cut = []
  · rw [if_pos h]; exact str_span_ne_nil
  · rw [if_neg h]; exact h

theorem slicedName_length_le (x : GoString) : (slicedName x).length ≤ 200 := by
  unfold slicedName
  simp only
  generalize ((runes x).filter (fun p => listedSpanCharacter p.1)).flatMap (fun p => p.2) = kept
  have hcut : (if kept.length > 200 then kept.take 200 else kept).length ≤ 200 := by
    by_cases h1 : kept.length > 200
    · rw [if_pos h1, List.length_take]; omega
    · rw [if_neg h1]; omega
  generalize (if kept.length > 200 then kept.take 200 else kept) = cut at hcut
  by_cases h : cut = []
  · rw [if_pos h, str_span_length]; omega
  · rw [if_neg h]; exact hcut

theorem fixSegmentName_ne_nil (x : GoString) : fixSegmentName x ≠ [] := by
  rw [fixSegmentName_eq_slicedName]
  exact slicedName_ne_nil x

theorem fixSegmentName_length_le (x : GoString) : (fixSegmentName x).length ≤ 200 := by
  rw [fixSegmentName_eq_slicedName]
  exact slicedName_length_le x

/-- What holds of `fixSegmentName` for every string `x`: it is the closed form
`slicedName x`, never empty, never longer than 200 bytes (hence never longer
than 200 characters), and `"span"` for an input without any allowed
character. -/
theorem fixSegmentName_bounds (x : GoString) :
    fixSegmentName x = slicedName x ∧
    fixSegmentName x ≠ [] ∧
    (fixSegmentName x).length ≤ 200 ∧
    (runes (fixSegmentName x)).length ≤ 200 ∧
    ((∀ p ∈ runes x, listedSpanCharacter p.1 = false) → fixSegmentName x = str "span") := by
  rw [fixSegmentName_eq_slicedName]
  refine ⟨rfl, slicedName_ne_nil x, slicedName_length_le x,
    Nat.le_trans (runes_length_le _) (slicedName_length_le x), ?_⟩
  intro h
  have hf : (runes x).filter (fun p => listedSpanCharacter p.1) = [] := by
    rw [List.filter_eq_nil_iff]
    intro p hp
    simp [h p hp]
  unfold slicedName
  simp [hf]

theorem decodeTwo_local (s0 : Byte) (rest : List Byte)
    (h : (decodeTwo s0 rest).1 ≠ RuneError) (tail : List Byte) :
    decodeTwo s0 (rest.take 1 ++ tail) = decodeTwo s0 rest ∧
      (decodeTwo s0 rest).2 = 2 ∧ 1 ≤ rest.length := by
  rcases rest with _ | ⟨s1, rest⟩
  · exact absurd rfl h
  · simp only [decodeTwo] at h ⊢
    split_ifs at h ⊢
    · simp [decodeTwo, *]
    · exact absurd rfl h

theorem decodeThree_local (s0 : Byte) (rest : List Byte)
    (h : (decodeThree s0 rest).1 ≠ RuneError) (tail : List Byte) :
    decodeThree s0 (rest.take 2 ++ tail) = decodeThree s0 rest ∧
      (decodeThree s0 rest).2 = 3 ∧ 2 ≤ rest.length := by
  rcases rest with _ | ⟨s1, _ | ⟨s2, rest⟩⟩
  · exact absurd rfl h
  · exact absurd rfl h
  · simp only [decodeThree] at h ⊢
    split_ifs at h ⊢
    · exact absurd rfl h
    · exact absurd rfl h
    · simp [decodeThree, *]

theorem decodeFour_local (s0 : Byte) (rest : List Byte)
    (h : (decodeFour s0 rest).1 ≠ RuneError) (tail : List Byte) :
    decodeFour s0 (rest.take 3 ++ tail) = decodeFour s0 rest ∧
      (decodeFour s0 rest).2 = 4 ∧ 3 ≤ rest.length := by
  rcases rest with _ | ⟨s1, _ | ⟨s2, _ | ⟨s3, rest⟩⟩⟩
  · exact absurd rfl h
  · exact absurd rfl h
  · exact absurd rfl h
  · simp only [decodeFour] at h ⊢
    split_ifs at h ⊢
    · exact absurd rfl h
    · exact absurd rfl h
    · exact absurd rfl h
    · simp [decodeFour, *]

/-- A valid rune is decoded from the bytes of its own encoding alone: what
follows them does not matter. -/
theorem DecodeRuneInString_local (b : Byte) (rest : List Byte)
    (h : (DecodeRuneInString (b :: rest)).1 ≠ RuneError) (tail : List Byte) :
    DecodeRuneInString ((b :: rest).take (DecodeRuneInString (b :: rest)).2 ++ tail)
      = DecodeRuneInString (b :: rest) ∧
    ((b :: rest).take (DecodeRuneInString (b :: rest)).2).length
      = (DecodeRuneInString (b :: rest)).2 := by
  simp only [DecodeRuneInString] at h ⊢
  split_ifs at h ⊢ with h1 h2 h3 h4 h5
  · simp [DecodeRuneInString, h1]
  · exact absurd rfl h
  · obtain ⟨e, w, l⟩ := decodeTwo_local b rest h tail
    rw [w]
    simp only [List.take_succ_cons, List.cons_append, DecodeRuneInString, h1, h2, h3, if_true,
      if_false, e, List.length_cons, List.length_take]
    exact ⟨trivial, by omega⟩
  · obtain ⟨e, w, l⟩ := decodeThree_local b rest h tail
    rw [w]
    simp only [List.take_succ_cons, List.cons_append, DecodeRuneInString, h1, h2, h3, h4, if_true,
      if_false, e, List.length_cons, List.length_take]
    exact ⟨trivial, by omega⟩
  · obtain ⟨e, w, l⟩ := decodeFour_local b rest h tail
    rw [w]
    simp only [List.take_succ_cons, List.cons_append, DecodeRuneInString, h1, h2, h3, h4, h5,
      if_true, if_false, e, List.length_cons, List.length_take]
    exact ⟨trivial, by omega⟩
  · exact absurd rfl h

theorem runesFrom_skip (pre tail : List Byte) :
    runesFrom pre.length (pre ++ tail) = runesFrom 0 tail := by
  induction pre with
  | nil => rfl
  | cons b pre ih => simpa [runesFrom] using ih

theorem runesFrom_selfContained (s : List Byte) :
    ∀ k, ∀ p ∈ runesFrom k s, p.1 ≠ RuneError → SelfContained p := by
  induction s with
  | nil => intro k p hp; cases k <;> simp [runesFrom] at hp
  | cons b rest ih =>
    intro k p hp hne
    cases k with
    | succ k => exact ih k p (by simpa [runesFrom] using hp) hne
    | zero =>
      simp only [runesFrom, List.mem_cons] at hp
      rcases hp with rfl | hp
      · have hw := DecodeRuneInString_width_pos b rest
        refine ⟨?_, fun tail => ?_⟩
        · intro h
          have := congrArg List.length h
          simp only [List.length_take, List.length_cons, List.length_nil] at this
          omega
        · obtain ⟨e, l⟩ := DecodeRuneInString_local b rest hne tail
          rw [e, l]
      · exact ih _ p hp hne

theorem runesFrom_zero_cons (b : Byte) (rest : List Byte) :
    runesFrom 0 (b :: rest) =
      ((DecodeRuneInString (b :: rest)).1, (b :: rest).take (DecodeRuneInString (b :: rest)).2)
        :: runesFrom ((DecodeRuneInString (b :: rest)).2 - 1) rest := rfl

theorem runes_of_selfContained (l : List (Nat × List Byte))
    (h : ∀ p ∈ l, SelfContained p) : runes (l.flatMap (fun p => p.2)) = l := by
  induction l with
  | nil => rfl
  | cons p l ih =>
    obtain ⟨hne, hdec⟩ := h p (List.mem_cons_self _ _)
    have ih' := ih (fun q hq => h q (List.mem_cons_of_mem _ hq))
    obtain ⟨r, seg⟩ := p
    rcases seg with _ | ⟨b, seg⟩
    · exact absurd rfl hne
    · have hd := hdec (l.flatMap (fun p => p.2))
      simp only [List.cons_append, List.length_cons] at hd
      have e : (((r, b :: seg) :: l).flatMap fun p => p.2)
          = b :: (seg ++ l.flatMap fun p => p.2) := by
        simp only [List.flatMap_cons, List.cons_append]
      have ih'' : runesFrom 0 (l.flatMap fun p => p.2) = l := ih'
      unfold runes
      rw [e, runesFrom_zero_cons, hd]
      simp only [Nat.add_sub_cancel, List.take_succ_cons, List.take_left, runesFrom_skip, ih'']

set_option maxRecDepth 100000 in
theorem RuneError_not_listed : listedSpanCharacter RuneError = false := by decide

theorem listed_ne_RuneError (r : Nat) (h : listedSpanCharacter r = true) : r ≠ RuneError := by
  intro e
  rw [e, RuneError_not_listed] at h
  exact absurd h (by decide)

/-- The runes of a stripped string are the listed runes of the original. -/
theorem runes_strip (x : GoString) :
    runes (((runes x).filter (fun p => listedSpanCharacter p.1)).flatMap (fun p => p.2))
      = (runes x).filter (fun p => listedSpanCharacter p.1) := by
  apply runes_of_selfContained
  intro p hp
  rw [List.mem_filter] at hp
  exact runesFrom_selfContained x 0 p hp.1 (listed_ne_RuneError _ hp.2)

set_option maxRecDepth 100000 in
theorem runes_span_listed : ∀ p ∈ runes (str "span"), listedSpanCharacter p.1 = true := by
  decide

/-- When stripping leaves at most 200 bytes, `fixSegmentName` consists of listed
characters only. -/
theorem fixSegmentName_listed (x : GoString)
    (h : (((runes x).filter (fun p => listedSpanCharacter p.1)).flatMap
      (fun p => p.2)).length ≤ 200) :
    ∀ p ∈ runes (fixSegmentName x), listedSpanCharacter p.1 = true := by
  rw [fixSegmentName_eq_slicedName]
  unfold slicedName
  simp only
  rw [if_neg (Nat.not_lt.mpr h)]
  split
  · exact runes_span_listed
  · rw [runes_strip]
    intro p hp
    exact (List.mem_filter.mp hp).2

/-- Without truncation, sanitizing is idempotent. -/
theorem fixSegmentName_idem_of_short (x : GoString)
    (h : (((runes x).filter (fun p => listedSpanCharacter p.1)).flatMap
      (fun p => p.2)).length ≤ 200) :
    fixSegmentName (fixSegmentName x) = fixSegmentName x := by
  have hl := fixSegmentName_listed x h
  have hne := fixSegmentName_ne_nil x
  have hlen := fixSegmentName_length_le x
  generalize fixSegmentName x = y at hl hne hlen
  have hy : ((runes y).filter (fun p => listedSpanCharacter p.1)).flatMap (fun p => p.2) = y := by
    rw [List.filter_eq_self.mpr hl]
    exact runes_bytes y
  rw [fixSegmentName_eq_slicedName]
  unfold slicedName
  simp only [hy]
  rw [if_neg (Nat.not_lt.mpr hlen), if_neg hne]

/-- When stripping leaves at most 200 bytes, `fixSegmentName` is the
sanitization of the specification: nothing is cut on either side. -/
theorem fixSegmentName_eq_sanitizeSpec_of_short (x : GoString)
    (h : (((runes x).filter (fun p => listedSpanCharacter p.1)).flatMap
      (fun p => p.2)).length ≤ 200) :
    fixSegmentName x = sanitizeSpec x := by
  have hl : ((runes x).filter (fun p => listedSpanCharacter p.1)).length ≤ 200 := by
    have h1 := runes_length_le
      (((runes x).filter (fun p => listedSpanCharacter p.1)).flatMap (fun p => p.2))
    rw [runes_strip] at h1
    omega
  rw [fixSegmentName_eq_slicedName]
  unfold slicedName sanitizeSpec
  simp only
  rw [if_neg (Nat.not_lt.mpr h), List.take_of_length_le hl]

/-! ## Lemmas on `MakeSegment` -/

theorem orElse_assoc (a b c : GoString) : orElse (orElse a b) c = orElse a (orElse b c) := by
  unfold orElse
  by_cases ha : a = [] <;> by_cases hb : b = [] <;> simp [ha, hb]

theorem orElse_nil (a : GoString) : orElse a [] = a := by
  unfold orElse
  by_cases ha : a = [] <;> simp [ha]

theorem find_first_cons (a : GoString) (l : List GoString) (d : GoString) :
    (match (a :: l).find? (fun c => decide (c ≠ [])) with
      | some name => name
      | none => d)
    = orElse a (match l.find? (fun c => decide (c ≠ [])) with
      | some name => name
      | none => d) := by
  unfold orElse
  by_cases ha : a = [] <;> simp [List.find?, ha]

theorem step_attribute (name : GoString) (m : AttributeMap) (key : GoString) :
    (if name = [] then
      match m.Get key with
      | some v => v.StringVal
      | none => name
    else name) = orElse name (attributeString m key) := by
  unfold orElse attributeString
  by_cases h : name = []
  · subst h
    cases m.Get key <;> simp
  · simp [h]

theorem step_first (m : AttributeMap) (key : GoString) :
    (match m.Get key with
      | some v => v.StringVal
      | none => ([] : GoString)) = attributeString m key := rfl

theorem step_database (env : Env) (name : GoString) (m : AttributeMap) :
    (if name = [] then
      match m.Get AttributeDBName with
      | some dbInstance =>
        match m.Get AttributeDBConnectionString with
        | some dbURL =>
          match env.urlParse dbURL.StringVal with
          | some parsed =>
            if env.Hostname parsed ≠ [] then
              dbInstance.StringVal ++ (str "@" ++ env.Hostname parsed)
            else dbInstance.StringVal
          | none => dbInstance.StringVal
        | none => dbInstance.StringVal
      | none => name
    else name) = orElse name (databaseName env m) := by
  unfold orElse databaseName
  by_cases h : name = []
  · subst h
    cases m.Get AttributeDBName with
    | none => simp
    | some dbInstance =>
      cases m.Get AttributeDBConnectionString with
      | none => simp
      | some dbURL =>
        cases hp : env.urlParse dbURL.StringVal with
        | none => simp [hp]
        | some parsed =>
          by_cases hh : env.Hostname parsed = [] <;> simp [hp, hh]
  · simp [h]

theorem step_resource (name : GoString) (kind : SpanKind) (m : AttributeMap) :
    (if name = [] ∧ kind = SpanKind.Server then
      match m.Get AttributeServiceName with
      | some service => service.StringVal
      | none => name
    else name)
    = orElse name (if kind = SpanKind.Server then attributeString m AttributeServiceName
        else []) := by
  unfold orElse attributeString
  by_cases h : name = []
  · subst h
    by_cases hk : kind = SpanKind.Server
    · cases m.Get AttributeServiceName <;> simp [hk]
    · simp [hk]
  · simp [h]

theorem step_fallback (name d : GoString) :
    (if name = [] then d else name) = orElse name d := rfl

theorem resolveName_eq (env : Env) (span : Span) (resource : Resource) :
    resolveName env span resource =
      orElse (attributeString span.Attributes AttributePeerService)
        (orElse (attributeString span.Attributes AWSServiceAttribute)
          (orElse (databaseName env span.Attributes)
            (orElse (if span.Kind = SpanKind.Server then
                  attributeString resource.Attributes AttributeServiceName else [])
              (orElse (attributeString span.Attributes AttributeRPCService)
                (orElse (attributeString span.Attributes AttributeHTTPHost)
                  (orElse (attributeString span.Attributes AttributeNetPeerName)
                    (fixSegmentName span.Name))))))) := by
  unfold resolveName nameCandidates
  simp only [find_first_cons]
  rfl

/-- The name `MakeSegment` computes is the resolved name. -/
theorem MakeSegment_Name (env : Env) (epochNow : Int) (span : Span) (resource : Resource)
    (indexedAttrs : List GoString) (indexAllAttrs : Bool) :
    (MakeSegment env epochNow span resource indexedAttrs indexAllAttrs).map
        (fun seg => stringValue seg.Name)
      = (convertToAmazonTraceID epochNow span.TraceID).map
        (fun _ => resolveName env span resource) := by
  unfold MakeSegment
  cases convertToAmazonTraceID epochNow span.TraceID with
  | error e => rfl
  | ok traceID =>
    simp only [Except.map, stringValue, env.xrayString_val, step_first, step_attribute,
      step_database, step_resource]
    simp only [step_fallback, orElse_assoc, resolveName_eq]

theorem orElse_ne_nil (a b : GoString) (hb : b ≠ []) : orElse a b ≠ [] := by
  unfold orElse
  by_cases ha : a = [] <;> simp [ha, hb]

theorem orElse_of_ne_nil (a b : GoString) (ha : a ≠ []) : orElse a b = a := by
  unfold orElse
  simp [ha]

theorem orElse_nil_left (b : GoString) : orElse [] b = b := rfl

theorem resolveName_ne_nil (env : Env) (span : Span) (resource : Resource) :
    resolveName env span resource ≠ [] := by
  rw [resolveName_eq]
  repeat' apply orElse_ne_nil
  exact fixSegmentName_ne_nil span.Name

theorem map_ok_inv {ε α β γ : Type} (x : Except ε α) (y : Except ε β) (f : α → γ) (g : β → γ)
    (h : x.map f = y.map g) (a : α) (hx : x = .ok a) : ∃ b, y = .ok b ∧ f a = g b := by
  subst hx
  cases y with
  | error e => simp [Except.map] at h
  | ok b => exact ⟨b, rfl, by simpa [Except.map] using h⟩

theorem MakeSegment_Type (env : Env) (epochNow : Int) (span : Span) (resource : Resource)
    (indexedAttrs : List GoString) (indexAllAttrs : Bool) :
    (MakeSegment env epochNow span resource indexedAttrs indexAllAttrs).map
        (fun seg => stringValue seg.Type_)
      = (convertToAmazonTraceID epochNow span.TraceID).map (fun _ => segmentTypeSpec span) := by
  unfold MakeSegment
  cases convertToAmazonTraceID epochNow span.TraceID with
  | error e => rfl
  | ok traceID =>
    simp only [Except.map, stringValue, env.xrayString_val, segmentTypeSpec]
    congr 1
    by_cases hk : span.Kind = SpanKind.Server <;>
      cases hp : span.ParentSpanID.IsEmpty <;> simp [hk, hp]

theorem str_subsegment_ne_nil : str "subsegment" ≠ [] := by decide

/-- C3: `MakeSegment` returns an error, and no segment, exactly when
`convertToAmazonTraceID` rejects the trace identifier of the span, and it is
that error; for every other span, resource and index configuration it returns
a segment and no error. -/
theorem MakeSegment_error_iff (env : Env) (epochNow : Int) (span : Span) (resource : Resource)
    (indexedAttrs : List GoString) (indexAllAttrs : Bool) :
    (∀ e, MakeSegment env epochNow span resource indexedAttrs indexAllAttrs = .error e ↔
      convertToAmazonTraceID epochNow span.TraceID = .error e) ∧
    ((∃ seg, MakeSegment env epochNow span resource indexedAttrs indexAllAttrs = .ok seg) ↔
      ∃ s, convertToAmazonTraceID epochNow span.TraceID = .ok s) ∧
    ((∃ seg, MakeSegment env epochNow span resource indexedAttrs indexAllAttrs = .ok seg) ↔
      ¬ ∃ e, convertToAmazonTraceID epochNow span.TraceID = .error e) := by
  unfold MakeSegment
  cases convertToAmazonTraceID epochNow span.TraceID with
  | error e => simp
  | ok traceID => simp

/-- C4: for every span for which `MakeSegment` succeeds, the type of the
segment is `"subsegment"` if and only if the kind of the span is not Server and
its parent span identifier is not empty; otherwise it is the empty string. A
Server span is a root even with a parent, and a span without a parent is a
root whatever its kind. -/
theorem MakeSegment_segmentType (env : Env) (epochNow : Int) (span : Span) (resource : Resource)
    (indexedAttrs : List GoString) (indexAllAttrs : Bool) (seg : Segment env)
    (h : MakeSegment env epochNow span resource indexedAttrs indexAllAttrs = .ok seg) :
    (stringValue seg.Type_ = str "subsegment" ↔
      (span.Kind ≠ SpanKind.Server ∧ span.ParentSpanID.IsEmpty = false)) ∧
    (¬ (span.Kind ≠ SpanKind.Server ∧ span.ParentSpanID.IsEmpty = false) →
      stringValue seg.Type_ = []) ∧
    (span.Kind = SpanKind.Server → stringValue seg.Type_ = []) ∧
    (span.ParentSpanID.IsEmpty = true → stringValue seg.Type_ = []) := by
  obtain ⟨_, -, ht⟩ := map_ok_inv _ _ _ _
    (MakeSegment_Type env epochNow span resource indexedAttrs indexAllAttrs) seg h
  rw [ht]
  unfold segmentTypeSpec
  by_cases hc : span.Kind ≠ SpanKind.Server ∧ span.ParentSpanID.IsEmpty = false
  · rw [if_pos hc]
    refine ⟨⟨fun _ => hc, fun _ => rfl⟩, fun hn => absurd hc hn, fun hk => absurd hk hc.1, ?_⟩
    intro hp
    rw [hc.2] at hp
    exact absurd hp (by decide)
  · rw [if_neg hc]
    refine ⟨⟨fun he => absurd he.symm str_subsegment_ne_nil, fun h' => absurd h' hc⟩,
      fun _ => rfl, fun _ => rfl, fun _ => rfl⟩

/-- Witness of C4: a Client span with a parent gives a subsegment. -/
theorem MakeSegment_segmentType_witness :
    ∃ seg, MakeSegment exampleEnv 1480615200
        (exampleSpan exampleSpanID (str "/users/junit") SpanKind.Client []) ⟨[]⟩ [] false
        = .ok seg ∧ stringValue seg.Type_ = str "subsegment" :=
  ⟨_, rfl, (MakeSegment_segmentType exampleEnv 1480615200
      (exampleSpan exampleSpanID (str "/users/junit") SpanKind.Client []) ⟨[]⟩ [] false _
      rfl).1.mpr (by decide)⟩

/-- C5: for every span and resource for which `MakeSegment` succeeds, the name
of the segment is a non-empty string, whatever the attributes are. -/
theorem MakeSegment_Name_ne_nil (env : Env) (epochNow : Int) (span : Span)
    (resource : Resource) (indexedAttrs : List GoString) (indexAllAttrs : Bool)
    (seg : Segment env)
    (h : MakeSegment env epochNow span resource indexedAttrs indexAllAttrs = .ok seg) :
    stringValue seg.Name ≠ [] ∧ ∃ name, seg.Name = some name ∧ name ≠ [] := by
  obtain ⟨_, -, hn⟩ := map_ok_inv _ _ _ _
    (MakeSegment_Name env epochNow span resource indexedAttrs indexAllAttrs) seg h
  have hne : stringValue seg.Name ≠ [] := by
    rw [hn]
    exact resolveName_ne_nil env span resource
  refine ⟨hne, ?_⟩
  cases hs : seg.Name with
  | none => rw [hs] at hne; exact absurd rfl hne
  | some name => rw [hs] at hne; exact ⟨name, rfl, hne⟩

/-- Witness of C5: a span whose only naming attribute is an empty
`peer.service` is named after the span. -/
theorem MakeSegment_Name_ne_nil_witness :
    ∃ seg, MakeSegment exampleEnv 1480615200
        (exampleSpan emptySpanID (str "/users/junit") SpanKind.Server
          [(AttributePeerService, Value.string [])]) ⟨[]⟩ [] false
        = .ok seg ∧ stringValue seg.Name ≠ [] :=
  ⟨_, rfl, (MakeSegment_Name_ne_nil exampleEnv 1480615200
      (exampleSpan emptySpanID (str "/users/junit") SpanKind.Server
        [(AttributePeerService, Value.string [])]) ⟨[]⟩ [] false _ rfl).1⟩

theorem find_none_resolveName (env : Env) (span : Span) (resource : Resource)
    (h : (nameCandidates env span resource).find? (fun c => decide (c ≠ [])) = none) :
    resolveName env span resource = fixSegmentName span.Name := by
  unfold resolveName
  rw [h]

theorem find_some_resolveName (env : Env) (span : Span) (resource : Resource) (name : GoString)
    (h : (nameCandidates env span resource).find? (fun c => decide (c ≠ [])) = some name) :
    resolveName env span resource = name := by
  unfold resolveName
  rw [h]

set_option maxRecDepth 100000 in
/-- Counterexample to C6: a span whose `peer.service` attribute is `!` gets the
segment name `!`, a character outside the allow-list. -/
theorem MakeSegment_Name_unsanitized :
    ∃ seg, MakeSegment exampleEnv 1480615200
        (exampleSpan emptySpanID (str "/users/junit") SpanKind.Server
          [(AttributePeerService, Value.string (str "!"))]) ⟨[]⟩ [] false = .ok seg ∧
      stringValue seg.Name = str "!" ∧
      ¬ (∀ p ∈ runes (stringValue seg.Name), listedSpanCharacter p.1 = true) :=
  ⟨_, rfl, by decide, by decide⟩

/-- C6, amended: for every span and resource for which `MakeSegment` succeeds,
a name taken from an attribute (the first non-empty candidate of the cascade)
is used as it is; when every candidate is absent or empty the name is the
sanitized span name, which has at most 200 bytes, hence at most 200
characters, and consists of allow-listed characters only when the span name
stripped of its other characters has at most 200 bytes. -/
theorem MakeSegment_Name_sanitized_fallback (env : Env) (epochNow : Int) (span : Span)
    (resource : Resource) (indexedAttrs : List GoString) (indexAllAttrs : Bool)
    (seg : Segment env)
    (h : MakeSegment env epochNow span resource indexedAttrs indexAllAttrs = .ok seg) :
    (∀ name, (nameCandidates env span resource).find? (fun c => decide (c ≠ [])) = some name →
      stringValue seg.Name = name) ∧
    ((nameCandidates env span resource).find? (fun c => decide (c ≠ [])) = none →
      stringValue seg.Name = fixSegmentName span.Name ∧
      (stringValue seg.Name).length ≤ 200 ∧
      (runes (stringValue seg.Name)).length ≤ 200 ∧
      ((((runes span.Name).filter (fun p => listedSpanCharacter p.1)).flatMap
          (fun p => p.2)).length ≤ 200 →
        ∀ p ∈ runes (stringValue seg.Name), listedSpanCharacter p.1 = true)) := by
  obtain ⟨_, -, hn⟩ := map_ok_inv _ _ _ _
    (MakeSegment_Name env epochNow span resource indexedAttrs indexAllAttrs) seg h
  rw [hn]
  refine ⟨fun name hf => find_some_resolveName env span resource name hf, fun hf => ?_⟩
  rw [find_none_resolveName env span resource hf]
  have hlen := fixSegmentName_length_le span.Name
  have hr := runes_length_le (fixSegmentName span.Name)
  exact ⟨rfl, hlen, by omega, fixSegmentName_listed span.Name⟩

set_option maxRecDepth 100000 in
/-- Witness of C6, amended: a span without naming attributes is named after
the span. -/
theorem MakeSegment_Name_sanitized_fallback_witness :
    ∃ seg, MakeSegment exampleEnv 1480615200
        (exampleSpan emptySpanID (str "GET /users?id=1") SpanKind.Server []) ⟨[]⟩ [] false
        = .ok seg ∧ stringValue seg.Name = str "GET /usersid=1" :=
  ⟨_, rfl, ((MakeSegment_Name_sanitized_fallback exampleEnv 1480615200
      (exampleSpan emptySpanID (str "GET /users?id=1") SpanKind.Server []) ⟨[]⟩ [] false _
      rfl).2 (by decide)).1.trans (by decide)⟩

set_option maxRecDepth 100000 in
/-- C7, at the failing input: the name of 150 times `é` has 150 characters,
all of them allowed, so the sanitization of the specification, which cuts
after 200 characters, returns it whole; `fixSegmentName` returns its first 200
bytes, which are 100 characters. -/
theorem fixSegmentName_cuts_bytes :
    (∀ p ∈ runes accentedName, listedSpanCharacter p.1 = true) ∧
      (runes accentedName).length = 150 ∧
      accentedName.length = 300 ∧
      sanitizeSpec accentedName = accentedName ∧
      fixSegmentName accentedName = (List.replicate 100 (str "é")).flatten ∧
      (runes (fixSegmentName accentedName)).length = 100 ∧
      fixSegmentName accentedName ≠ sanitizeSpec accentedName := by
  decide

set_option maxRecDepth 100000 in
/-- C8, at the failing input: for the name of 199 times `a` followed by `é`,
`fixSegmentName` cuts the two bytes of `é` apart and keeps the first, and a
second application deletes that byte, so the second result differs. -/
theorem fixSegmentName_not_idempotent :
    fixSegmentName longName = List.replicate 199 0x61 ++ [0xC3] ∧
    fixSegmentName (fixSegmentName longName) = List.replicate 199 0x61 ∧
    fixSegmentName (fixSegmentName longName) ≠ fixSegmentName longName := by
  decide

set_option maxRecDepth 100000 in
/-- Counterexample to C9: `fixSegmentName` does not turn `日本語` into
`span`. -/
theorem fixSegmentName_japanese_ne_span : fixSegmentName (str "日本語") ≠ str "span" := by
  decide

set_option maxRecDepth 100000 in
/-- C9, amended: the name `日本語` is composed entirely of Unicode letters, which
the allow-list contains, so `fixSegmentName` leaves it unchanged, and a span
with that name and no naming attributes gets the segment name `日本語`; a name
composed entirely of characters outside the allow-list, such as `!?`, gives
`span`. -/
theorem fixSegmentName_japanese :
    (∀ p ∈ runes (str "日本語"), listedSpanCharacter p.1 = true) ∧
    fixSegmentName (str "日本語") = str "日本語" ∧
    (∃ seg, MakeSegment exampleEnv 1480615200
        (exampleSpan emptySpanID (str "日本語") SpanKind.Server []) ⟨[]⟩ [] false = .ok seg ∧
      stringValue seg.Name = str "日本語") ∧
    (∀ p ∈ runes (str "!?"), listedSpanCharacter p.1 = false) ∧
    fixSegmentName (str "!?") = str "span" :=
  ⟨by decide, by decide, ⟨_, rfl, by decide⟩, by decide, by decide⟩

/-- C10: for every span and resource, the name `MakeSegment` gives the segment
is the first non-empty string among, in this order, the `peer.service`
attribute, the AWS service attribute, the `db.name` attribute (with `"@"` and
the hostname appended when `db.connection_string` is present and parses to a
non-empty hostname), the `service.name` of the resource when the span kind is
Server, `rpc.service`, `http.host`, `net.peer.name`, and else the sanitized
span name. A non-empty `peer.service` always wins, and for a span that is not
of kind Server the name does not depend on the resource. -/
theorem MakeSegment_Name_cascade (env : Env) (epochNow : Int) (span : Span)
    (resource : Resource) (indexedAttrs : List GoString) (indexAllAttrs : Bool) :
    (MakeSegment env epochNow span resource indexedAttrs indexAllAttrs).map
        (fun seg => stringValue seg.Name)
      = (convertToAmazonTraceID epochNow span.TraceID).map
        (fun _ => resolveName env span resource) ∧
    (attributeString span.Attributes AttributePeerService ≠ [] →
      resolveName env span resource = attributeString span.Attributes AttributePeerService) ∧
    (span.Kind ≠ SpanKind.Server →
      ∀ resource', resolveName env span resource' = resolveName env span resource) := by
  refine ⟨MakeSegment_Name env epochNow span resource indexedAttrs indexAllAttrs, ?_, ?_⟩
  · intro hp
    rw [resolveName_eq]
    exact orElse_of_ne_nil _ _ hp
  · intro hk resource'
    simp only [resolveName_eq, if_neg hk]

set_option maxRecDepth 100000 in
/-- Witness of C10: a Client span with `db.name`, `rpc.service` and a resource
with `service.name` is named by `db.name`. -/
theorem MakeSegment_Name_cascade_witness :
    ∃ seg, MakeSegment exampleEnv 1480615200
        (exampleSpan exampleSpanID (str "SELECT") SpanKind.Client
          [(AttributeRPCService, Value.string (str "rpc")),
           (AttributeDBName, Value.string (str "customers"))])
        ⟨[(AttributeServiceName, Value.string (str "signup_aggregator"))]⟩ [] false = .ok seg ∧
      stringValue seg.Name = str "customers" ∧
      resolveName exampleEnv
        (exampleSpan exampleSpanID (str "SELECT") SpanKind.Client
          [(AttributeRPCService, Value.string (str "rpc")),
           (AttributeDBName, Value.string (str "customers"))])
        ⟨[(AttributeServiceName, Value.string (str "signup_aggregator"))]⟩ = str "customers" :=
  ⟨_, rfl, by decide,
    ((MakeSegment_Name_cascade exampleEnv 1480615200
      (exampleSpan exampleSpanID (str "SELECT") SpanKind.Client
        [(AttributeRPCService, Value.string (str "rpc")),
         (AttributeDBName, Value.string (str "customers"))])
      ⟨[]⟩ [] false).2.2 (by decide) _).trans (by decide)⟩

/-! ## The namespace -/

theorem str_aws_ne_nil : str "aws" ≠ [] := by decide

theorem str_remote_ne_nil : str "remote" ≠ [] := by decide

theorem str_remote_ne_aws : str "remote" ≠ str "aws" := by decide

theorem AttributeCloudProviderAWS_eq : AttributeCloudProviderAWS = str "aws" := rfl

/-- The statements of `MakeSegment` on the variable `namespace`, as a function
of the three attributes they read and of the span kind. -/
theorem namespace_cases (rpc peer aws : Option Value) (kind : SpanKind) :
    (let name : GoString := []
     let namespace_ : GoString := []
     let name :=
       match peer with
       | some peerService => peerService.StringVal
       | none => name
     let namespace_ :=
       if namespace_ = [] then
         match rpc with
         | some rpcSystem =>
           if rpcSystem.StringVal = str "aws-api" then AttributeCloudProviderAWS else namespace_
         | none => namespace_
       else namespace_
     let namespace_ :=
       if name = [] then
         match aws with
         | some _ => if namespace_ = [] then AttributeCloudProviderAWS else namespace_
         | none => namespace_
       else namespace_
     if namespace_ = [] ∧ kind = SpanKind.Client then str "remote" else namespace_)
    = if ((match rpc with
            | some v => v.StringVal
            | none => []) = str "aws-api" ∨
          ((match peer with
            | some v => v.StringVal
            | none => []) = [] ∧ aws.isSome = true)) then str "aws"
      else if kind = SpanKind.Client then str "remote"
      else [] := by
  have h1 := str_aws_ne_nil
  have h2 : ([] : GoString) ≠ str "aws-api" := by decide
  rw [AttributeCloudProviderAWS_eq]
  cases rpc with
  | none =>
    cases peer with
    | none => cases aws <;> simp [h1, h2]
    | some p =>
      by_cases hp : p.StringVal = [] <;> cases aws <;> simp [h1, h2, hp]
  | some r =>
    by_cases hr : r.StringVal = str "aws-api"
    · cases peer with
      | none => cases aws <;> simp [h1, hr]
      | some p =>
        by_cases hp : p.StringVal = [] <;> cases aws <;> simp [h1, hr, hp]
    · cases peer with
      | none => cases aws <;> simp [h1, hr]
      | some p =>
        by_cases hp : p.StringVal = [] <;> cases aws <;> simp [h1, hr, hp]

theorem MakeSegment_Namespace (env : Env) (epochNow : Int) (span : Span) (resource : Resource)
    (indexedAttrs : List GoString) (indexAllAttrs : Bool) :
    (MakeSegment env epochNow span resource indexedAttrs indexAllAttrs).map
        (fun seg => stringValue seg.Namespace)
      = (convertToAmazonTraceID epochNow span.TraceID).map (fun _ => namespaceSpec span) := by
  unfold MakeSegment
  cases convertToAmazonTraceID epochNow span.TraceID with
  | error e => rfl
  | ok traceID =>
    simp only [Except.map, stringValue, env.xrayString_val]
    congr 1
    exact namespace_cases (span.Attributes.Get AttributeRPCSystem)
      (span.Attributes.Get AttributePeerService) (span.Attributes.Get AWSServiceAttribute)
      span.Kind

/-- C11: for every span, the namespace `MakeSegment` gives the segment is `aws`
if the `rpc.system` attribute equals `aws-api`, or if `peer.service` is absent
or empty and the AWS-service attribute is present; otherwise `remote` if the
span kind is Client; otherwise the empty string. It is one of `""`, `remote`,
`aws`; a Client span gets `remote` exactly when nothing set `aws`, and a span
that is not a Client never gets `remote`. -/
theorem MakeSegment_Namespace_spec (env : Env) (epochNow : Int) (span : Span)
    (resource : Resource) (indexedAttrs : List GoString) (indexAllAttrs : Bool) :
    (MakeSegment env epochNow span resource indexedAttrs indexAllAttrs).map
        (fun seg => stringValue seg.Namespace)
      = (convertToAmazonTraceID epochNow span.TraceID).map (fun _ => namespaceSpec span) ∧
    (namespaceSpec span = [] ∨ namespaceSpec span = str "remote" ∨
      namespaceSpec span = str "aws") ∧
    (span.Kind = SpanKind.Client →
      (namespaceSpec span = str "remote" ↔ ¬ awsNamespace span)) ∧
    (span.Kind ≠ SpanKind.Client → namespaceSpec span ≠ str "remote") := by
  refine ⟨MakeSegment_Namespace env epochNow span resource indexedAttrs indexAllAttrs, ?_, ?_, ?_⟩
  · unfold namespaceSpec
    split_ifs <;> simp
  · intro hk
    unfold namespaceSpec
    by_cases ha : awsNamespace span
    · rw [if_pos ha]
      exact ⟨fun h => absurd h.symm str_remote_ne_aws, fun h => absurd ha h⟩
    · rw [if_neg ha, if_pos hk]
      exact ⟨fun _ => ha, fun _ => rfl⟩
  · intro hk
    unfold namespaceSpec
    by_cases ha : awsNamespace span
    · rw [if_pos ha]
      exact fun h => str_remote_ne_aws h.symm
    · rw [if_neg ha, if_neg hk]
      exact fun h => str_remote_ne_nil h.symm

set_option maxRecDepth 100000 in
/-- Witness of C11: a Client span with `rpc.system = aws-api` is in the
namespace `aws`, and the plain Client span in `remote`. -/
theorem MakeSegment_Namespace_spec_witness :
    (∃ seg, MakeSegment exampleEnv 1480615200
        (exampleSpan exampleSpanID (str "PutItem") SpanKind.Client
          [(AttributeRPCSystem, Value.string (str "aws-api"))]) ⟨[]⟩ [] false = .ok seg ∧
      stringValue seg.Namespace = str "aws") ∧
    namespaceSpec (exampleSpan exampleSpanID (str "GET") SpanKind.Client []) = str "remote" :=
  ⟨⟨_, rfl, by decide⟩,
    ((MakeSegment_Namespace_spec exampleEnv 1480615200
      (exampleSpan exampleSpanID (str "GET") SpanKind.Client []) ⟨[]⟩ [] false).2.2.1
      (by decide)).mpr
      (by decide)⟩

/-! ## Lemmas on Go maps -/

theorem mapGet_mapSet_self {α : Type} (m : GoMap α) (k : GoString) (v : α) :
    mapGet (mapSet m k v) k = some v := by
  induction m with
  | nil => simp [mapSet, mapGet]
  | cons kv rest ih =>
    by_cases h : kv.1 = k
    · simp [mapSet, mapGet, h]
    · simp [mapSet, mapGet, h, ih]

theorem mapGet_mapSet_ne {α : Type} (m : GoMap α) (k k' : GoString) (v : α) (h : k ≠ k') :
    mapGet (mapSet m k v) k' = mapGet m k' := by
  induction m with
  | nil => simp [mapSet, mapGet, h]
  | cons kv rest ih =>
    obtain ⟨a, b⟩ := kv
    by_cases h1 : a = k
    · subst h1
      simp [mapSet, mapGet, h]
    · by_cases h2 : a = k'
      · subst h2
        simp [mapSet, mapGet, h1]
      · simp [mapSet, mapGet, h1, h2, ih]

theorem mem_mapSet {α : Type} (m : GoMap α) (k : GoString) (v : α) (x : GoString × α)
    (h : x ∈ mapSet m k v) : x = (k, v) ∨ x ∈ m := by
  induction m with
  | nil => simpa [mapSet] using h
  | cons kv rest ih =>
    by_cases h1 : kv.1 = k
    · simp only [mapSet, h1, if_true, List.mem_cons] at h
      rcases h with h | h
      · exact Or.inl h
      · exact Or.inr (List.mem_cons_of_mem _ h)
    · simp only [mapSet, h1, if_false, List.mem_cons] at h
      rcases h with h | h
      · exact Or.inr (h ▸ List.mem_cons_self _ _)
      · rcases ih h with h | h
        · exact Or.inl h
        · exact Or.inr (List.mem_cons_of_mem _ h)

theorem mapGet_none_of_forall {α : Type} (m : GoMap α) (k : GoString)
    (h : ∀ x ∈ m, x.1 ≠ k) : mapGet m k = none := by
  induction m with
  | nil => rfl
  | cons kv rest ih =>
    have h1 : ¬ kv.1 = k := h kv (List.mem_cons_self _ _)
    simp only [mapGet, h1, if_false]
    exact ih (fun x hx => h x (List.mem_cons_of_mem _ hx))

theorem mapDelete_of_mapGet_none {α : Type} (m : GoMap α) (k : GoString)
    (h : mapGet m k = none) : mapDelete m k = m := by
  induction m with
  | nil => rfl
  | cons kv rest ih =>
    by_cases h1 : kv.1 = k
    · simp [mapGet, h1] at h
    · simp only [mapGet, h1, if_false] at h
      simp only [mapDelete, List.filter_cons, ne_eq, h1, not_false_eq_true, decide_True, if_true]
      congr 1
      exact ih h

theorem mapGet_mapDelete_self {α : Type} (m : GoMap α) (k : GoString) :
    mapGet (mapDelete m k) k = none := by
  apply mapGet_none_of_forall
  intro x hx
  simp only [mapDelete, List.mem_filter, decide_eq_true_eq] at hx
  exact hx.2

theorem mem_mapDelete {α : Type} (m : GoMap α) (k : GoString) (x : GoString × α)
    (h : x ∈ mapDelete m k) : x ∈ m ∧ x.1 ≠ k := by
  simpa [mapDelete] using h

theorem foldl_invariant {σ β : Type} (P : σ → Prop) (f : σ → β → σ) (l : List β)
    (hstep : ∀ s b, b ∈ l → P s → P (f s b)) : ∀ s, P s → P (l.foldl f s) := by
  induction l with
  | nil => intro s hs; exact hs
  | cons b rest ih =>
    intro s hs
    exact ih (fun s' b' hb' hp => hstep s' b' (List.mem_cons_of_mem _ hb') hp) _
      (hstep s b (List.mem_cons_self _ _) hs)

/-! ## Annotations and metadata -/

/-- The parts of `makeXRayAttributes`, written out: the user, and for the
residual attributes `rest` the early return or the result of the loops. -/
theorem makeXRayAttributes_eq (attributes : GoMap Value) (resource : Resource)
    (storeResource : Bool) (indexedAttrs : List GoString) (indexAllAttrs : Bool) :
    makeXRayAttributes attributes resource storeResource indexedAttrs indexAllAttrs =
      if (mapDelete attributes AttributeEnduserID).length = 0 ∧
          (!storeResource ∨ resource.Attributes.Len = 0) then
        (attributeUser attributes, none, none)
      else
        (attributeUser attributes,
          some (attributesLoops (mapDelete attributes AttributeEnduserID) resource storeResource
            indexedAttrs indexAllAttrs).annotations,
          some (if (attributesLoops (mapDelete attributes AttributeEnduserID) resource
              storeResource indexedAttrs indexAllAttrs).defaultMetadata.length > 0 then
            mapSet [] (str "default") (attributesLoops (mapDelete attributes AttributeEnduserID)
              resource storeResource indexedAttrs indexAllAttrs).defaultMetadata
          else [])) := by
  unfold makeXRayAttributes attributeUser attributesLoops indexedKeysOf
  cases h : mapGet attributes AttributeEnduserID with
  | none =>
    rw [mapDelete_of_mapGet_none attributes _ h]
  | some v => rfl

theorem indexedKeys_foldl (indexedAttrs : List GoString) (key : GoString) :
    ∀ m : GoMap Bool,
      ((mapGet (indexedAttrs.foldl (fun m name => mapSet m name true) m) key).getD false = true ↔
        ((mapGet m key).getD false = true ∨ key ∈ indexedAttrs)) := by
  induction indexedAttrs with
  | nil => intro m; simp
  | cons n rest ih =>
    intro m
    rw [List.foldl_cons, ih]
    by_cases h : n = key
    · subst h
      simp [mapGet_mapSet_self]
    · rw [mapGet_mapSet_ne _ _ _ _ h]
      have h' : ¬ key = n := fun e => h e.symm
      simp [h']

theorem indexed_eq_selected (indexedAttrs : List GoString) (indexAllAttrs : Bool)
    (key : GoString) :
    (indexAllAttrs || (mapGet (indexedKeysOf indexedAttrs indexAllAttrs) key).getD false)
      = selectedForIndexing indexedAttrs indexAllAttrs key := by
  unfold selectedForIndexing indexedKeysOf
  cases indexAllAttrs with
  | true => rfl
  | false =>
    simp only [Bool.not_false, if_true, Bool.false_or]
    have h := indexedKeys_foldl indexedAttrs key []
    simp only [mapGet, Option.getD_none, Bool.false_eq_true, false_or] at h
    by_cases hk : key ∈ indexedAttrs
    · rw [h.mpr hk]; simp [hk]
    · have : (mapGet (indexedAttrs.foldl (fun m name => mapSet m name true) []) key).getD false
          = false := by
        cases hc : (mapGet (indexedAttrs.foldl (fun m name => mapSet m name true) []) key).getD
          false with
        | false => rfl
        | true => exact absurd (h.mp hc) hk
      rw [this]; simp [hk]

theorem annotationValue_isScalar (v : Value) (h : (annotationValue v).isNil = false) :
    (annotationValue v).isScalar = true ∧ v.isScalar = true := by
  cases v <;> simp [annotationValue, Iface.isNil, Iface.isScalar, Value.isScalar] at h ⊢

theorem annotationValue_isNil_iff (v : Value) :
    (annotationValue v).isNil = false ↔ v.isScalar = true := by
  cases v <;> simp [annotationValue, Iface.isNil, Value.isScalar]

theorem metadataValue_isNil_iff (v : Value) :
    (metadataValue v).isNil = false ↔ v.isSupported = true := by
  cases v <;> simp [metadataValue, Iface.isNil, Value.isSupported]

/-- The effect of the `Range` over the resource attributes on one attribute,
with the selection written by `selectedForIndexing`. -/
theorem resourceRange_eq (indexedAttrs : List GoString) (indexAllAttrs : Bool)
    (st : AttributesLoop) (k0 : GoString) (v : Value) :
    resourceRange indexAllAttrs (indexedKeysOf indexedAttrs indexAllAttrs) st (k0, v) =
      if v.isScalar = true ∧
          selectedForIndexing indexedAttrs indexAllAttrs (resourceKey k0) = true then
        { st with annotations :=
            mapSet st.annotations (fixAnnotationKey (resourceKey k0)) (annotationValue v) }
      else if v.isSupported = true then
        { st with defaultMetadata :=
            mapSet st.defaultMetadata (resourceKey k0) (metadataValue v) }
      else st := by
  unfold resourceRange
  simp only [indexed_eq_selected]
  have ha := annotationValue_isNil_iff v
  have hm := metadataValue_isNil_iff v
  have hk : str "otel.resource." ++ k0 = resourceKey k0 := rfl
  rw [hk]
  by_cases h1 : v.isScalar = true
  · have h1' := ha.mpr h1
    by_cases h2 : selectedForIndexing indexedAttrs indexAllAttrs (resourceKey k0) = true
    · simp [h1, h1', h2]
    · have h3 : v.isSupported = true := by
        cases v <;> simp [Value.isScalar, Value.isSupported] at h1 ⊢
      simp [h1, h1', h2, h3, hm.mpr h3]
  · have h1' : (annotationValue v).isNil = true := by
      cases hc : (annotationValue v).isNil with
      | true => rfl
      | false => exact absurd (ha.mp hc) h1
    by_cases h3 : v.isSupported = true
    · simp [h1, h1', h3, hm.mpr h3]
    · have h3' : (metadataValue v).isNil = true := by
        cases hc : (metadataValue v).isNil with
        | true => rfl
        | false => exact absurd (hm.mp hc) h3
      simp [h1, h1', h3, h3']

/-- The effect of the loop over the residual attributes on one attribute when
all attributes are indexed. -/
theorem indexAllRange_eq (st : AttributesLoop) (k : GoString) (v : Value) :
    indexAllRange st (k, v) =
      if v.isScalar = true then
        { st with annotations := mapSet st.annotations (fixAnnotationKey k) (annotationValue v) }
      else st := by
  unfold indexAllRange
  have ha := annotationValue_isNil_iff v
  by_cases h1 : v.isScalar = true
  · simp [h1, ha.mpr h1]
  · have h1' : (annotationValue v).isNil = true := by
      cases hc : (annotationValue v).isNil with
      | true => rfl
      | false => exact absurd (ha.mp hc) h1
    simp [h1, h1']

/-- The effect of the loop over the residual attributes on one attribute when
only the listed attributes are indexed. -/
theorem indexedRange_eq (indexedAttrs : List GoString) (st : AttributesLoop) (k : GoString)
    (v : Value) :
    indexedRange (indexedKeysOf indexedAttrs false) st (k, v) =
      if selectedForIndexing indexedAttrs false k = true then
        if v.isScalar = true then
          { st with annotations :=
              mapSet st.annotations (fixAnnotationKey k) (annotationValue v) }
        else st
      else if v.isSupported = true then
        { st with defaultMetadata := mapSet st.defaultMetadata k (metadataValue v) }
      else st := by
  unfold indexedRange
  have hs := indexed_eq_selected indexedAttrs false k
  simp only [Bool.false_or] at hs
  simp only [hs]
  have ha := annotationValue_isNil_iff v
  have hm := metadataValue_isNil_iff v
  by_cases h2 : selectedForIndexing indexedAttrs false k = true
  · by_cases h1 : v.isScalar = true
    · simp [h2, h1, ha.mpr h1]
    · have h1' : (annotationValue v).isNil = true := by
        cases hc : (annotationValue v).isNil with
        | true => rfl
        | false => exact absurd (ha.mp hc) h1
      simp [h2, h1, h1']
  · by_cases h3 : v.isSupported = true
    · simp [h2, h3, hm.mpr h3]
    · have h3' : (metadataValue v).isNil = true := by
        cases hc : (metadataValue v).isNil with
        | true => rfl
        | false => exact absurd (hm.mp hc) h3
      simp [h2, h3, h3']

theorem resourceRange_provenance (rest : GoMap Value) (resource : Resource)
    (indexedAttrs : List GoString) (indexAllAttrs : Bool) (st : AttributesLoop)
    (b : GoString × Value) (hb : b ∈ resource.Attributes)
    (hst : (∀ kv ∈ st.annotations,
        AnnotationFrom rest resource true indexedAttrs indexAllAttrs kv) ∧
      (∀ kv ∈ st.defaultMetadata,
        MetadataFrom rest resource true indexedAttrs indexAllAttrs kv)) :
    (∀ kv ∈ (resourceRange indexAllAttrs (indexedKeysOf indexedAttrs indexAllAttrs) st
        b).annotations, AnnotationFrom rest resource true indexedAttrs indexAllAttrs kv) ∧
    (∀ kv ∈ (resourceRange indexAllAttrs (indexedKeysOf indexedAttrs indexAllAttrs) st
        b).defaultMetadata, MetadataFrom rest resource true indexedAttrs indexAllAttrs kv) := by
  obtain ⟨k0, v⟩ := b
  rw [resourceRange_eq]
  split_ifs with h1 h2
  · refine ⟨fun kv hkv => ?_, hst.2⟩
    rcases mem_mapSet _ _ _ _ hkv with rfl | hkv
    · exact ⟨resourceKey k0, v, rfl, (annotationValue_isNil_iff v).mpr h1.1, h1.2,
        Or.inr ⟨rfl, k0, rfl, hb⟩⟩
    · exact hst.1 kv hkv
  · refine ⟨hst.1, fun kv hkv => ?_⟩
    rcases mem_mapSet _ _ _ _ hkv with rfl | hkv
    · exact ⟨resourceKey k0, v, rfl, (metadataValue_isNil_iff v).mpr h2,
        Or.inr ⟨rfl, k0, rfl, hb, h1⟩⟩
    · exact hst.2 kv hkv
  · exact hst

theorem indexAllRange_provenance (rest : GoMap Value) (resource : Resource)
    (storeResource : Bool) (indexedAttrs : List GoString) (st : AttributesLoop)
    (b : GoString × Value) (hb : b ∈ rest)
    (hst : (∀ kv ∈ st.annotations,
        AnnotationFrom rest resource storeResource indexedAttrs true kv) ∧
      (∀ kv ∈ st.defaultMetadata,
        MetadataFrom rest resource storeResource indexedAttrs true kv)) :
    (∀ kv ∈ (indexAllRange st b).annotations,
        AnnotationFrom rest resource storeResource indexedAttrs true kv) ∧
    (∀ kv ∈ (indexAllRange st b).defaultMetadata,
        MetadataFrom rest resource storeResource indexedAttrs true kv) := by
  obtain ⟨k, v⟩ := b
  rw [indexAllRange_eq]
  split_ifs with h1
  · refine ⟨fun kv hkv => ?_, hst.2⟩
    rcases mem_mapSet _ _ _ _ hkv with rfl | hkv
    · exact ⟨k, v, rfl, (annotationValue_isNil_iff v).mpr h1, rfl, Or.inl hb⟩
    · exact hst.1 kv hkv
  · exact hst

theorem indexedRange_provenance (rest : GoMap Value) (resource : Resource)
    (storeResource : Bool) (indexedAttrs : List GoString) (st : AttributesLoop)
    (b : GoString × Value) (hb : b ∈ rest)
    (hst : (∀ kv ∈ st.annotations,
        AnnotationFrom rest resource storeResource indexedAttrs false kv) ∧
      (∀ kv ∈ st.defaultMetadata,
        MetadataFrom rest resource storeResource indexedAttrs false kv)) :
    (∀ kv ∈ (indexedRange (indexedKeysOf indexedAttrs false) st b).annotations,
        AnnotationFrom rest resource storeResource indexedAttrs false kv) ∧
    (∀ kv ∈ (indexedRange (indexedKeysOf indexedAttrs false) st b).defaultMetadata,
        MetadataFrom rest resource storeResource indexedAttrs false kv) := by
  obtain ⟨k, v⟩ := b
  rw [indexedRange_eq]
  split_ifs with h2 h1 h3
  · refine ⟨fun kv hkv => ?_, hst.2⟩
    rcases mem_mapSet _ _ _ _ hkv with rfl | hkv
    · exact ⟨k, v, rfl, (annotationValue_isNil_iff v).mpr h1, h2, Or.inl hb⟩
    · exact hst.1 kv hkv
  · exact hst
  · refine ⟨hst.1, fun kv hkv => ?_⟩
    rcases mem_mapSet _ _ _ _ hkv with rfl | hkv
    · refine ⟨k, v, rfl, (metadataValue_isNil_iff v).mpr h3, Or.inl ⟨hb, ?_⟩⟩
      cases hc : selectedForIndexing indexedAttrs false k with
      | false => rfl
      | true => exact absurd hc h2
    · exact hst.2 kv hkv
  · exact hst

/-- Every entry of the two maps the loops of `makeXRayAttributes` fill comes
from an attribute, as `AnnotationFrom` and `MetadataFrom` say. -/
theorem attributesLoops_provenance (rest : GoMap Value) (resource : Resource)
    (storeResource : Bool) (indexedAttrs : List GoString) (indexAllAttrs : Bool) :
    (∀ kv ∈ (attributesLoops rest resource storeResource indexedAttrs indexAllAttrs).annotations,
      AnnotationFrom rest resource storeResource indexedAttrs indexAllAttrs kv) ∧
    (∀ kv ∈ (attributesLoops rest resource storeResource indexedAttrs
        indexAllAttrs).defaultMetadata,
      MetadataFrom rest resource storeResource indexedAttrs indexAllAttrs kv) := by
  unfold attributesLoops
  simp only
  have h0 : (∀ kv ∈ ({ annotations := [], defaultMetadata := [] } : AttributesLoop).annotations,
        AnnotationFrom rest resource storeResource indexedAttrs indexAllAttrs kv) ∧
      (∀ kv ∈ ({ annotations := [], defaultMetadata := [] } : AttributesLoop).defaultMetadata,
        MetadataFrom rest resource storeResource indexedAttrs indexAllAttrs kv) :=
    ⟨fun kv h => absurd h (List.not_mem_nil _), fun kv h => absurd h (List.not_mem_nil _)⟩
  have h1 : (∀ kv ∈ (if storeResource = true then
          resource.Attributes.foldl
            (resourceRange indexAllAttrs (indexedKeysOf indexedAttrs indexAllAttrs))
            { annotations := [], defaultMetadata := [] }
        else ({ annotations := [], defaultMetadata := [] } : AttributesLoop)).annotations,
        AnnotationFrom rest resource storeResource indexedAttrs indexAllAttrs kv) ∧
      (∀ kv ∈ (if storeResource = true then
          resource.Attributes.foldl
            (resourceRange indexAllAttrs (indexedKeysOf indexedAttrs indexAllAttrs))
            { annotations := [], defaultMetadata := [] }
        else ({ annotations := [], defaultMetadata := [] } : AttributesLoop)).defaultMetadata,
        MetadataFrom rest resource storeResource indexedAttrs indexAllAttrs kv) := by
    cases storeResource with
    | false => exact h0
    | true =>
      simp only [if_true]
      exact foldl_invariant _ _ _
        (fun s b hb hs => resourceRange_provenance rest resource indexedAttrs indexAllAttrs s b
          hb hs) _ h0
  cases indexAllAttrs with
  | true =>
    simp only [if_true]
    exact foldl_invariant _ _ _
      (fun s b hb hs => indexAllRange_provenance rest resource storeResource indexedAttrs s b
        hb hs) _ h1
  | false =>
    simp only [Bool.false_eq_true, if_false]
    exact foldl_invariant _ _ _
      (fun s b hb hs => indexedRange_provenance rest resource storeResource indexedAttrs s b
        hb hs) _ h1

/-! ## Annotation keys -/

theorem flatMap_singleton {α β : Type} (l : List α) (g : α → β) :
    l.flatMap (fun x => [g x]) = l.map g := by
  induction l with
  | nil => rfl
  | cons a l ih => simp [List.flatMap_cons, ih]

theorem fixAnnotationKey_eq_spec (key : GoString) :
    fixAnnotationKey key = fixAnnotationKeySpec key := by
  unfold fixAnnotationKey fixAnnotationKeySpec stringsMap
  rw [← flatMap_singleton]
  congr 1
  funext p
  by_cases h : (0x30 ≤ p.1 ∧ p.1 ≤ 0x39) ∨ (0x41 ≤ p.1 ∧ p.1 ≤ 0x5A) ∨ (0x61 ≤ p.1 ∧ p.1 ≤ 0x7A)
  · have hlt : p.1 < 0x80 := by omega
    have ha : isAlphanumeric p.1 = true := by
      simp only [isAlphanumeric, Bool.or_eq_true, Bool.and_eq_true, decide_eq_true_eq]
      tauto
    simp only [if_pos h, utf8EncodeRune, if_pos hlt, ha, if_true]
  · have ha : isAlphanumeric p.1 = false := by
      cases hc : isAlphanumeric p.1 with
      | false => rfl
      | true =>
        simp only [isAlphanumeric, Bool.or_eq_true, Bool.and_eq_true, decide_eq_true_eq] at hc
        exact absurd (by tauto) h
    simp only [if_neg h, ha, Bool.false_eq_true, if_false]
    rfl

theorem alphanumeric_byte (r : Nat) (h : isAlphanumeric r = true) :
    ((Fin.ofNat r : Byte)).val = r ∧ isAnnotationChar (Fin.ofNat r) = true := by
  simp only [isAlphanumeric, Bool.or_eq_true, Bool.and_eq_true, decide_eq_true_eq] at h
  have hv : ((Fin.ofNat r : Byte)).val = r := by
    simp only [Fin.ofNat, Nat.reduceAdd]
    omega
  refine ⟨hv, ?_⟩
  simp only [isAnnotationChar, hv, Bool.or_eq_true, Bool.and_eq_true, decide_eq_true_eq]
  tauto

theorem mem_fixAnnotationKey (key : GoString) (b : Byte) (h : b ∈ fixAnnotationKey key) :
    isAnnotationChar b = true := by
  rw [fixAnnotationKey_eq_spec] at h
  simp only [fixAnnotationKeySpec, List.mem_map] at h
  obtain ⟨p, -, rfl⟩ := h
  by_cases ha : isAlphanumeric p.1 = true
  · rw [if_pos ha]
    exact (alphanumeric_byte p.1 ha).2
  · rw [if_neg ha]
    decide

theorem fixAnnotationKey_length (key : GoString) :
    (fixAnnotationKey key).length = (runes key).length := by
  rw [fixAnnotationKey_eq_spec]
  simp [fixAnnotationKeySpec]

theorem runesFrom_ascii (s : List Byte) (h : ∀ b ∈ s, b.val < 0x80) :
    runesFrom 0 s = s.map (fun b => (b.val, [b])) := by
  induction s with
  | nil => rfl
  | cons b rest ih =>
    have hb : b.val < 0x80 := h b (List.mem_cons_self _ _)
    have hd : DecodeRuneInString (b :: rest) = (b.val, 1) := by
      simp only [DecodeRuneInString, if_pos hb]
    rw [runesFrom_zero_cons, hd]
    simp only [Nat.sub_self, List.take_succ_cons, List.take_zero, List.map_cons]
    rw [ih (fun x hx => h x (List.mem_cons_of_mem _ hx))]

theorem runes_ascii (s : GoString) (h : ∀ b ∈ s, b.val < 0x80) :
    runes s = s.map (fun b => (b.val, [b])) :=
  runesFrom_ascii s h

theorem annotationChar_lt (b : Byte) (h : isAnnotationChar b = true) : b.val < 0x80 := by
  simp only [isAnnotationChar, Bool.or_eq_true, Bool.and_eq_true, decide_eq_true_eq] at h
  omega

theorem annotationChar_fixed (b : Byte) (h : isAnnotationChar b = true) :
    (if isAlphanumeric b.val then (Fin.ofNat b.val : Byte) else 0x5F) = b := by
  by_cases ha : isAlphanumeric b.val = true
  · rw [if_pos ha]
    exact Fin.ext (alphanumeric_byte b.val ha).1
  · rw [if_neg ha]
    simp only [isAnnotationChar, Bool.or_eq_true, Bool.and_eq_true, decide_eq_true_eq] at h
    simp only [isAlphanumeric, Bool.or_eq_true, Bool.and_eq_true, decide_eq_true_eq] at ha
    apply Fin.ext
    have : b.val = 0x5F := by tauto
    rw [this]
    rfl

theorem fixAnnotationKey_of_annotationChars (s : GoString)
    (h : ∀ b ∈ s, isAnnotationChar b = true) : fixAnnotationKey s = s := by
  rw [fixAnnotationKey_eq_spec, fixAnnotationKeySpec,
    runes_ascii s (fun b hb => annotationChar_lt b (h b hb)), List.map_map]
  conv_rhs => rw [← List.map_id s]
  apply List.map_congr_left
  intro b hb
  exact annotationChar_fixed b (h b hb)

theorem fixAnnotationKey_idem (key : GoString) :
    fixAnnotationKey (fixAnnotationKey key) = fixAnnotationKey key :=
  fixAnnotationKey_of_annotationChars _ (mem_fixAnnotationKey key)

theorem runes_fixAnnotationKey_length (key : GoString) :
    (runes (fixAnnotationKey key)).length = (runes key).length := by
  rw [runes_ascii _ (fun b hb => annotationChar_lt b (mem_fixAnnotationKey key b hb)),
    List.length_map, fixAnnotationKey_length]

/-! ## The results of `makeXRayAttributes` -/

theorem annotations_of_result (attributes : GoMap Value) (resource : Resource)
    (storeResource : Bool) (indexedAttrs : List GoString) (indexAllAttrs : Bool)
    (ann : GoMap Iface)
    (h : (makeXRayAttributes attributes resource storeResource indexedAttrs
      indexAllAttrs).2.1 = some ann) :
    ann = (attributesLoops (mapDelete attributes AttributeEnduserID) resource storeResource
      indexedAttrs indexAllAttrs).annotations := by
  rw [makeXRayAttributes_eq] at h
  by_cases hc : (mapDelete attributes AttributeEnduserID).length = 0 ∧
      (!storeResource ∨ resource.Attributes.Len = 0)
  · rw [if_pos hc] at h
    exact absurd h (by simp)
  · rw [if_neg hc] at h
    exact (Option.some.inj h).symm

theorem metadata_of_result (attributes : GoMap Value) (resource : Resource)
    (storeResource : Bool) (indexedAttrs : List GoString) (indexAllAttrs : Bool)
    (md : GoMap (GoMap Iface))
    (h : (makeXRayAttributes attributes resource storeResource indexedAttrs
      indexAllAttrs).2.2 = some md) :
    md = if (attributesLoops (mapDelete attributes AttributeEnduserID) resource storeResource
        indexedAttrs indexAllAttrs).defaultMetadata.length > 0 then
      [(str "default", (attributesLoops (mapDelete attributes AttributeEnduserID) resource
        storeResource indexedAttrs indexAllAttrs).defaultMetadata)]
    else [] := by
  rw [makeXRayAttributes_eq] at h
  by_cases hc : (mapDelete attributes AttributeEnduserID).length = 0 ∧
      (!storeResource ∨ resource.Attributes.Len = 0)
  · rw [if_pos hc] at h
    exact absurd h (by simp)
  · rw [if_neg hc] at h
    exact (Option.some.inj h).symm

theorem makeXRayAttributes_false (attributes : GoMap Value) (r1 r2 : Resource)
    (indexedAttrs : List GoString) (indexAllAttrs : Bool) :
    makeXRayAttributes attributes r1 false indexedAttrs indexAllAttrs =
      makeXRayAttributes attributes r2 false indexedAttrs indexAllAttrs := by
  have hl : attributesLoops (mapDelete attributes AttributeEnduserID) r1 false indexedAttrs
      indexAllAttrs = attributesLoops (mapDelete attributes AttributeEnduserID) r2 false
      indexedAttrs indexAllAttrs := rfl
  simp only [makeXRayAttributes_eq, hl, Bool.not_false, true_or, and_true]

/-- The user, annotations and metadata of a segment are the results of
`makeXRayAttributes` on the residual attributes, with `storeResource` set
unless the segment is a subsegment. -/
theorem MakeSegment_attributes (env : Env) (epochNow : Int) (span : Span) (resource : Resource)
    (indexedAttrs : List GoString) (indexAllAttrs : Bool) (seg : Segment env)
    (h : MakeSegment env epochNow span resource indexedAttrs indexAllAttrs = .ok seg) :
    (stringValue seg.User, seg.Annotations, seg.Metadata) =
      makeXRayAttributes (residualAttributes env span resource) resource
        (!(decide (span.Kind ≠ SpanKind.Server) && !span.ParentSpanID.IsEmpty))
        indexedAttrs indexAllAttrs := by
  unfold MakeSegment at h
  cases hc : convertToAmazonTraceID epochNow span.TraceID with
  | error e => rw [hc] at h; cases h
  | ok traceID =>
    rw [hc] at h
    simp only [Except.ok.injEq] at h
    subst h
    simp only [stringValue, env.xrayString_val, residualAttributes]
    cases (decide (span.Kind ≠ SpanKind.Server) && !span.ParentSpanID.IsEmpty) <;> rfl

/-- C12: with `storeResource = false`, `makeXRayAttributes` returns the same
user, annotations and metadata for any two resources; and `MakeSegment` calls
it so for a span that is not of kind Server and has a parent, so a segment
that is not a root never carries annotations or metadata derived from the
resource attributes. -/
theorem makeXRayAttributes_ignores_resource (attributes : GoMap Value) (r1 r2 : Resource)
    (indexedAttrs : List GoString) (indexAllAttrs : Bool) :
    makeXRayAttributes attributes r1 false indexedAttrs indexAllAttrs =
      makeXRayAttributes attributes r2 false indexedAttrs indexAllAttrs ∧
    (∀ (env : Env) (epochNow : Int) (span : Span) (seg : Segment env),
      MakeSegment env epochNow span r1 indexedAttrs indexAllAttrs = .ok seg →
      span.Kind ≠ SpanKind.Server → span.ParentSpanID.IsEmpty = false →
      (stringValue seg.User, seg.Annotations, seg.Metadata) =
        makeXRayAttributes (residualAttributes env span r1) r2 false indexedAttrs
          indexAllAttrs) := by
  refine ⟨makeXRayAttributes_false attributes r1 r2 indexedAttrs indexAllAttrs, ?_⟩
  intro env epochNow span seg h hk hp
  rw [MakeSegment_attributes env epochNow span r1 indexedAttrs indexAllAttrs seg h]
  have hsub : (!(decide (span.Kind ≠ SpanKind.Server) && !span.ParentSpanID.IsEmpty)) = false := by
    simp [hk, hp]
  rw [hsub]
  exact makeXRayAttributes_false _ r1 r2 indexedAttrs indexAllAttrs

set_option maxRecDepth 100000 in
/-- Witness of C12: for a Client span with a parent, the annotations of the
segment made with the example resource are those made without any resource
attribute. -/
theorem makeXRayAttributes_ignores_resource_witness :
    ∃ seg, MakeSegment exampleEnv 1480615200
        (exampleSpan exampleSpanID (str "GET") SpanKind.Client exampleAttributes)
        exampleResource [] true = .ok seg ∧
      (stringValue seg.User, seg.Annotations, seg.Metadata) =
        makeXRayAttributes (residualAttributes exampleEnv
          (exampleSpan exampleSpanID (str "GET") SpanKind.Client exampleAttributes)
          exampleResource) ⟨[]⟩ false [] true :=
  ⟨_, rfl, (makeXRayAttributes_ignores_resource [] exampleResource ⟨[]⟩ [] true).2 exampleEnv
    1480615200 (exampleSpan exampleSpanID (str "GET") SpanKind.Client exampleAttributes) _ rfl
    (by decide) (by decide)⟩

/-- C14: every value in the annotations map `makeXRayAttributes` returns is a
string, a signed integer, a double or a bool; a map or a slice never appears
in annotations, also when `indexAllAttrs` is set. -/
theorem makeXRayAttributes_annotations_scalar (attributes : GoMap Value) (resource : Resource)
    (storeResource : Bool) (indexedAttrs : List GoString) (indexAllAttrs : Bool)
    (ann : GoMap Iface)
    (h : (makeXRayAttributes attributes resource storeResource indexedAttrs
      indexAllAttrs).2.1 = some ann) :
    ∀ kv ∈ ann, kv.2.isScalar = true ∧ (∀ m, kv.2 ≠ Iface.map m) ∧
      (∀ l, kv.2 ≠ Iface.slice l) := by
  intro kv hkv
  rw [annotations_of_result _ _ _ _ _ _ h] at hkv
  obtain ⟨k, v, rfl, hnil, -, -⟩ :=
    (attributesLoops_provenance _ resource storeResource indexedAttrs indexAllAttrs).1 kv hkv
  have hs := (annotationValue_isScalar v hnil).1
  refine ⟨hs, fun m hm => ?_, fun l hl => ?_⟩
  · simp only at hm
    rw [hm] at hs
    simp [Iface.isScalar] at hs
  · simp only at hl
    rw [hl] at hs
    simp [Iface.isScalar] at hs

set_option maxRecDepth 100000 in
/-- Witness of C14: with every attribute indexed, the example attributes give
the two scalar annotations; the slice, the map and the bytes value are not
among them. -/
theorem makeXRayAttributes_annotations_scalar_witness :
    (makeXRayAttributes exampleAttributes exampleResource false [] true).2.1 =
        some [(str "http_route", Iface.string (str "/users")), (str "retries", Iface.int 3)] ∧
      ∀ kv ∈ [(str "http_route", Iface.string (str "/users")), (str "retries", Iface.int 3)],
        kv.2.isScalar = true :=
  ⟨rfl, fun kv hkv => (makeXRayAttributes_annotations_scalar exampleAttributes exampleResource
    false [] true _ rfl kv hkv).1⟩

/-- C16: every key of the annotations map `makeXRayAttributes` returns consists
of characters of `[0-9A-Za-z_]` only; `fixAnnotationKey` replaces each character
of a key outside `[0-9A-Za-z]` by `_` and leaves the others unchanged, so it
preserves the number of characters and is idempotent. -/
theorem makeXRayAttributes_annotation_keys (attributes : GoMap Value) (resource : Resource)
    (storeResource : Bool) (indexedAttrs : List GoString) (indexAllAttrs : Bool)
    (ann : GoMap Iface) (key : GoString)
    (h : (makeXRayAttributes attributes resource storeResource indexedAttrs
      indexAllAttrs).2.1 = some ann) :
    (∀ kv ∈ ann, ∀ b ∈ kv.1, isAnnotationChar b = true) ∧
    fixAnnotationKey key = fixAnnotationKeySpec key ∧
    (∀ b ∈ fixAnnotationKey key, isAnnotationChar b = true) ∧
    (runes (fixAnnotationKey key)).length = (runes key).length ∧
    fixAnnotationKey (fixAnnotationKey key) = fixAnnotationKey key := by
  refine ⟨?_, fixAnnotationKey_eq_spec key, mem_fixAnnotationKey key,
    runes_fixAnnotationKey_length key, fixAnnotationKey_idem key⟩
  intro kv hkv b hb
  rw [annotations_of_result _ _ _ _ _ _ h] at hkv
  obtain ⟨k, v, rfl, -, -, -⟩ :=
    (attributesLoops_provenance _ resource storeResource indexedAttrs indexAllAttrs).1 kv hkv
  exact mem_fixAnnotationKey k b hb

set_option maxRecDepth 100000 in
/-- Witness of C16: the key `http.route` is stored as `http_route`, and the
key `日本.x` of three characters becomes `___x`, one `_` for each of the two
letters outside `[0-9A-Za-z]` and one for the dot. -/
theorem makeXRayAttributes_annotation_keys_witness :
    (makeXRayAttributes exampleAttributes exampleResource false [] true).2.1 =
        some [(str "http_route", Iface.string (str "/users")), (str "retries", Iface.int 3)] ∧
      fixAnnotationKey (str "日本.x") = str "___x" ∧
      fixAnnotationKey (fixAnnotationKey (str "日本.x")) = fixAnnotationKey (str "日本.x") :=
  ⟨rfl, by decide, (makeXRayAttributes_annotation_keys exampleAttributes exampleResource
    false [] true _ (str "日本.x") rfl).2.2.2.2⟩

theorem mapDelete_idem {α : Type} (m : GoMap α) (k : GoString) :
    mapDelete (mapDelete m k) k = mapDelete m k :=
  mapDelete_of_mapGet_none _ _ (mapGet_mapDelete_self m k)

theorem resourceKey_ne_enduser (k0 : GoString) : resourceKey k0 ≠ AttributeEnduserID := by
  intro h
  have h1 : resourceKey k0 = 0x6F :: (str "tel.resource." ++ k0) := rfl
  have h2 : AttributeEnduserID = 0x65 :: str "nduser.id" := by decide
  rw [h1, h2] at h
  exact absurd (List.cons.inj h).1 (by decide)

theorem enduser_not_annotationKey (k : GoString) : fixAnnotationKey k ≠ AttributeEnduserID := by
  intro h
  have hm : (0x2E : Byte) ∈ AttributeEnduserID := by decide
  rw [← h] at hm
  exact absurd (mem_fixAnnotationKey k _ hm) (by decide)

/-- C17: if the residual attribute map contains the end-user identifier key,
`makeXRayAttributes` returns the string of that attribute as user, and its
annotations and metadata are those it returns for the map without that key;
the key is neither a key of the annotations nor of the default metadata; if
the key is absent the user is the empty string. -/
theorem makeXRayAttributes_user (attributes : GoMap Value) (resource : Resource)
    (storeResource : Bool) (indexedAttrs : List GoString) (indexAllAttrs : Bool) :
    (∀ v, mapGet attributes AttributeEnduserID = some v →
      makeXRayAttributes attributes resource storeResource indexedAttrs indexAllAttrs =
        (v.StringVal,
          (makeXRayAttributes (mapDelete attributes AttributeEnduserID) resource storeResource
            indexedAttrs indexAllAttrs).2)) ∧
    (mapGet attributes AttributeEnduserID = none →
      (makeXRayAttributes attributes resource storeResource indexedAttrs
        indexAllAttrs).1 = []) ∧
    (∀ ann, (makeXRayAttributes attributes resource storeResource indexedAttrs
        indexAllAttrs).2.1 = some ann → mapGet ann AttributeEnduserID = none) ∧
    (∀ md dm, (makeXRayAttributes attributes resource storeResource indexedAttrs
        indexAllAttrs).2.2 = some md → mapGet md (str "default") = some dm →
      mapGet dm AttributeEnduserID = none) := by
  refine ⟨?_, ?_, ?_, ?_⟩
  · intro v hv
    have hu : attributeUser attributes = v.StringVal := by
      unfold attributeUser
      rw [hv]
    simp only [makeXRayAttributes_eq, mapDelete_idem, hu]
    split_ifs <;> rfl
  · intro hn
    have hu : attributeUser attributes = [] := by
      unfold attributeUser
      rw [hn]
    rw [makeXRayAttributes_eq]
    split_ifs <;> exact hu
  · intro ann hann
    apply mapGet_none_of_forall
    intro kv hkv
    rw [annotations_of_result _ _ _ _ _ _ hann] at hkv
    obtain ⟨k, v, rfl, -, -, -⟩ :=
      (attributesLoops_provenance _ resource storeResource indexedAttrs indexAllAttrs).1 kv hkv
    exact enduser_not_annotationKey k
  · intro md dm hmd hdm
    rw [metadata_of_result _ _ _ _ _ _ hmd] at hdm
    split_ifs at hdm with hlen
    · simp only [mapGet, if_true, Option.some.injEq] at hdm
      subst hdm
      apply mapGet_none_of_forall
      intro kv hkv
      obtain ⟨k, v, rfl, -, hfrom⟩ :=
        (attributesLoops_provenance _ resource storeResource indexedAttrs indexAllAttrs).2 kv hkv
      rcases hfrom with ⟨hmem, -⟩ | ⟨-, k0, rfl, -, -⟩
      · exact (mem_mapDelete _ _ _ hmem).2
      · exact resourceKey_ne_enduser k0
    · exact absurd hdm (by simp [mapGet])

set_option maxRecDepth 100000 in
/-- Witness of C17: the example attributes carry the user `alice`, and the
other results are those of the map without the key. -/
theorem makeXRayAttributes_user_witness :
    makeXRayAttributes exampleAttributes exampleResource true [] false =
      (str "alice",
        (makeXRayAttributes (mapDelete exampleAttributes AttributeEnduserID) exampleResource
          true [] false).2) :=
  (makeXRayAttributes_user exampleAttributes exampleResource true [] false).1
    (Value.string (str "alice")) rfl

/-- C19: the metadata map `makeXRayAttributes` returns has no key other than
`default`, and it has that key only with a bucket of at least one entry; when
the residual attribute map without the end-user identifier is empty and
`storeResource` is false or the resource has no attributes, annotations and
metadata are both nil. -/
theorem makeXRayAttributes_metadata_default (attributes : GoMap Value) (resource : Resource)
    (storeResource : Bool) (indexedAttrs : List GoString) (indexAllAttrs : Bool) :
    (∀ md, (makeXRayAttributes attributes resource storeResource indexedAttrs
        indexAllAttrs).2.2 = some md →
      md.length ≤ 1 ∧ ∀ kv ∈ md, kv.1 = str "default" ∧ kv.2 ≠ []) ∧
    ((mapDelete attributes AttributeEnduserID).length = 0 →
      (storeResource = false ∨ resource.Attributes.Len = 0) →
      (makeXRayAttributes attributes resource storeResource indexedAttrs
          indexAllAttrs).2.1 = none ∧
        (makeXRayAttributes attributes resource storeResource indexedAttrs
          indexAllAttrs).2.2 = none) := by
  refine ⟨?_, ?_⟩
  · intro md hmd
    rw [metadata_of_result _ _ _ _ _ _ hmd]
    split_ifs with hlen
    · refine ⟨by simp, fun kv hkv => ?_⟩
      simp only [List.mem_singleton] at hkv
      subst hkv
      refine ⟨rfl, fun he => ?_⟩
      simp only at he
      rw [he] at hlen
      exact absurd hlen (by simp)
    · exact ⟨by simp, fun kv hkv => absurd hkv (List.not_mem_nil _)⟩
  · intro hlen hres
    rw [makeXRayAttributes_eq]
    have hc : (mapDelete attributes AttributeEnduserID).length = 0 ∧
        (!storeResource ∨ resource.Attributes.Len = 0) := by
      refine ⟨hlen, ?_⟩
      rcases hres with h | h
      · exact Or.inl (by simp [h])
      · exact Or.inr h
    rw [if_pos hc]
    exact ⟨rfl, rfl⟩

set_option maxRecDepth 100000 in
/-- Witness of C19: the example attributes give one `default` bucket, and a
map holding only the end-user identifier gives no annotations and no
metadata for a segment that is not a root. -/
theorem makeXRayAttributes_metadata_default_witness :
    (∃ md, (makeXRayAttributes exampleAttributes exampleResource false [] false).2.2 = some md ∧
      md.length = 1 ∧ (md.map (fun kv => kv.1)) = [str "default"]) ∧
    (makeXRayAttributes [(AttributeEnduserID, Value.string (str "alice"))] exampleResource false
        [] false).2.1 = none :=
  ⟨⟨_, rfl, rfl, rfl⟩,
    ((makeXRayAttributes_metadata_default [(AttributeEnduserID, Value.string (str "alice"))]
      exampleResource false [] false).2 rfl (Or.inl rfl)).1⟩

/-! ## Resource attributes of a root segment -/

theorem resourceRange_foldl_annotations (indexedAttrs : List GoString) (indexAllAttrs : Bool)
    (key : GoString) (l : List (GoString × Value)) :
    ∀ st : AttributesLoop, (∀ kv ∈ l, fixAnnotationKey (resourceKey kv.1) ≠ key) →
      mapGet (l.foldl (resourceRange indexAllAttrs (indexedKeysOf indexedAttrs indexAllAttrs))
        st).annotations key = mapGet st.annotations key := by
  induction l with
  | nil => intro st _; rfl
  | cons b rest ih =>
    intro st h
    rw [List.foldl_cons, ih _ (fun kv hkv => h kv (List.mem_cons_of_mem _ hkv))]
    obtain ⟨k0, v⟩ := b
    have hb := h (k0, v) (List.mem_cons_self _ _)
    rw [resourceRange_eq]
    split_ifs
    · exact mapGet_mapSet_ne _ _ _ _ hb
    · rfl
    · rfl

theorem resourceRange_foldl_metadata (indexedAttrs : List GoString) (indexAllAttrs : Bool)
    (key : GoString) (l : List (GoString × Value)) :
    ∀ st : AttributesLoop, (∀ kv ∈ l, resourceKey kv.1 ≠ key) →
      mapGet (l.foldl (resourceRange indexAllAttrs (indexedKeysOf indexedAttrs indexAllAttrs))
        st).defaultMetadata key = mapGet st.defaultMetadata key := by
  induction l with
  | nil => intro st _; rfl
  | cons b rest ih =>
    intro st h
    rw [List.foldl_cons, ih _ (fun kv hkv => h kv (List.mem_cons_of_mem _ hkv))]
    obtain ⟨k0, v⟩ := b
    have hb := h (k0, v) (List.mem_cons_self _ _)
    rw [resourceRange_eq]
    split_ifs
    · rfl
    · exact mapGet_mapSet_ne _ _ _ _ hb
    · rfl

theorem attributesLoops_nil (resource : Resource) (indexedAttrs : List GoString)
    (indexAllAttrs : Bool) :
    attributesLoops [] resource true indexedAttrs indexAllAttrs =
      resource.Attributes.foldl
        (resourceRange indexAllAttrs (indexedKeysOf indexedAttrs indexAllAttrs))
        { annotations := [], defaultMetadata := [] } := by
  unfold attributesLoops
  cases indexAllAttrs <;> rfl

/-- The entry a resource attribute of a supported type leaves in the state of
the loops, when the sanitized keys of the resource are pairwise distinct. -/
theorem resource_entry (resource : Resource) (indexedAttrs : List GoString)
    (indexAllAttrs : Bool) (k : GoString) (v : Value)
    (hnodup : (resource.Attributes.map
      (fun kv => fixAnnotationKey (resourceKey kv.1))).Nodup)
    (hmem : (k, v) ∈ resource.Attributes) (hsup : v.isSupported = true) :
    (v.isScalar = true ∧
        selectedForIndexing indexedAttrs indexAllAttrs (resourceKey k) = true →
      mapGet (attributesLoops [] resource true indexedAttrs indexAllAttrs).annotations
        (fixAnnotationKey (resourceKey k)) = some (annotationValue v)) ∧
    (¬ (v.isScalar = true ∧
        selectedForIndexing indexedAttrs indexAllAttrs (resourceKey k) = true) →
      mapGet (attributesLoops [] resource true indexedAttrs indexAllAttrs).defaultMetadata
        (resourceKey k) = some (metadataValue v)) := by
  rw [attributesLoops_nil]
  obtain ⟨pre, post, hsplit⟩ := List.append_of_mem hmem
  rw [hsplit] at hnodup ⊢
  simp only [List.map_append, List.map_cons] at hnodup
  have hpost : ∀ kv ∈ post, fixAnnotationKey (resourceKey kv.1) ≠
      fixAnnotationKey (resourceKey k) := by
    intro kv hkv he
    have h1 := (List.nodup_cons.mp (List.Nodup.of_append_right hnodup)).1
    have hm : fixAnnotationKey (resourceKey kv.1) ∈
        post.map (fun kv => fixAnnotationKey (resourceKey kv.1)) :=
      List.mem_map.mpr ⟨kv, hkv, rfl⟩
    rw [he] at hm
    exact h1 hm
  have hpost' : ∀ kv ∈ post, resourceKey kv.1 ≠ resourceKey k :=
    fun kv hkv he => hpost kv hkv (by rw [he])
  rw [List.foldl_append, List.foldl_cons]
  refine ⟨fun hc => ?_, fun hc => ?_⟩
  · rw [resourceRange_foldl_annotations _ _ _ _ _ hpost, resourceRange_eq, if_pos hc]
    exact mapGet_mapSet_self _ _ _
  · rw [resourceRange_foldl_metadata _ _ _ _ _ hpost', resourceRange_eq, if_neg hc,
      if_pos hsup]
    exact mapGet_mapSet_self _ _ _

theorem mapGet_some_length_pos {α : Type} (m : GoMap α) (k : GoString) (v : α)
    (h : mapGet m k = some v) : m.length > 0 := by
  cases m with
  | nil => simp [mapGet] at h
  | cons kv rest => simp

/-- C13: for a root segment (`storeResource = true`) with an empty residual
attribute map and a resource whose keys sanitize to pairwise distinct
annotation keys, every resource attribute `(k, v)` with a string, int, double,
bool, map or slice value is stored under the key `"otel.resource." ++ k`: in
annotations under the sanitized prefixed key with its scalar value when `v` is
scalar and the prefixed key is selected for indexing, and otherwise in
`metadata["default"]` under the prefixed key itself with the converted value. -/
theorem makeXRayAttributes_resource_stored (resource : Resource)
    (indexedAttrs : List GoString) (indexAllAttrs : Bool) (k : GoString) (v : Value)
    (hnodup : (resource.Attributes.map
      (fun kv => fixAnnotationKey (resourceKey kv.1))).Nodup)
    (hmem : (k, v) ∈ resource.Attributes) (hsup : v.isSupported = true) :
    resourceKey k = str "otel.resource." ++ k ∧
    (v.isScalar = true ∧
        selectedForIndexing indexedAttrs indexAllAttrs (resourceKey k) = true →
      ∃ ann, (makeXRayAttributes [] resource true indexedAttrs indexAllAttrs).2.1 = some ann ∧
        mapGet ann (fixAnnotationKey (resourceKey k)) = some (annotationValue v) ∧
        (annotationValue v).isScalar = true) ∧
    (¬ (v.isScalar = true ∧
        selectedForIndexing indexedAttrs indexAllAttrs (resourceKey k) = true) →
      ∃ md dm, (makeXRayAttributes [] resource true indexedAttrs indexAllAttrs).2.2 = some md ∧
        mapGet md (str "default") = some dm ∧
        mapGet dm (resourceKey k) = some (metadataValue v)) := by
  have hlen : ¬ resource.Attributes.Len = 0 := by
    intro h0
    have : resource.Attributes = [] := List.length_eq_zero.mp h0
    rw [this] at hmem
    exact absurd hmem (List.not_mem_nil _)
  have hcond : ¬ ((mapDelete ([] : GoMap Value) AttributeEnduserID).length = 0 ∧
      (!true ∨ resource.Attributes.Len = 0)) := by
    intro hc
    rcases hc.2 with h | h
    · exact absurd h (by decide)
    · exact hlen h
  have hentry := resource_entry resource indexedAttrs indexAllAttrs k v hnodup hmem hsup
  have hdel : mapDelete ([] : GoMap Value) AttributeEnduserID = [] := rfl
  rw [makeXRayAttributes_eq, if_neg hcond, hdel]
  refine ⟨rfl, fun hc => ?_, fun hc => ?_⟩
  · exact ⟨_, rfl, hentry.1 hc,
      (annotationValue_isScalar v ((annotationValue_isNil_iff v).mpr hc.1)).1⟩
  · have hget := hentry.2 hc
    have hpos := mapGet_some_length_pos _ _ _ hget
    refine ⟨_, _, rfl, ?_, hget⟩
    simp only [if_pos hpos, mapGet, if_true]

set_option maxRecDepth 100000 in
/-- Witness of C13: with every attribute indexed, the service name of the
example resource is an annotation under `otel_resource_service_name`. -/
theorem makeXRayAttributes_resource_stored_witness :
    ((exampleResource.Attributes.map
        (fun kv => fixAnnotationKey (resourceKey kv.1))).Nodup ∧
      (AttributeServiceName, Value.string (str "signup_aggregator")) ∈
        exampleResource.Attributes) ∧
    ∃ ann, (makeXRayAttributes [] exampleResource true [] true).2.1 = some ann ∧
      mapGet ann (str "otel_resource_service_name")
        = some (Iface.string (str "signup_aggregator")) :=
  ⟨⟨by decide, List.mem_cons_self _ _⟩,
    let ⟨ann, h1, h2, _⟩ := (makeXRayAttributes_resource_stored exampleResource [] true
      AttributeServiceName (Value.string (str "signup_aggregator")) (by decide)
      (List.mem_cons_self _ _) rfl).2.1 ⟨rfl, rfl⟩
    ⟨ann, h1, h2⟩⟩

/-! ## Attributes that are stored nowhere, or only as `nil` -/

set_option maxRecDepth 100000 in
/-- C15, at the failing input: a residual attribute `labels` holding a map is
dropped when its key is selected for indexing, by `indexAllAttrs` or by the
list; metadata has no `default` bucket. The same attribute on the resource of a
root segment is stored in `metadata["default"]`. -/
theorem makeXRayAttributes_drops_indexed_map :
    makeXRayAttributes [(str "labels", Value.map [(str "team", Value.string (str "x"))])] ⟨[]⟩
        false [] true = ([], some [], some []) ∧
    makeXRayAttributes [(str "labels", Value.map [(str "team", Value.string (str "x"))])] ⟨[]⟩
        false [str "labels"] false = ([], some [], some []) ∧
    (makeXRayAttributes [] ⟨[(str "labels", Value.map [(str "team", Value.string (str "x"))])]⟩
        true [] true).2.2 =
      some [(str "default",
        [(str "otel.resource.labels", Iface.map [(str "team", Iface.string (str "x"))])])] :=
  ⟨rfl, rfl, rfl⟩

theorem annotations_nil_of_forall {α : Type} (l : List α) (P : α → Prop)
    (h : ∀ x ∈ l, P x) (hP : ∀ x, ¬ P x) : l = [] := by
  cases l with
  | nil => rfl
  | cons a rest => exact absurd (h a (List.mem_cons_self _ _)) (hP a)

set_option maxRecDepth 100000 in
/-- Counterexample to C18: a resource attribute holding a bytes value is
written to neither output of a root segment. -/
theorem makeXRayAttributes_resource_bytes :
    makeXRayAttributes [] ⟨[(str "blob", Value.bytes [1, 2])]⟩ true [] false
      = ([], some [], some []) := rfl

/-- C18, amended: `makeXRayAttributes` writes each attribute to at most one of
its two outputs. A residual attribute is written to annotations only if its key
is selected for indexing and to `metadata["default"]` only if it is not; a
resource attribute holding a string, int, double, bool, map or slice is
written to exactly one of the two, and one holding any other value to neither.
With `indexAllAttrs` and without `storeResource` metadata has no `default`
bucket, and without `indexAllAttrs` and with an empty list of indexed
attributes annotations is empty. -/
theorem makeXRayAttributes_one_output (indexedAttrs : List GoString) (indexAllAttrs : Bool)
    (st : AttributesLoop) (k : GoString) (v : Value) :
    (indexAllRange st (k, v)).defaultMetadata = st.defaultMetadata ∧
    (selectedForIndexing indexedAttrs false k = true →
      (indexedRange (indexedKeysOf indexedAttrs false) st (k, v)).defaultMetadata
        = st.defaultMetadata) ∧
    (selectedForIndexing indexedAttrs false k = false →
      (indexedRange (indexedKeysOf indexedAttrs false) st (k, v)).annotations
        = st.annotations) ∧
    (v.isSupported = true →
      resourceRange indexAllAttrs (indexedKeysOf indexedAttrs indexAllAttrs) st (k, v) =
          { st with annotations :=
              mapSet st.annotations (fixAnnotationKey (resourceKey k)) (annotationValue v) } ∨
        resourceRange indexAllAttrs (indexedKeysOf indexedAttrs indexAllAttrs) st (k, v) =
          { st with defaultMetadata :=
              mapSet st.defaultMetadata (resourceKey k) (metadataValue v) }) ∧
    (v.isSupported = false →
      resourceRange indexAllAttrs (indexedKeysOf indexedAttrs indexAllAttrs) st (k, v) = st) ∧
    (∀ attributes resource storeResource,
      (∀ ann, (makeXRayAttributes attributes resource storeResource indexedAttrs
          indexAllAttrs).2.1 = some ann →
        ∀ kv ∈ ann, AnnotationFrom (mapDelete attributes AttributeEnduserID) resource
          storeResource indexedAttrs indexAllAttrs kv) ∧
      (∀ md dm, (makeXRayAttributes attributes resource storeResource indexedAttrs
          indexAllAttrs).2.2 = some md → mapGet md (str "default") = some dm →
        ∀ kv ∈ dm, MetadataFrom (mapDelete attributes AttributeEnduserID) resource
          storeResource indexedAttrs indexAllAttrs kv)) ∧
    (∀ attributes resource md,
      (makeXRayAttributes attributes resource false indexedAttrs true).2.2 = some md →
        mapGet md (str "default") = none) ∧
    (∀ attributes resource storeResource ann,
      (makeXRayAttributes attributes resource storeResource [] false).2.1 = some ann →
        ann = []) := by
  refine ⟨?_, ?_, ?_, ?_, ?_, ?_, ?_, ?_⟩
  · rw [indexAllRange_eq]
    split_ifs <;> rfl
  · intro hs
    rw [indexedRange_eq, if_pos hs]
    split_ifs <;> rfl
  · intro hs
    have hs' : ¬ selectedForIndexing indexedAttrs false k = true := by simp [hs]
    rw [indexedRange_eq, if_neg hs']
    split_ifs <;> rfl
  · intro hsup
    rw [resourceRange_eq]
    split_ifs
    · exact Or.inl rfl
    · exact Or.inr rfl
  · intro hsup
    have hns : ¬ v.isSupported = true := by simp [hsup]
    have hnsc : ¬ (v.isScalar = true ∧
        selectedForIndexing indexedAttrs indexAllAttrs (resourceKey k) = true) := by
      intro hc
      cases v <;> simp [Value.isScalar, Value.isSupported] at hc hsup
    rw [resourceRange_eq, if_neg hnsc, if_neg hns]
  · intro attributes resource storeResource
    refine ⟨fun ann hann kv hkv => ?_, fun md dm hmd hdm kv hkv => ?_⟩
    · rw [annotations_of_result _ _ _ _ _ _ hann] at hkv
      exact (attributesLoops_provenance _ resource storeResource indexedAttrs indexAllAttrs).1
        kv hkv
    · rw [metadata_of_result _ _ _ _ _ _ hmd] at hdm
      split_ifs at hdm with hlen
      · simp only [mapGet, if_true, Option.some.injEq] at hdm
        subst hdm
        exact (attributesLoops_provenance _ resource storeResource indexedAttrs
          indexAllAttrs).2 kv hkv
      · exact absurd hdm (by simp [mapGet])
  · intro attributes resource md hmd
    rw [metadata_of_result _ _ _ _ _ _ hmd]
    have hnil : (attributesLoops (mapDelete attributes AttributeEnduserID) resource false
        indexedAttrs true).defaultMetadata = [] := by
      apply annotations_nil_of_forall _ _
        (attributesLoops_provenance _ resource false indexedAttrs true).2
      rintro kv ⟨k', v', -, -, ⟨-, hsel⟩ | ⟨hsr, -⟩⟩
      · simp [selectedForIndexing] at hsel
      · exact absurd hsr (by decide)
    rw [hnil]
    rfl
  · intro attributes resource storeResource ann hann
    rw [annotations_of_result _ _ _ _ _ _ hann]
    apply annotations_nil_of_forall _ _
      (attributesLoops_provenance _ resource storeResource [] false).1
    rintro kv ⟨k', v', -, -, hsel, -⟩
    simp [selectedForIndexing] at hsel

set_option maxRecDepth 100000 in
/-- Witness of C18, amended: with every attribute indexed and no resource
stored, the example attributes give no metadata bucket. -/
theorem makeXRayAttributes_one_output_witness :
    ∃ md, (makeXRayAttributes exampleAttributes exampleResource false [] true).2.2 = some md ∧
      mapGet md (str "default") = none :=
  ⟨_, rfl, (makeXRayAttributes_one_output [] true ⟨[], []⟩ [] Value.empty).2.2.2.2.2.2.1
    exampleAttributes exampleResource _ rfl⟩

theorem metadataValueSlice_eq_map (vs : List Value) :
    metadataValueSlice vs = vs.map metadataValue := by
  induction vs with
  | nil => rfl
  | cons v rest ih => simp [metadataValueSlice, ih]

theorem unsupported_values (v : Value) (h : v.isSupported = false) :
    annotationValue v = Iface.nil ∧ metadataValue v = Iface.nil ∧ v.isScalar = false := by
  cases v <;> simp [Value.isSupported, annotationValue, metadataValue, Value.isScalar] at h ⊢

set_option maxRecDepth 100000 in
/-- Counterexample to C20: an empty value nested in a slice or in a map that
is stored in metadata leaves an entry there, the element `nil` of the list and
the key `raw` with the value `nil`. -/
theorem makeXRayAttributes_nested_nil :
    makeXRayAttributes [(str "tags", Value.slice [Value.string (str "a"), Value.empty])] ⟨[]⟩
        false [] false =
      ([], some [], some [(str "default",
        [(str "tags", Iface.slice [Iface.string (str "a"), Iface.nil])])]) ∧
    makeXRayAttributes [(str "labels", Value.map [(str "raw", Value.empty)])] ⟨[]⟩
        false [] false =
      ([], some [], some [(str "default",
        [(str "labels", Iface.map [(str "raw", Iface.nil)])])]) :=
  ⟨rfl, rfl⟩

/-- C20, amended: a value whose type is none of string, int, double, bool, map,
slice (an empty or a bytes value) that is an attribute of the span or of the
resource creates no entry in annotations or metadata: the loops leave both
maps as they are, and their outcome is the one without the attribute. Nested
inside a slice or a map that is stored in metadata it is kept as `nil`: the
list keeps its length and the map keeps the key. -/
theorem unsupported_value_excluded (indexedAttrs : List GoString) (indexAllAttrs : Bool)
    (st : AttributesLoop) (k : GoString) (v : Value) (h : v.isSupported = false) :
    resourceRange indexAllAttrs (indexedKeysOf indexedAttrs indexAllAttrs) st (k, v) = st ∧
    indexAllRange st (k, v) = st ∧
    indexedRange (indexedKeysOf indexedAttrs false) st (k, v) = st ∧
    (∀ pre post resource storeResource,
      attributesLoops (pre ++ (k, v) :: post) resource storeResource indexedAttrs
          indexAllAttrs =
        attributesLoops (pre ++ post) resource storeResource indexedAttrs indexAllAttrs) ∧
    (∀ pre post : List Value,
      metadataValue (Value.slice (pre ++ v :: post)) =
        Iface.slice (pre.map metadataValue ++ Iface.nil :: post.map metadataValue)) ∧
    (∀ key, metadataValue (Value.map [(key, v)]) = Iface.map [(key, Iface.nil)]) := by
  obtain ⟨ha, hm, hsc⟩ := unsupported_values v h
  have hns : ¬ v.isSupported = true := by simp [h]
  have hnsc : ¬ v.isScalar = true := by simp [hsc]
  have h1 : resourceRange indexAllAttrs (indexedKeysOf indexedAttrs indexAllAttrs) st (k, v)
      = st := by
    rw [resourceRange_eq, if_neg (fun hc => hnsc hc.1), if_neg hns]
  have h2 : ∀ s, indexAllRange s (k, v) = s := by
    intro s
    rw [indexAllRange_eq, if_neg hnsc]
  have h3 : ∀ s, indexedRange (indexedKeysOf indexedAttrs false) s (k, v) = s := by
    intro s
    rw [indexedRange_eq, if_neg hnsc, if_neg hns]
    split_ifs <;> rfl
  refine ⟨h1, h2 st, h3 st, ?_, ?_, ?_⟩
  · intro pre post resource storeResource
    unfold attributesLoops
    cases indexAllAttrs with
    | true => simp only [if_true, List.foldl_append, List.foldl_cons, h2]
    | false => simp only [Bool.false_eq_true, if_false, List.foldl_append, List.foldl_cons, h3]
  · intro pre post
    simp only [metadataValue, metadataValueSlice_eq_map, List.map_append, List.map_cons, hm]
  · intro key
    simp only [metadataValue, metadataValueMap, mapSet, hm]

set_option maxRecDepth 100000 in
/-- Witness of C20, amended: the bytes attribute `blob` of the example
attributes changes nothing. -/
theorem unsupported_value_excluded_witness :
    (Value.bytes [1, 2]).isSupported = false ∧
    attributesLoops (mapDelete exampleAttributes AttributeEnduserID) exampleResource false []
        false =
      attributesLoops ((mapDelete exampleAttributes AttributeEnduserID).take 4) exampleResource
        false [] false :=
  ⟨rfl,
    (unsupported_value_excluded [] false ⟨[], []⟩ (str "blob") (Value.bytes [1, 2]) rfl).2.2.2.1
      ((mapDelete exampleAttributes AttributeEnduserID).take 4) [] exampleResource false⟩

/-! ## The URL builders -/

theorem length_pos_iff_ne_nil (s : GoString) : s.length > 0 ↔ s ≠ [] := by
  cases s <;> simp

theorem constructServerURL_eq (urlParts : GoMap GoString)
    (h : mapGet urlParts AttributeHTTPURL = none) :
    constructServerURL urlParts = serverURLSpec urlParts := by
  unfold constructServerURL serverURLSpec portPart schemeOf targetOf firstPresent isDefaultPort
  rw [h]
  simp only [List.findSome?, length_pos_iff_ne_nil]
  cases mapGet urlParts AttributeHTTPHost <;>
    cases mapGet urlParts AttributeHTTPServerName <;>
    cases mapGet urlParts AttributeNetHostName <;>
    cases mapGet urlParts AttributeHostName <;>
    cases mapGet urlParts AttributeHTTPTarget <;>
    simp only [Option.getD_some, Option.getD_none, not_or, List.append_assoc] <;>
    split_ifs <;> simp_all

theorem constructClientURL_eq (urlParts : GoMap GoString)
    (h : mapGet urlParts AttributeHTTPURL = none) :
    constructClientURL urlParts = clientURLSpec urlParts := by
  unfold constructClientURL clientURLSpec portPart schemeOf targetOf firstPresent isDefaultPort
  rw [h]
  simp only [List.findSome?, length_pos_iff_ne_nil]
  cases mapGet urlParts AttributeHTTPHost <;>
    cases mapGet urlParts AttributeNetPeerName <;>
    cases mapGet urlParts AttributeNetPeerIP <;>
    cases mapGet urlParts AttributeHTTPTarget <;>
    simp only [Option.getD_some, Option.getD_none, not_or, List.append_assoc] <;>
    split_ifs <;> simp_all

theorem constructClientURL_of_url (urlParts : GoMap GoString) (url : GoString)
    (h : mapGet urlParts AttributeHTTPURL = some url) : constructClientURL urlParts = url := by
  unfold constructClientURL
  rw [h]

theorem constructServerURL_of_url (urlParts : GoMap GoString) (url : GoString)
    (h : mapGet urlParts AttributeHTTPURL = some url) : constructServerURL urlParts = url := by
  unfold constructServerURL
  rw [h]

/-! ## The loop of `makeHTTP` -/

/-- The body of the loop of `makeHTTP`, variable by variable. -/
theorem makeHTTPRange_eq (env : Env) (st : HTTPLoop) (kv : GoString × Value) :
    makeHTTPRange env st kv =
      { info := infoStep env st.info kv
        filtered := filteredStep st.filtered kv
        urlParts := urlPartsStep st.urlParts kv
        hasHTTP := st.hasHTTP || (httpKey kv.1).setsHasHTTP
        hasHTTPRequestURLAttributes :=
          st.hasHTTPRequestURLAttributes || (httpKey kv.1).setsURLAttributes } := by
  obtain ⟨info, filtered, urlParts, hasHTTP, hasURL⟩ := st
  obtain ⟨key, value⟩ := kv
  unfold makeHTTPRange
  simp only []
  by_cases h1 : key = AttributeHTTPMethod
  · have hk : httpKey key = HTTPKey.method := by
      rw [httpKey, if_pos h1]
    rw [if_pos h1]
    simp only [infoStep, filteredStep, urlPartsStep, hk, HTTPKey.setsHasHTTP,
      HTTPKey.setsURLAttributes, HTTPKey.urlPart, Bool.or_true, Bool.or_false, reduceCtorEq,
      if_true, if_false]
  by_cases h2 : key = AttributeHTTPClientIP
  · have hk : httpKey key = HTTPKey.clientIP := by
      rw [httpKey, if_neg h1, if_pos h2]
    rw [if_neg h1, if_pos h2]
    simp only [infoStep, filteredStep, urlPartsStep, hk, HTTPKey.setsHasHTTP,
      HTTPKey.setsURLAttributes, HTTPKey.urlPart, Bool.or_true, Bool.or_false, reduceCtorEq,
      if_true, if_false]
  by_cases h3 : key = AttributeHTTPUserAgent
  · have hk : httpKey key = HTTPKey.userAgent := by
      rw [httpKey, if_neg h1, if_neg h2, if_pos h3]
    rw [if_neg h1, if_neg h2, if_pos h3]
    simp only [infoStep, filteredStep, urlPartsStep, hk, HTTPKey.setsHasHTTP,
      HTTPKey.setsURLAttributes, HTTPKey.urlPart, Bool.or_true, Bool.or_false, reduceCtorEq,
      if_true, if_false]
  by_cases h4 : key = AttributeHTTPStatusCode
  · have hk : httpKey key = HTTPKey.statusCode := by
      rw [httpKey, if_neg h1, if_neg h2, if_neg h3, if_pos h4]
    rw [if_neg h1, if_neg h2, if_neg h3, if_pos h4]
    simp only [infoStep, filteredStep, urlPartsStep, hk, HTTPKey.setsHasHTTP,
      HTTPKey.setsURLAttributes, HTTPKey.urlPart, Bool.or_true, Bool.or_false, reduceCtorEq,
      if_true, if_false]
  by_cases h5 : key = AttributeHTTPURL
  · have hk : httpKey key = HTTPKey.url := by
      rw [httpKey, if_neg h1, if_neg h2, if_neg h3, if_neg h4, if_pos h5]
    rw [if_neg h1, if_neg h2, if_neg h3, if_neg h4, if_pos h5]
    simp only [infoStep, filteredStep, urlPartsStep, hk, HTTPKey.setsHasHTTP,
      HTTPKey.setsURLAttributes, HTTPKey.urlPart, Bool.or_true, Bool.or_false, reduceCtorEq,
      if_true, if_false]
  by_cases h6 : key = AttributeHTTPScheme
  · have hk : httpKey key = HTTPKey.scheme := by
      rw [httpKey, if_neg h1, if_neg h2, if_neg h3, if_neg h4, if_neg h5, if_pos h6]
    rw [if_neg h1, if_neg h2, if_neg h3, if_neg h4, if_neg h5, if_pos h6]
    simp only [infoStep, filteredStep, urlPartsStep, hk, HTTPKey.setsHasHTTP,
      HTTPKey.setsURLAttributes, HTTPKey.urlPart, Bool.or_true, Bool.or_false, reduceCtorEq,
      if_true, if_false]
  by_cases h7 : key = AttributeHTTPHost
  · have hk : httpKey key = HTTPKey.host := by
      rw [httpKey, if_neg h1, if_neg h2, if_neg h3, if_neg h4, if_neg h5, if_neg h6, if_pos h7]
    rw [if_neg h1, if_neg h2, if_neg h3, if_neg h4, if_neg h5, if_neg h6, if_pos h7]
    simp only [infoStep, filteredStep, urlPartsStep, hk, HTTPKey.setsHasHTTP,
      HTTPKey.setsURLAttributes, HTTPKey.urlPart, Bool.or_true, Bool.or_false, reduceCtorEq,
      if_true, if_false]
  by_cases h8 : key = AttributeHTTPTarget
  · have hk : httpKey key = HTTPKey.target := by
      rw [httpKey, if_neg h1, if_neg h2, if_neg h3, if_neg h4, if_neg h5, if_neg h6, if_neg h7, if_pos h8]
    rw [if_neg h1, if_neg h2, if_neg h3, if_neg h4, if_neg h5, if_neg h6, if_neg h7, if_pos h8]
    simp only [infoStep, filteredStep, urlPartsStep, hk, HTTPKey.setsHasHTTP,
      HTTPKey.setsURLAttributes, HTTPKey.urlPart, Bool.or_true, Bool.or_false, reduceCtorEq,
      if_true, if_false]
  by_cases h9 : key = AttributeHTTPServerName
  · have hk : httpKey key = HTTPKey.serverName := by
      rw [httpKey, if_neg h1, if_neg h2, if_neg h3, if_neg h4, if_neg h5, if_neg h6, if_neg h7, if_neg h8, if_pos h9]
    rw [if_neg h1, if_neg h2, if_neg h3, if_neg h4, if_neg h5, if_neg h6, if_neg h7, if_neg h8, if_pos h9]
    simp only [infoStep, filteredStep, urlPartsStep, hk, HTTPKey.setsHasHTTP,
      HTTPKey.setsURLAttributes, HTTPKey.urlPart, Bool.or_true, Bool.or_false, reduceCtorEq,
      if_true, if_false]
  by_cases h10 : key = AttributeNetHostPort
  · have hk : httpKey key = HTTPKey.netHostPort := by
      rw [httpKey, if_neg h1, if_neg h2, if_neg h3, if_neg h4, if_neg h5, if_neg h6, if_neg h7, if_neg h8, if_neg h9, if_pos h10]
    rw [if_neg h1, if_neg h2, if_neg h3, if_neg h4, if_neg h5, if_neg h6, if_neg h7, if_neg h8, if_neg h9, if_pos h10]
    simp only [infoStep, filteredStep, urlPartsStep, hk, HTTPKey.setsHasHTTP,
      HTTPKey.setsURLAttributes, HTTPKey.urlPart, Bool.or_true, Bool.or_false, reduceCtorEq,
      if_true, if_false]
  by_cases h11 : key = AttributeHostName
  · have hk : httpKey key = HTTPKey.hostName := by
      rw [httpKey, if_neg h1, if_neg h2, if_neg h3, if_neg h4, if_neg h5, if_neg h6, if_neg h7, if_neg h8, if_neg h9, if_neg h10, if_pos h11]
    rw [if_neg h1, if_neg h2, if_neg h3, if_neg h4, if_neg h5, if_neg h6, if_neg h7, if_neg h8, if_neg h9, if_neg h10, if_pos h11]
    simp only [infoStep, filteredStep, urlPartsStep, hk, HTTPKey.setsHasHTTP,
      HTTPKey.setsURLAttributes, HTTPKey.urlPart, Bool.or_true, Bool.or_false, reduceCtorEq,
      if_true, if_false]
  by_cases h12 : key = AttributeNetHostName
  · have hk : httpKey key = HTTPKey.netHostName := by
      rw [httpKey, if_neg h1, if_neg h2, if_neg h3, if_neg h4, if_neg h5, if_neg h6, if_neg h7, if_neg h8, if_neg h9, if_neg h10, if_neg h11, if_pos h12]
    rw [if_neg h1, if_neg h2, if_neg h3, if_neg h4, if_neg h5, if_neg h6, if_neg h7, if_neg h8, if_neg h9, if_neg h10, if_neg h11, if_pos h12]
    simp only [infoStep, filteredStep, urlPartsStep, hk, HTTPKey.setsHasHTTP,
      HTTPKey.setsURLAttributes, HTTPKey.urlPart, Bool.or_true, Bool.or_false, reduceCtorEq,
      if_true, if_false]
  by_cases h13 : key = AttributeNetPeerName
  · have hk : httpKey key = HTTPKey.netPeerName := by
      rw [httpKey, if_neg h1, if_neg h2, if_neg h3, if_neg h4, if_neg h5, if_neg h6, if_neg h7, if_neg h8, if_neg h9, if_neg h10, if_neg h11, if_neg h12, if_pos h13]
    rw [if_neg h1, if_neg h2, if_neg h3, if_neg h4, if_neg h5, if_neg h6, if_neg h7, if_neg h8, if_neg h9, if_neg h10, if_neg h11, if_neg h12, if_pos h13]
    simp only [infoStep, filteredStep, urlPartsStep, hk, HTTPKey.setsHasHTTP,
      HTTPKey.setsURLAttributes, HTTPKey.urlPart, Bool.or_true, Bool.or_false, reduceCtorEq,
      if_true, if_false]
  by_cases h14 : key = AttributeNetPeerPort
  · have hk : httpKey key = HTTPKey.netPeerPort := by
      rw [httpKey, if_neg h1, if_neg h2, if_neg h3, if_neg h4, if_neg h5, if_neg h6, if_neg h7, if_neg h8, if_neg h9, if_neg h10, if_neg h11, if_neg h12, if_neg h13, if_pos h14]
    rw [if_neg h1, if_neg h2, if_neg h3, if_neg h4, if_neg h5, if_neg h6, if_neg h7, if_neg h8, if_neg h9, if_neg h10, if_neg h11, if_neg h12, if_neg h13, if_pos h14]
    simp only [infoStep, filteredStep, urlPartsStep, hk, HTTPKey.setsHasHTTP,
      HTTPKey.setsURLAttributes, HTTPKey.urlPart, Bool.or_true, Bool.or_false, reduceCtorEq,
      if_true, if_false]
  by_cases h15 : key = AttributeNetPeerIP
  · have hk : httpKey key = HTTPKey.netPeerIP := by
      rw [httpKey, if_neg h1, if_neg h2, if_neg h3, if_neg h4, if_neg h5, if_neg h6, if_neg h7, if_neg h8, if_neg h9, if_neg h10, if_neg h11, if_neg h12, if_neg h13, if_neg h14, if_pos h15]
    rw [if_neg h1, if_neg h2, if_neg h3, if_neg h4, if_neg h5, if_neg h6, if_neg h7, if_neg h8, if_neg h9, if_neg h10, if_neg h11, if_neg h12, if_neg h13, if_neg h14, if_pos h15]
    simp only [infoStep, filteredStep, urlPartsStep, hk, HTTPKey.setsHasHTTP,
      HTTPKey.setsURLAttributes, HTTPKey.urlPart, Bool.or_true, Bool.or_false, reduceCtorEq,
      if_true, if_false]
  have hk : httpKey key = HTTPKey.other := by
    rw [httpKey, if_neg h1, if_neg h2, if_neg h3, if_neg h4, if_neg h5, if_neg h6, if_neg h7, if_neg h8, if_neg h9, if_neg h10, if_neg h11, if_neg h12, if_neg h13, if_neg h14, if_neg h15]
  rw [if_neg h1, if_neg h2, if_neg h3, if_neg h4, if_neg h5, if_neg h6, if_neg h7, if_neg h8, if_neg h9, if_neg h10, if_neg h11, if_neg h12, if_neg h13, if_neg h14, if_neg h15]
  simp only [infoStep, filteredStep, urlPartsStep, hk, HTTPKey.setsHasHTTP,
    HTTPKey.setsURLAttributes, HTTPKey.urlPart, Bool.or_true, Bool.or_false, reduceCtorEq,
    if_true, if_false]

theorem makeHTTPRange_foldl (env : Env) (l : List (GoString × Value)) :
    ∀ st : HTTPLoop, l.foldl (makeHTTPRange env) st =
      { info := l.foldl (infoStep env) st.info
        filtered := l.foldl filteredStep st.filtered
        urlParts := l.foldl urlPartsStep st.urlParts
        hasHTTP := st.hasHTTP || l.any (fun kv => (httpKey kv.1).setsHasHTTP)
        hasHTTPRequestURLAttributes :=
          st.hasHTTPRequestURLAttributes ||
            l.any (fun kv => (httpKey kv.1).setsURLAttributes) } := by
  induction l with
  | nil => intro st; simp
  | cons kv rest ih =>
    intro st
    rw [List.foldl_cons, ih, makeHTTPRange_eq]
    simp only [List.foldl_cons, List.any_cons, Bool.or_assoc]

/-- The function `makeHTTP` in terms of the effect of the loop on each of
its variables. -/
theorem makeHTTP_eq (env : Env) (span : Span) :
    makeHTTP env span =
      (filteredOf span.Attributes,
        if hasHTTPOf span.Attributes then
          some (finishHTTP env span (infoOf env span.Attributes))
        else none) := by
  unfold makeHTTP
  simp only []
  by_cases hlen : span.Attributes.Len = 0
  · have hnil : span.Attributes = [] := List.length_eq_zero.mp hlen
    rw [if_pos hlen, hnil]
    rfl
  · rw [if_neg hlen, makeHTTPRange_foldl]
    simp only [Bool.false_or]
    cases hh : hasHTTPOf span.Attributes with
    | false =>
      have hh' : (span.Attributes.any fun kv => (httpKey kv.1).setsHasHTTP) = false := hh
      simp only [hh', Bool.not_false, if_true, filteredOf, Bool.false_eq_true, if_false]
    | true =>
      have hh' : (span.Attributes.any fun kv => (httpKey kv.1).setsHasHTTP) = true := hh
      simp only [hh', Bool.not_true, Bool.false_eq_true, if_false, if_true, filteredOf]
      congr 2
      unfold finishHTTP reconstructedURL hasURLAttributesOf infoOf urlPartsOf emptyHTTPData
      cases span.Attributes.any fun kv => (httpKey kv.1).setsURLAttributes with
      | false => simp only [Bool.false_eq_true, if_false]
      | true =>
        simp only [if_true]
        by_cases hk : span.Kind = SpanKind.Server
        · simp only [hk, if_true]
        · simp only [hk, if_false]

/-! ## The recognized keys -/

/-- A key falls in the default case of the `switch` exactly when it is none
of the recognized keys. -/
theorem httpKey_other_iff (key : GoString) :
    httpKey key = HTTPKey.other ↔ key ∉ recognizedKeys := by
  by_cases h1 : key = AttributeHTTPMethod
  · rw [httpKey, if_pos h1]
    subst h1
    simp only [recognizedKeys, List.mem_cons, true_or, or_true, not_true_eq_false,
      reduceCtorEq]
  by_cases h2 : key = AttributeHTTPClientIP
  · rw [httpKey, if_neg h1, if_pos h2]
    subst h2
    simp only [recognizedKeys, List.mem_cons, true_or, or_true, not_true_eq_false,
      reduceCtorEq]
  by_cases h3 : key = AttributeHTTPUserAgent
  · rw [httpKey, if_neg h1, if_neg h2, if_pos h3]
    subst h3
    simp only [recognizedKeys, List.mem_cons, true_or, or_true, not_true_eq_false,
      reduceCtorEq]
  by_cases h4 : key = AttributeHTTPStatusCode
  · rw [httpKey, if_neg h1, if_neg h2, if_neg h3, if_pos h4]
    subst h4
    simp only [recognizedKeys, List.mem_cons, true_or, or_true, not_true_eq_false,
      reduceCtorEq]
  by_cases h5 : key = AttributeHTTPURL
  · rw [httpKey, if_neg h1, if_neg h2, if_neg h3, if_neg h4, if_pos h5]
    subst h5
    simp only [recognizedKeys, List.mem_cons, true_or, or_true, not_true_eq_false,
      reduceCtorEq]
  by_cases h6 : key = AttributeHTTPScheme
  · rw [httpKey, if_neg h1, if_neg h2, if_neg h3, if_neg h4, if_neg h5, if_pos h6]
    subst h6
    simp only [recognizedKeys, List.mem_cons, true_or, or_true, not_true_eq_false,
      reduceCtorEq]
  by_cases h7 : key = AttributeHTTPHost
  · rw [httpKey, if_neg h1, if_neg h2, if_neg h3, if_neg h4, if_neg h5, if_neg h6, if_pos h7]
    subst h7
    simp only [recognizedKeys, List.mem_cons, true_or, or_true, not_true_eq_false,
      reduceCtorEq]
  by_cases h8 : key = AttributeHTTPTarget
  · rw [httpKey, if_neg h1, if_neg h2, if_neg h3, if_neg h4, if_neg h5, if_neg h6, if_neg h7, if_pos h8]
    subst h8
    simp only [recognizedKeys, List.mem_cons, true_or, or_true, not_true_eq_false,
      reduceCtorEq]
  by_cases h9 : key = AttributeHTTPServerName
  · rw [httpKey, if_neg h1, if_neg h2, if_neg h3, if_neg h4, if_neg h5, if_neg h6, if_neg h7, if_neg h8, if_pos h9]
    subst h9
    simp only [recognizedKeys, List.mem_cons, true_or, or_true, not_true_eq_false,
      reduceCtorEq]
  by_cases h10 : key = AttributeNetHostPort
  · rw [httpKey, if_neg h1, if_neg h2, if_neg h3, if_neg h4, if_neg h5, if_neg h6, if_neg h7, if_neg h8, if_neg h9, if_pos h10]
    subst h10
    simp only [recognizedKeys, List.mem_cons, true_or, or_true, not_true_eq_false,
      reduceCtorEq]
  by_cases h11 : key = AttributeHostName
  · rw [httpKey, if_neg h1, if_neg h2, if_neg h3, if_neg h4, if_neg h5, if_neg h6, if_neg h7, if_neg h8, if_neg h9, if_neg h10, if_pos h11]
    subst h11
    simp only [recognizedKeys, List.mem_cons, true_or, or_true, not_true_eq_false,
      reduceCtorEq]
  by_cases h12 : key = AttributeNetHostName
  · rw [httpKey, if_neg h1, if_neg h2, if_neg h3, if_neg h4, if_neg h5, if_neg h6, if_neg h7, if_neg h8, if_neg h9, if_neg h10, if_neg h11, if_pos h12]
    subst h12
    simp only [recognizedKeys, List.mem_cons, true_or, or_true, not_true_eq_false,
      reduceCtorEq]
  by_cases h13 : key = AttributeNetPeerName
  · rw [httpKey, if_neg h1, if_neg h2, if_neg h3, if_neg h4, if_neg h5, if_neg h6, if_neg h7, if_neg h8, if_neg h9, if_neg h10, if_neg h11, if_neg h12, if_pos h13]
    subst h13
    simp only [recognizedKeys, List.mem_cons, true_or, or_true, not_true_eq_false,
      reduceCtorEq]
  by_cases h14 : key = AttributeNetPeerPort
  · rw [httpKey, if_neg h1, if_neg h2, if_neg h3, if_neg h4, if_neg h5, if_neg h6, if_neg h7, if_neg h8, if_neg h9, if_neg h10, if_neg h11, if_neg h12, if_neg h13, if_pos h14]
    subst h14
    simp only [recognizedKeys, List.mem_cons, true_or, or_true, not_true_eq_false,
      reduceCtorEq]
  by_cases h15 : key = AttributeNetPeerIP
  · rw [httpKey, if_neg h1, if_neg h2, if_neg h3, if_neg h4, if_neg h5, if_neg h6, if_neg h7, if_neg h8, if_neg h9, if_neg h10, if_neg h11, if_neg h12, if_neg h13, if_neg h14, if_pos h15]
    subst h15
    simp only [recognizedKeys, List.mem_cons, true_or, or_true, not_true_eq_false,
      reduceCtorEq]
  rw [httpKey, if_neg h1, if_neg h2, if_neg h3, if_neg h4, if_neg h5, if_neg h6, if_neg h7, if_neg h8, if_neg h9, if_neg h10, if_neg h11, if_neg h12, if_neg h13, if_neg h14, if_neg h15]
  simp only [recognizedKeys, List.mem_cons, List.mem_nil_iff, h1, h2, h3, h4, h5, h6, h7, h8, h9, h10, h11, h12, h13, h14, h15,
    or_self, not_false_eq_true]

/-- A key that falls in a case of the `switch` other than the default one is
the key of the case. -/
theorem httpKey_key (key : GoString) :
    (httpKey key).key = some key ∨ httpKey key = HTTPKey.other := by
  by_cases h1 : key = AttributeHTTPMethod
  · rw [httpKey, if_pos h1, h1]
    exact Or.inl rfl
  by_cases h2 : key = AttributeHTTPClientIP
  · rw [httpKey, if_neg h1, if_pos h2, h2]
    exact Or.inl rfl
  by_cases h3 : key = AttributeHTTPUserAgent
  · rw [httpKey, if_neg h1, if_neg h2, if_pos h3, h3]
    exact Or.inl rfl
  by_cases h4 : key = AttributeHTTPStatusCode
  · rw [httpKey, if_neg h1, if_neg h2, if_neg h3, if_pos h4, h4]
    exact Or.inl rfl
  by_cases h5 : key = AttributeHTTPURL
  · rw [httpKey, if_neg h1, if_neg h2, if_neg h3, if_neg h4, if_pos h5, h5]
    exact Or.inl rfl
  by_cases h6 : key = AttributeHTTPScheme
  · rw [httpKey, if_neg h1, if_neg h2, if_neg h3, if_neg h4, if_neg h5, if_pos h6, h6]
    exact Or.inl rfl
  by_cases h7 : key = AttributeHTTPHost
  · rw [httpKey, if_neg h1, if_neg h2, if_neg h3, if_neg h4, if_neg h5, if_neg h6, if_pos h7, h7]
    exact Or.inl rfl
  by_cases h8 : key = AttributeHTTPTarget
  · rw [httpKey, if_neg h1, if_neg h2, if_neg h3, if_neg h4, if_neg h5, if_neg h6, if_neg h7, if_pos h8, h8]
    exact Or.inl rfl
  by_cases h9 : key = AttributeHTTPServerName
  · rw [httpKey, if_neg h1, if_neg h2, if_neg h3, if_neg h4, if_neg h5, if_neg h6, if_neg h7, if_neg h8, if_pos h9, h9]
    exact Or.inl rfl
  by_cases h10 : key = AttributeNetHostPort
  · rw [httpKey, if_neg h1, if_neg h2, if_neg h3, if_neg h4, if_neg h5, if_neg h6, if_neg h7, if_neg h8, if_neg h9, if_pos h10, h10]
    exact Or.inl rfl
  by_cases h11 : key = AttributeHostName
  · rw [httpKey, if_neg h1, if_neg h2, if_neg h3, if_neg h4, if_neg h5, if_neg h6, if_neg h7, if_neg h8, if_neg h9, if_neg h10, if_pos h11, h11]
    exact Or.inl rfl
  by_cases h12 : key = AttributeNetHostName
  · rw [httpKey, if_neg h1, if_neg h2, if_neg h3, if_neg h4, if_neg h5, if_neg h6, if_neg h7, if_neg h8, if_neg h9, if_neg h10, if_neg h11, if_pos h12, h12]
    exact Or.inl rfl
  by_cases h13 : key = AttributeNetPeerName
  · rw [httpKey, if_neg h1, if_neg h2, if_neg h3, if_neg h4, if_neg h5, if_neg h6, if_neg h7, if_neg h8, if_neg h9, if_neg h10, if_neg h11, if_neg h12, if_pos h13, h13]
    exact Or.inl rfl
  by_cases h14 : key = AttributeNetPeerPort
  · rw [httpKey, if_neg h1, if_neg h2, if_neg h3, if_neg h4, if_neg h5, if_neg h6, if_neg h7, if_neg h8, if_neg h9, if_neg h10, if_neg h11, if_neg h12, if_neg h13, if_pos h14, h14]
    exact Or.inl rfl
  by_cases h15 : key = AttributeNetPeerIP
  · rw [httpKey, if_neg h1, if_neg h2, if_neg h3, if_neg h4, if_neg h5, if_neg h6, if_neg h7, if_neg h8, if_neg h9, if_neg h10, if_neg h11, if_neg h12, if_neg h13, if_neg h14, if_pos h15, h15]
    exact Or.inl rfl
  rw [httpKey, if_neg h1, if_neg h2, if_neg h3, if_neg h4, if_neg h5, if_neg h6, if_neg h7, if_neg h8, if_neg h9, if_neg h10, if_neg h11, if_neg h12, if_neg h13, if_neg h14, if_neg h15]
  exact Or.inr rfl

/-- The key of an attribute that falls in the case `c` of the `switch`. -/
theorem httpKey_eq (key : GoString) (c : HTTPKey) (k : GoString) (hc : c.key = some k)
    (h : httpKey key = c) : key = k := by
  rcases httpKey_key key with h1 | h1
  · rw [h, hc] at h1
    exact (Option.some.inj h1).symm
  · rw [h] at h1
    rw [h1] at hc
    cases hc

/-! ## Folds over an attribute map -/

/-- A variable read through `f` that no step of a fold changes keeps its
value. -/
theorem foldl_frame {σ β α : Type} (f : σ → α) (step : σ → β → σ) (l : List β)
    (hstep : ∀ s b, b ∈ l → f (step s b) = f s) : ∀ s, f (l.foldl step s) = f s := by
  induction l with
  | nil => intro s; rfl
  | cons b rest ih =>
    intro s
    rw [List.foldl_cons, ih (fun s' b' hb' => hstep s' b' (List.mem_cons_of_mem _ hb'))]
    exact hstep s b (List.mem_cons_self _ _)

/-- The last write wins: when the entries have pairwise distinct keys, the
steps at other keys leave the variable read through `f` alone and the step at
the entry `(k, v)` sets it to `a`, the fold over entries that hold `(k, v)`
leaves `a`. -/
theorem foldl_write {σ V α : Type} (f : σ → α) (step : σ → GoString × V → σ)
    (k : GoString) (v : V) (a : α) (hother : ∀ s kv, kv.1 ≠ k → f (step s kv) = f s)
    (hkey : ∀ s, f (step s (k, v)) = a) (l : List (GoString × V))
    (hnd : (l.map Prod.fst).Nodup) (hmem : (k, v) ∈ l) :
    ∀ s, f (l.foldl step s) = a := by
  induction l with
  | nil => simp at hmem
  | cons kv rest ih =>
    intro s
    rw [List.map_cons, List.nodup_cons] at hnd
    rw [List.foldl_cons]
    rcases List.mem_cons.mp hmem with h | h
    · subst h
      rw [foldl_frame f step rest]
      · exact hkey s
      · intro s' b hb
        apply hother
        intro hbk
        exact hnd.1 (List.mem_map.mpr ⟨b, hb, hbk⟩)
    · exact ih hnd.2 h _

/-- A key that `Map.Get` does not find is the key of no entry. -/
theorem Get_eq_none (m : AttributeMap) (k : GoString) (h : m.Get k = none) :
    ∀ kv ∈ m, kv.1 ≠ k := by
  induction m with
  | nil => intro kv hkv; simp at hkv
  | cons x rest ih =>
    by_cases hx : x.1 = k
    · simp [AttributeMap.Get, hx] at h
    · simp only [AttributeMap.Get, hx, if_false] at h
      intro kv hkv
      rcases List.mem_cons.mp hkv with hkv | hkv
      · rw [hkv]; exact hx
      · exact ih h kv hkv

/-- What `Map.Get` finds is the value of an entry with the key. -/
theorem Get_eq_some (m : AttributeMap) (k : GoString) (v : Value) (h : m.Get k = some v) :
    (k, v) ∈ m := by
  induction m with
  | nil => simp [AttributeMap.Get] at h
  | cons x rest ih =>
    by_cases hx : x.1 = k
    · simp only [AttributeMap.Get, hx, if_true, Option.some.injEq] at h
      have hxe : x = (k, v) := Prod.ext hx h
      rw [hxe]
      exact List.mem_cons_self _ _
    · simp only [AttributeMap.Get, hx, if_false] at h
      exact List.mem_cons_of_mem _ (ih h)

/-- Writing a key that a Go map does not hold adds the entry at the end. -/
theorem mapSet_of_forall_ne {α : Type} (m : GoMap α) (k : GoString) (v : α)
    (h : ∀ x ∈ m, x.1 ≠ k) : mapSet m k v = m ++ [(k, v)] := by
  induction m with
  | nil => rfl
  | cons kv rest ih =>
    have h1 : ¬ kv.1 = k := h kv (List.mem_cons_self _ _)
    simp only [mapSet, h1, if_false, List.cons_append]
    rw [ih (fun x hx => h x (List.mem_cons_of_mem _ hx))]

/-- The residual map of `makeHTTP` over entries with pairwise distinct keys,
none of them in the map yet: the entries of the default case are added in
their order. -/
theorem filteredStep_foldl (l : List (GoString × Value)) (hnd : (l.map Prod.fst).Nodup) :
    ∀ acc : GoMap Value, (∀ x ∈ acc, ∀ kv ∈ l, x.1 ≠ kv.1) →
      l.foldl filteredStep acc
        = acc ++ l.filter (fun kv => decide (httpKey kv.1 = HTTPKey.other)) := by
  induction l with
  | nil => intro acc _; simp
  | cons kv rest ih =>
    intro acc hacc
    rw [List.map_cons, List.nodup_cons] at hnd
    rw [List.foldl_cons]
    by_cases hk : httpKey kv.1 = HTTPKey.other
    · have hset : filteredStep acc kv = acc ++ [kv] := by
        rw [filteredStep, if_pos hk]
        exact mapSet_of_forall_ne acc kv.1 kv.2
          (fun x hx => hacc x hx kv (List.mem_cons_self _ _))
      rw [hset, ih hnd.2, List.filter_cons, if_pos (by simpa using hk), List.append_assoc]
      · rfl
      · intro x hx b hb
        rcases List.mem_append.mp hx with hx | hx
        · exact hacc x hx b (List.mem_cons_of_mem _ hb)
        · rw [List.mem_singleton] at hx
          subst hx
          intro hbk
          exact hnd.1 (List.mem_map.mpr ⟨b, hb, hbk.symm⟩)
    · have hset : filteredStep acc kv = acc := by rw [filteredStep, if_neg hk]
      rw [hset, ih hnd.2, List.filter_cons, if_neg (by simpa using hk)]
      intro x hx b hb
      exact hacc x hx b (List.mem_cons_of_mem _ hb)

/-- The residual map of `makeHTTP` for an attribute map with pairwise distinct
keys: the attributes outside the recognized keys, in their order. -/
theorem filteredOf_eq_filter (attributes : AttributeMap)
    (hnd : (attributes.map Prod.fst).Nodup) :
    filteredOf attributes
      = attributes.filter (fun kv => decide (kv.1 ∉ recognizedKeys)) := by
  rw [filteredOf, filteredStep_foldl attributes hnd [] (fun x hx => by simp at hx),
    List.nil_append]
  apply List.filter_congr
  intro kv _
  simp only [httpKey_other_iff]

/-- Every entry of the residual map of `makeHTTP` comes from the default case
of the `switch`, whatever the attribute map is. -/
theorem filteredOf_unrecognized (attributes : AttributeMap) :
    ∀ x ∈ filteredOf attributes, x ∈ attributes ∧ x.1 ∉ recognizedKeys := by
  unfold filteredOf
  have hinv : ∀ acc : GoMap Value, (∀ x ∈ acc, x ∈ attributes ∧ x.1 ∉ recognizedKeys) →
      ∀ x ∈ attributes.foldl filteredStep acc, x ∈ attributes ∧ x.1 ∉ recognizedKeys := by
    intro acc hacc
    refine foldl_invariant (fun m : GoMap Value => ∀ x ∈ m, x ∈ attributes ∧ x.1 ∉ recognizedKeys)
      filteredStep attributes ?_ acc hacc
    intro s b hb hs x hx
    by_cases hk : httpKey b.1 = HTTPKey.other
    · rw [filteredStep, if_pos hk] at hx
      rcases mem_mapSet _ _ _ _ hx with h | h
      · have hxb : x = b := h
        rw [hxb]
        exact ⟨hb, (httpKey_other_iff b.1).mp hk⟩
      · exact hs x h
    · rw [filteredStep, if_neg hk] at hx
      exact hs x hx
  exact hinv [] (fun x hx => by simp at hx)
/-! ## Reading attribute maps and Go maps -/

/-- The method `Map.Get` reads an attribute map as a Go map is read. -/
theorem Get_eq_mapGet (m : AttributeMap) (k : GoString) : m.Get k = mapGet m k := by
  induction m with
  | nil => rfl
  | cons kv rest ih =>
    by_cases h : kv.1 = k
    · simp [AttributeMap.Get, mapGet, h]
    · simp [AttributeMap.Get, mapGet, h, ih]

/-- A key is found exactly when it is the key of an entry. -/
theorem Get_isSome_iff (m : AttributeMap) (k : GoString) :
    (m.Get k).isSome = true ↔ k ∈ m.map Prod.fst := by
  induction m with
  | nil => simp [AttributeMap.Get]
  | cons kv rest ih =>
    by_cases h : kv.1 = k
    · simp [AttributeMap.Get, h]
    · have h' : ¬ k = kv.1 := fun e => h e.symm
      simp [AttributeMap.Get, h, h', ih]

/-- In an attribute map with pairwise distinct keys, the value of an entry is
what `Map.Get` finds for its key. -/
theorem Get_of_mem (m : AttributeMap) (hnd : (m.map Prod.fst).Nodup) (k : GoString)
    (v : Value) (h : (k, v) ∈ m) : m.Get k = some v := by
  induction m with
  | nil => simp at h
  | cons kv rest ih =>
    rw [List.map_cons, List.nodup_cons] at hnd
    rcases List.mem_cons.mp h with h | h
    · rw [← h]
      simp [AttributeMap.Get]
    · have hne : ¬ kv.1 = k := by
        intro e
        exact hnd.1 (List.mem_map.mpr ⟨(k, v), h, e.symm⟩)
      simp only [AttributeMap.Get, hne, if_false]
      exact ih hnd.2 h

/-- The keys after a map write. -/
theorem mapSet_keys {α : Type} (m : GoMap α) (k : GoString) (v : α) :
    (mapSet m k v).map Prod.fst
      = if k ∈ m.map Prod.fst then m.map Prod.fst else m.map Prod.fst ++ [k] := by
  induction m with
  | nil => simp [mapSet]
  | cons kv rest ih =>
    by_cases h : kv.1 = k
    · simp [mapSet, h]
    · have h' : ¬ k = kv.1 := fun e => h e.symm
      simp only [mapSet, h, if_false, List.map_cons, List.mem_cons, h', false_or, ih]
      split_ifs <;> simp

/-- A map write keeps the keys pairwise distinct. -/
theorem mapSet_nodup {α : Type} (m : GoMap α) (k : GoString) (v : α)
    (hnd : (m.map Prod.fst).Nodup) : ((mapSet m k v).map Prod.fst).Nodup := by
  rw [mapSet_keys]
  split_ifs with h
  · exact hnd
  · exact List.Nodup.append hnd (List.nodup_singleton k) (by simpa using h)

/-! ## The last entry of a key -/

/-- An empty map has no last entry. -/
theorem GetLast_nil (k : GoString) : AttributeMap.GetLast [] k = none := rfl

/-- The last entry of a key in a map with one more entry at the end. -/
theorem GetLast_concat (l : AttributeMap) (kv : GoString × Value) (k : GoString) :
    AttributeMap.GetLast (l ++ [kv]) k = if kv.1 = k then some kv.2 else l.GetLast k := by
  unfold AttributeMap.GetLast
  rw [List.reverse_append, List.reverse_singleton, List.singleton_append]
  rfl

/-- A key has a last entry exactly when it has a first one. -/
theorem GetLast_isSome (l : AttributeMap) (k : GoString) :
    (l.GetLast k).isSome = (l.Get k).isSome := by
  rw [Bool.eq_iff_iff]
  unfold AttributeMap.GetLast
  rw [Get_isSome_iff, Get_isSome_iff, List.map_reverse, List.mem_reverse]

/-- The last entry of a key is an entry of the map. -/
theorem GetLast_mem (l : AttributeMap) (k : GoString) (v : Value) (h : l.GetLast k = some v) :
    (k, v) ∈ l :=
  List.mem_reverse.mp (Get_eq_some _ k v h)

/-- A key without entry has no last entry. -/
theorem GetLast_eq_none (l : AttributeMap) (k : GoString) (h : ∀ kv ∈ l, kv.1 ≠ k) :
    l.GetLast k = none := by
  cases hg : l.GetLast k with
  | none => rfl
  | some v => exact absurd rfl (h (k, v) (GetLast_mem l k v hg))

/-- In a map with pairwise distinct keys the last entry of a key is its only
one, the entry `Map.Get` finds. -/
theorem GetLast_eq_Get (l : AttributeMap) (hnd : (l.map Prod.fst).Nodup) (k : GoString) :
    l.GetLast k = l.Get k := by
  cases hg : l.GetLast k with
  | none =>
    have h := GetLast_isSome l k
    rw [hg] at h
    cases hq : l.Get k with
    | none => rfl
    | some v => rw [hq] at h; cases h
  | some v => exact (Get_of_mem l hnd k v (GetLast_mem l k v hg)).symm

/-- The last write wins: when the steps at other keys leave the variable read
through `f` alone and the step at an entry `(k, v)` sets it to `a v`, the fold
leaves what the last entry with the key `k` sets, and the initial value when
there is none. -/
theorem foldl_last_write {σ α : Type} (f : σ → α) (step : σ → GoString × Value → σ)
    (k : GoString) (a : Value → α) (hother : ∀ s kv, kv.1 ≠ k → f (step s kv) = f s)
    (hkey : ∀ s v, f (step s (k, v)) = a v) (l : AttributeMap) (s : σ) :
    f (l.foldl step s) = match l.GetLast k with
      | some v => a v
      | none => f s := by
  induction l using List.reverseRecOn with
  | nil => rfl
  | append_singleton l kv ih =>
    rw [List.foldl_append, List.foldl_cons, List.foldl_nil, GetLast_concat]
    by_cases hk : kv.1 = k
    · rw [if_pos hk]
      obtain ⟨key, v⟩ := kv
      cases hk
      exact hkey _ v
    · rw [if_neg hk, hother _ _ hk]
      exact ih

/-- The entry of a key in the residual map of `makeHTTP`: none for a
recognized key, and for any other key the value of the last attribute with
that key. -/
theorem filteredOf_get (attributes : AttributeMap) (k : GoString) :
    mapGet (filteredOf attributes) k
      = if k ∈ recognizedKeys then none else attributes.GetLast k := by
  unfold filteredOf
  by_cases hk : k ∈ recognizedKeys
  · rw [if_pos hk, foldl_frame (fun m : GoMap Value => mapGet m k) filteredStep attributes]
    · rfl
    · intro s b _
      unfold filteredStep
      by_cases hb : httpKey b.1 = HTTPKey.other
      · rw [if_pos hb]
        refine mapGet_mapSet_ne _ _ _ _ ?_
        intro hbk
        rw [hbk] at hb
        exact (httpKey_other_iff k).mp hb hk
      · rw [if_neg hb]
  · rw [if_neg hk, foldl_last_write (fun m : GoMap Value => mapGet m k) filteredStep k some]
    · cases attributes.GetLast k <;> rfl
    · intro s kv hkv
      unfold filteredStep
      split_ifs
      · exact mapGet_mapSet_ne _ _ _ _ hkv
      · rfl
    · intro s v
      unfold filteredStep
      rw [if_pos ((httpKey_other_iff k).mpr hk)]
      exact mapGet_mapSet_self _ _ _

/-- The keys of the residual map of `makeHTTP` are pairwise distinct. -/
theorem filteredOf_nodup (attributes : AttributeMap) :
    ((filteredOf attributes).map Prod.fst).Nodup := by
  unfold filteredOf
  refine foldl_invariant (fun m : GoMap Value => (m.map Prod.fst).Nodup) filteredStep attributes
    ?_ [] List.nodup_nil
  intro s b _ hs
  unfold filteredStep
  split_ifs
  · exact mapSet_nodup s b.1 b.2 hs
  · exact hs


/-! ## The URL builders: claims -/

/-- C26: if the URL-parts table contains `http.url`, both `constructClientURL`
and `constructServerURL` return its value verbatim, whatever other parts the
table holds. -/
theorem constructURL_verbatim (urlParts : GoMap GoString) (url : GoString)
    (h : mapGet urlParts AttributeHTTPURL = some url) :
    constructClientURL urlParts = url ∧ constructServerURL urlParts = url :=
  ⟨constructClientURL_of_url urlParts url h, constructServerURL_of_url urlParts url h⟩

set_option maxRecDepth 100000 in
/-- Witness of C26: a table with a full URL, a scheme, a host, ports and a
target gives the full URL from both builders. -/
theorem constructURL_verbatim_witness :
    mapGet fullURLParts AttributeHTTPURL = some (str "https://api.example.com/users/x") ∧
      constructClientURL fullURLParts = str "https://api.example.com/users/x" ∧
      constructServerURL fullURLParts = str "https://api.example.com/users/x" :=
  ⟨by decide, constructURL_verbatim fullURLParts _ (by decide)⟩

set_option maxRecDepth 100000 in
/-- C27: for every URL-parts table without `http.url`, `constructServerURL`
returns scheme, `://`, host, port part and target, where the scheme is
`http.scheme` or `http`, the host is the value of the first present key among
`http.host`, `http.server_name`, `net.host.name`, `host.name` (empty if none),
the target is `http.target` or `/`, and the port part is `:` and the port when
`http.host` is absent and `net.host.port` is non-empty and not the default of
the scheme, else empty; the example table of the specification gives
`https://h:80/foo`. -/
theorem constructServerURL_spec (urlParts : GoMap GoString)
    (h : mapGet urlParts AttributeHTTPURL = none) :
    constructServerURL urlParts
        = schemeOf urlParts ++ str "://" ++
          firstPresent urlParts
            [AttributeHTTPHost, AttributeHTTPServerName, AttributeNetHostName,
              AttributeHostName] ++
          portPart urlParts AttributeNetHostPort (schemeOf urlParts) ++ targetOf urlParts ∧
      constructServerURL serverURLParts = str "https://h:80/foo" :=
  ⟨constructServerURL_eq urlParts h, by decide⟩

set_option maxRecDepth 100000 in
/-- Witness of C27: without `http.host`, the host is `net.host.name` and the
port 8080 is inserted. -/
theorem constructServerURL_spec_witness :
    mapGet serverNameParts AttributeHTTPURL = none ∧
      constructServerURL serverNameParts = str "http://h:8080/" ∧
      serverURLSpec serverNameParts = str "http://h:8080/" :=
  ⟨by decide, by decide,
    (constructServerURL_spec serverNameParts (by decide)).1.symm.trans (by decide)⟩

/-- C28: for every URL-parts table without `http.url`, `constructClientURL`
returns scheme, `://`, host, port part and target, where the scheme is
`http.scheme` or `http`, the host is the value of the first present key among
`http.host`, `net.peer.name`, `net.peer.ip` (empty if none), the target is
`http.target` or `/`, and the port part is `:` and the port when `http.host`
is absent and `net.peer.port` is non-empty and not the default of the scheme,
else empty. -/
theorem constructClientURL_spec (urlParts : GoMap GoString)
    (h : mapGet urlParts AttributeHTTPURL = none) :
    constructClientURL urlParts
        = schemeOf urlParts ++ str "://" ++
          firstPresent urlParts [AttributeHTTPHost, AttributeNetPeerName, AttributeNetPeerIP] ++
          portPart urlParts AttributeNetPeerPort (schemeOf urlParts) ++ targetOf urlParts :=
  constructClientURL_eq urlParts h

set_option maxRecDepth 100000 in
/-- Witness of C28: the peer name is preferred to the peer address and the
default port of `https` is left out. -/
theorem constructClientURL_spec_witness :
    mapGet clientPeerParts AttributeHTTPURL = none ∧
      constructClientURL clientPeerParts = str "https://kb234.example.com/users/junit" ∧
      clientURLSpec clientPeerParts = str "https://kb234.example.com/users/junit" :=
  ⟨by decide, by decide,
    (constructClientURL_spec clientPeerParts (by decide)).symm.trans (by decide)⟩

/-! ## The residual map of `makeHTTP`: claims -/

/-- No attribute outside the recognized keys sets `hasHTTP`. -/
theorem hasHTTPOf_false_of_unrecognized (attributes : AttributeMap)
    (h : ∀ kv ∈ attributes, kv.1 ∉ recognizedKeys) : hasHTTPOf attributes = false := by
  unfold hasHTTPOf
  rw [List.any_eq_false]
  intro kv hkv
  rw [(httpKey_other_iff kv.1).mpr (h kv hkv)]
  simp [HTTPKey.setsHasHTTP]

set_option maxRecDepth 100000 in
/-- Counterexample to C22: a span whose two attributes have the same key
`retries`, which is not a recognized key, with the values 1 and 2, gets the
residual map with the single entry `retries` = 2 and a nil HTTP block; the
attribute map of the span has two entries and `Map.Get` reads 1 under
`retries`, so the residual map is not the whole attribute map. -/
theorem makeHTTP_repeated_key_counterexample :
    (∀ kv ∈ repeatedAttributes, kv.1 ∉ recognizedKeys) ∧
      makeHTTP exampleEnv
          (exampleSpan exampleSpanID (str "op") SpanKind.Client repeatedAttributes)
        = ([(str "retries", .int 2)], none) ∧
      repeatedAttributes.Get (str "retries") = some (.int 1) ∧
      (makeHTTP exampleEnv
          (exampleSpan exampleSpanID (str "op") SpanKind.Client repeatedAttributes)).1
        ≠ repeatedAttributes :=
  ⟨by decide, rfl, rfl, fun h => absurd (congrArg List.length h) (by decide)⟩

/-- C22, amended: if a span has none of the recognized keys, `makeHTTP`
returns a nil HTTP block and a residual map that holds, under every key, the
value of the last attribute of the span with that key; the residual map is the
whole attribute map of the span when the keys of the attributes are pairwise
distinct, and a span with no attributes gives an empty residual map and a nil
block. -/
theorem makeHTTP_no_recognized_key (env : Env) (span : Span)
    (hkeys : ∀ kv ∈ span.Attributes, kv.1 ∉ recognizedKeys) :
    (makeHTTP env span).2 = none ∧
      (∀ k, mapGet (makeHTTP env span).1 k = span.Attributes.GetLast k) ∧
      ((span.Attributes.map Prod.fst).Nodup → makeHTTP env span = (span.Attributes, none)) ∧
      (span.Attributes = [] → makeHTTP env span = ([], none)) := by
  have hmain : makeHTTP env span = (filteredOf span.Attributes, none) := by
    rw [makeHTTP_eq, hasHTTPOf_false_of_unrecognized _ hkeys]
    simp only [Bool.false_eq_true, if_false]
  refine ⟨by rw [hmain], fun k => ?_, fun hnd => ?_, fun hnil => ?_⟩
  · rw [hmain, filteredOf_get]
    by_cases hk : k ∈ recognizedKeys
    · rw [if_pos hk, GetLast_eq_none]
      intro kv hkv hkk
      exact hkeys kv hkv (hkk ▸ hk)
    · rw [if_neg hk]
  · rw [hmain, filteredOf_eq_filter _ hnd, List.filter_eq_self.mpr]
    intro kv hkv
    simpa using hkeys kv hkv
  · rw [hmain, hnil]
    rfl

set_option maxRecDepth 100000 in
/-- Witness of C22, amended: a span with two attributes outside the recognized
keys, with distinct keys, gets them as its residual map. -/
theorem makeHTTP_no_recognized_key_witness :
    (∀ kv ∈ plainAttributes, kv.1 ∉ recognizedKeys) ∧
      makeHTTP exampleEnv (exampleSpan exampleSpanID (str "op") SpanKind.Client plainAttributes)
        = (plainAttributes, none) :=
  ⟨by decide,
    (makeHTTP_no_recognized_key exampleEnv
      (exampleSpan exampleSpanID (str "op") SpanKind.Client plainAttributes)
      (by decide)).2.2.1 (by decide)⟩

set_option maxRecDepth 100000 in
/-- Counterexample to C23: a span with `http.method` and two attributes of
the unrecognized key `retries`, with the values 1 and 2, gets the residual map
with the single entry `retries` = 2: the unrecognized attribute `retries` = 1
does not appear in it. -/
theorem makeHTTP_residual_counterexample :
    (str "retries", Value.int 1) ∈ repeatedMixedAttributes ∧
      str "retries" ∉ recognizedKeys ∧
      (makeHTTP exampleEnv
          (exampleSpan exampleSpanID (str "GET") SpanKind.Client repeatedMixedAttributes)).1
        = [(str "retries", .int 2)] ∧
      (str "retries", Value.int 1) ∉
        (makeHTTP exampleEnv
          (exampleSpan exampleSpanID (str "GET") SpanKind.Client repeatedMixedAttributes)).1 := by
  refine ⟨List.mem_cons_of_mem _ (List.mem_cons_self _ _), by decide, rfl, ?_⟩
  have hres : (makeHTTP exampleEnv
      (exampleSpan exampleSpanID (str "GET") SpanKind.Client repeatedMixedAttributes)).1
        = [(str "retries", .int 2)] := rfl
  rw [hres, List.mem_singleton]
  intro h
  have hv : Value.int 1 = Value.int 2 := congrArg Prod.snd h
  cases hv

/-- C23, amended: for every span, the residual map of `makeHTTP` is the
attribute map restricted to the keys outside the recognized set, a repeated
key keeping the value of its last attribute: every entry of the residual map
is an unrecognized attribute of the span, no recognized key appears in it,
its keys are pairwise distinct, and every unrecognized key of the span appears
in it with the value of the last attribute with that key; when the keys of the
attributes are pairwise distinct, every unrecognized attribute appears in it
with its value unchanged, in the order of the attributes. -/
theorem makeHTTP_residual (env : Env) (span : Span) :
    (∀ kv ∈ (makeHTTP env span).1, kv.1 ∉ recognizedKeys ∧ kv ∈ span.Attributes) ∧
      ((makeHTTP env span).1.map Prod.fst).Nodup ∧
      (∀ k, mapGet (makeHTTP env span).1 k
        = if k ∈ recognizedKeys then none else span.Attributes.GetLast k) ∧
      ((span.Attributes.map Prod.fst).Nodup →
        (makeHTTP env span).1
            = span.Attributes.filter (fun kv => decide (kv.1 ∉ recognizedKeys)) ∧
          ∀ kv ∈ span.Attributes, kv.1 ∉ recognizedKeys → kv ∈ (makeHTTP env span).1) := by
  have hres : (makeHTTP env span).1 = filteredOf span.Attributes := by rw [makeHTTP_eq]
  rw [hres]
  refine ⟨fun kv hkv => ?_, filteredOf_nodup _, filteredOf_get _, fun hnd => ⟨?_, ?_⟩⟩
  · exact ⟨(filteredOf_unrecognized _ kv hkv).2, (filteredOf_unrecognized _ kv hkv).1⟩
  · exact filteredOf_eq_filter _ hnd
  · intro kv hkv hk
    rw [filteredOf_eq_filter _ hnd, List.mem_filter]
    exact ⟨hkv, by simpa using hk⟩

set_option maxRecDepth 100000 in
/-- Witness of C23, amended: of four attributes with distinct keys, the two
outside the recognized keys make up the residual map. -/
theorem makeHTTP_residual_witness :
    (makeHTTP exampleEnv
        (exampleSpan exampleSpanID (str "op") SpanKind.Client mixedAttributes)).1
      = [(str "rpc.system", .string (str "grpc")), (str "retries", .int 3)] :=
  ((makeHTTP_residual exampleEnv
    (exampleSpan exampleSpanID (str "op") SpanKind.Client mixedAttributes)).2.2.2
    (by decide)).1.trans rfl


/-! ## The variables of `makeHTTP` after the loop -/

/-- An attribute with another key leaves the entry of a key in `urlParts`
alone. -/
theorem mapGet_urlPartsStep_ne (urlParts : GoMap GoString) (kv : GoString × Value)
    (k : GoString) (h : kv.1 ≠ k) : mapGet (urlPartsStep urlParts kv) k = mapGet urlParts k := by
  unfold urlPartsStep
  cases (httpKey kv.1).urlPart kv.2 with
  | none => rfl
  | some part => exact mapGet_mapSet_ne _ _ _ _ h

/-- A key without attribute has no entry in `urlParts`. -/
theorem urlPartsOf_none (attributes : AttributeMap) (k : GoString)
    (h : attributes.Get k = none) : mapGet (urlPartsOf attributes) k = none := by
  unfold urlPartsOf
  rw [foldl_frame (fun m : GoMap GoString => mapGet m k) urlPartsStep attributes]
  · rfl
  · intro s b hb
    exact mapGet_urlPartsStep_ne s b k (Get_eq_none attributes k h b hb)

/-- The entry of `urlParts` for a key whose case of the `switch` stores
`g value`, over an attribute map with pairwise distinct keys. -/
theorem urlPartsOf_get (attributes : AttributeMap) (hnd : (attributes.map Prod.fst).Nodup)
    (k : GoString) (g : Value → GoString) (hg : ∀ v, (httpKey k).urlPart v = some (g v)) :
    mapGet (urlPartsOf attributes) k = (attributes.Get k).map g := by
  cases hget : attributes.Get k with
  | none => exact urlPartsOf_none attributes k hget
  | some v =>
    unfold urlPartsOf
    refine foldl_write (fun m : GoMap GoString => mapGet m k) urlPartsStep k v _
      (fun s kv hkv => mapGet_urlPartsStep_ne s kv k hkv) ?_ attributes hnd
      (Get_eq_some attributes k v hget) []
    intro s
    show mapGet (urlPartsStep s (k, v)) k = some (g v)
    unfold urlPartsStep
    simp only [hg v]
    exact mapGet_mapSet_self _ _ _

/-- The entry of `urlParts` for a key whose case of the `switch` stores
`g value`: what the last attribute with the key stores. -/
theorem urlPartsOf_last (attributes : AttributeMap) (k : GoString) (g : Value → GoString)
    (hg : ∀ v, (httpKey k).urlPart v = some (g v)) :
    mapGet (urlPartsOf attributes) k = (attributes.GetLast k).map g := by
  unfold urlPartsOf
  rw [foldl_last_write (fun m : GoMap GoString => mapGet m k) urlPartsStep k (fun v => some (g v))
    (fun s kv hkv => mapGet_urlPartsStep_ne s kv k hkv)]
  · cases attributes.GetLast k <;> rfl
  · intro s v
    show mapGet (urlPartsStep s (k, v)) k = some (g v)
    unfold urlPartsStep
    simp only [hg v]
    exact mapGet_mapSet_self _ _ _

/-- No step of the loop of `makeHTTP` sets the URL of the request. -/
theorem infoOf_URL (env : Env) (attributes : AttributeMap) :
    (infoOf env attributes).Request.URL = none := by
  unfold infoOf
  rw [foldl_frame (fun i : HTTPData => i.Request.URL) (infoStep env) attributes]
  · rfl
  · intro s b _
    unfold infoStep
    cases httpKey b.1 <;> simp only []
    split_ifs <;> rfl

/-- The URL of the request in the block `makeHTTP` returns: set exactly when
a case of the `switch` set `hasHTTPRequestURLAttributes`. -/
theorem makeHTTP_URL (env : Env) (span : Span) (residual : GoMap Value) (info : HTTPData)
    (h : makeHTTP env span = (residual, some info)) :
    info.Request.URL =
      if hasURLAttributesOf span.Attributes then env.xrayString (reconstructedURL span)
      else none := by
  rw [makeHTTP_eq] at h
  cases hh : hasHTTPOf span.Attributes with
  | false => simp [hh] at h
  | true =>
    simp only [hh, if_true, Prod.mk.injEq, Option.some.injEq] at h
    rw [← h.2]
    simp only [finishHTTP, infoOf_URL]

/-! ## The block of `makeHTTP`: claims -/

set_option maxRecDepth 100000 in
/-- C25: a client span whose attributes are `http.method` and `net.peer.name`
gets an HTTP block without URL, although `net.peer.name` is a host-indicating
key and `constructClientURL` assembles `http://example.com/` from the recorded
parts; with `net.peer.ip` in its place the URL is set. -/
theorem makeHTTP_peer_name_no_URL :
    makeHTTP exampleEnv (exampleSpan exampleSpanID (str "GET") SpanKind.Client peerNameAttributes)
        = ([], some
            { Request :=
                { Method := some (str "GET"), ClientIP := none, XForwardedFor := none,
                  UserAgent := none, URL := none }
              Response := { Status := none, ContentLength := some 0 } }) ∧
      AttributeNetPeerName ∈ hostIndicatingKeys ∧
      constructClientURL (urlPartsOf peerNameAttributes) = str "http://example.com/" ∧
      (makeHTTP exampleEnv
          (exampleSpan exampleSpanID (str "GET") SpanKind.Client peerIPAttributes)).2.map
        (fun info => info.Request.URL) = some (some (str "http://10.0.0.1/")) :=
  ⟨rfl, by decide, by decide, by decide⟩

set_option maxRecDepth 100000 in
/-- C24: with an `awsxray.String` that gives `nil` for the empty string, a
span with an empty `http.client_ip` before `net.peer.ip` gets the peer address
as client IP, with `XForwardedFor` set; a non-empty `http.client_ip` after
`net.peer.ip` wins. -/
theorem makeHTTP_empty_client_ip :
    (makeHTTP exampleEnv
        (exampleSpan exampleSpanID (str "GET") SpanKind.Server emptyClientIPAttributes)).2.map
        (fun info => (info.Request.ClientIP, info.Request.XForwardedFor))
      = some (some (str "10.0.0.1"), some true) ∧
    emptyClientIPAttributes.Get AttributeHTTPClientIP = some (.string []) ∧
    (makeHTTP exampleEnv
        (exampleSpan exampleSpanID (str "GET") SpanKind.Server forwardedAttributes)).2.map
        (fun info => (info.Request.ClientIP, info.Request.XForwardedFor))
      = some (some (str "192.168.15.32"), some true) :=
  ⟨by decide, rfl, by decide⟩

set_option maxRecDepth 100000 in
/-- Counterexample to C29: a Server span without `http.url`, with `http.host`
`h` and `net.host.port` 8080, which is not the default port of `http`, gets the
URL `http://h/`: the port is not inserted. And a Server span without
`http.url` and `http.host`, with `net.host.name` `h` and two `net.host.port`
attributes, 8080 and then 80, gets `http://h/` as well, although `Map.Get`
reads 8080 as its port attribute: the later attribute has overwritten the
port, and 80 is the default port of `http`. -/
theorem makeHTTP_host_port_counterexample :
    hostPortAttributes.Get AttributeHTTPURL = none ∧
      recordedPort (exampleSpan exampleSpanID (str "GET") SpanKind.Server hostPortAttributes)
        = str "8080" ∧
      ¬ isDefaultPort (str "http") (str "8080") ∧
      (makeHTTP exampleEnv
          (exampleSpan exampleSpanID (str "GET") SpanKind.Server hostPortAttributes)).2.map
        (fun info => info.Request.URL) = some (some (str "http://h/")) ∧
      repeatedPortAttributes.Get AttributeHTTPURL = none ∧
      (repeatedPortAttributes.Get AttributeHTTPHost).isNone = true ∧
      (repeatedPortAttributes.Get AttributeNetHostPort).map portString = some (str "8080") ∧
      (makeHTTP exampleEnv
          (exampleSpan exampleSpanID (str "GET") SpanKind.Server repeatedPortAttributes)).2.map
        (fun info => info.Request.URL) = some (some (str "http://h/")) :=
  ⟨rfl, by decide, by decide, by decide, rfl, rfl, by decide, by decide⟩

set_option maxRecDepth 100000 in
/-- The cases of the `switch` that the keys of the URL builders fall in. -/
theorem httpKey_constants :
    httpKey AttributeHTTPMethod = HTTPKey.method ∧
      httpKey AttributeHTTPStatusCode = HTTPKey.statusCode ∧
      httpKey AttributeHTTPURL = HTTPKey.url ∧
      httpKey AttributeHTTPHost = HTTPKey.host ∧
      httpKey AttributeNetHostPort = HTTPKey.netHostPort ∧
      httpKey AttributeNetPeerPort = HTTPKey.netPeerPort := by
  decide

/-- The port `constructServerURL` and `constructClientURL` read is the
recorded port of the span, and they see `http.host` when the span has it. -/
theorem urlPartsOf_port (span : Span) :
    (mapGet (urlPartsOf span.Attributes) (portKeyOf span.Kind)).getD [] = recordedPort span ∧
      ((mapGet (urlPartsOf span.Attributes) AttributeHTTPHost).isNone =
        (span.Attributes.Get AttributeHTTPHost).isNone) := by
  constructor
  · unfold recordedPort portKeyOf
    by_cases hk : span.Kind = SpanKind.Server
    · rw [if_pos hk, urlPartsOf_last _ AttributeNetHostPort portString]
      intro v
      rw [httpKey_constants.2.2.2.2.1]
      rfl
    · rw [if_neg hk, urlPartsOf_last _ AttributeNetPeerPort portString]
      intro v
      rw [httpKey_constants.2.2.2.2.2]
      rfl
  · rw [urlPartsOf_last _ AttributeHTTPHost Value.StringVal]
    · have h := GetLast_isSome span.Attributes AttributeHTTPHost
      cases hl : span.Attributes.GetLast AttributeHTTPHost <;>
        cases hg : span.Attributes.Get AttributeHTTPHost <;> simp [hl, hg] at h ⊢
    · intro v
      rw [httpKey_constants.2.2.2.1]
      rfl

/-- C29, amended: for every span without `http.url` whose URL is
reconstructed, `:` and the port is inserted between host and target if and
only if `http.host` is absent and the recorded port of the kind (that of the
last `net.host.port` attribute for a Server span, of the last `net.peer.port`
attribute for any other kind) is non-empty and not the default port of the
scheme; when `http.host` is absent, a non-empty port is never suppressed for a
scheme other than `http` and `https`. -/
theorem makeHTTP_port_part (env : Env) (span : Span) (residual : GoMap Value)
    (info : HTTPData) (h : makeHTTP env span = (residual, some info))
    (hurl : span.Attributes.Get AttributeHTTPURL = none)
    (hrec : hasURLAttributesOf span.Attributes = true) :
    stringValue info.Request.URL =
        (if (span.Attributes.Get AttributeHTTPHost).isNone = true ∧ recordedPort span ≠ [] ∧
            ¬ isDefaultPort (schemeOf (urlPartsOf span.Attributes)) (recordedPort span) then
          urlFront span ++ str ":" ++ recordedPort span ++ targetOf (urlPartsOf span.Attributes)
        else urlFront span ++ targetOf (urlPartsOf span.Attributes)) ∧
      (schemeOf (urlPartsOf span.Attributes) ≠ str "http" →
        schemeOf (urlPartsOf span.Attributes) ≠ str "https" →
        (span.Attributes.Get AttributeHTTPHost).isNone = true → recordedPort span ≠ [] →
        stringValue info.Request.URL =
          urlFront span ++ str ":" ++ recordedPort span ++
            targetOf (urlPartsOf span.Attributes)) := by
  have hU := makeHTTP_URL env span residual info h
  rw [hrec, if_pos rfl] at hU
  have hno := urlPartsOf_none span.Attributes AttributeHTTPURL hurl
  obtain ⟨hport, hhost⟩ := urlPartsOf_port span
  have hmain : stringValue info.Request.URL =
      (if (span.Attributes.Get AttributeHTTPHost).isNone = true ∧ recordedPort span ≠ [] ∧
          ¬ isDefaultPort (schemeOf (urlPartsOf span.Attributes)) (recordedPort span) then
        urlFront span ++ str ":" ++ recordedPort span ++ targetOf (urlPartsOf span.Attributes)
      else urlFront span ++ targetOf (urlPartsOf span.Attributes)) := by
    rw [hU, stringValue, env.xrayString_val, ← hport, ← hhost]
    clear hport hhost
    unfold reconstructedURL urlFront portKeyOf hostKeysOf
    by_cases hk : span.Kind = SpanKind.Server
    · simp only [hk, if_true]
      rw [constructServerURL_eq _ hno]
      unfold serverURLSpec portPart
      cases mapGet (urlPartsOf span.Attributes) AttributeHTTPHost with
      | none =>
        simp only [Option.isNone_none, true_and]
        split_ifs <;> simp only [List.append_assoc, List.append_nil]
      | some host =>
        simp only [Option.isNone_some, Bool.false_eq_true, false_and, if_false, List.append_nil]
    · simp only [hk, if_false]
      rw [constructClientURL_eq _ hno]
      unfold clientURLSpec portPart
      cases mapGet (urlPartsOf span.Attributes) AttributeHTTPHost with
      | none =>
        simp only [Option.isNone_none, true_and]
        split_ifs <;> simp only [List.append_assoc, List.append_nil]
      | some host =>
        simp only [Option.isNone_some, Bool.false_eq_true, false_and, if_false, List.append_nil]
  refine ⟨hmain, fun h1 h2 h3 h4 => ?_⟩
  rw [hmain, if_pos]
  refine ⟨h3, h4, ?_⟩
  unfold isDefaultPort
  rintro (⟨hs, -⟩ | ⟨hs, -⟩)
  · exact h1 hs
  · exact h2 hs

set_option maxRecDepth 100000 in
/-- Witness of C29, amended: a Server span without `http.host`, named by
`net.host.name`, with the port 8080 gets `http://h:8080/`. -/
theorem makeHTTP_port_part_witness :
    ∃ residual info,
      makeHTTP exampleEnv
          (exampleSpan exampleSpanID (str "GET") SpanKind.Server namePortAttributes)
        = (residual, some info) ∧
      stringValue info.Request.URL = str "http://h:8080/" :=
  ⟨_, _, rfl,
    (makeHTTP_port_part exampleEnv
      (exampleSpan exampleSpanID (str "GET") SpanKind.Server namePortAttributes) _ _ rfl
      rfl rfl).1.trans (by decide)⟩


/-- The method of the request after the loop of `makeHTTP`, over an attribute
map with pairwise distinct keys that holds `http.method`. -/
theorem infoOf_Method (env : Env) (attributes : AttributeMap)
    (hnd : (attributes.map Prod.fst).Nodup) (v : Value)
    (hmem : (AttributeHTTPMethod, v) ∈ attributes) :
    (infoOf env attributes).Request.Method = env.xrayString v.StringVal := by
  unfold infoOf
  refine foldl_write (fun i : HTTPData => i.Request.Method) (infoStep env) AttributeHTTPMethod v _
    ?_ ?_ attributes hnd hmem emptyHTTPData
  · intro s kv hkv
    have hk : httpKey kv.1 ≠ HTTPKey.method := fun hk => hkv (httpKey_eq _ HTTPKey.method _ rfl hk)
    unfold infoStep
    cases hc : httpKey kv.1 <;> simp only [] <;> first | exact absurd hc hk | skip
    split_ifs <;> rfl
  · intro s
    show (infoStep env s (AttributeHTTPMethod, v)).Request.Method = _
    unfold infoStep
    simp only [httpKey_constants.1]

/-- The status of the response after the loop of `makeHTTP`, over an
attribute map with pairwise distinct keys that holds `http.status_code`. -/
theorem infoOf_Status (env : Env) (attributes : AttributeMap)
    (hnd : (attributes.map Prod.fst).Nodup) (v : Value)
    (hmem : (AttributeHTTPStatusCode, v) ∈ attributes) :
    (infoOf env attributes).Response.Status = some v.IntVal := by
  unfold infoOf
  refine foldl_write (fun i : HTTPData => i.Response.Status) (infoStep env)
    AttributeHTTPStatusCode v _ ?_ ?_ attributes hnd hmem emptyHTTPData
  · intro s kv hkv
    have hk : httpKey kv.1 ≠ HTTPKey.statusCode := fun hk => hkv (httpKey_eq _ HTTPKey.statusCode _ rfl hk)
    unfold infoStep
    cases hc : httpKey kv.1 <;> simp only [] <;> first | exact absurd hc hk | skip
    split_ifs <;> rfl
  · intro s
    show (infoStep env s (AttributeHTTPStatusCode, v)).Response.Status = _
    unfold infoStep
    simp only [httpKey_constants.2.1]

set_option maxRecDepth 100000 in
/-- C30: for every span whose attributes are exactly `http.method` `m`,
`http.url` `u` and `http.status_code` `s`, an integer, in whatever order (in
particular for every such client-kind span), `makeHTTP` returns an empty
residual map and an HTTP block with the method `m`, the URL `u` and the status
`s`. -/
theorem makeHTTP_client_example (env : Env) (span : Span) (m u : GoString) (s : Int)
    (hattrs : span.Attributes.Perm
      [(AttributeHTTPMethod, .string m), (AttributeHTTPURL, .string u),
        (AttributeHTTPStatusCode, .int s)]) :
    ∃ info, makeHTTP env span = ([], some info) ∧ stringValue info.Request.Method = m ∧
      stringValue info.Request.URL = u ∧ info.Response.Status = some s := by
  have hnd : (span.Attributes.map Prod.fst).Nodup :=
    (hattrs.map Prod.fst).nodup_iff.mpr
      (show [AttributeHTTPMethod, AttributeHTTPURL, AttributeHTTPStatusCode].Nodup by decide)
  have hm : (AttributeHTTPMethod, Value.string m) ∈ span.Attributes :=
    hattrs.mem_iff.mpr (List.mem_cons_self _ _)
  have hu : (AttributeHTTPURL, Value.string u) ∈ span.Attributes :=
    hattrs.mem_iff.mpr (List.mem_cons_of_mem _ (List.mem_cons_self _ _))
  have hs : (AttributeHTTPStatusCode, Value.int s) ∈ span.Attributes :=
    hattrs.mem_iff.mpr
      (List.mem_cons_of_mem _ (List.mem_cons_of_mem _ (List.mem_cons_self _ _)))
  have hhas : hasHTTPOf span.Attributes = true :=
    List.any_eq_true.mpr ⟨_, hm, by rw [httpKey_constants.1]; rfl⟩
  have hrec : hasURLAttributesOf span.Attributes = true :=
    List.any_eq_true.mpr ⟨_, hu, by rw [httpKey_constants.2.2.1]; rfl⟩
  have hres : filteredOf span.Attributes = [] := by
    rw [List.eq_nil_iff_forall_not_mem]
    intro x hx
    obtain ⟨hx1, hx2⟩ := filteredOf_unrecognized _ x hx
    apply hx2
    have hx3 := hattrs.mem_iff.mp hx1
    simp only [List.mem_cons, List.mem_nil_iff, or_false] at hx3
    rcases hx3 with h | h | h <;> rw [h] <;> simp [recognizedKeys]
  have hget : span.Attributes.Get AttributeHTTPURL = some (.string u) := by
    cases hg : span.Attributes.Get AttributeHTTPURL with
    | none => exact absurd rfl (Get_eq_none _ _ hg _ hu)
    | some v =>
      have hv := hattrs.mem_iff.mp (Get_eq_some _ _ _ hg)
      simp only [List.mem_cons, List.mem_nil_iff, or_false, Prod.mk.injEq] at hv
      rcases hv with h | h | h
      · exact absurd h.1 (by decide)
      · rw [h.2]
      · exact absurd h.1 (by decide)
  have hparts : mapGet (urlPartsOf span.Attributes) AttributeHTTPURL = some u := by
    rw [urlPartsOf_get _ hnd AttributeHTTPURL Value.StringVal, hget]
    · rfl
    · intro v
      rw [httpKey_constants.2.2.1]
      rfl
  have hurl : reconstructedURL span = u := by
    unfold reconstructedURL
    split_ifs
    · exact constructServerURL_of_url _ _ hparts
    · exact constructClientURL_of_url _ _ hparts
  refine ⟨finishHTTP env span (infoOf env span.Attributes), ?_, ?_, ?_, ?_⟩
  · rw [makeHTTP_eq, hhas, hres, if_pos rfl]
  · show stringValue (infoOf env span.Attributes).Request.Method = m
    rw [infoOf_Method env _ hnd _ hm, stringValue, env.xrayString_val]
    rfl
  · show stringValue (if hasURLAttributesOf span.Attributes then
        env.xrayString (reconstructedURL span)
      else (infoOf env span.Attributes).Request.URL) = u
    rw [hrec, if_pos rfl, stringValue, env.xrayString_val, hurl]
  · show (infoOf env span.Attributes).Response.Status = some s
    rw [infoOf_Status env _ hnd _ hs]
    rfl

set_option maxRecDepth 100000 in
/-- Witness of C30: the client span of the example of the specification. -/
theorem makeHTTP_client_example_witness :
    ∃ info,
      makeHTTP exampleEnv
          (exampleSpan exampleSpanID (str "GET") SpanKind.Client clientExampleAttributes)
        = ([], some info) ∧
      stringValue info.Request.Method = str "GET" ∧
      stringValue info.Request.URL = str "https://api.example.com/users/x" ∧
      info.Response.Status = some 200 :=
  makeHTTP_client_example exampleEnv
    (exampleSpan exampleSpanID (str "GET") SpanKind.Client clientExampleAttributes)
    (str "GET") (str "https://api.example.com/users/x") 200 (List.Perm.refl _)

/-! ## The structure of metadata values -/

/-- The `Range` over a map value in `metadataValue` as a fold of map
writes. -/
theorem metadataValueMap_eq_foldl (kvs : List (GoString × Value)) :
    ∀ converted : GoMap Iface,
      metadataValueMap kvs converted
        = kvs.foldl (fun m kv => mapSet m kv.1 (metadataValue kv.2)) converted := by
  induction kvs with
  | nil => intro converted; simp [metadataValueMap]
  | cons kv rest ih =>
    intro converted
    obtain ⟨key, value⟩ := kv
    simp only [metadataValueMap, List.foldl_cons]
    exact ih _

/-- Writing entries with pairwise distinct keys, none of them in the map yet,
adds them in their order. -/
theorem foldl_mapSet_nodup {α β : Type} (g : β → α) (l : List (GoString × β))
    (hnd : (l.map Prod.fst).Nodup) :
    ∀ acc : GoMap α, (∀ x ∈ acc, ∀ kv ∈ l, x.1 ≠ kv.1) →
      l.foldl (fun m kv => mapSet m kv.1 (g kv.2)) acc
        = acc ++ l.map (fun kv => (kv.1, g kv.2)) := by
  induction l with
  | nil => intro acc _; simp
  | cons kv rest ih =>
    intro acc hacc
    rw [List.map_cons, List.nodup_cons] at hnd
    rw [List.foldl_cons,
      mapSet_of_forall_ne acc kv.1 (g kv.2) (fun x hx => hacc x hx kv (List.mem_cons_self _ _)),
      ih hnd.2, List.map_cons, List.append_assoc]
    · rfl
    · intro x hx b hb
      rcases List.mem_append.mp hx with hx | hx
      · exact hacc x hx b (List.mem_cons_of_mem _ hb)
      · rw [List.mem_singleton] at hx
        rw [hx]
        intro hbk
        exact hnd.1 (List.mem_map.mpr ⟨b, hb, hbk.symm⟩)

/-- The keys of a map after a fold of map writes: those it had and those
written. -/
theorem foldl_mapSet_isSome {α : Type} (g : Value → α) (l : AttributeMap) (k : GoString) :
    ∀ acc : GoMap α,
      (mapGet (l.foldl (fun m kv => mapSet m kv.1 (g kv.2)) acc) k).isSome
        = ((mapGet acc k).isSome || (l.Get k).isSome) := by
  induction l with
  | nil => intro acc; simp [AttributeMap.Get]
  | cons kv rest ih =>
    intro acc
    rw [List.foldl_cons, ih]
    by_cases hk : kv.1 = k
    · rw [hk, mapGet_mapSet_self]
      simp [AttributeMap.Get, hk]
    · rw [mapGet_mapSet_ne _ _ _ _ hk]
      simp [AttributeMap.Get, hk]

/-- Reading a key in a map whose values went through `g` entry by entry. -/
theorem mapGet_map_values {α : Type} (g : Value → α) (l : AttributeMap) (k : GoString) :
    mapGet (l.map (fun kv => (kv.1, g kv.2))) k = (l.Get k).map g := by
  induction l with
  | nil => rfl
  | cons kv rest ih =>
    by_cases hk : kv.1 = k
    · simp [mapGet, AttributeMap.Get, hk]
    · simp [mapGet, AttributeMap.Get, hk, ih]

/-- The value of a key in the map a `Range` over a map value fills: the
converted value of the last entry with the key. -/
theorem metadataValueMap_get (kvs : List (GoString × Value)) (k : GoString) :
    mapGet (metadataValueMap kvs []) k = (AttributeMap.GetLast kvs k).map metadataValue := by
  rw [metadataValueMap_eq_foldl,
    foldl_last_write (fun m : GoMap Iface => mapGet m k)
      (fun m kv => mapSet m kv.1 (metadataValue kv.2)) k (fun v => some (metadataValue v))
      (fun s kv hkv => mapGet_mapSet_ne _ _ _ _ hkv) (fun s v => mapGet_mapSet_self _ _ _)]
  cases AttributeMap.GetLast kvs k <;> rfl

set_option maxRecDepth 100000 in
/-- Counterexample to C21: the map value with the entries `a` = 1 and `a` = 2
converts to the map with the single entry `a` = 2, while `Map.Get` reads 1
under `a` in the original: the value at the key `a` is not `metadataValue` of
the original value 1. -/
theorem metadataValue_repeated_key_counterexample :
    metadataValue (.map repeatedKeyEntries) = .map [(str "a", .int 2)] ∧
      AttributeMap.Get repeatedKeyEntries (str "a") = some (.int 1) ∧
      mapGet [(str "a", Iface.int 2)] (str "a")
        ≠ (AttributeMap.Get repeatedKeyEntries (str "a")).map metadataValue := by
  refine ⟨rfl, rfl, ?_⟩
  have h1 : mapGet [(str "a", Iface.int 2)] (str "a") = some (.int 2) := rfl
  have h2 : (AttributeMap.Get repeatedKeyEntries (str "a")).map metadataValue
      = some (.int 1) := rfl
  rw [h1, h2]
  intro h
  have hv : Iface.int 2 = Iface.int 1 := Option.some.inj h
  cases hv

set_option maxRecDepth 100000 in
/-- C21, amended: `metadataValue` is defined on every attribute value and
preserves structure: a string, int, double or bool converts to itself; a slice
of length n converts to a list of length n whose i-th element is
`metadataValue` of the i-th element; a map converts to a map with the same key
set, whose value at each key is `metadataValue` of the value of the last entry
of the original with that key, which is the original value at the key, with
the entries in their order, when the keys of the map are pairwise distinct; a
nested value keeps its nesting. -/
theorem metadataValue_structure :
    (∀ s, metadataValue (.string s) = .string s) ∧
    (∀ i, metadataValue (.int i) = .int i) ∧
    (∀ d, metadataValue (.double d) = .double d) ∧
    (∀ b, metadataValue (.bool b) = .bool b) ∧
    (∀ vs : List Value, ∃ out, metadataValue (.slice vs) = .slice out ∧
      out.length = vs.length ∧ out = vs.map metadataValue ∧
      ∀ i : Nat, out[i]? = (vs[i]?).map metadataValue) ∧
    (∀ kvs : List (GoString × Value), ∃ out, metadataValue (.map kvs) = .map out ∧
      (∀ k, (mapGet out k).isSome = (AttributeMap.Get kvs k).isSome) ∧
      (∀ k, mapGet out k = (AttributeMap.GetLast kvs k).map metadataValue) ∧
      ((kvs.map Prod.fst).Nodup →
        out = kvs.map (fun kv => (kv.1, metadataValue kv.2)) ∧
        ∀ k, mapGet out k = (AttributeMap.Get kvs k).map metadataValue)) ∧
    metadataValue
        (.map [(str "a", .slice [.int 1, .map [(str "b", .string (str "x"))]]),
          (str "c", .bool true)])
      = .map [(str "a", .slice [.int 1, .map [(str "b", .string (str "x"))]]),
          (str "c", .bool true)] := by
  refine ⟨fun _ => rfl, fun _ => rfl, fun _ => rfl, fun _ => rfl, ?_, ?_, rfl⟩
  · intro vs
    refine ⟨vs.map metadataValue, ?_, List.length_map _ _, rfl, fun i => List.getElem?_map _ _ _⟩
    simp only [metadataValue, metadataValueSlice_eq_map]
  · intro kvs
    refine ⟨metadataValueMap kvs [], ?_, ?_, metadataValueMap_get kvs, ?_⟩
    · simp only [metadataValue]
    · intro k
      rw [metadataValueMap_eq_foldl, foldl_mapSet_isSome]
      rfl
    · intro hnd
      have hout : metadataValueMap kvs [] = kvs.map (fun kv => (kv.1, metadataValue kv.2)) := by
        rw [metadataValueMap_eq_foldl,
          foldl_mapSet_nodup metadataValue kvs hnd [] (fun x hx => by simp at hx),
          List.nil_append]
      refine ⟨hout, fun k => ?_⟩
      rw [hout, mapGet_map_values]


/-! ## The content length -/

/-- The function `extractResponseSizeFromAttributes` gives the payload size of
the attribute map, and 0 when there is none. -/
theorem extractResponseSizeFromAttributes_eq (attributes : AttributeMap) :
    extractResponseSizeFromAttributes attributes = (payloadSize attributes).getD 0 := by
  unfold extractResponseSizeFromAttributes payloadSize
  cases attributes.Get (str "message.type") with
  | none => rfl
  | some typeVal =>
    cases attributes.Get AttributeMessagingMessagePayloadSizeBytes with
    | none => simp only []; split_ifs <;> rfl
    | some sizeVal => simp only []; split_ifs <;> rfl

/-- The non-zero payload size in terms of `extractResponseSizeFromAttributes`. -/
theorem nonZeroPayloadSize_eq (attributes : AttributeMap) :
    nonZeroPayloadSize attributes =
      if extractResponseSizeFromAttributes attributes ≠ 0 then
        some (extractResponseSizeFromAttributes attributes)
      else none := by
  rw [extractResponseSizeFromAttributes_eq]
  unfold nonZeroPayloadSize
  cases payloadSize attributes with
  | none => simp
  | some size =>
    by_cases hs : size = 0
    · simp [Option.filter, hs]
    · simp [Option.filter, hs]

/-- The loop over the events, entered with the size 0, returns the first
non-zero payload size of an event, and 0 when there is none. -/
theorem extractResponseSizeFromEventsLoop_eq (events : List SpanEvent) :
    extractResponseSizeFromEventsLoop events 0
      = (events.findSome? (fun event => nonZeroPayloadSize event.Attributes)).getD 0 := by
  induction events with
  | nil => rfl
  | cons event rest ih =>
    rw [extractResponseSizeFromEventsLoop, List.findSome?_cons, nonZeroPayloadSize_eq]
    by_cases hs : extractResponseSizeFromAttributes event.Attributes = 0
    · simp only [hs, ne_eq, not_true_eq_false, if_false]
      exact ih
    · simp only [ne_eq, hs, not_false_eq_true, if_true, Option.getD_some]

/-- The function `extractResponseSizeFromEvents` passes over payload sizes of
0. -/
theorem extractResponseSizeFromEvents_eq (span : Span) :
    extractResponseSizeFromEvents span = contentLengthNonZero span := by
  unfold extractResponseSizeFromEvents contentLengthNonZero
  rw [nonZeroPayloadSize_eq]
  by_cases hs : extractResponseSizeFromAttributes span.Attributes = 0
  · simp only [hs, ne_eq, not_true_eq_false, if_false]
    exact extractResponseSizeFromEventsLoop_eq span.Events
  · simp only [ne_eq, hs, not_false_eq_true, if_true]

/-- Two functions that agree on the elements of a list find the same first
result. -/
theorem findSome_congr {α β : Type} (f g : α → Option β) (l : List α)
    (h : ∀ a ∈ l, f a = g a) : l.findSome? f = l.findSome? g := by
  induction l with
  | nil => rfl
  | cons a rest ih =>
    rw [List.findSome?_cons, List.findSome?_cons, h a (List.mem_cons_self _ _),
      ih (fun b hb => h b (List.mem_cons_of_mem _ hb))]

/-- A payload size other than 0 is a non-zero payload size. -/
theorem nonZeroPayloadSize_of_ne (attributes : AttributeMap)
    (h : payloadSize attributes ≠ some 0) :
    nonZeroPayloadSize attributes = payloadSize attributes := by
  unfold nonZeroPayloadSize
  cases hp : payloadSize attributes with
  | none => rfl
  | some size =>
    have hs : size ≠ 0 := fun hz => h (by rw [hp, hz])
    simp [Option.filter, hs]

/-- The content length of the block `makeHTTP` returns. -/
theorem makeHTTP_ContentLength_eq (env : Env) (span : Span) (residual : GoMap Value)
    (info : HTTPData) (h : makeHTTP env span = (residual, some info)) :
    info.Response.ContentLength = some (extractResponseSizeFromEvents span) := by
  rw [makeHTTP_eq] at h
  cases hh : hasHTTPOf span.Attributes with
  | false => simp [hh] at h
  | true =>
    simp only [hh, if_true, Prod.mk.injEq, Option.some.injEq] at h
    rw [← h.2]
    rfl

set_option maxRecDepth 100000 in
/-- Counterexample to C31: the attributes of the span have `message.type`
equal to `RECEIVED` and carry the payload size 0, and an event carries the
payload size 5; the content length is 5, not the payload size 0 of the
attributes of the span. -/
theorem makeHTTP_ContentLength_counterexample :
    payloadSize zeroSizeSpan.Attributes = some 0 ∧ contentLengthSpec zeroSizeSpan = 0 ∧
      (makeHTTP exampleEnv zeroSizeSpan).2.map (fun info => info.Response.ContentLength)
        = some (some 5) :=
  ⟨by decide, by decide, by decide⟩

/-- C31, amended: for every span with a non-nil HTTP block, the content length
is the payload size of the attributes of the span when they have
`message.type` equal to `RECEIVED` and carry a payload-size attribute that is
not 0; otherwise it is the payload size of the first event, in event order,
whose attributes have `message.type` equal to `RECEIVED` and carry a
payload-size attribute that is not 0, later events being ignored; and it is 0
if neither exists. When no payload size of the span is 0, this is the content
length as the claim words it. -/
theorem makeHTTP_ContentLength (env : Env) (span : Span) (residual : GoMap Value)
    (info : HTTPData) (h : makeHTTP env span = (residual, some info)) :
    info.Response.ContentLength = some (contentLengthNonZero span) ∧
      (payloadSize span.Attributes ≠ some 0 →
        (∀ event ∈ span.Events, payloadSize event.Attributes ≠ some 0) →
        info.Response.ContentLength = some (contentLengthSpec span)) := by
  have hlen := makeHTTP_ContentLength_eq env span residual info h
  rw [extractResponseSizeFromEvents_eq] at hlen
  refine ⟨hlen, fun hown hevents => ?_⟩
  rw [hlen]
  unfold contentLengthNonZero contentLengthSpec
  rw [nonZeroPayloadSize_of_ne _ hown,
    findSome_congr (fun event => nonZeroPayloadSize event.Attributes)
      (fun event => payloadSize event.Attributes) span.Events
      (fun event he => nonZeroPayloadSize_of_ne _ (hevents event he))]

set_option maxRecDepth 100000 in
/-- Witness of C31, amended: of two events with the payload sizes 7 and 9
after an event of another type, the first gives the content length. -/
theorem makeHTTP_ContentLength_witness :
    ∃ residual info, makeHTTP exampleEnv twoEventsSpan = (residual, some info) ∧
      info.Response.ContentLength = some 7 :=
  ⟨_, _, rfl, (makeHTTP_ContentLength exampleEnv twoEventsSpan _ _ rfl).1.trans (by decide)⟩

/-! ## The origin -/

set_option maxRecDepth 100000 in
/-- C32: `determineAwsOrigin` returns the empty string when the resource has no
attributes, when `cloud.provider` is present with a value other than `aws`, or
when `cloud.platform` is absent or not one of the five AWS platforms;
otherwise it returns the App Runner, EKS, Elastic Beanstalk or EC2 origin for
the matching platform, and for the ECS platform `AWS::ECS::EC2` or
`AWS::ECS::Fargate` when `aws.ecs.launchtype` is `ec2` or `fargate` and
`AWS::ECS::Container` when the launch type is absent or anything else. Its
result is always empty or one of the seven `Origin` constants. -/
theorem determineAwsOrigin_spec (resource : Resource) :
    (resource.Attributes.Len = 0 → determineAwsOrigin resource = []) ∧
    (∀ provider, resource.Attributes.Get AttributeCloudProvider = some provider →
      provider.StringVal ≠ str "aws" → determineAwsOrigin resource = []) ∧
    (resource.Attributes.Get AttributeCloudPlatform = none →
      determineAwsOrigin resource = []) ∧
    (∀ is, resource.Attributes.Get AttributeCloudPlatform = some is →
      is.StringVal ∉ awsPlatforms → determineAwsOrigin resource = []) ∧
    (∀ is, resource.Attributes.Len ≠ 0 →
      (∀ provider, resource.Attributes.Get AttributeCloudProvider = some provider →
        provider.StringVal = str "aws") →
      resource.Attributes.Get AttributeCloudPlatform = some is →
      (is.StringVal = str "aws_app_runner" →
        determineAwsOrigin resource = str "AWS::AppRunner::Service") ∧
      (is.StringVal = str "aws_eks" → determineAwsOrigin resource = str "AWS::EKS::Container") ∧
      (is.StringVal = str "aws_elastic_beanstalk" →
        determineAwsOrigin resource = str "AWS::ElasticBeanstalk::Environment") ∧
      (is.StringVal = str "aws_ec2" → determineAwsOrigin resource = str "AWS::EC2::Instance") ∧
      (is.StringVal = str "aws_ecs" →
        determineAwsOrigin resource = ecsOrigin resource ∧
        (∀ lt, resource.Attributes.Get AttributeAWSECSLaunchtype = some lt →
          lt.StringVal = str "ec2" → determineAwsOrigin resource = str "AWS::ECS::EC2") ∧
        (∀ lt, resource.Attributes.Get AttributeAWSECSLaunchtype = some lt →
          lt.StringVal = str "fargate" →
          determineAwsOrigin resource = str "AWS::ECS::Fargate") ∧
        (resource.Attributes.Get AttributeAWSECSLaunchtype = none →
          determineAwsOrigin resource = str "AWS::ECS::Container") ∧
        (∀ lt, resource.Attributes.Get AttributeAWSECSLaunchtype = some lt →
          lt.StringVal ≠ str "ec2" → lt.StringVal ≠ str "fargate" →
          determineAwsOrigin resource = str "AWS::ECS::Container"))) ∧
    (determineAwsOrigin resource = [] ∨ determineAwsOrigin resource ∈ originConstants) ∧
    determineAwsOrigin fargateResource = str "AWS::ECS::Fargate" := by
  refine ⟨?_, ?_, ?_, ?_, ?_, ?_, by decide⟩
  · intro h
    unfold determineAwsOrigin
    rw [if_pos h]
  · intro provider hp hne
    unfold determineAwsOrigin
    split_ifs with h0
    · rfl
    · simp only [hp]
      rw [if_pos (by simpa [AttributeCloudProviderAWS] using hne)]
  · intro hp
    unfold determineAwsOrigin
    simp only [hp]
    split_ifs <;> rfl
  · intro is hp hnot
    simp only [awsPlatforms, List.mem_cons, List.mem_nil_iff, or_false, not_or] at hnot
    obtain ⟨h1, h2, h3, h4, h5⟩ := hnot
    unfold determineAwsOrigin
    simp only [hp, if_neg h1, if_neg h2, if_neg h3, if_neg h4, if_neg h5]
    split_ifs <;> rfl
  · intro is hlen hprov hp
    have hmain : determineAwsOrigin resource =
        if is.StringVal = AttributeCloudPlatformAWSAppRunner then OriginAppRunner
        else if is.StringVal = AttributeCloudPlatformAWSEKS then OriginEKS
        else if is.StringVal = AttributeCloudPlatformAWSElasticBeanstalk then OriginEB
        else if is.StringVal = AttributeCloudPlatformAWSECS then ecsOrigin resource
        else if is.StringVal = AttributeCloudPlatformAWSEC2 then OriginEC2
        else [] := by
      unfold determineAwsOrigin ecsOrigin
      rw [if_neg hlen]
      simp only [hp]
      cases hg : resource.Attributes.Get AttributeCloudProvider with
      | none =>
        simp only [Bool.false_eq_true, if_false]
        cases resource.Attributes.Get AttributeAWSECSLaunchtype <;> rfl
      | some provider =>
        have hv : provider.StringVal = AttributeCloudProviderAWS := hprov provider hg
        simp only [hv, ne_eq, not_true_eq_false, decide_False, Bool.false_eq_true, if_false]
        cases resource.Attributes.Get AttributeAWSECSLaunchtype <;> rfl
    have hecs : is.StringVal = str "aws_ecs" →
        determineAwsOrigin resource = ecsOrigin resource := by
      intro h
      rw [hmain, h, if_neg (by decide), if_neg (by decide), if_neg (by decide),
        if_pos (by decide)]
    refine ⟨fun h => ?_, fun h => ?_, fun h => ?_, fun h => ?_, fun h => ⟨hecs h, ?_, ?_, ?_, ?_⟩⟩
    · rw [hmain, h, if_pos (by decide)]
      decide
    · rw [hmain, h, if_neg (by decide), if_pos (by decide)]
      decide
    · rw [hmain, h, if_neg (by decide), if_neg (by decide), if_pos (by decide)]
      decide
    · rw [hmain, h, if_neg (by decide), if_neg (by decide), if_neg (by decide),
        if_neg (by decide), if_pos (by decide)]
      decide
    · intro lt hlt hv
      rw [hecs h, ecsOrigin, hlt]
      simp only [hv]
      decide
    · intro lt hlt hv
      rw [hecs h, ecsOrigin, hlt]
      simp only [hv]
      decide
    · intro hlt
      rw [hecs h, ecsOrigin, hlt]
      decide
    · intro lt hlt h1 h2
      rw [hecs h, ecsOrigin, hlt]
      simp only [AttributeAWSECSLaunchtypeEC2, AttributeAWSECSLaunchtypeFargate, if_neg h1,
        if_neg h2]
      decide
  · unfold determineAwsOrigin originConstants
    simp only []
    repeat' split
    all_goals first
      | exact Or.inl rfl
      | (right; simp only [List.mem_cons, true_or, or_true])

/-! ## The writer pool -/

/-- C33: when `MakeSegment` succeeds and encoding the segment fails,
`MakeSegmentDocumentString` returns the error with a writer borrowed and none
released: a pool with as many releases as borrows before the call has one
borrow more than releases after it. -/
theorem MakeSegmentDocumentString_leak (env : Env)
    (encode : Segment env → Except GoString GoString) (epochNow : Int) (span : Span)
    (resource : Resource) (indexedAttrs : List GoString) (indexAllAttrs : Bool)
    (writers : WriterPool) (segment : Segment env) (err : GoString)
    (hseg : MakeSegment env epochNow span resource indexedAttrs indexAllAttrs = .ok segment)
    (henc : encode segment = .error err) :
    MakeSegmentDocumentString env encode epochNow span resource indexedAttrs indexAllAttrs writers
        = (.error err, { borrows := writers.borrows + 1, releases := writers.releases }) ∧
      (writers.releases = writers.borrows →
        (MakeSegmentDocumentString env encode epochNow span resource indexedAttrs indexAllAttrs
          writers).2.releases + 1
        = (MakeSegmentDocumentString env encode epochNow span resource indexedAttrs indexAllAttrs
          writers).2.borrows) := by
  have hres : MakeSegmentDocumentString env encode epochNow span resource indexedAttrs
      indexAllAttrs writers
      = (.error err, { borrows := writers.borrows + 1, releases := writers.releases }) := by
    unfold MakeSegmentDocumentString
    rw [hseg]
    simp only [henc]
    rfl
  refine ⟨hres, fun hbal => ?_⟩
  rw [hres]
  simp only [hbal]

set_option maxRecDepth 100000 in
/-- Witness of C33: a span whose segment the encoder rejects leaves a pool
that was balanced with one borrow and no release. -/
theorem MakeSegmentDocumentString_leak_witness :
    (MakeSegmentDocumentString exampleEnv (failingEncode exampleEnv) 1480615200
        (exampleSpan exampleSpanID (str "op") SpanKind.Client plainAttributes) ⟨[]⟩ [] false
        { borrows := 0, releases := 0 }).2 = { borrows := 1, releases := 0 } :=
  congrArg Prod.snd
    (MakeSegmentDocumentString_leak exampleEnv (failingEncode exampleEnv) 1480615200
      (exampleSpan exampleSpanID (str "op") SpanKind.Client plainAttributes) ⟨[]⟩ [] false
      { borrows := 0, releases := 0 } _ (str "json: unsupported value: NaN") rfl rfl).1

/-- The paths of `MakeSegmentDocumentString` other than the failure of the
encoder leave as many borrows as releases. -/
theorem MakeSegmentDocumentString_balanced (env : Env)
    (encode : Segment env → Except GoString GoString) (epochNow : Int) (span : Span)
    (resource : Resource) (indexedAttrs : List GoString) (indexAllAttrs : Bool)
    (writers : WriterPool) (hbal : writers.releases = writers.borrows)
    (h : ∀ segment, MakeSegment env epochNow span resource indexedAttrs indexAllAttrs
        = .ok segment → ∃ jsonStr, encode segment = .ok jsonStr) :
    (MakeSegmentDocumentString env encode epochNow span resource indexedAttrs indexAllAttrs
        writers).2.releases
      = (MakeSegmentDocumentString env encode epochNow span resource indexedAttrs indexAllAttrs
        writers).2.borrows := by
  unfold MakeSegmentDocumentString
  cases hseg : MakeSegment env epochNow span resource indexedAttrs indexAllAttrs with
  | error err => exact hbal
  | ok segment =>
    obtain ⟨jsonStr, hj⟩ := h segment hseg
    simp only [hj, WriterPool.borrow, WriterPool.release, hbal]

/-! ## Attributes that reach no output -/

set_option maxRecDepth 100000 in
/-- C40: there are spans without any `http.*` attribute, each with one of
`net.peer.name`, `net.peer.port`, `net.peer.ip`, `host.name` and
`net.host.name` as only attribute, for which `makeHTTP` returns a nil HTTP
block and an empty residual map, whatever the collaborators are; with
collaborators that pass the attributes on, the segment has no HTTP block and
neither annotations nor metadata, whether every attribute is indexed or
none. -/
theorem makeHTTP_lost_attributes :
    lostAttributes.map (fun attributes => attributes.map Prod.fst)
        = [[str "net.peer.name"], [str "net.peer.port"], [str "net.peer.ip"],
            [str "host.name"], [str "net.host.name"]] ∧
      (∀ env : Env, ∀ attributes ∈ lostAttributes,
        makeHTTP env (exampleSpan exampleSpanID (str "op") SpanKind.Client attributes)
          = ([], none)) ∧
      (∀ attributes ∈ lostAttributes, ∀ indexAllAttrs : Bool,
        ∃ segment,
          MakeSegment exampleEnv 1480615200
              (exampleSpan exampleSpanID (str "op") SpanKind.Client attributes) ⟨[]⟩ []
              indexAllAttrs = .ok segment ∧
            segment.HTTP = none ∧ segment.Annotations = none ∧ segment.Metadata = none) := by
  refine ⟨by decide, ?_, ?_⟩
  · intro env attributes hmem
    simp only [lostAttributes, List.mem_cons, List.mem_nil_iff, or_false] at hmem
    rcases hmem with h | h | h | h | h <;> subst h <;> rfl
  · intro attributes hmem indexAllAttrs
    simp only [lostAttributes, List.mem_cons, List.mem_nil_iff, or_false] at hmem
    rcases hmem with h | h | h | h | h <;> subst h <;> cases indexAllAttrs <;>
      exact ⟨_, rfl, rfl, rfl, rfl⟩

/-! ## Watermarks -/

/-- A loop over a list that is the concatenation of two: the loop over the
first and, unless the function has returned, the loop over the second. -/
theorem rangeReturn_append {α σ : Type} (body : α → σ → σ × Bool) (xs ys : List α) :
    ∀ s, rangeReturn body (xs ++ ys) s =
      if (rangeReturn body xs s).2 then ((rangeReturn body xs s).1, true)
      else rangeReturn body ys (rangeReturn body xs s).1 := by
  induction xs with
  | nil => intro s; simp [rangeReturn]
  | cons x rest ih =>
    intro s
    simp only [List.cons_append, rangeReturn]
    by_cases hr : (body x s).2 = true
    · simp only [hr, if_true]
    · simp only [hr, if_false, Bool.false_eq_true]
      exact ih _

/-- Nested loops with a return in the innermost body are one loop over the
concatenated inner lists. -/
theorem rangeReturn_flatMap {α β σ : Type} (body : β → σ → σ × Bool) (f : α → List β)
    (l : List α) :
    ∀ s, rangeReturn (fun a => rangeReturn body (f a)) l s = rangeReturn body (l.flatMap f) s := by
  induction l with
  | nil => intro s; rfl
  | cons a rest ih =>
    intro s
    rw [List.flatMap_cons, rangeReturn_append, rangeReturn]
    by_cases hr : (rangeReturn body (f a) s).2 = true
    · simp only [hr, if_true]
    · simp only [hr, if_false, Bool.false_eq_true]
      exact ih _

/-- A loop whose body reads one field of the element is the loop over the
fields. -/
theorem rangeReturn_map {α β σ : Type} (body : β → σ → σ × Bool) (f : α → β) (l : List α) :
    ∀ s, rangeReturn (fun a => body (f a)) l s = rangeReturn body (l.map f) s := by
  induction l with
  | nil => intro s; rfl
  | cons a rest ih =>
    intro s
    simp only [List.map_cons, rangeReturn]
    by_cases hr : (body (f a) s).2 = true
    · simp only [hr, if_true]
    · simp only [hr, if_false, Bool.false_eq_true]
      exact ih _

/-- The traversal of the logs gives the timestamps of the records to
`collect` in their order until it returns true. -/
theorem traverseLogs_eq {σ : Type} (logs : Logs) (collect : Nat → σ → σ × Bool) (s : σ) :
    traverseLogs logs collect s = (rangeReturn collect logs.timestamps s).1 := by
  unfold traverseLogs Logs.timestamps
  simp only [rangeReturn_map collect (fun d : LogRecord => d.Timestamp), rangeReturn_flatMap,
    List.map_flatMap, List.flatMap_assoc]

/-- The traversal of the traces gives the start timestamps of the spans to
`collect` in their order until it returns true. -/
theorem traverseTraces_eq {σ : Type} (traces : Traces) (collect : Nat → σ → σ × Bool) (s : σ) :
    traverseTraces traces collect s = (rangeReturn collect traces.timestamps s).1 := by
  unfold traverseTraces Traces.timestamps
  simp only [rangeReturn_map collect (fun d : Span => d.StartTimestamp), rangeReturn_flatMap,
    List.map_flatMap, List.flatMap_assoc]

/-- The traversal of the metrics gives the timestamps of the data points to
`collect` in their order until it returns true. -/
theorem traverseMetrics_eq {σ : Type} (metrics : Metrics) (collect : Nat → σ → σ × Bool)
    (s : σ) :
    traverseMetrics metrics collect s = (rangeReturn collect metrics.timestamps s).1 := by
  unfold traverseMetrics Metrics.timestamps
  have hd : (fun (d : Metric) =>
      match d with
      | .Histogram dataPoints =>
        rangeReturn (fun (p : DataPoint) => collect p.Timestamp) dataPoints
      | .ExponentialHistogram dataPoints =>
        rangeReturn (fun (p : DataPoint) => collect p.Timestamp) dataPoints
      | .Sum dataPoints =>
        rangeReturn (fun (p : DataPoint) => collect p.Timestamp) dataPoints
      | .Gauge dataPoints =>
        rangeReturn (fun (p : DataPoint) => collect p.Timestamp) dataPoints
      | .Summary dataPoints =>
        rangeReturn (fun (p : DataPoint) => collect p.Timestamp) dataPoints
      | .None => fun s => (s, false))
      = fun d => rangeReturn collect (d.dataPoints.map (fun p => p.Timestamp)) := by
    funext d
    cases d <;> simp only [Metric.dataPoints] <;>
      first
        | rfl
        | (funext s; exact rangeReturn_map collect (fun p : DataPoint => p.Timestamp) _ s)
  rw [hd]
  simp only [rangeReturn_flatMap, List.flatMap_assoc]

/-- The earliest of a time and timestamps is not after the time. -/
theorem earliestOf_le (timestamps : List Nat) : ∀ time, earliestOf time timestamps ≤ time := by
  unfold earliestOf
  induction timestamps with
  | nil => intro time; exact le_refl _
  | cons t rest ih =>
    intro time
    rw [List.foldl_cons]
    exact le_trans (ih (min time (AsTime t))) (min_le_left _ _)

/-- A timestamp added to the earliest. -/
theorem earliestOf_cons (time : Time) (t : Nat) (rest : List Nat) :
    earliestOf time (t :: rest) = earliestOf (min time (AsTime t)) rest := by
  unfold earliestOf
  rw [List.foldl_cons]

/-- The method `collector.earliest` case by case. -/
theorem earliest_step (p d calculated : Int) (t : Nat) :
    collector.earliest { processingTime := p, allowedDrift := d, calculatedTime := calculated } t
      = if AsTime t < calculated then
          if AsTime t < p - d then
            ({ processingTime := p, allowedDrift := d, calculatedTime := p - d }, true)
          else ({ processingTime := p, allowedDrift := d, calculatedTime := AsTime t }, false)
        else ({ processingTime := p, allowedDrift := d, calculatedTime := calculated }, false) := by
  have h : p + -d = p - d := by ring
  unfold collector.earliest
  simp only [h]

/-- The calculated time after the timestamps have been given to
`collector.earliest` until it returns true. -/
theorem earliest_rangeReturn (p d : Int) (timestamps : List Nat) :
    ∀ calculated : Int, p - d ≤ calculated →
      (rangeReturn (fun timestamp (c : collector) => c.earliest timestamp) timestamps
        { processingTime := p, allowedDrift := d, calculatedTime := calculated }).1.calculatedTime
      = max (earliestOf calculated timestamps) (p - d) := by
  induction timestamps with
  | nil =>
    intro calculated h
    rw [rangeReturn]
    unfold earliestOf
    rw [List.foldl_nil]
    exact (max_eq_left h).symm
  | cons t rest ih =>
    intro calculated h
    have hle := earliestOf_le rest (min calculated (AsTime t))
    rw [rangeReturn, earliestOf_cons, earliest_step]
    by_cases h1 : AsTime t < calculated
    · by_cases h2 : AsTime t < p - d
      · rw [if_pos h1, if_pos h2]
        simp only [if_true]
        have h3 : earliestOf (min calculated (AsTime t)) rest ≤ p - d :=
          le_trans hle (le_trans (min_le_right _ _) (le_of_lt h2))
        exact (max_eq_right h3).symm
      · rw [if_pos h1, if_neg h2]
        simp only [Bool.false_eq_true, if_false]
        rw [ih (AsTime t) (not_lt.mp h2), min_eq_right (le_of_lt h1)]
    · rw [if_neg h1]
      simp only [Bool.false_eq_true, if_false]
      rw [ih calculated h, min_eq_left (not_lt.mp h1)]

/-- The calculated time after every timestamp has been given to
`collector.earliest`. -/
theorem earliest_foldl (p d : Int) (timestamps : List Nat) :
    ∀ calculated : Int, p - d ≤ calculated →
      (timestamps.foldl (fun c timestamp => (collector.earliest c timestamp).1)
        ({ processingTime := p, allowedDrift := d, calculatedTime := calculated } :
          collector)).calculatedTime
      = max (earliestOf calculated timestamps) (p - d) := by
  induction timestamps with
  | nil =>
    intro calculated h
    unfold earliestOf
    rw [List.foldl_nil, List.foldl_nil]
    exact (max_eq_left h).symm
  | cons t rest ih =>
    intro calculated h
    have hle := earliestOf_le rest (min calculated (AsTime t))
    rw [List.foldl_cons, earliestOf_cons, earliest_step]
    by_cases h1 : AsTime t < calculated
    · by_cases h2 : AsTime t < p - d
      · rw [if_pos h1, if_pos h2]
        have h3 : earliestOf (min calculated (AsTime t)) rest ≤ p - d :=
          le_trans hle (le_trans (min_le_right _ _) (le_of_lt h2))
        rw [ih (p - d) (le_refl _), max_eq_right h3, max_eq_right (earliestOf_le rest (p - d))]
      · rw [if_pos h1, if_neg h2, ih (AsTime t) (not_lt.mp h2), min_eq_right (le_of_lt h1)]
    · rw [if_neg h1, ih calculated h, min_eq_left (not_lt.mp h1)]

/-- C38: for every allowed drift that is not negative, `earliestLogsWatermark`,
`earliestMetricsWatermark` and `earliestTracesWatermark` return the later of
the processing time less the allowed drift and the earlier of the processing
time and the earliest timestamp (of the records, the data points, the starts
of the spans): the processing time for empty input, and always a time between
the processing time less the allowed drift and the processing time. The early
exit gives the result of giving every timestamp to `collector.earliest`. -/
theorem earliestWatermark_spec (processingTime allowedDrift : Int) (hd : 0 ≤ allowedDrift)
    (logs : Logs) (metrics : Metrics) (traces : Traces) :
    earliestLogsWatermark logs processingTime allowedDrift
        = watermarkSpec logs.timestamps processingTime allowedDrift ∧
      earliestMetricsWatermark metrics processingTime allowedDrift
        = watermarkSpec metrics.timestamps processingTime allowedDrift ∧
      earliestTracesWatermark traces processingTime allowedDrift
        = watermarkSpec traces.timestamps processingTime allowedDrift ∧
      watermarkSpec [] processingTime allowedDrift = processingTime ∧
      (∀ timestamps, processingTime - allowedDrift
          ≤ watermarkSpec timestamps processingTime allowedDrift ∧
        watermarkSpec timestamps processingTime allowedDrift ≤ processingTime) ∧
      earliestLogsWatermark logs processingTime allowedDrift
        = traverseAll logs.timestamps processingTime allowedDrift ∧
      earliestMetricsWatermark metrics processingTime allowedDrift
        = traverseAll metrics.timestamps processingTime allowedDrift ∧
      earliestTracesWatermark traces processingTime allowedDrift
        = traverseAll traces.timestamps processingTime allowedDrift := by
  have hb : processingTime - allowedDrift ≤ processingTime := by omega
  have hl : earliestLogsWatermark logs processingTime allowedDrift
      = watermarkSpec logs.timestamps processingTime allowedDrift := by
    unfold earliestLogsWatermark watermarkSpec
    simp only [traverseLogs_eq]
    exact earliest_rangeReturn _ _ _ _ hb
  have hm : earliestMetricsWatermark metrics processingTime allowedDrift
      = watermarkSpec metrics.timestamps processingTime allowedDrift := by
    unfold earliestMetricsWatermark watermarkSpec
    simp only [traverseMetrics_eq]
    exact earliest_rangeReturn _ _ _ _ hb
  have ht : earliestTracesWatermark traces processingTime allowedDrift
      = watermarkSpec traces.timestamps processingTime allowedDrift := by
    unfold earliestTracesWatermark watermarkSpec
    simp only [traverseTraces_eq]
    exact earliest_rangeReturn _ _ _ _ hb
  have hall : ∀ timestamps, traverseAll timestamps processingTime allowedDrift
      = watermarkSpec timestamps processingTime allowedDrift :=
    fun timestamps => earliest_foldl _ _ timestamps _ hb
  refine ⟨hl, hm, ht, ?_, ?_, ?_, ?_, ?_⟩
  · unfold watermarkSpec earliestOf
    rw [List.foldl_nil]
    exact max_eq_left hb
  · intro timestamps
    unfold watermarkSpec
    exact ⟨le_max_right _ _, max_le (earliestOf_le _ _) hb⟩
  · rw [hl, hall]
  · rw [hm, hall]
  · rw [ht, hall]

/-- Witness of C38: with the processing time 1000 and the allowed drift 200,
logs whose third record has the timestamp 700 give the watermark 800. -/
theorem earliestWatermark_spec_witness :
    earliestLogsWatermark exampleLogs 1000 200 = 800 ∧
      watermarkSpec exampleLogs.timestamps 1000 200 = 800 :=
  ⟨by decide,
    (earliestWatermark_spec 1000 200 (by decide) exampleLogs ⟨[]⟩ ⟨[]⟩).1.symm.trans (by decide)⟩

/-! ## Grouping by attributes -/

/-- The reference attributes have pairwise distinct keys when those of the
origin have. -/
theorem buildReferenceAttributes_nodup (originResource : Resource)
    (requiredAttributes : AttributeMap)
    (hnd : (originResource.Attributes.map Prod.fst).Nodup) :
    ((buildReferenceAttributes originResource requiredAttributes).map Prod.fst).Nodup := by
  unfold buildReferenceAttributes
  exact foldl_invariant (fun m : AttributeMap => (m.map Prod.fst).Nodup) _ requiredAttributes
    (fun s b _ hs => mapSet_nodup s b.1 b.2 hs) _ hnd

/-- The `Range` of `resourceMatches` ends with `matching` set exactly when
every reference attribute is found in the resource with an equal value. -/
theorem resourceMatchesRange_iff (equal : Value → Value → Bool) (resource : Resource)
    (referenceAttributes : AttributeMap) :
    resourceMatchesRange equal resource referenceAttributes true = true ↔
      ∀ kv ∈ referenceAttributes,
        ∃ w, resource.Attributes.Get kv.1 = some w ∧ equal kv.2 w = true := by
  induction referenceAttributes with
  | nil => simp [resourceMatchesRange]
  | cons kv rest ih =>
    obtain ⟨k, v⟩ := kv
    rw [resourceMatchesRange]
    cases hg : resource.Attributes.Get k with
    | none =>
      simp only [Bool.false_eq_true, false_iff, not_forall]
      exact ⟨(k, v), List.mem_cons_self _ _, by simp [hg]⟩
    | some w =>
      by_cases he : equal v w = true
      · simp only [he, Bool.not_true, Bool.false_eq_true, if_false, ih, List.mem_cons,
          forall_eq_or_imp, hg, Option.some.injEq, exists_eq_left', true_and]
      · have he' : equal v w = false := by simpa using he
        simp only [he', Bool.not_false, if_true, Bool.false_eq_true, false_iff, not_forall]
        exact ⟨(k, v), List.mem_cons_self _ _, by simp [hg, he']⟩

/-- The function `resourceMatches` is true exactly when the two attribute maps
are the same, for maps with pairwise distinct keys. -/
theorem resourceMatches_iff (equal : Value → Value → Bool) (resource : Resource)
    (referenceAttributes : AttributeMap)
    (hr : (resource.Attributes.map Prod.fst).Nodup)
    (href : (referenceAttributes.map Prod.fst).Nodup) :
    resourceMatches equal resource referenceAttributes = true ↔
      sameAttributes equal referenceAttributes resource.Attributes := by
  unfold resourceMatches sameAttributes AttributeMap.Len
  constructor
  · intro h
    by_cases hlen : referenceAttributes.length ≠ resource.Attributes.length
    · simp [hlen] at h
    · rw [if_neg hlen, resourceMatchesRange_iff] at h
      have hsub : referenceAttributes.map Prod.fst ⊆ resource.Attributes.map Prod.fst := by
        intro k hk
        obtain ⟨kv, hkv, rfl⟩ := List.mem_map.mp hk
        obtain ⟨w, hw, -⟩ := h kv hkv
        exact (Get_isSome_iff _ _).mp (by rw [hw]; rfl)
      have hperm : (referenceAttributes.map Prod.fst).Perm (resource.Attributes.map Prod.fst) :=
        (List.subperm_of_subset href hsub).perm_of_length_le
          (by simp only [List.length_map]; omega)
      refine ⟨fun k => ?_, fun k v w hv hw => ?_⟩
      · rw [Bool.eq_iff_iff, Get_isSome_iff, Get_isSome_iff]
        exact hperm.mem_iff
      · obtain ⟨w', hw', he⟩ := h (k, v) (Get_eq_some _ _ _ hv)
        rw [hw] at hw'
        cases hw'
        exact he
  · rintro ⟨hkeys, hvals⟩
    have hmem : ∀ k, k ∈ referenceAttributes.map Prod.fst ↔ k ∈ resource.Attributes.map Prod.fst := by
      intro k
      rw [← Get_isSome_iff, ← Get_isSome_iff, hkeys k]
    have hperm : (referenceAttributes.map Prod.fst).Perm (resource.Attributes.map Prod.fst) :=
      (List.perm_ext_iff_of_nodup href hr).mpr hmem
    have hlen : referenceAttributes.length = resource.Attributes.length := by
      have := hperm.length_eq
      simpa using this
    rw [if_neg (by simpa using hlen), resourceMatchesRange_iff]
    intro kv hkv
    have hsome : (resource.Attributes.Get kv.1).isSome = true :=
      (Get_isSome_iff _ _).mpr ((hmem kv.1).mp (List.mem_map.mpr ⟨kv, hkv, rfl⟩))
    obtain ⟨w, hw⟩ := Option.isSome_iff_exists.mp hsome
    exact ⟨w, hw, hvals kv.1 kv.2 w (Get_of_mem _ href _ _ hkv) hw⟩

/-- The loop of `findResource` finds no entry exactly when no entry matches. -/
theorem findResourceFrom_none (equal : Value → Value → Bool) (referenceAttributes : AttributeMap)
    (l : List ResourceSpans) :
    ∀ i, findResourceFrom equal referenceAttributes l i = none ↔
      ∀ r ∈ l, resourceMatches equal r.Resource referenceAttributes = false := by
  induction l with
  | nil => intro i; simp [findResourceFrom]
  | cons r rest ih =>
    intro i
    rw [findResourceFrom]
    by_cases hm : resourceMatches equal r.Resource referenceAttributes = true
    · simp [hm]
    · simp only [hm, if_false, ih, List.mem_cons, forall_eq_or_imp, Bool.false_eq_true]
      simp only [Bool.not_eq_true] at hm
      simp [hm]

/-- The loop of `findResource` over a slice none of whose entries matches,
followed by one that does, finds that one. -/
theorem findResourceFrom_append (equal : Value → Value → Bool)
    (referenceAttributes : AttributeMap) (l : List ResourceSpans) (r : ResourceSpans)
    (hl : ∀ a ∈ l, resourceMatches equal a.Resource referenceAttributes = false)
    (hr : resourceMatches equal r.Resource referenceAttributes = true) :
    ∀ i, findResourceFrom equal referenceAttributes (l ++ [r]) i = some (i + l.length) := by
  induction l with
  | nil => intro i; simp [findResourceFrom, hr]
  | cons a rest ih =>
    intro i
    rw [List.cons_append, findResourceFrom, hl a (List.mem_cons_self _ _)]
    simp only [Bool.false_eq_true, if_false]
    rw [ih (fun b hb => hl b (List.mem_cons_of_mem _ hb)) (i + 1), List.length_cons]
    congr 1
    omega

/-- An attribute map with pairwise distinct keys matches itself when `equal`
finds each of its values equal to itself. -/
theorem resourceMatches_self_of (equal : Value → Value → Bool) (m : AttributeMap)
    (hnd : (m.map Prod.fst).Nodup) (hrefl : ∀ kv ∈ m, equal kv.2 kv.2 = true) :
    resourceMatches equal ⟨m⟩ m = true := by
  rw [resourceMatches_iff equal ⟨m⟩ m hnd hnd]
  refine ⟨fun _ => rfl, fun k v w hv hw => ?_⟩
  rw [hv] at hw
  cases hw
  exact hrefl (k, v) (Get_eq_some m k v hv)

/-- Every reference attribute is an attribute of the origin or a required
attribute. -/
theorem buildReferenceAttributes_mem (originResource : Resource)
    (requiredAttributes : AttributeMap) :
    ∀ kv ∈ buildReferenceAttributes originResource requiredAttributes,
      kv ∈ originResource.Attributes ∨ kv ∈ requiredAttributes := by
  unfold buildReferenceAttributes
  refine foldl_invariant
    (fun m : AttributeMap => ∀ kv ∈ m, kv ∈ originResource.Attributes ∨ kv ∈ requiredAttributes)
    _ requiredAttributes ?_ _ (fun kv hkv => Or.inl hkv)
  intro s b hb hs kv hkv
  rcases mem_mapSet _ _ _ _ hkv with h | h
  · have hkb : kv = b := h
    rw [hkb]
    exact Or.inr hb
  · exact hs kv h

/-- The new resource of `updateResourceToMatch` matches the reference built
from the same origin and required attributes, when the keys of the origin are
pairwise distinct and `equal` finds the values concerned equal to
themselves. -/
theorem updateResourceToMatch_matches (equal : Value → Value → Bool)
    (newResource originResource : Resource) (requiredAttributes : AttributeMap)
    (hnd : (originResource.Attributes.map Prod.fst).Nodup)
    (ho : ∀ kv ∈ originResource.Attributes, equal kv.2 kv.2 = true)
    (hq : ∀ kv ∈ requiredAttributes, equal kv.2 kv.2 = true) :
    resourceMatches equal (updateResourceToMatch newResource originResource requiredAttributes)
      (buildReferenceAttributes originResource requiredAttributes) = true := by
  refine resourceMatches_self_of equal _
    (buildReferenceAttributes_nodup originResource requiredAttributes hnd) ?_
  intro kv hkv
  rcases buildReferenceAttributes_mem originResource requiredAttributes kv hkv with h | h
  · exact ho kv h
  · exact hq kv h

set_option maxRecDepth 100000 in
/-- Counterexample to C39: for a resource with the attribute `tags` whose
value is a slice that holds a slice, `Value.Equal` finds the value different
from itself, the resource that `updateResourceToMatch` makes does not match
the reference, and the second `findOrCreateResource` with the same origin
returns a second entry, 1, of a group that now holds two resources with the
same attributes; and a resource with the keys `a` and `b` matches reference
attributes that repeat the key `a` and do not have the key `b`. -/
theorem findOrCreateResource_nested_counterexample :
    Value.Equal (.slice [.slice [.string (str "a")]]) (.slice [.slice [.string (str "a")]])
        = false ∧
      resourceMatches Value.Equal (updateResourceToMatch ⟨[]⟩ nestedResource [])
        (buildReferenceAttributes nestedResource []) = false ∧
      (spansGroupedByAttrs.findOrCreateResource Value.Equal [] nestedResource []).1 = 0 ∧
      (spansGroupedByAttrs.findOrCreateResource Value.Equal
        (spansGroupedByAttrs.findOrCreateResource Value.Equal [] nestedResource []).2
        nestedResource []).1 = 1 ∧
      (spansGroupedByAttrs.findOrCreateResource Value.Equal
        (spansGroupedByAttrs.findOrCreateResource Value.Equal [] nestedResource []).2
        nestedResource []).2.map (fun r => r.Resource.Attributes)
        = [nestedResource.Attributes, nestedResource.Attributes] ∧
      resourceMatches Value.Equal twoKeyResource repeatedReference = true ∧
      (repeatedReference.Get (str "b")).isSome = false ∧
      (twoKeyResource.Attributes.Get (str "b")).isSome = true :=
  ⟨rfl, by decide, rfl, rfl, rfl, by decide, rfl, rfl⟩

/-- C39, amended: for attribute maps with pairwise distinct keys,
`resourceMatches` is true exactly when the attribute map of the resource
equals the reference (same key set, and under every key two values that the
equality of attribute values finds equal); when, in addition, that equality
finds every attribute value of the origin and of the required attributes
equal to itself, after `updateResourceToMatch` the new resource matches the
reference built from the same origin and required attributes, and a second
`findOrCreateResource` with the same origin and required attributes returns
the entry of the first call and leaves the slice as it is; in the reference
the required attributes override those of the origin, a repeated required key
with its last value; and no entry of a group ever matches the attributes of a
later one. The equality is any function, that of `pdata` among them. -/
theorem findOrCreateResource_spec (equal : Value → Value → Bool) :
    (∀ (resource : Resource) (referenceAttributes : AttributeMap),
      (resource.Attributes.map Prod.fst).Nodup → (referenceAttributes.map Prod.fst).Nodup →
      (resourceMatches equal resource referenceAttributes = true ↔
        sameAttributes equal referenceAttributes resource.Attributes)) ∧
    (∀ (newResource originResource : Resource) (requiredAttributes : AttributeMap),
      (originResource.Attributes.map Prod.fst).Nodup →
      (∀ kv ∈ originResource.Attributes, equal kv.2 kv.2 = true) →
      (∀ kv ∈ requiredAttributes, equal kv.2 kv.2 = true) →
      resourceMatches equal (updateResourceToMatch newResource originResource requiredAttributes)
        (buildReferenceAttributes originResource requiredAttributes) = true) ∧
    (∀ (originResource : Resource) (requiredAttributes : AttributeMap) (k : GoString),
      (buildReferenceAttributes originResource requiredAttributes).Get k
        = match requiredAttributes.GetLast k with
          | some v => some v
          | none => originResource.Attributes.Get k) ∧
    (∀ (sgba : spansGroupedByAttrs) (originResource : Resource)
        (requiredAttributes : AttributeMap),
      (originResource.Attributes.map Prod.fst).Nodup →
      (∀ kv ∈ originResource.Attributes, equal kv.2 kv.2 = true) →
      (∀ kv ∈ requiredAttributes, equal kv.2 kv.2 = true) →
      spansGroupedByAttrs.findOrCreateResource equal
          (spansGroupedByAttrs.findOrCreateResource equal sgba originResource
            requiredAttributes).2 originResource requiredAttributes
        = spansGroupedByAttrs.findOrCreateResource equal sgba originResource
            requiredAttributes) ∧
    (∀ (sgba : spansGroupedByAttrs) (originResource : Resource)
        (requiredAttributes : AttributeMap),
      distinctResources equal sgba →
      distinctResources equal
        (spansGroupedByAttrs.findOrCreateResource equal sgba originResource
          requiredAttributes).2) := by
  refine ⟨fun resource referenceAttributes hr href =>
      resourceMatches_iff equal resource referenceAttributes hr href,
    fun newResource originResource requiredAttributes hnd ho hq =>
      updateResourceToMatch_matches equal newResource originResource requiredAttributes
        hnd ho hq, ?_, ?_, ?_⟩
  · intro originResource requiredAttributes k
    unfold buildReferenceAttributes AttributeMap.Upsert
    simp only [Get_eq_mapGet]
    exact foldl_last_write (fun m : AttributeMap => mapGet m k) _ k some
      (fun s kv hkv => mapGet_mapSet_ne _ _ _ _ hkv) (fun s v => mapGet_mapSet_self _ _ _)
      requiredAttributes _
  · intro sgba originResource requiredAttributes hnd ho hq
    have hself := updateResourceToMatch_matches equal ⟨[]⟩ originResource requiredAttributes
      hnd ho hq
    unfold spansGroupedByAttrs.findOrCreateResource spansGroupedByAttrs.findResource
    simp only []
    cases hf : findResourceFrom equal (buildReferenceAttributes originResource requiredAttributes)
        sgba 0 with
    | some i => simp only [hf]
    | none =>
      simp only []
      rw [findResourceFrom_append equal _ sgba _
        ((findResourceFrom_none equal _ sgba 0).mp hf) hself 0]
      simp only [Nat.zero_add]
  · intro sgba originResource requiredAttributes hd
    unfold spansGroupedByAttrs.findOrCreateResource spansGroupedByAttrs.findResource
    simp only []
    cases hf : findResourceFrom equal (buildReferenceAttributes originResource requiredAttributes)
        sgba 0 with
    | some i => exact hd
    | none =>
      simp only []
      unfold distinctResources at hd ⊢
      rw [List.pairwise_append]
      refine ⟨hd, List.pairwise_singleton _ _, ?_⟩
      intro a ha b hb
      rw [List.mem_singleton] at hb
      rw [hb]
      exact (findResourceFrom_none equal _ sgba 0).mp hf a ha

set_option maxRecDepth 100000 in
/-- Witness of C39, amended, with the equality of `pdata`: the second call for
an origin with two string attributes and a required attribute that overrides
one of them returns the entry 0 that the first call created, and the group
keeps its one resource. -/
theorem findOrCreateResource_spec_witness :
    (originResource.Attributes.map Prod.fst).Nodup ∧
    (∀ kv ∈ originResource.Attributes, Value.Equal kv.2 kv.2 = true) ∧
    spansGroupedByAttrs.findOrCreateResource Value.Equal
        (spansGroupedByAttrs.findOrCreateResource Value.Equal [] originResource
          [(str "zone", .string (str "us"))]).2 originResource [(str "zone", .string (str "us"))]
      = spansGroupedByAttrs.findOrCreateResource Value.Equal [] originResource
          [(str "zone", .string (str "us"))] ∧
    ((spansGroupedByAttrs.findOrCreateResource Value.Equal [] originResource
        [(str "zone", .string (str "us"))]).2.map
      (fun r => r.Resource.Attributes.map (fun kv => (kv.1, kv.2.StringVal))))
      = [[(str "host", str "a"), (str "zone", str "us")]] :=
  ⟨by decide, by decide,
    (findOrCreateResource_spec Value.Equal).2.2.2.1 [] originResource
      [(str "zone", .string (str "us"))] (by decide) (by decide) (by decide), by decide⟩

/-! ## Documents from attributes -/

/-- The document of a map value is `DocumentFromAttributes` of the map. -/
theorem ValueFromAttribute_map (am : AttributeMap) :
    objmodel.ValueFromAttribute (.map am) = .KindObject (objmodel.DocumentFromAttributes am) := by
  rw [objmodel.ValueFromAttribute]
  rfl

/-- The function `appendAttributeValue` as the source words it: nothing for an
empty value, the fields of a map under the flattened key, and else one field
with `ValueFromAttribute` of the attribute. -/
theorem appendAttributeValue_eq (fields : List objmodel.field) (path key : GoString)
    (attr : XRay.Value) :
    objmodel.appendAttributeValue fields path key attr =
      match attr with
      | .empty => fields
      | .map am => objmodel.appendAttributeFields fields (objmodel.flattenKey path key) am
      | attr => fields ++ [(objmodel.flattenKey path key, objmodel.ValueFromAttribute attr)] := by
  cases attr <;> simp only [objmodel.appendAttributeValue, objmodel.ValueFromAttribute]

/-- The key built along a chain that starts with `k`. -/
theorem flattenedKey_cons (path k : GoString) (chain : List GoString) :
    objmodel.flattenedKey path (k :: chain)
      = objmodel.flattenedKey (objmodel.flattenKey path k) chain := rfl

mutual
/-- The function `appendAttributeFields` appends one field for each leaf, in
the order of the traversal. -/
theorem appendAttributeFields_eq :
    ∀ (am : List (GoString × XRay.Value)) (fields : List objmodel.field) (path : GoString),
      objmodel.appendAttributeFields fields path am =
        fields ++ (objmodel.leaves am).map
          (fun leaf => (objmodel.flattenedKey path leaf.1, objmodel.ValueFromAttribute leaf.2))
  | [], fields, path => by simp [objmodel.appendAttributeFields, objmodel.leaves]
  | (k, attr) :: rest, fields, path => by
    rw [objmodel.appendAttributeFields, objmodel.leaves,
      appendAttributeValue_leaves attr fields path k, appendAttributeFields_eq rest]
    simp only [List.map_append, List.append_assoc]
/-- The function `appendAttributeValue` appends one field for each leaf of the
attribute. -/
theorem appendAttributeValue_leaves :
    ∀ (attr : XRay.Value) (fields : List objmodel.field) (path k : GoString),
      objmodel.appendAttributeValue fields path k attr =
        fields ++ (objmodel.leavesUnder k attr).map
          (fun leaf => (objmodel.flattenedKey path leaf.1, objmodel.ValueFromAttribute leaf.2))
  | .empty, fields, path, k => by simp [objmodel.appendAttributeValue, objmodel.leavesUnder]
  | .map am, fields, path, k => by
    rw [objmodel.appendAttributeValue, objmodel.leavesUnder, appendAttributeFields_eq am]
    simp only [List.map_map, Function.comp_def, flattenedKey_cons]
  | .int i, fields, path, k => by
    simp [objmodel.appendAttributeValue, objmodel.leavesUnder, objmodel.flattenedKey,
      objmodel.ValueFromAttribute]
  | .double d, fields, path, k => by
    simp [objmodel.appendAttributeValue, objmodel.leavesUnder, objmodel.flattenedKey,
      objmodel.ValueFromAttribute]
  | .string s, fields, path, k => by
    simp [objmodel.appendAttributeValue, objmodel.leavesUnder, objmodel.flattenedKey,
      objmodel.ValueFromAttribute]
  | .bool b, fields, path, k => by
    simp [objmodel.appendAttributeValue, objmodel.leavesUnder, objmodel.flattenedKey,
      objmodel.ValueFromAttribute]
  | .slice aa, fields, path, k => by
    simp [objmodel.appendAttributeValue, objmodel.leavesUnder, objmodel.flattenedKey,
      objmodel.ValueFromAttribute]
  | .bytes b, fields, path, k => by
    simp [objmodel.appendAttributeValue, objmodel.leavesUnder, objmodel.flattenedKey,
      objmodel.ValueFromAttribute]
end

mutual
/-- A leaf of an attribute map is neither a map nor an empty value. -/
theorem leaves_not_map :
    ∀ (am : List (GoString × XRay.Value)), ∀ leaf ∈ objmodel.leaves am,
      (∀ m, leaf.2 ≠ .map m) ∧ leaf.2 ≠ .empty
  | [], leaf, h => by simp [objmodel.leaves] at h
  | (k, attr) :: rest, leaf, h => by
    rw [objmodel.leaves, List.mem_append] at h
    rcases h with h | h
    · exact leavesUnder_not_map attr k leaf h
    · exact leaves_not_map rest leaf h
/-- A leaf of an attribute is neither a map nor an empty value. -/
theorem leavesUnder_not_map :
    ∀ (attr : XRay.Value) (k : GoString), ∀ leaf ∈ objmodel.leavesUnder k attr,
      (∀ m, leaf.2 ≠ .map m) ∧ leaf.2 ≠ .empty
  | .empty, k, leaf, h => by simp [objmodel.leavesUnder] at h
  | .map am, k, leaf, h => by
    rw [objmodel.leavesUnder, List.mem_map] at h
    obtain ⟨inner, hin, rfl⟩ := h
    exact leaves_not_map am inner hin
  | .int i, k, leaf, h => by
    simp only [objmodel.leavesUnder, List.mem_singleton] at h
    subst h
    simp
  | .double d, k, leaf, h => by
    simp only [objmodel.leavesUnder, List.mem_singleton] at h
    subst h
    simp
  | .string s, k, leaf, h => by
    simp only [objmodel.leavesUnder, List.mem_singleton] at h
    subst h
    simp
  | .bool b, k, leaf, h => by
    simp only [objmodel.leavesUnder, List.mem_singleton] at h
    subst h
    simp
  | .slice aa, k, leaf, h => by
    simp only [objmodel.leavesUnder, List.mem_singleton] at h
    subst h
    simp
  | .bytes b, k, leaf, h => by
    simp only [objmodel.leavesUnder, List.mem_singleton] at h
    subst h
    simp
end

/-- Joining after a first string that already ends a joined pair. -/
theorem joinWithDots_flatten (a k : GoString) (rest : List GoString) :
    objmodel.joinWithDots ((a ++ str "." ++ k) :: rest)
      = a ++ str "." ++ objmodel.joinWithDots (k :: rest) := by
  cases rest with
  | nil => rfl
  | cons r rs => simp only [objmodel.joinWithDots, List.append_assoc]

/-- Along a chain, `flattenKey` from a non-empty path joins the path and the
chain by dots. -/
theorem flattenedKey_of_ne_nil (chain : List GoString) :
    ∀ path : GoString, path ≠ [] →
      objmodel.flattenedKey path chain = objmodel.joinWithDots (path :: chain) := by
  induction chain with
  | nil => intro path _; rfl
  | cons k rest ih =>
    intro path hp
    have hne : path ++ str "." ++ k ≠ [] := by
      cases path with
      | nil => exact absurd rfl hp
      | cons c cs => simp
    rw [flattenedKey_cons, objmodel.flattenKey, if_neg hp, ih _ hne, joinWithDots_flatten]
    cases rest <;> rfl

/-- For a non-empty path, or non-empty map keys, the key `flattenKey` builds
along a chain is the key as the specification words it. -/
theorem flattenedKey_eq_joinedKey (path : GoString) (chain : List GoString)
    (h : path ≠ [] ∨ ∀ k ∈ chain, k ≠ []) :
    objmodel.flattenedKey path chain = objmodel.joinedKey path chain := by
  unfold objmodel.joinedKey
  by_cases hp : path = []
  · rw [if_pos hp]
    subst hp
    cases chain with
    | nil => rfl
    | cons k rest =>
      have hk : k ≠ [] := by
        rcases h with h | h
        · exact absurd rfl h
        · exact h k (List.mem_cons_self _ _)
      rw [flattenedKey_cons, objmodel.flattenKey, if_pos rfl, flattenedKey_of_ne_nil rest k hk]
  · rw [if_neg hp]
    exact flattenedKey_of_ne_nil chain path hp

set_option maxRecDepth 100000 in
/-- Counterexample to C37: with an empty path, the leaf under the map keys
empty and `k` gets the key `k`, not the chain joined by dots, which is `.k`. -/
theorem DocumentFromAttributesWithPath_counterexample :
    objmodel.leaves emptyKeyAttributes = [([[], str "k"], .int 1)] ∧
      (objmodel.DocumentFromAttributesWithPath [] emptyKeyAttributes).map Prod.fst = [str "k"] ∧
      objmodel.joinedKey [] [[], str "k"] = str ".k" :=
  ⟨rfl, by decide, by decide⟩

set_option maxRecDepth 100000 in
/-- C37, amended: `DocumentFromAttributesWithPath path am` yields, in
traversal order, exactly one field per leaf of `am` that is neither a map nor
an empty value, reached through any depth of nested maps; the key of the field
is built by `flattenKey` along the chain of map keys that leads to the leaf,
which for a non-empty path or non-empty map keys is the path and the chain
joined by dots, with no leading dot when the path is empty; the value is
`ValueFromAttribute` of the leaf. A map without such a leaf yields a document
with no fields. -/
theorem DocumentFromAttributesWithPath_spec (path : GoString) (am : AttributeMap) :
    objmodel.DocumentFromAttributesWithPath path am
        = (objmodel.leaves am).map
          (fun leaf => (objmodel.flattenedKey path leaf.1, objmodel.ValueFromAttribute leaf.2)) ∧
      ((path ≠ [] ∨ ∀ leaf ∈ objmodel.leaves am, ∀ k ∈ leaf.1, k ≠ []) →
        objmodel.DocumentFromAttributesWithPath path am
          = (objmodel.leaves am).map
            (fun leaf => (objmodel.joinedKey path leaf.1, objmodel.ValueFromAttribute leaf.2))) ∧
      (∀ leaf ∈ objmodel.leaves am, (∀ m, leaf.2 ≠ .map m) ∧ leaf.2 ≠ .empty) ∧
      (objmodel.leaves am = [] → objmodel.DocumentFromAttributesWithPath path am = []) ∧
      (objmodel.DocumentFromAttributesWithPath (str "attrs") nestedAttributes).map Prod.fst
        = [str "attrs.a.b", str "attrs.a.c.d", str "attrs.g"] := by
  have hmain : objmodel.DocumentFromAttributesWithPath path am
      = (objmodel.leaves am).map
        (fun leaf => (objmodel.flattenedKey path leaf.1, objmodel.ValueFromAttribute leaf.2)) := by
    unfold objmodel.DocumentFromAttributesWithPath
    by_cases hlen : am.Len = 0
    · have hnil : am = [] := List.length_eq_zero.mp hlen
      rw [if_pos hlen, hnil, objmodel.leaves]
      rfl
    · rw [if_neg hlen]
      simp only [appendAttributeFields_eq, List.nil_append]
  refine ⟨hmain, fun h => ?_, fun leaf hl => leaves_not_map am leaf hl, fun h => ?_,
    by decide⟩
  · rw [hmain]
    apply List.map_congr_left
    intro leaf hl
    rw [flattenedKey_eq_joinedKey path leaf.1
      (h.imp id (fun hall => hall leaf hl))]
  · rw [hmain, h]
    rfl

/-! ## Sorting and deduplicating a document -/

/-- The sorted fields are in the order of their keys. -/
theorem sortFields_sorted (doc : objmodel.Document) :
    (objmodel.sortFields doc).Sorted (fun a b => a.1 ≤ b.1) :=
  List.sorted_insertionSort _ doc

/-- The sorted fields are the fields. -/
theorem sortFields_perm (doc : objmodel.Document) : (objmodel.sortFields doc).Perm doc :=
  List.perm_insertionSort _ doc

/-- The sort is stable: the fields with a key stay in their order. -/
theorem sortFields_fieldsAt (doc : objmodel.Document) (k : GoString) :
    objmodel.fieldsAt (objmodel.sortFields doc) k = objmodel.fieldsAt doc k := by
  unfold objmodel.fieldsAt
  have hpw : (doc.filter (fun fld => decide (fld.1 = k))).Pairwise (fun a b => a.1 ≤ b.1) := by
    rw [List.pairwise_iff_forall_sublist]
    intro a b hab
    have ha : a ∈ doc.filter (fun fld => decide (fld.1 = k)) :=
      hab.subset (List.mem_cons_self _ _)
    have hb : b ∈ doc.filter (fun fld => decide (fld.1 = k)) :=
      hab.subset (List.mem_cons_of_mem _ (List.mem_cons_self _ _))
    rw [List.mem_filter, decide_eq_true_eq] at ha hb
    rw [ha.2, hb.2]
  have hsub : List.Sublist (doc.filter (fun fld => decide (fld.1 = k)))
      (objmodel.sortFields doc) :=
    List.sublist_insertionSort hpw (List.filter_sublist doc)
  have hsub' := hsub.filter (fun fld => decide (fld.1 = k))
  rw [List.filter_filter] at hsub'
  simp only [Bool.and_self] at hsub'
  have hlen : ((objmodel.sortFields doc).filter (fun fld => decide (fld.1 = k))).length
      = (doc.filter (fun fld => decide (fld.1 = k))).length :=
    ((sortFields_perm doc).filter _).length_eq
  exact (hsub'.eq_of_length hlen.symm).symm

/-- Sorting a document keeps the keys up to their order. -/
theorem sortWith_keys_perm (valueSort : objmodel.Value → objmodel.Value)
    (doc : objmodel.Document) :
    (objmodel.keys (objmodel.sortWith valueSort doc)).Perm (objmodel.keys doc) := by
  unfold objmodel.keys objmodel.sortWith
  rw [List.map_map]
  exact (sortFields_perm doc).map _

/-- The keys of a sorted document are in non-decreasing order. -/
theorem sortWith_sorted (valueSort : objmodel.Value → objmodel.Value)
    (doc : objmodel.Document) :
    (objmodel.keys (objmodel.sortWith valueSort doc)).Sorted (· ≤ ·) := by
  unfold objmodel.keys objmodel.sortWith
  rw [List.map_map]
  exact List.pairwise_map.mpr (sortFields_sorted doc)

/-- The fields with a key in a sorted document: those of the document in
their order, with sorted values. -/
theorem sortWith_fieldsAt (valueSort : objmodel.Value → objmodel.Value)
    (doc : objmodel.Document) (k : GoString) :
    objmodel.fieldsAt (objmodel.sortWith valueSort doc) k
      = (objmodel.fieldsAt doc k).map (fun fld => (fld.1, valueSort fld.2)) := by
  rw [← sortFields_fieldsAt doc k]
  unfold objmodel.fieldsAt objmodel.sortWith
  rw [List.filter_map]
  rfl

/-- The marking of a document with at least two fields. -/
theorem markDuplicates_cons_cons (fld next : objmodel.field) (rest : List objmodel.field) :
    objmodel.markDuplicates (fld :: next :: rest)
      = (if fld.1 = next.1 then (fld.1, objmodel.ignoreValue) else fld) ::
        objmodel.markDuplicates (next :: rest) := rfl

/-- The renaming of a document with at least two fields. -/
theorem renameFields_cons_cons (fld next : objmodel.field) (rest : List objmodel.field) :
    objmodel.renameFields (fld :: next :: rest)
      = if objmodel.continuesWithDot fld.1 next.1 then
          ((fld.1 ++ str ".value", fld.2) :: (objmodel.renameFields (next :: rest)).1, true)
        else (fld :: (objmodel.renameFields (next :: rest)).1,
          (objmodel.renameFields (next :: rest)).2) := rfl

/-- Marking the duplicates leaves the keys as they are. -/
theorem markDuplicates_keys :
    ∀ doc : objmodel.Document, objmodel.keys (objmodel.markDuplicates doc) = objmodel.keys doc
  | [] => rfl
  | [_] => rfl
  | fld :: next :: rest => by
    have ih := markDuplicates_keys (next :: rest)
    unfold objmodel.keys at ih ⊢
    rw [markDuplicates_cons_cons, List.map_cons, ih]
    split_ifs <;> rfl

/-- In a document sorted by key, the fields with a key after the marking are
the fields with the key, marked. -/
theorem markDuplicates_fieldsAt (k : GoString) :
    ∀ doc : objmodel.Document, (objmodel.keys doc).Sorted (· ≤ ·) →
      objmodel.fieldsAt (objmodel.markDuplicates doc) k
        = objmodel.markDuplicates (objmodel.fieldsAt doc k)
  | [], _ => rfl
  | [fld], _ => by
    have h1 : objmodel.markDuplicates [fld] = [fld] := rfl
    unfold objmodel.fieldsAt
    rw [h1]
    by_cases hk : fld.1 = k
    · have hf : [fld].filter (fun fld => decide (fld.1 = k)) = [fld] := by simp [hk]
      rw [hf, h1]
    · have hf : [fld].filter (fun fld => decide (fld.1 = k)) = [] := by simp [hk]
      rw [hf]
      rfl
  | fld :: next :: rest, hs => by
    have hs' : (objmodel.keys (next :: rest)).Sorted (· ≤ ·) := by
      unfold objmodel.keys at hs ⊢
      exact List.Sorted.of_cons hs
    have ih := markDuplicates_fieldsAt k (next :: rest) hs'
    have hle : ∀ other ∈ next :: rest, next.1 ≤ other.1 := by
      intro other ho
      unfold objmodel.keys at hs'
      rcases List.mem_cons.mp ho with h | h
      · rw [h]
      · exact List.rel_of_sorted_cons hs' other.1 (List.mem_map.mpr ⟨other, h, rfl⟩)
    have hfn : fld.1 ≤ next.1 := by
      unfold objmodel.keys at hs
      exact List.rel_of_sorted_cons hs next.1 (List.mem_cons_self _ _)
    have hkey : (if fld.1 = next.1 then (fld.1, objmodel.ignoreValue) else fld).1 = fld.1 := by
      split_ifs <;> rfl
    unfold objmodel.fieldsAt at ih ⊢
    rw [markDuplicates_cons_cons]
    by_cases hk : fld.1 = k
    · have hf1 : ((if fld.1 = next.1 then (fld.1, objmodel.ignoreValue) else fld) ::
          objmodel.markDuplicates (next :: rest)).filter (fun fld => decide (fld.1 = k))
          = (if fld.1 = next.1 then (fld.1, objmodel.ignoreValue) else fld) ::
            (objmodel.markDuplicates (next :: rest)).filter (fun fld => decide (fld.1 = k)) := by
        rw [List.filter_cons, if_pos (by rw [hkey]; simpa using hk)]
      have hf2 : (fld :: next :: rest).filter (fun fld => decide (fld.1 = k))
          = fld :: (next :: rest).filter (fun fld => decide (fld.1 = k)) := by
        rw [List.filter_cons, if_pos (by simpa using hk)]
      rw [hf1, hf2, ih]
      by_cases hn : next.1 = k
      · have hf3 : (next :: rest).filter (fun fld => decide (fld.1 = k))
            = next :: rest.filter (fun fld => decide (fld.1 = k)) := by
          rw [List.filter_cons, if_pos (by simpa using hn)]
        rw [hf3, markDuplicates_cons_cons]
      · have hnone : (next :: rest).filter (fun fld => decide (fld.1 = k)) = [] := by
          rw [List.filter_eq_nil_iff]
          intro other ho
          have h1 := hle other ho
          have h2 : k < next.1 := lt_of_le_of_ne (hk ▸ hfn) (fun e => hn e.symm)
          simp only [decide_eq_true_eq]
          intro e
          rw [e] at h1
          exact absurd h1 (not_le.mpr h2)
        have hne : ¬ fld.1 = next.1 := fun e => hn (e ▸ hk)
        rw [hnone, if_neg hne]
        rfl
    · have hf1 : ((if fld.1 = next.1 then (fld.1, objmodel.ignoreValue) else fld) ::
          objmodel.markDuplicates (next :: rest)).filter (fun fld => decide (fld.1 = k))
          = (objmodel.markDuplicates (next :: rest)).filter (fun fld => decide (fld.1 = k)) := by
        rw [List.filter_cons, if_neg (by rw [hkey]; simpa using hk)]
      have hf2 : (fld :: next :: rest).filter (fun fld => decide (fld.1 = k))
          = (next :: rest).filter (fun fld => decide (fld.1 = k)) := by
        rw [List.filter_cons, if_neg (by simpa using hk)]
      rw [hf1, hf2, ih]

/-- Of fields with one key, the marking leaves the last and ignores the
others. -/
theorem markDuplicates_of_same_key (k : GoString) :
    ∀ doc : objmodel.Document, (∀ fld ∈ doc, fld.1 = k) →
      objmodel.markDuplicates doc
        = doc.dropLast.map (fun fld => (fld.1, objmodel.ignoreValue)) ++ doc.getLast?.toList
  | [], _ => rfl
  | [_], _ => rfl
  | fld :: next :: rest, h => by
    have ih := markDuplicates_of_same_key k (next :: rest)
      (fun other ho => h other (List.mem_cons_of_mem _ ho))
    have hk : fld.1 = next.1 := by
      rw [h fld (List.mem_cons_self _ _),
        h next (List.mem_cons_of_mem _ (List.mem_cons_self _ _))]
    rw [markDuplicates_cons_cons, if_pos hk, ih]
    simp [List.dropLast, List.getLast?]

/-- A loop of renaming that renames nothing returns the fields as they are. -/
theorem renameFields_false :
    ∀ doc : objmodel.Document, (objmodel.renameFields doc).2 = false →
      (objmodel.renameFields doc).1 = doc
  | [], _ => rfl
  | [_], _ => rfl
  | fld :: next :: rest, h => by
    rw [renameFields_cons_cons] at h ⊢
    by_cases hc : objmodel.continuesWithDot fld.1 next.1 = true
    · simp [hc] at h
    · simp only [hc, Bool.false_eq_true, if_false] at h ⊢
      rw [renameFields_false (next :: rest) h]

/-- Where no key is continued with a dot by another key, nothing is renamed. -/
theorem renameFields_of_noKeyContinued :
    ∀ doc : objmodel.Document, objmodel.noKeyContinued doc →
      objmodel.renameFields doc = (doc, false)
  | [], _ => rfl
  | [_], _ => rfl
  | fld :: next :: rest, h => by
    have ih := renameFields_of_noKeyContinued (next :: rest)
      (fun a ha b hb => h a (List.mem_cons_of_mem _ ha) b (List.mem_cons_of_mem _ hb))
    have hc := h fld (List.mem_cons_self _ _) next
      (List.mem_cons_of_mem _ (List.mem_cons_self _ _))
    rw [renameFields_cons_cons, ih, hc]
    rfl

/-- The methods `Sort` and `Dedup` of a value keep an ignored value ignored
and every other value not ignored. -/
theorem Value_Dedup_isIgnore (fuel : Nat) (v : objmodel.Value) :
    (objmodel.Value.Dedup fuel v).isIgnore = v.isIgnore ∧
      (objmodel.Value.Sort fuel v).isIgnore = v.isIgnore := by
  cases fuel <;> cases v <;> simp [objmodel.Value.Dedup, objmodel.Value.Sort,
    objmodel.Value.isIgnore]

/-- The fields before the marking in `Document.Dedup`: the sorted fields,
renamed and sorted again when a field was renamed. -/
theorem dedupWith_eq (valueSort valueDedup : objmodel.Value → objmodel.Value)
    (doc : objmodel.Document) :
    ∃ sorted : objmodel.Document, (objmodel.keys sorted).Sorted (· ≤ ·) ∧
      objmodel.dedupWith valueSort valueDedup doc
        = (objmodel.markDuplicates sorted).map (fun fld => (fld.1, valueDedup fld.2)) ∧
      (objmodel.noKeyContinued doc → sorted = objmodel.sortWith valueSort doc) := by
  unfold objmodel.dedupWith
  simp only []
  by_cases hr : (objmodel.renameFields (objmodel.sortWith valueSort doc)).2 = true
  · refine ⟨objmodel.sortWith valueSort
      (objmodel.renameFields (objmodel.sortWith valueSort doc)).1, sortWith_sorted _ _, ?_, ?_⟩
    · rw [if_pos hr]
    · intro hno
      have hno' : objmodel.noKeyContinued (objmodel.sortWith valueSort doc) := by
        intro a ha b hb
        have hka : a.1 ∈ objmodel.keys doc :=
          (sortWith_keys_perm valueSort doc).mem_iff.mp (List.mem_map.mpr ⟨a, ha, rfl⟩)
        have hkb : b.1 ∈ objmodel.keys doc :=
          (sortWith_keys_perm valueSort doc).mem_iff.mp (List.mem_map.mpr ⟨b, hb, rfl⟩)
        obtain ⟨a', ha', hae⟩ := List.mem_map.mp hka
        obtain ⟨b', hb', hbe⟩ := List.mem_map.mp hkb
        rw [← hae, ← hbe]
        exact hno a' ha' b' hb'
      rw [renameFields_of_noKeyContinued _ hno'] at hr
      exact absurd hr Bool.false_ne_true
  · have hr' : (objmodel.renameFields (objmodel.sortWith valueSort doc)).2 = false := by
      simpa using hr
    refine ⟨objmodel.sortWith valueSort doc, sortWith_sorted _ _, ?_, fun _ => rfl⟩
    rw [if_neg hr, renameFields_false _ hr']

/-- The fields with a key after `Document.Dedup`: those of the sorted fields
with the key, all ignored but the last, whose value is deduplicated. -/
theorem Dedup_fieldsAt (fuel : Nat) (doc : objmodel.Document) :
    ∃ sorted : objmodel.Document, (objmodel.keys sorted).Sorted (· ≤ ·) ∧
      objmodel.keys (objmodel.Document.Dedup fuel doc) = objmodel.keys sorted ∧
      (objmodel.noKeyContinued doc →
        sorted = objmodel.sortWith (objmodel.Value.Sort fuel) doc) ∧
      ∀ k, objmodel.fieldsAt (objmodel.Document.Dedup fuel doc) k
        = (objmodel.fieldsAt sorted k).dropLast.map (fun fld => (fld.1, objmodel.ignoreValue)) ++
          (objmodel.fieldsAt sorted k).getLast?.toList.map
            (fun fld => (fld.1, objmodel.Value.Dedup fuel fld.2)) := by
  obtain ⟨sorted, hs, heq, hno⟩ :=
    dedupWith_eq (objmodel.Value.Sort fuel) (objmodel.Value.Dedup fuel) doc
  have hD : objmodel.Document.Dedup fuel doc
      = (objmodel.markDuplicates sorted).map
        (fun fld => (fld.1, objmodel.Value.Dedup fuel fld.2)) := heq
  refine ⟨sorted, hs, ?_, hno, fun k => ?_⟩
  · rw [hD, ← markDuplicates_keys sorted]
    unfold objmodel.keys
    rw [List.map_map]
    rfl
  · have hign : objmodel.Value.Dedup fuel objmodel.ignoreValue = objmodel.ignoreValue := by
      cases fuel <;> rfl
    have hsame : ∀ fld ∈ objmodel.fieldsAt sorted k, fld.1 = k := by
      intro fld hf
      unfold objmodel.fieldsAt at hf
      rw [List.mem_filter, decide_eq_true_eq] at hf
      exact hf.2
    have hf : objmodel.fieldsAt (objmodel.Document.Dedup fuel doc) k
        = (objmodel.fieldsAt (objmodel.markDuplicates sorted) k).map
          (fun fld => (fld.1, objmodel.Value.Dedup fuel fld.2)) := by
      rw [hD]
      unfold objmodel.fieldsAt
      rw [List.filter_map]
      rfl
    rw [hf, markDuplicates_fieldsAt k sorted hs, markDuplicates_of_same_key k _ hsame,
      List.map_append, List.map_map]
    congr 1
    apply List.map_congr_left
    intro fld _
    simp only [Function.comp_def, hign]

/-- C35: after `Document.Dedup`, the fields are sorted by key in non-decreasing
order and, for every key, at most one field with that key has a value that is
not ignored; when no key of the document is continued with a dot by another
key, so that nothing is renamed, the keys are those of the document up to
their order, and of the fields with a key all are ignored but the one that
came last in the original order, which has its value, sorted and
deduplicated. -/
theorem Document_Dedup_spec (fuel : Nat) (doc : objmodel.Document) :
    (objmodel.keys (objmodel.Document.Dedup fuel doc)).Sorted (· ≤ ·) ∧
      (∀ k, ((objmodel.fieldsAt (objmodel.Document.Dedup fuel doc) k).filter
        (fun fld => !fld.2.isIgnore)).length ≤ 1) ∧
      (objmodel.noKeyContinued doc →
        (objmodel.keys (objmodel.Document.Dedup fuel doc)).Perm (objmodel.keys doc) ∧
        ∀ k, objmodel.fieldsAt (objmodel.Document.Dedup fuel doc) k
          = (objmodel.fieldsAt doc k).dropLast.map (fun fld => (fld.1, objmodel.ignoreValue)) ++
            (objmodel.fieldsAt doc k).getLast?.toList.map
              (fun fld =>
                (fld.1, objmodel.Value.Dedup fuel (objmodel.Value.Sort fuel fld.2)))) := by
  obtain ⟨sorted, hs, hkeys, hno, hat⟩ := Dedup_fieldsAt fuel doc
  refine ⟨hkeys ▸ hs, fun k => ?_, fun hnd => ⟨?_, fun k => ?_⟩⟩
  · rw [hat k, List.filter_append, List.length_append]
    have h1 : ((objmodel.fieldsAt sorted k).dropLast.map
        (fun fld => (fld.1, objmodel.ignoreValue))).filter (fun fld => !fld.2.isIgnore) = [] := by
      rw [List.filter_eq_nil_iff]
      intro fld hf
      obtain ⟨orig, -, rfl⟩ := List.mem_map.mp hf
      simp [objmodel.ignoreValue, objmodel.Value.isIgnore]
    rw [h1, List.length_nil, Nat.zero_add]
    refine le_trans (List.length_filter_le _ _) ?_
    rw [List.length_map]
    cases (objmodel.fieldsAt sorted k).getLast? <;> simp
  · rw [hkeys, hno hnd]
    exact sortWith_keys_perm _ doc
  · rw [hat k, hno hnd, sortWith_fieldsAt]
    congr 1
    · rw [← List.map_dropLast, List.map_map]
      rfl
    · rw [List.getLast?_map]
      cases (objmodel.fieldsAt doc k).getLast? <;> rfl

set_option maxRecDepth 100000 in
/-- Witness of C35: a document with the keys `b`, `a`, `b`, `a`, `b`: after
`Document.Dedup` the keys are sorted and the last values 4 and 5 survive. -/
theorem Document_Dedup_spec_witness :
    objmodel.noKeyContinued objmodel.repeatedDocument ∧
      (∀ fuel, objmodel.fieldsAt (objmodel.Document.Dedup fuel objmodel.repeatedDocument)
          (str "b")
        = [(str "b", .KindIgnore), (str "b", .KindIgnore), (str "b", .KindInt 5)]) ∧
      objmodel.Document.Dedup 1 objmodel.repeatedDocument
        = [(str "a", .KindIgnore), (str "a", .KindInt 4), (str "b", .KindIgnore),
            (str "b", .KindIgnore), (str "b", .KindInt 5)] := by
  have hno : objmodel.noKeyContinued objmodel.repeatedDocument := by
    unfold objmodel.noKeyContinued
    decide
  refine ⟨hno, fun fuel => ?_, rfl⟩
  rw [((Document_Dedup_spec fuel objmodel.repeatedDocument).2.2 hno).2 (str "b")]
  cases fuel <;> rfl

set_option maxRecDepth 100000 in
/-- C36: `Document.Dedup` leaves a conflict between a primitive and an object
on the same path when a key between the two, such as the key followed by `-b`,
or a duplicate of the key separates them in the sorted document: the fields
`a`, `a-b`, `a.x` stay as they are, and of the fields `a`, `a`, `a.x` only the
second `a` is renamed. The example of the source, `path.x` and `path.x.a`,
is resolved. -/
theorem Document_Dedup_conflict :
    (∀ fuel, objmodel.Document.Dedup fuel objmodel.hyphenDocument
      = [(str "a", .KindInt 1), (str "a-b", .KindInt 2), (str "a.x", .KindInt 3)]) ∧
    objmodel.hasConflict
      [(str "a", .KindInt 1), (str "a-b", .KindInt 2), (str "a.x", .KindInt 3)] = true ∧
    (∀ fuel, objmodel.Document.Dedup fuel objmodel.duplicateDocument
      = [(str "a", .KindInt 1), (str "a.value", .KindInt 2), (str "a.x", .KindInt 3)]) ∧
    objmodel.hasConflict
      [(str "a", .KindInt 1), (str "a.value", .KindInt 2), (str "a.x", .KindInt 3)] = true ∧
    (∀ fuel, objmodel.Document.Dedup fuel objmodel.pathDocument
      = [(str "path.x.a", .KindString (str "test")), (str "path.x.value", .KindInt 1)]) ∧
    objmodel.hasConflict
      [(str "path.x.a", .KindString (str "test")), (str "path.x.value", .KindInt 1)] = false :=
  ⟨fun fuel => by cases fuel <;> rfl, by decide, fun fuel => by cases fuel <;> rfl, by decide,
    fun fuel => by cases fuel <;> rfl, by decide⟩

/-! ## The order of iteration -/

/-- Folding a step that respects an equivalence from equivalent states gives
equivalent states. -/
theorem foldl_congr_equiv {σ β : Type} (E : σ → σ → Prop) (step : σ → β → σ)
    (hcongr : ∀ s s' e, E s s' → E (step s e) (step s' e)) (l : List β) :
    ∀ s s', E s s' → E (l.foldl step s) (l.foldl step s') := by
  induction l with
  | nil => intro s s' h; exact h
  | cons x rest ih => intro s s' h; exact ih _ _ (hcongr s s' x h)

/-- Folding a step over two orders of the same elements gives equivalent
states, when the step respects the equivalence and the steps of two related
elements commute up to it, and the elements are pairwise related. -/
theorem foldl_perm_equiv {σ β : Type} (E : σ → σ → Prop) (hrefl : ∀ s, E s s)
    (htrans : ∀ a b c, E a b → E b c → E a c) (step : σ → β → σ) (R : β → β → Prop)
    (hsymm : ∀ a b, R a b → R b a)
    (hcongr : ∀ s s' e, E s s' → E (step s e) (step s' e))
    (hcomm : ∀ s a b, R a b → E (step (step s a) b) (step (step s b) a))
    (l l' : List β) (hperm : l.Perm l') :
    l.Pairwise R → ∀ s s', E s s' → E (l.foldl step s) (l'.foldl step s') := by
  induction hperm with
  | nil => intro _ s s' h; exact h
  | cons x _ ih =>
    intro hpw s s' h
    exact ih (List.Pairwise.of_cons hpw) _ _ (hcongr s s' x h)
  | swap x y l =>
    intro hpw s s' h
    have hyx : R y x := (List.pairwise_cons.mp hpw).1 x (List.mem_cons_self _ _)
    simp only [List.foldl_cons]
    apply foldl_congr_equiv E step hcongr l
    exact htrans _ _ _ (hcomm s y x hyx) (hcongr _ _ y (hcongr s s' x h))
  | trans h1 _ ih1 ih2 =>
    intro hpw s s' h
    have hpw2 := (h1.pairwise_iff (fun {a b} hab => hsymm a b hab)).mp hpw
    exact htrans _ _ _ (ih1 hpw s s' h) (ih2 hpw2 s' s' (hrefl s'))

/-- Equal maps stay equal under the same write. -/
theorem sameMap_mapSet {α : Type} (m m' : GoMap α) (k : GoString) (v : α) (h : sameMap m m') :
    sameMap (mapSet m k v) (mapSet m' k v) := by
  intro key
  by_cases hk : k = key
  · rw [hk, mapGet_mapSet_self, mapGet_mapSet_self]
  · rw [mapGet_mapSet_ne _ _ _ _ hk, mapGet_mapSet_ne _ _ _ _ hk]
    exact h key

/-- Writes at two keys commute. -/
theorem sameMap_mapSet_comm {α : Type} (m : GoMap α) (k1 k2 : GoString) (v1 v2 : α)
    (h : k1 ≠ k2) :
    sameMap (mapSet (mapSet m k1 v1) k2 v2) (mapSet (mapSet m k2 v2) k1 v1) := by
  intro key
  by_cases h2 : k2 = key
  · have h1 : k1 ≠ key := fun e => h (e.trans h2.symm)
    rw [h2, mapGet_mapSet_self, mapGet_mapSet_ne _ _ _ _ h1, mapGet_mapSet_self]
  · by_cases h1 : k1 = key
    · rw [mapGet_mapSet_ne _ _ _ _ h2, h1, mapGet_mapSet_self, mapGet_mapSet_self]
    · rw [mapGet_mapSet_ne _ _ _ _ h2, mapGet_mapSet_ne _ _ _ _ h1,
        mapGet_mapSet_ne _ _ _ _ h1, mapGet_mapSet_ne _ _ _ _ h2]

/-- Equal maps are both empty or both not. -/
theorem sameMap_length_pos {α : Type} (m m' : GoMap α) (h : sameMap m m') :
    m.length > 0 ↔ m'.length > 0 := by
  have key : ∀ a b : GoMap α, sameMap a b → a.length > 0 → b.length > 0 := by
    intro a b hab ha
    cases a with
    | nil => simp at ha
    | cons x rest =>
      cases b with
      | nil =>
        have := hab x.1
        simp [mapGet] at this
      | cons y rest' => simp
  exact ⟨key m m' h, key m' m (fun k => (h k).symm)⟩

/-- In maps with pairwise distinct keys, reading a key does not depend on the
order of the entries. -/
theorem mapGet_perm (l l' : GoMap Value) (hperm : l.Perm l')
    (hnd : (l.map Prod.fst).Nodup) (k : GoString) : mapGet l k = mapGet l' k := by
  have hnd' : (l'.map Prod.fst).Nodup := (hperm.map Prod.fst).nodup_iff.mp hnd
  rw [← Get_eq_mapGet, ← Get_eq_mapGet]
  cases hg : AttributeMap.Get l k with
  | none =>
    have hnone := Get_eq_none l k hg
    rw [Get_eq_mapGet]
    exact (mapGet_none_of_forall l' k (fun x hx => hnone x (hperm.mem_iff.mpr hx))).symm
  | some v =>
    exact (Get_of_mem l' hnd' k v (hperm.mem_iff.mp (Get_eq_some l k v hg))).symm

/-- The step of the loop that indexes every attribute respects the equality of
maps, and the steps of two attributes with distinct sanitized keys commute. -/
theorem indexAllRange_order :
    (∀ s s' e, sameLoop s s' → sameLoop (indexAllRange s e) (indexAllRange s' e)) ∧
    (∀ s (a b : GoString × Value), fixAnnotationKey a.1 ≠ fixAnnotationKey b.1 →
      sameLoop (indexAllRange (indexAllRange s a) b) (indexAllRange (indexAllRange s b) a)) := by
  constructor
  · rintro s s' ⟨k, v⟩ ⟨ha, hm⟩
    rw [indexAllRange_eq, indexAllRange_eq]
    split_ifs
    · exact ⟨sameMap_mapSet _ _ _ _ ha, hm⟩
    · exact ⟨ha, hm⟩
  · rintro s ⟨k1, v1⟩ ⟨k2, v2⟩ hne
    simp only [indexAllRange_eq]
    split_ifs
    · exact ⟨sameMap_mapSet_comm _ _ _ _ _ hne, fun _ => rfl⟩
    all_goals exact ⟨fun _ => rfl, fun _ => rfl⟩

/-- The step of the loop that indexes the listed attributes respects the
equality of maps, and the steps of two attributes with distinct sanitized keys
commute. -/
theorem indexedRange_order (indexedAttrs : List GoString) :
    (∀ s s' e, sameLoop s s' →
      sameLoop (indexedRange (indexedKeysOf indexedAttrs false) s e)
        (indexedRange (indexedKeysOf indexedAttrs false) s' e)) ∧
    (∀ s (a b : GoString × Value), fixAnnotationKey a.1 ≠ fixAnnotationKey b.1 →
      sameLoop
        (indexedRange (indexedKeysOf indexedAttrs false)
          (indexedRange (indexedKeysOf indexedAttrs false) s a) b)
        (indexedRange (indexedKeysOf indexedAttrs false)
          (indexedRange (indexedKeysOf indexedAttrs false) s b) a)) := by
  constructor
  · rintro s s' ⟨k, v⟩ ⟨ha, hm⟩
    rw [indexedRange_eq, indexedRange_eq]
    split_ifs
    · exact ⟨sameMap_mapSet _ _ _ _ ha, hm⟩
    · exact ⟨ha, hm⟩
    · exact ⟨ha, sameMap_mapSet _ _ _ _ hm⟩
    · exact ⟨ha, hm⟩
  · rintro s ⟨k1, v1⟩ ⟨k2, v2⟩ hne
    have hk : k1 ≠ k2 := fun e => hne (by rw [e])
    simp only [indexedRange_eq]
    split_ifs
    all_goals first
      | exact ⟨sameMap_mapSet_comm _ _ _ _ _ hne, fun _ => rfl⟩
      | exact ⟨fun _ => rfl, sameMap_mapSet_comm _ _ _ _ _ hk⟩
      | exact ⟨fun _ => rfl, fun _ => rfl⟩

/-- The loops of `makeXRayAttributes` end with equal maps for two orders of
attributes with pairwise distinct sanitized keys. -/
theorem attributesLoops_order (rest rest' : GoMap Value) (resource : Resource)
    (storeResource : Bool) (indexedAttrs : List GoString) (indexAllAttrs : Bool)
    (hperm : rest.Perm rest')
    (hpw : rest.Pairwise (fun a b => fixAnnotationKey a.1 ≠ fixAnnotationKey b.1)) :
    sameLoop (attributesLoops rest resource storeResource indexedAttrs indexAllAttrs)
      (attributesLoops rest' resource storeResource indexedAttrs indexAllAttrs) := by
  have hrefl : ∀ s : AttributesLoop, sameLoop s s := fun s => ⟨fun _ => rfl, fun _ => rfl⟩
  have htrans : ∀ a b c : AttributesLoop, sameLoop a b → sameLoop b c → sameLoop a c :=
    fun a b c h1 h2 => ⟨fun k => (h1.1 k).trans (h2.1 k), fun k => (h1.2 k).trans (h2.2 k)⟩
  have hsymm : ∀ a b : GoString × Value, fixAnnotationKey a.1 ≠ fixAnnotationKey b.1 →
      fixAnnotationKey b.1 ≠ fixAnnotationKey a.1 := fun a b h => fun e => h e.symm
  unfold attributesLoops
  simp only []
  cases indexAllAttrs with
  | true =>
    simp only [if_true]
    exact foldl_perm_equiv sameLoop hrefl htrans indexAllRange _ hsymm indexAllRange_order.1
      indexAllRange_order.2 rest rest' hperm hpw _ _ (hrefl _)
  | false =>
    simp only [Bool.false_eq_true, if_false]
    exact foldl_perm_equiv sameLoop hrefl htrans _ _ hsymm (indexedRange_order indexedAttrs).1
      (indexedRange_order indexedAttrs).2 rest rest' hperm hpw _ _ (hrefl _)

set_option maxRecDepth 100000 in
/-- Counterexample to C34: the attributes `a.b` and `a_b`, both annotated
under the key `a_b`, give the annotation 2 in one order of iteration and 1 in
the other. -/
theorem makeXRayAttributes_order_counterexample :
    collidingAttributes.Perm collidingAttributes.reverse ∧
      (makeXRayAttributes collidingAttributes ⟨[]⟩ false [] true).2.1.bind
          (fun annotations => mapGet annotations (str "a_b")) = some (Iface.int 2) ∧
      (makeXRayAttributes collidingAttributes.reverse ⟨[]⟩ false [] true).2.1.bind
          (fun annotations => mapGet annotations (str "a_b")) = some (Iface.int 1) :=
  ⟨(List.reverse_perm _).symm, rfl, rfl⟩

/-- C34, amended: for a fixed resource and index configuration, the user, the
annotations and the metadata that `makeXRayAttributes` returns do not depend
on the order in which the attribute map is iterated, provided that the
sanitized keys of the attributes are pairwise distinct: any two orders of the
same attributes give the same user, and annotations and metadata that are
equal as maps. -/
theorem makeXRayAttributes_order (attributes attributes' : GoMap Value) (resource : Resource)
    (storeResource : Bool) (indexedAttrs : List GoString) (indexAllAttrs : Bool)
    (hperm : attributes.Perm attributes')
    (hkeys : (attributes.map (fun kv => fixAnnotationKey kv.1)).Nodup) :
    sameAttributeResult
      (makeXRayAttributes attributes resource storeResource indexedAttrs indexAllAttrs)
      (makeXRayAttributes attributes' resource storeResource indexedAttrs indexAllAttrs) := by
  have hnd : (attributes.map Prod.fst).Nodup := by
    have h : (attributes.map (fun kv => fixAnnotationKey kv.1))
        = (attributes.map Prod.fst).map fixAnnotationKey := by
      rw [List.map_map]
      rfl
    rw [h] at hkeys
    exact List.Nodup.of_map _ hkeys
  have hpw : attributes.Pairwise (fun a b => fixAnnotationKey a.1 ≠ fixAnnotationKey b.1) :=
    List.pairwise_map.mp hkeys
  have hdel : (mapDelete attributes AttributeEnduserID).Perm
      (mapDelete attributes' AttributeEnduserID) := hperm.filter _
  have hpw' : (mapDelete attributes AttributeEnduserID).Pairwise
      (fun a b => fixAnnotationKey a.1 ≠ fixAnnotationKey b.1) :=
    hpw.sublist (List.filter_sublist _)
  have hloop := attributesLoops_order _ _ resource storeResource indexedAttrs indexAllAttrs
    hdel hpw'
  have huser : attributeUser attributes = attributeUser attributes' := by
    unfold attributeUser
    rw [mapGet_perm attributes attributes' hperm hnd]
  rw [makeXRayAttributes_eq, makeXRayAttributes_eq, hdel.length_eq, huser]
  by_cases hc : (mapDelete attributes' AttributeEnduserID).length = 0 ∧
      (!storeResource ∨ resource.Attributes.Len = 0)
  · rw [if_pos hc, if_pos hc]
    exact ⟨rfl, trivial, trivial⟩
  · rw [if_neg hc, if_neg hc]
    refine ⟨rfl, hloop.1, ?_⟩
    have hpos := sameMap_length_pos _ _ hloop.2
    by_cases hp : (attributesLoops (mapDelete attributes AttributeEnduserID) resource
        storeResource indexedAttrs indexAllAttrs).defaultMetadata.length > 0
    · rw [if_pos hp, if_pos (hpos.mp hp)]
      intro k
      by_cases hk : str "default" = k
      · rw [← hk, mapGet_mapSet_self, mapGet_mapSet_self]
        exact hloop.2
      · rw [mapGet_mapSet_ne _ _ _ _ hk, mapGet_mapSet_ne _ _ _ _ hk]
        exact trivial
    · rw [if_neg hp, if_neg (fun h => hp (hpos.mpr h))]
      intro k
      exact trivial

set_option maxRecDepth 100000 in
/-- Witness of C34, amended: three attributes with the sanitized keys `a_b`,
`c` and `d`, in their order and in the reverse order. -/
theorem makeXRayAttributes_order_witness :
    sameAttributeResult (makeXRayAttributes orderedAttributes ⟨[]⟩ false [str "c"] false)
      (makeXRayAttributes orderedAttributes.reverse ⟨[]⟩ false [str "c"] false) :=
  makeXRayAttributes_order orderedAttributes orderedAttributes.reverse ⟨[]⟩ false [str "c"]
    false ((List.reverse_perm _).symm) (by decide)

end XRay
